import Mathlib

/-!
Verification of the compiler/VM toolchain in `rosetta_code`
(lexical_analyzer, syntax_analyzer, ast_interpreter, code_generator,
virtual_machine_interpreter), as a shallow embedding in Lean 4.

Conventions used throughout:
* Rust `i32` values are modelled as `Int` normalised into `[-2^31, 2^31)`
  by `wrap32`; wrapping arithmetic applies `wrap32` after the exact
  operation.  Division/remainder use Rust's truncating semantics
  (`Int.div` / `Int.mod`) and are partial: a zero divisor or the
  `MIN / -1` overflow traps (a Rust panic), modelled as a distinct
  `panic` outcome rather than a returned error.
* Rust strings are modelled as `List Char`; text output is accumulated
  as a `List Char` (byte-identical output of two UTF-8 writers is
  equivalent to equality of these character lists).
* Fallible Rust functions returning `Result<_, CompileError>` are
  modelled with explicit result types carrying the `ErrorKind` and
  message; Rust panics (`unwrap` on `None`, out-of-bounds indexing,
  integer division traps, `unreachable!`) are modelled as a separate
  `panic` outcome.
-/

namespace RosettaCompiler

/-! ## 32-bit integer model -/

def wrap32 (n : Int) : Int := (n + 2 ^ 31) % 2 ^ 32 - 2 ^ 31

def inI32 (v : Int) : Prop := -2 ^ 31 ≤ v ∧ v < 2 ^ 31

instance (v : Int) : Decidable (inI32 v) := by unfold inI32; infer_instance

theorem wrap32_inI32 (n : Int) : inI32 (wrap32 n) := by
  unfold wrap32 inI32
  constructor <;> [skip; skip] <;>
    have h1 := Int.emod_nonneg (n + 2 ^ 31) (by norm_num : (2 ^ 32 : Int) ≠ 0) <;>
    have h2 := Int.emod_lt_of_pos (n + 2 ^ 31) (by norm_num : (0 : Int) < 2 ^ 32) <;>
    omega

theorem wrap32_eq_self {v : Int} (h : inI32 v) : wrap32 v = v := by
  unfold wrap32
  unfold inI32 at h
  have : (v + 2 ^ 31) % 2 ^ 32 = v + 2 ^ 31 := Int.emod_eq_of_lt (by omega) (by omega)
  omega

/-- Rust `as u32` reinterpretation of an `i32` value (two's complement). -/
def toU32 (v : Int) : Nat := (v % 2 ^ 32).toNat

theorem toU32_lt (v : Int) : toU32 v < 2 ^ 32 := by
  unfold toU32
  have h1 := Int.emod_nonneg v (by norm_num : (2 ^ 32 : Int) ≠ 0)
  have h2 := Int.emod_lt_of_pos v (by norm_num : (0 : Int) < 2 ^ 32)
  omega

/-- Wrapping `i32` addition. -/
def wadd (a b : Int) : Int := wrap32 (a + b)
/-- Wrapping `i32` subtraction. -/
def wsub (a b : Int) : Int := wrap32 (a - b)
/-- Wrapping `i32` multiplication. -/
def wmul (a b : Int) : Int := wrap32 (a * b)
/-- Wrapping `i32` negation. -/
def wneg (a : Int) : Int := wrap32 (-a)

/-- Rust `i32` division (`a / b`): truncating; traps (panics) on a zero
divisor and on the `i32::MIN / -1` overflow. -/
def rustDiv (a b : Int) : Option Int :=
  if b = 0 then none
  else if a = -2 ^ 31 ∧ b = -1 then none
  else some (Int.tdiv a b)

/-- Rust `i32` remainder (`a % b`): traps on a zero divisor and on
`i32::MIN % -1`. -/
def rustRem (a b : Int) : Option Int :=
  if b = 0 then none
  else if a = -2 ^ 31 ∧ b = -1 then none
  else some (Int.tmod a b)

/-! ## Decimal text -/

/-- Decimal digits of a natural number (fuelled so that the kernel can
evaluate it; `natToChars` supplies sufficient fuel). -/
def natToCharsGo : Nat → Nat → List Char
  | 0, _ => []
  | fuel + 1, n =>
    if n < 10 then [Char.ofNat (48 + n)]
    else natToCharsGo fuel (n / 10) ++ [Char.ofNat (48 + n % 10)]

/-- Decimal digits of a natural number, as characters
(the digit production shared by Rust's `Display` for integers). -/
def natToChars (n : Nat) : List Char := natToCharsGo (n + 1) n

theorem natToCharsGo_fuel :
    ∀ f1 f2 n, n < f1 → n < f2 → natToCharsGo f1 n = natToCharsGo f2 n
  | 0, _, n, h1, _ => absurd h1 (by omega)
  | _ + 1, 0, n, _, h2 => absurd h2 (by omega)
  | f1 + 1, f2 + 1, n, h1, h2 => by
    rw [natToCharsGo, natToCharsGo]
    split
    · rfl
    · next h10 =>
      have hdv := Nat.div_lt_self (show 0 < n by omega) (show 1 < 10 by omega)
      rw [natToCharsGo_fuel f1 f2 (n / 10) (by omega) (by omega)]

theorem natToChars_unfold (n : Nat) :
    natToChars n = if n < 10 then [Char.ofNat (48 + n)]
                   else natToChars (n / 10) ++ [Char.ofNat (48 + n % 10)] := by
  show natToCharsGo (n + 1) n = _
  rw [natToCharsGo]
  split
  · rfl
  · next h =>
    have hdv := Nat.div_lt_self (show 0 < n by omega) (show 1 < 10 by omega)
    rw [natToCharsGo_fuel n (n / 10 + 1) (n / 10) (by omega) (by omega)]
    rfl

/-- Rust `format!` of an `i32`/`usize` value (decimal, `-` sign). -/
def intToChars (v : Int) : List Char :=
  if v < 0 then '-' :: natToChars (-v).toNat else natToChars v.toNat

/-- Numeric value of a digit string (the accumulator loop inside integer
parsing). -/
def chars2nat (ds : List Char) : Nat :=
  ds.foldl (fun a c => a * 10 + (c.toNat - 48)) 0

/-- Signed-integer parsing core: nonempty digit run, value within
`i32` after applying the sign. -/
def parseI32core (ds : List Char) (sign : Int) : Option Int :=
  if ds = [] then none
  else if ds.all Char.isDigit then
    let v : Int := sign * (chars2nat ds : Int)
    if -2 ^ 31 ≤ v ∧ v ≤ 2 ^ 31 - 1 then some v else none
  else none

/-- Rust `str::parse::<i32>`: optional sign, nonempty digit run, value
must fit in `i32`. -/
def parseI32 (s : List Char) : Option Int :=
  match s with
  | [] => none
  | c :: rest =>
    if c = '-' then parseI32core rest (-1)
    else if c = '+' then parseI32core rest 1
    else parseI32core (c :: rest) 1

/-- Unsigned parsing core for `usize` (64-bit). -/
def parseUsizeCore (ds : List Char) : Option Nat :=
  if ds = [] then none
  else if ds.all Char.isDigit then
    if chars2nat ds < 2 ^ 64 then some (chars2nat ds) else none
  else none

/-- Rust `str::parse::<usize>`: nonempty digit run fitting in 64 bits
(a leading `+` is allowed). -/
def parseUsize (s : List Char) : Option Nat :=
  match s with
  | [] => none
  | c :: rest => if c = '+' then parseUsizeCore rest else parseUsizeCore (c :: rest)

theorem chars2nat_append (xs ys : List Char) :
    chars2nat (xs ++ ys) = ys.foldl (fun a c => a * 10 + (c.toNat - 48)) (chars2nat xs) := by
  unfold chars2nat
  rw [List.foldl_append]

theorem digit_char_isDigit {d : Nat} (h : d < 10) : (Char.ofNat (48 + d)).isDigit := by
  interval_cases d <;> decide

theorem digit_char_toNat {d : Nat} (h : d < 10) : (Char.ofNat (48 + d)).toNat = 48 + d := by
  interval_cases d <;> decide

theorem natToChars_digits (n : Nat) : (natToChars n).all Char.isDigit := by
  induction n using Nat.strong_induction_on with
  | _ n ih =>
    rw [natToChars_unfold]
    split
    · next h => simp [digit_char_isDigit h]
    · next h =>
      rw [List.all_append]
      have h1 := ih (n / 10) (Nat.div_lt_self (by omega) (by omega))
      have h2 : (Char.ofNat (48 + n % 10)).isDigit := digit_char_isDigit (Nat.mod_lt _ (by omega))
      simp [h1, h2]

theorem natToChars_ne_nil (n : Nat) : natToChars n ≠ [] := by
  rw [natToChars_unfold]
  split <;> simp

theorem chars2nat_natToChars (n : Nat) : chars2nat (natToChars n) = n := by
  induction n using Nat.strong_induction_on with
  | _ n ih =>
    rw [natToChars_unfold]
    split
    · next h =>
      simp [chars2nat, List.foldl, digit_char_toNat h]
    · next h =>
      rw [chars2nat_append, ih (n / 10) (Nat.div_lt_self (by omega) (by omega))]
      have hc := digit_char_toNat (Nat.mod_lt n (show 0 < 10 by omega))
      simp [List.foldl, hc]
      omega

theorem parseI32core_natToChars {n : Nat} {sign v : Int}
    (hv : v = sign * n) (h1 : -2 ^ 31 ≤ v) (h2 : v ≤ 2 ^ 31 - 1) :
    parseI32core (natToChars n) sign = some v := by
  unfold parseI32core
  rw [if_neg (natToChars_ne_nil n), if_pos (natToChars_digits n), chars2nat_natToChars]
  rw [if_pos (by constructor <;> omega)]
  rw [hv]

theorem natToChars_head_digit (n : Nat) :
    ∃ c rest, natToChars n = c :: rest ∧ c.isDigit := by
  cases hh : natToChars n with
  | nil => exact absurd hh (natToChars_ne_nil n)
  | cons c rest =>
    refine ⟨c, rest, rfl, ?_⟩
    have hd := natToChars_digits n
    rw [hh] at hd
    simp at hd
    exact hd.1

theorem parseI32_intToChars {v : Int} (h : inI32 v) : parseI32 (intToChars v) = some v := by
  unfold inI32 at h
  unfold intToChars
  by_cases hv : v < 0
  · rw [if_pos hv]
    unfold parseI32
    simp only [if_pos rfl]
    exact parseI32core_natToChars (by omega) (by omega) (by omega)
  · rw [if_neg hv]
    obtain ⟨c, rest, hcr, hcd⟩ := natToChars_head_digit v.toNat
    have hcm : c ≠ '-' ∧ c ≠ '+' := by
      constructor <;> rintro rfl <;> simp [Char.isDigit] at hcd
    unfold parseI32
    rw [hcr]
    simp only [if_neg hcm.1, if_neg hcm.2]
    rw [← hcr]
    exact parseI32core_natToChars (by omega) (by omega) (by omega)

/-! ## Byte encoding of immediates

`read_integer` stores `i32` values with `to_ne_bytes`, and `get_integer`
reads them back with `from_ne_bytes`; the host order ("native endian")
is fixed here as little-endian.  Bytes are `Nat` values `< 256`. -/

def enc4 (v : Int) : List Nat :=
  [toU32 v % 256, toU32 v / 256 % 256, toU32 v / 65536 % 256, toU32 v / 16777216 % 256]

def dec4 (b0 b1 b2 b3 : Nat) : Int :=
  let u := b0 + 256 * b1 + 65536 * b2 + 16777216 * b3
  if u < 2 ^ 31 then (u : Int) else (u : Int) - 2 ^ 32

theorem toU32_int (v : Int) : (toU32 v : Int) = v % 2 ^ 32 := by
  unfold toU32
  have h1 := Int.emod_nonneg v (by norm_num : (2 ^ 32 : Int) ≠ 0)
  omega

theorem dec4_enc4 (v : Int) :
    dec4 (toU32 v % 256) (toU32 v / 256 % 256) (toU32 v / 65536 % 256)
      (toU32 v / 16777216 % 256) = wrap32 v := by
  have hlt := toU32_lt v
  have hint := toU32_int v
  unfold dec4 wrap32
  have hre : toU32 v % 256 + 256 * (toU32 v / 256 % 256) + 65536 * (toU32 v / 65536 % 256) +
      16777216 * (toU32 v / 16777216 % 256) = toU32 v := by omega
  simp only [hre]
  omega

theorem dec4_enc4_self {v : Int} (h : inI32 v) :
    dec4 (toU32 v % 256) (toU32 v / 256 % 256) (toU32 v / 65536 % 256)
      (toU32 v / 16777216 % 256) = v := by
  rw [dec4_enc4, wrap32_eq_self h]

/-! ## Rust Debug escaping of strings -/

def natToHexCharsGo : Nat → Nat → List Char
  | 0, _ => []
  | fuel + 1, n =>
    if n < 16 then [if n < 10 then Char.ofNat (48 + n) else Char.ofNat (87 + n)]
    else natToHexCharsGo fuel (n / 16) ++
      [if n % 16 < 10 then Char.ofNat (48 + n % 16) else Char.ofNat (87 + n % 16)]

/-- Lowercase hex digits, for the `\u` escapes of `escape_debug`. -/
def natToHexChars (n : Nat) : List Char := natToHexCharsGo (n + 1) n

/-- One character of Rust's `str` Debug formatting (`format!("{:?}", s)`,
i.e. `char::escape_debug` with the double quote escaped and the single
quote kept).  Exact on ASCII; characters above `0x7f` are kept verbatim
(every hypothesis that touches escaping restricts to ASCII anyway). -/
def escapeChar (c : Char) : List Char :=
  if c = '"' then ['\\', '"']
  else if c = '\\' then ['\\', '\\']
  else if c = '\n' then ['\\', 'n']
  else if c = '\r' then ['\\', 'r']
  else if c = '\t' then ['\\', 't']
  else if c.toNat < 32 ∨ c.toNat = 127 then
    '\\' :: 'u' :: '\x7b' :: (natToHexChars c.toNat ++ ['\x7d'])
  else [c]

def escapeChars (s : List Char) : List Char := (s.map escapeChar).flatten

/-- Rust Debug formatting of a string slice: quotes around the escaped
content. -/
def quoteEscape (s : List Char) : List Char := '"' :: (escapeChars s ++ ['"'])

/-- The characters whose Debug-escape the toolchain's string readers can
undo: the two escapes the readers recognise (`\n`, `\\`) plus printable
ASCII other than the double quote, which escapes to itself. -/
def cleanChar (c : Char) : Prop :=
  c = '\n' ∨ c = '\\' ∨ (32 ≤ c.toNat ∧ c.toNat < 127 ∧ c ≠ '"')

instance (c : Char) : Decidable (cleanChar c) := by unfold cleanChar; infer_instance

def cleanChars (s : List Char) : Prop := ∀ c ∈ s, cleanChar c

instance (s : List Char) : Decidable (cleanChars s) := by
  unfold cleanChars; infer_instance

theorem escapeChar_clean {c : Char} (h : cleanChar c) :
    (c = '\n' ∧ escapeChar c = ['\\', 'n']) ∨
    (c = '\\' ∧ escapeChar c = ['\\', '\\']) ∨
    (c ≠ '\n' ∧ c ≠ '\\' ∧ c ≠ '"' ∧ escapeChar c = [c]) := by
  by_cases hn : c = '\n'
  · subst hn; left; exact ⟨rfl, rfl⟩
  by_cases hb : c = '\\'
  · subst hb; right; left; exact ⟨rfl, rfl⟩
  right; right
  have h3 : 32 ≤ c.toNat ∧ c.toNat < 127 ∧ c ≠ '"' := by
    rcases h with h | h | h
    · exact absurd h hn
    · exact absurd h hb
    · exact h
  have hr : c ≠ '\r' := by rintro rfl; exact absurd h3.1 (by decide)
  have ht : c ≠ '\t' := by rintro rfl; exact absurd h3.1 (by decide)
  refine ⟨hn, hb, h3.2.2, ?_⟩
  unfold escapeChar
  rw [if_neg h3.2.2, if_neg hb, if_neg hn, if_neg hr, if_neg ht, if_neg (by omega)]

/-! ## Whitespace splitting (`split_whitespace`) and lines -/

theorem length_dropWhile_le' (p : Char → Bool) (s : List Char) :
    (s.dropWhile p).length ≤ s.length := by
  induction s with
  | nil => simp [List.dropWhile]
  | cons c t ih =>
    by_cases h : p c <;> simp [List.dropWhile, h] <;> omega


/-- Join pieces with a separator (the model of `join("\n")` /
single-space formatting used when serialising programs). -/
def joinSep (sep : List Char) : List (List Char) → List Char
  | [] => []
  | [w] => w
  | w :: x :: t => w ++ sep ++ joinSep sep (x :: t)

theorem takeWhile_all {p : Char → Bool} {w : List Char} (hw : ∀ c ∈ w, p c) :
    w.takeWhile p = w := by
  induction w with
  | nil => rfl
  | cons c t ih =>
    rw [List.takeWhile_cons, if_pos (hw c (by simp)), ih (fun x hx => hw x (by simp [hx]))]

theorem dropWhile_all {p : Char → Bool} {w : List Char} (hw : ∀ c ∈ w, p c) :
    w.dropWhile p = [] := by
  induction w with
  | nil => rfl
  | cons c t ih =>
    rw [List.dropWhile_cons, if_pos (hw c (by simp)), ih (fun x hx => hw x (by simp [hx]))]

theorem takeWhile_append_stop {p : Char → Bool} {w : List Char} (hw : ∀ c ∈ w, p c)
    {y : Char} (hy : ¬ p y) (t : List Char) : (w ++ y :: t).takeWhile p = w := by
  induction w with
  | nil => simp [List.takeWhile_cons, hy]
  | cons c u ih =>
    rw [List.cons_append, List.takeWhile_cons, if_pos (hw c (by simp)),
        ih (fun x hx => hw x (by simp [hx]))]

theorem dropWhile_append_stop {p : Char → Bool} {w : List Char} (hw : ∀ c ∈ w, p c)
    {y : Char} (hy : ¬ p y) (t : List Char) : (w ++ y :: t).dropWhile p = y :: t := by
  induction w with
  | nil => simp [List.dropWhile_cons, hy]
  | cons c u ih =>
    rw [List.cons_append, List.dropWhile_cons, if_pos (hw c (by simp)),
        ih (fun x hx => hw x (by simp [hx]))]

theorem head_dropWhile_false {p : Char → Bool} {s : List Char} {c : Char} {rest : List Char}
    (h : s.dropWhile p = c :: rest) : ¬ p c := by
  induction s with
  | nil => simp [List.dropWhile] at h
  | cons a t ih =>
    rw [List.dropWhile_cons] at h
    by_cases ha : p a
    · rw [if_pos ha] at h; exact ih h
    · rw [if_neg ha] at h
      injection h with h1 _
      rw [← h1]; exact ha

def splitWsGo : Nat → List Char → List (List Char)
  | 0, _ => []
  | fuel + 1, s =>
    if s.dropWhile Char.isWhitespace = [] then []
    else
      (s.dropWhile Char.isWhitespace).takeWhile (fun x => ¬ x.isWhitespace) ::
        splitWsGo fuel ((s.dropWhile Char.isWhitespace).dropWhile (fun x => ¬ x.isWhitespace))

/-- Rust `str::split_whitespace` on a character list (fuelled with the
input length, which bounds the number of words). -/
def splitWs (s : List Char) : List (List Char) := splitWsGo (s.length + 1) s

theorem splitWsGo_fuel :
    ∀ f1 f2 s, s.length < f1 → s.length < f2 → splitWsGo f1 s = splitWsGo f2 s
  | 0, _, s, h1, _ => absurd h1 (by omega)
  | _ + 1, 0, s, _, h2 => absurd h2 (by omega)
  | f1 + 1, f2 + 1, s, h1, h2 => by
    rw [splitWsGo, splitWsGo]
    cases hd : s.dropWhile Char.isWhitespace with
    | nil => rw [if_pos rfl, if_pos rfl]
    | cons c rest =>
      rw [if_neg (by simp), if_neg (by simp)]
      have hlen : (s.dropWhile Char.isWhitespace).length ≤ s.length :=
        length_dropWhile_le' _ s
      rw [hd] at hlen
      have hc : ¬ c.isWhitespace := head_dropWhile_false hd
      have hX : ((c :: rest).dropWhile (fun x => ¬ x.isWhitespace)).length ≤ rest.length := by
        rw [List.dropWhile_cons, if_pos (by simp [hc])]
        exact length_dropWhile_le' _ rest
      simp at hlen
      rw [splitWsGo_fuel f1 f2 _ (by omega) (by omega)]

theorem splitWs_drop_nil {s : List Char} (h : s.dropWhile Char.isWhitespace = []) :
    splitWs s = [] := by
  show splitWsGo (s.length + 1) s = []
  rw [splitWsGo, if_pos h]

theorem splitWs_drop_cons {s : List Char} {c : Char} {rest : List Char}
    (h : s.dropWhile Char.isWhitespace = c :: rest) :
    splitWs s = (c :: rest).takeWhile (fun x => ¬ x.isWhitespace) ::
      splitWs ((c :: rest).dropWhile (fun x => ¬ x.isWhitespace)) := by
  show splitWsGo (s.length + 1) s = _
  rw [splitWsGo, if_neg (by rw [h]; simp), h]
  have hlen : (s.dropWhile Char.isWhitespace).length ≤ s.length :=
    length_dropWhile_le' _ s
  rw [h] at hlen
  have hc : ¬ c.isWhitespace := head_dropWhile_false h
  have hX : ((c :: rest).dropWhile (fun x => ¬ x.isWhitespace)).length ≤ rest.length := by
    rw [List.dropWhile_cons, if_pos (by simp [hc])]
    exact length_dropWhile_le' _ rest
  simp at hlen
  rw [splitWsGo_fuel s.length (((c :: rest).dropWhile (fun x => ¬ x.isWhitespace)).length + 1) _
        (by omega) (by omega)]
  rfl

theorem splitWs_nil : splitWs [] = [] := splitWs_drop_nil rfl

/-- A word as produced by `split_whitespace`: nonempty, no whitespace. -/
def wordOk (w : List Char) : Prop := w ≠ [] ∧ ∀ c ∈ w, ¬ c.isWhitespace

theorem splitWs_single {w : List Char} (h : wordOk w) : splitWs w = [w] := by
  obtain ⟨hne, hnc⟩ := h
  have hnws : ∀ c ∈ w, (fun x => ¬ x.isWhitespace : Char → Bool) c := by
    intro c hc; simp [hnc c hc]
  have hd : w.dropWhile Char.isWhitespace = w := by
    cases hw : w with
    | nil => rfl
    | cons c t =>
      rw [List.dropWhile_cons, if_neg (by simpa using hnc c (by rw [hw]; simp))]
  cases hw : w with
  | nil => exact absurd hw hne
  | cons c t =>
    rw [← hw]
    rw [splitWs_drop_cons (by rw [hd, hw]), ← hw,
        takeWhile_all hnws, dropWhile_all hnws, splitWs_nil]

theorem splitWs_ws_cons {c : Char} (hc : c.isWhitespace) (t : List Char) :
    splitWs (c :: t) = splitWs t := by
  cases hd : t.dropWhile Char.isWhitespace with
  | nil =>
    rw [splitWs_drop_nil (by rw [List.dropWhile_cons, if_pos hc, hd]),
        splitWs_drop_nil hd]
  | cons y rest =>
    rw [splitWs_drop_cons (by rw [List.dropWhile_cons, if_pos hc, hd]),
        splitWs_drop_cons hd]

theorem splitWs_sep (ws : List (List Char)) (h : ∀ w ∈ ws, wordOk w) :
    splitWs (joinSep [' '] ws) = ws := by
  induction ws with
  | nil => rw [joinSep, splitWs_nil]
  | cons w rest ih =>
    cases rest with
    | nil => exact splitWs_single (h w (by simp))
    | cons x t =>
      obtain ⟨hne, hnc⟩ := h w (by simp)
      have hnws : ∀ c ∈ w, (fun x => ¬ x.isWhitespace : Char → Bool) c := by
        intro c hc; simp [hnc c hc]
      rw [joinSep]
      have hjoin : w ++ [' '] ++ joinSep [' '] (x :: t) =
          w ++ ' ' :: joinSep [' '] (x :: t) := by simp
      rw [hjoin]
      have hdropws : (w ++ ' ' :: joinSep [' '] (x :: t)).dropWhile Char.isWhitespace =
          w ++ ' ' :: joinSep [' '] (x :: t) := by
        cases hw : w with
        | nil => exact absurd hw hne
        | cons c u =>
          rw [List.cons_append, List.dropWhile_cons,
              if_neg (by simpa using hnc c (by rw [hw]; simp))]
      cases hwfull : w ++ ' ' :: joinSep [' '] (x :: t) with
      | nil => cases w <;> simp at hwfull
      | cons c u =>
        rw [← hwfull]
        rw [splitWs_drop_cons (by rw [hdropws, hwfull]), ← hwfull,
            takeWhile_append_stop hnws (by simp) _,
            dropWhile_append_stop hnws (by simp) _,
            splitWs_ws_cons (by simp) _,
            ih (fun y hy => h y (by simp [hy]))]
/-- Trim one trailing carriage return (`str::lines` does this on each
newline-terminated piece). -/
def trimCr (l : List Char) : List Char :=
  if l.getLast? = some '\r' then l.dropLast else l

def linesOfGo : Nat → List Char → List (List Char)
  | 0, _ => []
  | fuel + 1, s =>
    if s = [] then []
    else
      if s.dropWhile (fun x => x ≠ '\n') = [] then
        [s.takeWhile (fun x => x ≠ '\n')]
      else
        trimCr (s.takeWhile (fun x => x ≠ '\n')) ::
          linesOfGo fuel (s.dropWhile (fun x => x ≠ '\n')).tail

/-- Rust `str::lines()` on a character list: pieces split at `'\n'`
(a `'\r'` immediately before the `'\n'` is trimmed), the final
unterminated piece kept verbatim, a trailing empty piece dropped. -/
def linesOf (s : List Char) : List (List Char) := linesOfGo (s.length + 1) s

theorem linesOfGo_fuel :
    ∀ f1 f2 s, s.length < f1 → s.length < f2 → linesOfGo f1 s = linesOfGo f2 s
  | 0, _, s, h1, _ => absurd h1 (by omega)
  | _ + 1, 0, s, _, h2 => absurd h2 (by omega)
  | f1 + 1, f2 + 1, s, h1, h2 => by
    rw [linesOfGo, linesOfGo]
    by_cases hs : s = []
    · rw [if_pos hs, if_pos hs]
    rw [if_neg hs, if_neg hs]
    cases hd : s.dropWhile (fun x => x ≠ '\n') with
    | nil => rw [if_pos rfl, if_pos rfl]
    | cons y rest =>
      rw [if_neg (by simp), if_neg (by simp)]
      have hlen := length_dropWhile_le' (fun x => x ≠ '\n') s
      rw [hd] at hlen
      simp at hlen
      rw [linesOfGo_fuel f1 f2 _ (by simp [hd]; omega) (by simp [hd]; omega)]

theorem linesOf_nil : linesOf [] = [] := by
  show linesOfGo 1 [] = []
  rw [linesOfGo, if_pos rfl]

theorem linesOf_drop_nil {s : List Char} (hs : s ≠ [])
    (h : s.dropWhile (fun x => x ≠ '\n') = []) :
    linesOf s = [s.takeWhile (fun x => x ≠ '\n')] := by
  show linesOfGo (s.length + 1) s = _
  rw [linesOfGo, if_neg hs, if_pos h]

theorem linesOf_drop_cons {s y : List Char} {d : Char}
    (h : s.dropWhile (fun x => x ≠ '\n') = d :: y) :
    linesOf s = trimCr (s.takeWhile (fun x => x ≠ '\n')) :: linesOf y := by
  have hs : s ≠ [] := by rintro rfl; simp [List.dropWhile] at h
  show linesOfGo (s.length + 1) s = _
  rw [linesOfGo, if_neg hs, if_neg (by rw [h]; simp), h]
  have hlen := length_dropWhile_le' (fun x => x ≠ '\n') s
  rw [h] at hlen
  simp at hlen
  rw [show (d :: y).tail = y from rfl,
      linesOfGo_fuel s.length (y.length + 1) y (by omega) (by omega)]
  rfl

/-- A text line as produced by the serialisers: no newline, no carriage
return, nonempty. -/
def lineOk (l : List Char) : Prop := l ≠ [] ∧ ∀ c ∈ l, c ≠ '\n' ∧ c ≠ '\r'

theorem trimCr_of_no_cr {l : List Char} (h : ∀ c ∈ l, c ≠ '\r') : trimCr l = l := by
  unfold trimCr
  rw [if_neg]
  intro hl
  exact h '\r' (List.mem_of_mem_getLast? (by rw [hl]; rfl)) rfl

theorem linesOf_joinSep (ls : List (List Char)) (h : ∀ l ∈ ls, lineOk l) :
    linesOf (joinSep ['\n'] ls) = ls := by
  induction ls with
  | nil => rw [joinSep, linesOf_nil]
  | cons w rest ih =>
    obtain ⟨hne, hnc⟩ := h w (by simp)
    have hnn : ∀ c ∈ w, (fun x => x ≠ '\n' : Char → Bool) c := by
      intro c hc; simp [(hnc c hc).1]
    cases rest with
    | nil =>
      rw [joinSep, linesOf_drop_nil hne (dropWhile_all hnn), takeWhile_all hnn]
    | cons x t =>
      rw [joinSep]
      have hjoin : w ++ ['\n'] ++ joinSep ['\n'] (x :: t) =
          w ++ '\n' :: joinSep ['\n'] (x :: t) := by simp
      rw [hjoin,
          linesOf_drop_cons (dropWhile_append_stop hnn (by simp) _),
          takeWhile_append_stop hnn (by simp) _,
          trimCr_of_no_cr (fun c hc => (hnc c hc).2),
          ih (fun y hy => h y (by simp [hy]))]

/-! ## Error model (`lexical_analyzer/src/error.rs`) -/

/-- `ErrorKind`.  The enum as shipped in `error.rs` declares
`ReadError`, `LexicalAnalyzerError` and `ParseError`; the other crates
of the workspace construct four further kinds through the same type
(`SyntaxError`, `InterpretationError`, `CodeGenerationError`,
`VirtualMachineError`), so the model carries all seven constructors. -/
inductive ErrorKind
  | ReadError
  | LexicalAnalyzerError
  | ParseError
  | SyntaxError
  | InterpretationError
  | CodeGenerationError
  | VirtualMachineError
  deriving DecidableEq

/-- The Rust identifier of an `ErrorKind` variant (as printed by the
derived `Debug`). -/
def ErrorKind.name : ErrorKind → String
  | .ReadError => "ReadError"
  | .LexicalAnalyzerError => "LexicalAnalyzerError"
  | .ParseError => "ParseError"
  | .SyntaxError => "SyntaxError"
  | .InterpretationError => "InterpretationError"
  | .CodeGenerationError => "CodeGenerationError"
  | .VirtualMachineError => "VirtualMachineError"

/-- `CompileError`: a kind plus a human-readable message. -/
structure CompileError where
  kind : ErrorKind
  msg : String
  deriving DecidableEq

/-- Generic result of a modelled fallible operation.  `panic` models a
Rust panic (`unwrap` on `None`, out-of-bounds indexing, arithmetic
traps, `unreachable!`, failed `assert!`); `timeout` is exhaustion of
the explicit fuel used to model unbounded loops and appears in no
actual execution given sufficient fuel. -/
inductive CRes (α : Type)
  | ok (a : α)
  | err (e : CompileError)
  | panic
  | timeout
  deriving DecidableEq

/-! ## Scanning a quoted, escaped string

The scanning loop shared (textually) by `ASTReader::make_string`,
`VirtualMachineInterpreter::read_string` and `TokenReader::read_string`:
after an opening `"`, characters are taken verbatim, `\n` and `\\` are
decoded, anything else after a backslash is rejected, and a missing
closing quote is rejected.  The three call sites differ only in how
they report the two failures. -/
inductive ScanRes
  | ok (content : List Char)
  | badEscape
  | noClose
  deriving DecidableEq

def ScanRes.consRes (c : Char) : ScanRes → ScanRes
  | .ok s => .ok (c :: s)
  | r => r

def scanQuoted : List Char → ScanRes
  | [] => .noClose
  | c :: t =>
    if c = '"' then .ok []
    else if c = '\\' then
      match t with
      | [] => .badEscape
      | e :: t2 =>
        if e = 'n' then (scanQuoted t2).consRes '\n'
        else if e = '\\' then (scanQuoted t2).consRes '\\'
        else .badEscape
    else (scanQuoted t).consRes c

theorem scanQuoted_quote (rest : List Char) : scanQuoted ('"' :: rest) = .ok [] := by
  rw [scanQuoted.eq_def]
  simp

theorem scanQuoted_cons_other {c : Char} (h1 : c ≠ '"') (h2 : c ≠ '\\') (t : List Char) :
    scanQuoted (c :: t) = (scanQuoted t).consRes c := by
  rw [scanQuoted.eq_def]
  simp [h1, h2]

theorem scanQuoted_escape_n (t : List Char) :
    scanQuoted ('\\' :: 'n' :: t) = (scanQuoted t).consRes '\n' := by
  rw [scanQuoted.eq_def]
  simp

theorem scanQuoted_escape_bs (t : List Char) :
    scanQuoted ('\\' :: '\\' :: t) = (scanQuoted t).consRes '\\' := by
  rw [scanQuoted.eq_def]
  simp

theorem scanQuoted_escapeChars {s : List Char} (h : cleanChars s) (rest : List Char) :
    scanQuoted (escapeChars s ++ '"' :: rest) = .ok s := by
  induction s with
  | nil =>
    show scanQuoted ('"' :: rest) = _
    rw [scanQuoted_quote]
  | cons c t ih =>
    have hc := escapeChar_clean (h c (by simp))
    have ht : cleanChars t := fun x hx => h x (by simp [hx])
    have hterm := ih ht
    have hflat : escapeChars (c :: t) = escapeChar c ++ escapeChars t := by
      simp [escapeChars]
    rcases hc with ⟨hcc, he⟩ | ⟨hcc, he⟩ | ⟨h1, h2, h3, he⟩ <;>
      rw [hflat, he]
    · subst hcc
      show scanQuoted ('\\' :: 'n' :: (escapeChars t ++ '"' :: rest)) = _
      rw [scanQuoted_escape_n, hterm]
      rfl
    · subst hcc
      show scanQuoted ('\\' :: '\\' :: (escapeChars t ++ '"' :: rest)) = _
      rw [scanQuoted_escape_bs, hterm]
      rfl
    · show scanQuoted (c :: (escapeChars t ++ '"' :: rest)) = _
      rw [scanQuoted_cons_other h3 h2, hterm]
      rfl

/-! ## Tokens (`lexical_analyzer/src/token.rs`) -/

inductive TokenKind
  | OpMultiply | OpDivide | OpMod | OpAdd | OpSubtract
  | OpLess | OpLessEqual | OpGreater | OpGreaterEqual
  | OpEqual | OpNotEqual | OpNot | OpAssign | OpAnd | OpOr
  | LeftParen | RightParen | LeftBrace | RightBrace
  | Semicolon | Comma
  | KeywordIf | KeywordElse | KeywordWhile | KeywordPrint | KeywordPutc
  | Identifier (name : List Char)
  | Integer (value : Int)
  | String (content : List Char)
  | EndOfInput
  deriving DecidableEq

structure Token where
  kind : TokenKind
  line_number : Nat
  column_number : Nat
  deriving DecidableEq

/-- `impl fmt::Display for Token`, transcribed arm by arm.  The first
eight operator arms write a literal `Identifier ` before the kind name,
and `EndOfInput` writes `String End_of_input`; the remaining
punctuation kinds fall through to the derived `Debug` name. -/
def tokenDisplay (t : Token) : List Char :=
  let pos := natToChars t.line_number ++ ' ' :: natToChars t.column_number ++ [' ']
  match t.kind with
  | .OpMultiply => pos ++ "Identifier Op_multiply".data
  | .OpDivide => pos ++ "Identifier Op_divide".data
  | .OpMod => pos ++ "Identifier Op_mod".data
  | .OpAdd => pos ++ "Identifier Op_add".data
  | .OpSubtract => pos ++ "Identifier Op_subtract".data
  | .OpLess => pos ++ "Identifier Op_less".data
  | .OpLessEqual => pos ++ "Identifier Op_lessequal".data
  | .OpGreater => pos ++ "Identifier Op_greater".data
  | .OpGreaterEqual => pos ++ "Op_greaterequal".data
  | .OpEqual => pos ++ "Op_equal".data
  | .OpNotEqual => pos ++ "Op_notequal".data
  | .OpNot => pos ++ "Op_not".data
  | .OpAssign => pos ++ "Op_assign".data
  | .OpAnd => pos ++ "Op_and".data
  | .OpOr => pos ++ "Op_or".data
  | .KeywordIf => pos ++ "Keyword_if".data
  | .KeywordElse => pos ++ "Keyword_else".data
  | .KeywordWhile => pos ++ "Keyword_while".data
  | .KeywordPrint => pos ++ "Keyword_print".data
  | .KeywordPutc => pos ++ "Keyword_putc".data
  | .Identifier name => pos ++ "Identifier ".data ++ name
  | .Integer v => pos ++ "Integer ".data ++ intToChars v
  | .String s => pos ++ "String ".data ++ quoteEscape s
  | .EndOfInput => pos ++ "String End_of_input".data
  | .LeftParen => pos ++ "LeftParen".data
  | .RightParen => pos ++ "RightParen".data
  | .LeftBrace => pos ++ "LeftBrace".data
  | .RightBrace => pos ++ "RightBrace".data
  | .Semicolon => pos ++ "Semicolon".data
  | .Comma => pos ++ "Comma".data

/-- Rust `str::trim` (both ends). -/
def trimChars (s : List Char) : List Char :=
  ((s.dropWhile Char.isWhitespace).reverse.dropWhile Char.isWhitespace).reverse

/-- `TokenReader::next_element`: skip whitespace, take the following
non-whitespace run; returns the element and the rest of the stream. -/
def nextElement (s : List Char) : List Char × List Char :=
  let s1 := s.dropWhile Char.isWhitespace
  (s1.takeWhile (fun c => ¬ c.isWhitespace), s1.dropWhile (fun c => ¬ c.isWhitespace))

/-- `TokenReader::read_string`: skip whitespace, expect `"`, scan the
escaped content. -/
def tokenReadString (s : List Char) : CRes (List Char) :=
  match s.dropWhile Char.isWhitespace with
  | '"' :: rest =>
    match scanQuoted rest with
    | .ok content => .ok content
    | .badEscape => .err ⟨.ReadError, "unknown escape sequence"⟩
    | .noClose => .err ⟨.ReadError, "unexpected EOF."⟩
  | _ => .err ⟨.ReadError, "'\"' is expected"⟩

/-- The fixed-kind table of `Token::from_line` (bare kind names with no
payload). -/
def fixedKindOfName (e : List Char) : Option TokenKind :=
  if e = "Op_multiply".data then some .OpMultiply
  else if e = "Op_divide".data then some .OpDivide
  else if e = "Op_mod".data then some .OpMod
  else if e = "Op_add".data then some .OpAdd
  else if e = "Op_subtract".data then some .OpSubtract
  else if e = "Op_less".data then some .OpLess
  else if e = "Op_lessequal".data then some .OpLessEqual
  else if e = "Op_greater".data then some .OpGreater
  else if e = "Op_greaterequal".data then some .OpGreaterEqual
  else if e = "Op_equal".data then some .OpEqual
  else if e = "Op_notequal".data then some .OpNotEqual
  else if e = "Op_not".data then some .OpNot
  else if e = "Op_assign".data then some .OpAssign
  else if e = "Op_and".data then some .OpAnd
  else if e = "Op_or".data then some .OpOr
  else if e = "LeftParen".data then some .LeftParen
  else if e = "RightParen".data then some .RightParen
  else if e = "LeftBrace".data then some .LeftBrace
  else if e = "RightBrace".data then some .RightBrace
  else if e = "Semicolon".data then some .Semicolon
  else if e = "Comma".data then some .Comma
  else if e = "Keyword_if".data then some .KeywordIf
  else if e = "Keyword_else".data then some .KeywordElse
  else if e = "Keyword_while".data then some .KeywordWhile
  else if e = "Keyword_print".data then some .KeywordPrint
  else if e = "Keyword_putc".data then some .KeywordPutc
  else if e = "End_of_input".data then some .EndOfInput
  else none

/-- `Token::from_line`: parse one line of the token textual form.  The
`.parse().unwrap()` calls on the position fields and on an `Integer`
payload panic when the element is not numeric. -/
def fromLine (line : List Char) : CRes Token :=
  let s := trimChars line
  let (e1, r1) := nextElement s
  match parseUsize e1 with
  | none => .panic
  | some ln =>
    let (e2, r2) := nextElement r1
    match parseUsize e2 with
    | none => .panic
    | some col =>
      let (e3, r3) := nextElement r2
      match fixedKindOfName e3 with
      | some k => .ok ⟨k, ln, col⟩
      | none =>
        if e3 = "Integer".data then
          match parseI32 (nextElement r3).1 with
          | none => .panic
          | some v => .ok ⟨.Integer v, ln, col⟩
        else if e3 = "Identifier".data then
          .ok ⟨.Identifier (nextElement r3).1, ln, col⟩
        else if e3 = "String".data then
          match tokenReadString r3 with
          | .ok s2 => .ok ⟨.String s2, ln, col⟩
          | .err e => .err e
          | .panic => .panic
          | .timeout => .timeout
        else
          .err ⟨.ReadError, "unknown token kind: " ++ String.mk e3⟩

/-! ## Lexical analyzer (`lexical_analyzer/src/lib.rs`)

Loops are modelled with explicit fuel; each wrapper supplies fuel
exceeding the number of unread characters, so exhaustion (`timeout`)
never occurs in an actual run.  `is_whitespace`/`is_alphabetic` follow
the ASCII behaviour of the Rust originals (the toolchain's own
character classes are ASCII-only). -/

structure LexState where
  next_char : Option Char
  stream : List Char
  line_number : Nat
  column_number : Nat
  deriving DecidableEq

def lexInit (s : List Char) : LexState := ⟨s.head?, s.tail, 1, 1⟩

def readChar (st : LexState) : LexState :=
  let st1 := if st.next_char = some '\n' then
      { st with line_number := st.line_number + 1, column_number := 0 }
    else st
  { st1 with next_char := st1.stream.head?, stream := st1.stream.tail,
             column_number := st1.column_number + 1 }

def is_number (c : Char) : Bool := c.isDigit

def is_alpha (c : Char) : Bool :=
  c = '_' ∨ ('a' ≤ c ∧ c ≤ 'z') ∨ ('A' ≤ c ∧ c ≤ 'Z')

def is_alnum (c : Char) : Bool := is_alpha c ∨ is_number c

/-- Rust `char::is_alphabetic`, on ASCII. -/
def isAlphabetic (c : Char) : Bool := ('a' ≤ c ∧ c ≤ 'z') ∨ ('A' ≤ c ∧ c ≤ 'Z')

def read_escaped_sequence (st : LexState) : CRes (Char × LexState) :=
  if st.next_char ≠ some '\\' then .panic
  else
    let st1 := readChar st
    match st1.next_char with
    | some '\\' => .ok ('\\', st1)
    | some 'n' => .ok ('\n', st1)
    | some _ => .err ⟨.LexicalAnalyzerError, "Unknown escape sequence"⟩
    | none => .err ⟨.LexicalAnalyzerError, "unexpected EOI"⟩

def discardWhitespaceGo : Nat → LexState → LexState
  | 0, st => st
  | f + 1, st =>
    match st.next_char with
    | some c => if c.isWhitespace then discardWhitespaceGo f (readChar st) else st
    | none => st

def discard_whitespace (st : LexState) : LexState :=
  discardWhitespaceGo (st.stream.length + 2) st

def discardCommentGo : Nat → LexState → CRes LexState
  | 0, _ => .timeout
  | f + 1, st =>
    match st.next_char with
    | some '*' =>
      let st1 := readChar st
      match st1.next_char with
      | some '/' => .ok (readChar st1)
      | some _ => discardCommentGo f (readChar st1)
      | none =>
        .err ⟨.LexicalAnalyzerError,
          "End-of-file in comment. Closing comment characters not found"⟩
    | some _ => discardCommentGo f (readChar st)
    | none =>
      .err ⟨.LexicalAnalyzerError,
        "End-of-file in comment. Closing comment characters not found"⟩

def discard_comment (st : LexState) : CRes LexState :=
  discardCommentGo (st.stream.length + 2) st

def read_less (st : LexState) (ln col : Nat) : CRes (Token × LexState) :=
  let st1 := readChar st
  if st1.next_char = some '=' then .ok (⟨.OpLessEqual, ln, col⟩, readChar st1)
  else .ok (⟨.OpLess, ln, col⟩, st1)

def read_greater (st : LexState) (ln col : Nat) : CRes (Token × LexState) :=
  let st1 := readChar st
  if st1.next_char = some '=' then .ok (⟨.OpGreaterEqual, ln, col⟩, readChar st1)
  else .ok (⟨.OpGreater, ln, col⟩, st1)

def read_equal (st : LexState) (ln col : Nat) : CRes (Token × LexState) :=
  let st1 := readChar st
  if st1.next_char = some '=' then .ok (⟨.OpEqual, ln, col⟩, readChar st1)
  else .ok (⟨.OpAssign, ln, col⟩, st1)

def read_not (st : LexState) (ln col : Nat) : CRes (Token × LexState) :=
  let st1 := readChar st
  if st1.next_char = some '=' then .ok (⟨.OpNotEqual, ln, col⟩, readChar st1)
  else .ok (⟨.OpNot, ln, col⟩, st1)

def read_and (st : LexState) (ln col : Nat) : CRes (Token × LexState) :=
  let st1 := readChar st
  if st1.next_char = some '&' then .ok (⟨.OpAnd, ln, col⟩, readChar st1)
  else .err ⟨.LexicalAnalyzerError, "invalid character: '&' is expected"⟩

def read_or (st : LexState) (ln col : Nat) : CRes (Token × LexState) :=
  let st1 := readChar st
  if st1.next_char = some '|' then .ok (⟨.OpOr, ln, col⟩, readChar st1)
  else .err ⟨.LexicalAnalyzerError, "invalid character: '|' is expected"⟩

def keywordOrIdentifier (s : List Char) : TokenKind :=
  if s = "if".data then .KeywordIf
  else if s = "else".data then .KeywordElse
  else if s = "while".data then .KeywordWhile
  else if s = "print".data then .KeywordPrint
  else if s = "putc".data then .KeywordPutc
  else .Identifier s

def readIdentifierGo : Nat → LexState → List Char → List Char × LexState
  | 0, st, acc => (acc, st)
  | f + 1, st, acc =>
    match st.next_char with
    | some c => if is_alnum c then readIdentifierGo f (readChar st) (acc ++ [c]) else (acc, st)
    | none => (acc, st)

def read_identifier (st : LexState) (ln col : Nat) : CRes (Token × LexState) :=
  match st.next_char with
  | none => .panic
  | some c0 =>
    let r := readIdentifierGo (st.stream.length + 2) (readChar st) [c0]
    .ok (⟨keywordOrIdentifier r.1, ln, col⟩, r.2)

def readIntegerLiteralGo : Nat → LexState → List Char → CRes (List Char × LexState)
  | 0, _, _ => .timeout
  | f + 1, st, acc =>
    match st.next_char with
    | some c =>
      if is_number c then readIntegerLiteralGo f (readChar st) (acc ++ [c])
      else if isAlphabetic c then
        .err ⟨.LexicalAnalyzerError,
          "Invalid number. Starts like a number, but ends in non-numeric-characters"⟩
      else .ok (acc, st)
    | none => .ok (acc, st)

def read_integer_literal (st : LexState) (ln col : Nat) : CRes (Token × LexState) :=
  match st.next_char with
  | none => .panic
  | some c0 =>
    match readIntegerLiteralGo (st.stream.length + 2) (readChar st) [c0] with
    | .ok (s, st2) =>
      match parseI32 s with
      | some n => .ok (⟨.Integer n, ln, col⟩, st2)
      | none => .err ⟨.LexicalAnalyzerError, "invalid number."⟩
    | .err e => .err e
    | .panic => .panic
    | .timeout => .timeout

def read_char_literal (st : LexState) (ln col : Nat) : CRes (Token × LexState) :=
  let st1 := readChar st
  match st1.next_char with
  | some '\'' => .err ⟨.LexicalAnalyzerError, "Empty character constant"⟩
  | some '\n' => .err ⟨.LexicalAnalyzerError, "invalid char literal"⟩
  | some c =>
    match (if c = '\\' then read_escaped_sequence st1 else .ok (c, st1)) with
    | .ok (ch, st2) =>
      let st3 := readChar st2
      match st3.next_char with
      | some '\'' => .ok (⟨.Integer (ch.toNat : Int), ln, col⟩, readChar st3)
      | some _ => .err ⟨.LexicalAnalyzerError, "Multi-character constant."⟩
      | none => .err ⟨.LexicalAnalyzerError, "unexpected EOI"⟩
    | .err e => .err e
    | .panic => .panic
    | .timeout => .timeout
  | none => .err ⟨.LexicalAnalyzerError, "unexpected EOI"⟩

def readStringLiteralGo : Nat → LexState → List Char → Nat → Nat → CRes (Token × LexState)
  | 0, _, _, _, _ => .timeout
  | f + 1, st, acc, ln, col =>
    match st.next_char with
    | some '"' => .ok (⟨.String acc, ln, col⟩, readChar st)
    | some '\n' => .err ⟨.LexicalAnalyzerError, "End-of-line while scanning string literal"⟩
    | some c =>
      if c = '\\' then
        match read_escaped_sequence st with
        | .ok (e, st2) => readStringLiteralGo f (readChar st2) (acc ++ [e]) ln col
        | .err er => .err er
        | .panic => .panic
        | .timeout => .timeout
      else readStringLiteralGo f (readChar st) (acc ++ [c]) ln col
    | none => .err ⟨.LexicalAnalyzerError, "unexpected EOF"⟩

def read_string_literal (st : LexState) (ln col : Nat) : CRes (Token × LexState) :=
  readStringLiteralGo (st.stream.length + 2) (readChar st) [] ln col

/-- `LexicalAnalyzer::next_token`.  The fuel only feeds the recursion
through block comments (`read_div` → `discard_comment` → `next_token`). -/
def next_token : Nat → LexState → CRes (Token × LexState)
  | 0, _ => .timeout
  | f + 1, st0 =>
    let st := discard_whitespace st0
    let ln := st.line_number
    let col := st.column_number
    match st.next_char with
    | some '*' => .ok (⟨.OpMultiply, ln, col⟩, readChar st)
    | some '%' => .ok (⟨.OpMod, ln, col⟩, readChar st)
    | some '+' => .ok (⟨.OpAdd, ln, col⟩, readChar st)
    | some '-' => .ok (⟨.OpSubtract, ln, col⟩, readChar st)
    | some '(' => .ok (⟨.LeftParen, ln, col⟩, readChar st)
    | some ')' => .ok (⟨.RightParen, ln, col⟩, readChar st)
    | some '{' => .ok (⟨.LeftBrace, ln, col⟩, readChar st)
    | some '}' => .ok (⟨.RightBrace, ln, col⟩, readChar st)
    | some ';' => .ok (⟨.Semicolon, ln, col⟩, readChar st)
    | some ',' => .ok (⟨.Comma, ln, col⟩, readChar st)
    | some '<' => read_less st ln col
    | some '>' => read_greater st ln col
    | some '=' => read_equal st ln col
    | some '!' => read_not st ln col
    | some '&' => read_and st ln col
    | some '|' => read_or st ln col
    | some '/' =>
      let st1 := readChar st
      if st1.next_char = some '*' then
        match discard_comment (readChar st1) with
        | .ok st2 => next_token f st2
        | .err e => .err e
        | .panic => .panic
        | .timeout => .timeout
      else .ok (⟨.OpDivide, ln, col⟩, st1)
    | some c =>
      if is_alpha c then read_identifier st ln col
      else if is_number c then read_integer_literal st ln col
      else if c = '\'' then read_char_literal st ln col
      else if c = '"' then read_string_literal st ln col
      else .err ⟨.LexicalAnalyzerError, "Unrecognized character: " ++ String.mk [c]⟩
    | none => .ok (⟨.EndOfInput, ln, col⟩, st)

/-- The token-collection loop of the lexer driver (`main.rs`): emit
tokens until `EndOfInput` (inclusive). -/
def lexTokensGo : Nat → LexState → List Token → CRes (List Token)
  | 0, _, _ => .timeout
  | f + 1, st, acc =>
    match next_token (st.stream.length + 2) st with
    | .ok (tok, st2) =>
      if tok.kind = .EndOfInput then .ok (acc ++ [tok])
      else lexTokensGo f st2 (acc ++ [tok])
    | .err e => .err e
    | .panic => .panic
    | .timeout => .timeout

def lexTokens (s : List Char) : CRes (List Token) :=
  lexTokensGo (s.length + 2) (lexInit s) []

/-! ## AST (`syntax_analyzer/src/ast_node.rs`) -/

inductive NodeKind
  | Identifier (name : List Char)
  | String (content : List Char)
  | Integer (value : Int)
  | Sequence
  | If
  | Prtc
  | Prts
  | Prti
  | While
  | Assign
  | Negate
  | Not
  | Multiply
  | Divide
  | Mod
  | Add
  | Subtract
  | Less
  | LessEqual
  | Greater
  | GreaterEqual
  | Equal
  | NotEqual
  | And
  | Or
  | None
  deriving DecidableEq

inductive ASTNode
  | mk (kind : NodeKind) (lhs : Option ASTNode) (rhs : Option ASTNode)

def ASTNode.kind : ASTNode → NodeKind
  | .mk k _ _ => k

def ASTNode.lhs : ASTNode → Option ASTNode
  | .mk _ l _ => l

def ASTNode.rhs : ASTNode → Option ASTNode
  | .mk _ _ r => r

mutual

def ASTNode.beq : ASTNode → ASTNode → Bool
  | .mk k1 l1 r1, .mk k2 l2 r2 =>
    decide (k1 = k2) && ASTNode.obeq l1 l2 && ASTNode.obeq r1 r2

def ASTNode.obeq : Option ASTNode → Option ASTNode → Bool
  | none, none => true
  | some a, some b => ASTNode.beq a b
  | none, some _ => false
  | some _, none => false

end

mutual

theorem ASTNode.beq_iff : ∀ a b : ASTNode, ASTNode.beq a b = true ↔ a = b
  | .mk k1 l1 r1, .mk k2 l2 r2 => by
    rw [ASTNode.beq]
    simp [ASTNode.obeq_iff l1 l2, ASTNode.obeq_iff r1 r2]
    tauto

theorem ASTNode.obeq_iff : ∀ a b : Option ASTNode, ASTNode.obeq a b = true ↔ a = b
  | none, none => by simp [ASTNode.obeq]
  | some a, some b => by rw [ASTNode.obeq]; simp [ASTNode.beq_iff a b]
  | none, some b => by rw [ASTNode.obeq]; simp
  | some a, none => by rw [ASTNode.obeq]; simp

end

instance : DecidableEq ASTNode := fun a b => decidable_of_iff _ (ASTNode.beq_iff a b)

/-- The derived `Debug` name of an interior node kind. -/
def nodeKindName : NodeKind → List Char
  | .Identifier _ => "Identifier".data
  | .String _ => "String".data
  | .Integer _ => "Integer".data
  | .Sequence => "Sequence".data
  | .If => "If".data
  | .Prtc => "Prtc".data
  | .Prts => "Prts".data
  | .Prti => "Prti".data
  | .While => "While".data
  | .Assign => "Assign".data
  | .Negate => "Negate".data
  | .Not => "Not".data
  | .Multiply => "Multiply".data
  | .Divide => "Divide".data
  | .Mod => "Mod".data
  | .Add => "Add".data
  | .Subtract => "Subtract".data
  | .Less => "Less".data
  | .LessEqual => "LessEqual".data
  | .Greater => "Greater".data
  | .GreaterEqual => "GreaterEqual".data
  | .Equal => "Equal".data
  | .NotEqual => "NotEqual".data
  | .And => "And".data
  | .Or => "Or".data
  | .None => "None".data

/-- `impl fmt::Display for ASTNode`: pre-order text, one line per node,
leaves with their payload, a missing child as a line `;`. -/
def astDisplay : ASTNode → List Char
  | .mk k lhs rhs =>
    match k with
    | .Identifier n => "Identifier ".data ++ n ++ ['\n']
    | .String s => "String ".data ++ quoteEscape s ++ ['\n']
    | .Integer v => "Integer ".data ++ intToChars v ++ ['\n']
    | _ =>
      nodeKindName k ++ ['\n'] ++
      (match lhs with
       | some l => astDisplay l
       | none => ";\n".data) ++
      (match rhs with
       | some r => astDisplay r
       | none => ";\n".data)

/-- `line.trim().splitn(2, ' ')`: the head element (up to the first
space) and, when a space exists, the remainder after it. -/
def splitN2 (s : List Char) : List Char × Option (List Char) :=
  (s.takeWhile (fun c => c ≠ ' '),
   if s.dropWhile (fun c => c ≠ ' ') = [] then none
   else some (s.dropWhile (fun c => c ≠ ' ')).tail)

/-- `ASTReader::make_string` (after the payload has been trimmed):
expects a leading quote and decodes `\n`/`\\`; anything else is
`unreachable!()`, i.e. a panic. -/
def makeStringNodePayload (s : List Char) : CRes (List Char) :=
  match s with
  | '"' :: rest =>
    match scanQuoted rest with
    | .ok content => .ok content
    | _ => .panic
  | _ => .panic

/-- The interior-kind table of `ASTReader::make_node`. -/
def interiorKindOfName (e : List Char) : Option NodeKind :=
  if e = "Sequence".data then some .Sequence
  else if e = "If".data then some .If
  else if e = "Prtc".data then some .Prtc
  else if e = "Prts".data then some .Prts
  else if e = "Prti".data then some .Prti
  else if e = "While".data then some .While
  else if e = "Assign".data then some .Assign
  else if e = "Negate".data then some .Negate
  else if e = "Not".data then some .Not
  else if e = "Multiply".data then some .Multiply
  else if e = "Divide".data then some .Divide
  else if e = "Mod".data then some .Mod
  else if e = "Add".data then some .Add
  else if e = "Subtract".data then some .Subtract
  else if e = "Less".data then some .Less
  else if e = "LessEqual".data then some .LessEqual
  else if e = "Greater".data then some .Greater
  else if e = "GreaterEqual".data then some .GreaterEqual
  else if e = "Equal".data then some .Equal
  else if e = "NotEqual".data then some .NotEqual
  else if e = "And".data then some .And
  else if e = "Or".data then some .Or
  else none

/-- `ASTReader::make_node` on a list of lines; returns the node (or
`none` for a `;` line or stream end) and the unconsumed lines. -/
def makeNode : Nat → List (List Char) → CRes (Option ASTNode × List (List Char))
  | 0, _ => .timeout
  | _ + 1, [] => .ok (none, [])
  | f + 1, line :: rest =>
    let (e0, payload) := splitN2 (trimChars line)
    if e0 = ";".data then .ok (none, rest)
    else if e0 = "Identifier".data then
      match payload with
      | none => .panic
      | some p => .ok (some (.mk (.Identifier (trimChars p)) none none), rest)
    else if e0 = "Integer".data then
      match payload with
      | none => .panic
      | some p =>
        match parseI32 (trimChars p) with
        | none => .panic
        | some v => .ok (some (.mk (.Integer v) none none), rest)
    else if e0 = "String".data then
      match payload with
      | none => .panic
      | some p =>
        match makeStringNodePayload (trimChars p) with
        | .ok content => .ok (some (.mk (.String content) none none), rest)
        | .err e => .err e
        | .panic => .panic
        | .timeout => .timeout
    else
      match interiorKindOfName e0 with
      | some k =>
        match makeNode f rest with
        | .ok (lhs, rest1) =>
          match makeNode f rest1 with
          | .ok (rhs, rest2) => .ok (some (.mk k lhs rhs), rest2)
          | r => r
        | r => r
      | none => .panic

/-- `ASTReader::read_ast`: parse one node from the lines and `unwrap`
it (panic when the stream yields no node). -/
def read_ast (lines : List (List Char)) : CRes ASTNode :=
  match makeNode (lines.length + 1) lines with
  | .ok (some node, _) => .ok node
  | .ok (none, _) => .panic
  | .err e => .err e
  | .panic => .panic
  | .timeout => .timeout

/-! ## Syntax analyzer (`syntax_analyzer/src/lib.rs`) -/

def CRes.bind {α β : Type} (r : CRes α) (g : α → CRes β) : CRes β :=
  match r with
  | .ok a => g a
  | .err e => .err e
  | .panic => .panic
  | .timeout => .timeout

instance : Monad CRes where
  pure := .ok
  bind := CRes.bind

structure Operator where
  kind : NodeKind
  right_associative : Bool
  precedence : Int

/-- The precedence table (`operator`), with the `NOT_OPERATOR` sentinel
of precedence `-1`. -/
def operator : TokenKind → Operator
  | .OpOr => ⟨.Or, false, 10⟩
  | .OpAnd => ⟨.And, false, 20⟩
  | .OpEqual => ⟨.Equal, false, 30⟩
  | .OpNotEqual => ⟨.NotEqual, false, 30⟩
  | .OpLess => ⟨.Less, false, 40⟩
  | .OpLessEqual => ⟨.LessEqual, false, 40⟩
  | .OpGreater => ⟨.Greater, false, 40⟩
  | .OpGreaterEqual => ⟨.GreaterEqual, false, 40⟩
  | .OpAdd => ⟨.Add, false, 50⟩
  | .OpSubtract => ⟨.Subtract, false, 50⟩
  | .OpMultiply => ⟨.Multiply, false, 60⟩
  | .OpDivide => ⟨.Divide, false, 60⟩
  | .OpMod => ⟨.Mod, false, 60⟩
  | _ => ⟨.None, false, -1⟩

/-- Parser state: the remaining token iterator plus the one-token
look-ahead. -/
structure PSt where
  token_iter : List Token
  next_token : Token
  deriving DecidableEq

/-- `SyntaxAnalyzer::read_token`: return the current look-ahead and pull
the next token from the iterator; `SyntaxError` at iterator end. -/
def pread_token (st : PSt) : CRes (Token × PSt) :=
  match st.token_iter with
  | t :: rest => .ok (st.next_token, ⟨rest, t⟩)
  | [] => .err ⟨.SyntaxError, "unexpected EOF"⟩

/-- The statement FIRST set used by `parse_stmt_list`. -/
def stmtStartKind : TokenKind → Bool
  | .Semicolon => true
  | .Identifier _ => true
  | .KeywordWhile => true
  | .KeywordIf => true
  | .KeywordPrint => true
  | .KeywordPutc => true
  | .LeftBrace => true
  | _ => false

def tokenKindDebug : TokenKind → List Char
  | .OpMultiply => "OpMultiply".data
  | .OpDivide => "OpDivide".data
  | .OpMod => "OpMod".data
  | .OpAdd => "OpAdd".data
  | .OpSubtract => "OpSubtract".data
  | .OpLess => "OpLess".data
  | .OpLessEqual => "OpLessEqual".data
  | .OpGreater => "OpGreater".data
  | .OpGreaterEqual => "OpGreaterEqual".data
  | .OpEqual => "OpEqual".data
  | .OpNotEqual => "OpNotEqual".data
  | .OpNot => "OpNot".data
  | .OpAssign => "OpAssign".data
  | .OpAnd => "OpAnd".data
  | .OpOr => "OpOr".data
  | .LeftParen => "LeftParen".data
  | .RightParen => "RightParen".data
  | .LeftBrace => "LeftBrace".data
  | .RightBrace => "RightBrace".data
  | .Semicolon => "Semicolon".data
  | .Comma => "Comma".data
  | .KeywordIf => "KeywordIf".data
  | .KeywordElse => "KeywordElse".data
  | .KeywordWhile => "KeywordWhile".data
  | .KeywordPrint => "KeywordPrint".data
  | .KeywordPutc => "KeywordPutc".data
  | .Identifier n => "Identifier(".data ++ quoteEscape n ++ [')']
  | .Integer v => "Integer(".data ++ intToChars v ++ [')']
  | .String s => "String(".data ++ quoteEscape s ++ [')']
  | .EndOfInput => "EndOfInput".data

/-- The derived `Debug` of a `Token` (used in one parser message). -/
def tokenDebug (t : Token) : List Char :=
  "Token \x7b kind: ".data ++ tokenKindDebug t.kind ++
    ", line_number: ".data ++ natToChars t.line_number ++
    ", column_number: ".data ++ natToChars t.column_number ++ " \x7d".data

mutual

def parse_primary : Nat → PSt → CRes (ASTNode × PSt)
  | 0, _ => .timeout
  | f + 1, st => do
    let (tok, st1) ← pread_token st
    match tok.kind with
    | .Identifier identifier => .ok (.mk (.Identifier identifier) none none, st1)
    | .Integer v => .ok (.mk (.Integer v) none none, st1)
    | .LeftParen => do
      let (node, st2) ← parse_expr f st1
      if st2.next_token.kind ≠ .RightParen then .err ⟨.SyntaxError, "')' is expected."⟩
      else do
        let (_, st3) ← pread_token st2
        .ok (node, st3)
    | .OpAdd => parse_primary f st1
    | .OpSubtract => do
      let (node, st2) ← parse_primary f st1
      .ok (.mk .Negate (some node) none, st2)
    | .OpNot => do
      let (node, st2) ← parse_primary f st1
      .ok (.mk .Not (some node) none, st2)
    | _ => .err ⟨.SyntaxError, "invalid primary"⟩

def parse_expr : Nat → PSt → CRes (ASTNode × PSt)
  | 0, _ => .timeout
  | f + 1, st => do
    let (lhs, st1) ← parse_primary f st
    parse_expr_body f st1 lhs 0

/-- The outer precedence-climbing loop of `parse_expr_body`. -/
def parse_expr_body : Nat → PSt → ASTNode → Int → CRes (ASTNode × PSt)
  | 0, _, _, _ => .timeout
  | f + 1, st, lhs, min_precedence =>
    let next_op := operator st.next_token.kind
    if next_op.precedence ≥ min_precedence then do
      let (_, st1) ← pread_token st
      let (rhs0, st2) ← parse_primary f st1
      let (rhs, st3) ← parseExprClimb f st2 rhs0 next_op.precedence
      parse_expr_body f st3 (.mk next_op.kind (some lhs) (some rhs)) min_precedence
    else .ok (lhs, st)

/-- The inner loop of `parse_expr_body` (climbing into a
higher-precedence or right-associative right operand). -/
def parseExprClimb : Nat → PSt → ASTNode → Int → CRes (ASTNode × PSt)
  | 0, _, _, _ => .timeout
  | f + 1, st, rhs, op_precedence =>
    let next_op := operator st.next_token.kind
    if next_op.precedence > op_precedence ∨
        (next_op.precedence = op_precedence ∧ next_op.right_associative) then do
      let (rhs1, st1) ← parse_expr_body f st rhs next_op.precedence
      parseExprClimb f st1 rhs1 op_precedence
    else .ok (rhs, st)

def parse_paren_expr : Nat → PSt → CRes (ASTNode × PSt)
  | 0, _ => .timeout
  | f + 1, st =>
    if st.next_token.kind ≠ .LeftParen then .err ⟨.SyntaxError, "'(' is expected."⟩
    else do
      let (_, st1) ← pread_token st
      let (node, st2) ← parse_expr f st1
      if st2.next_token.kind ≠ .RightParen then .err ⟨.SyntaxError, "')' is expected."⟩
      else do
        let (_, st3) ← pread_token st2
        .ok (node, st3)

def parse_assign_stmt : Nat → PSt → CRes (ASTNode × PSt)
  | 0, _ => .timeout
  | f + 1, st => do
    let (tok, st1) ← pread_token st
    match tok.kind with
    | .Identifier identifier =>
      let lhs := ASTNode.mk (.Identifier identifier) none none
      if st1.next_token.kind ≠ .OpAssign then .err ⟨.SyntaxError, "'=' is expected."⟩
      else do
        let (_, st2) ← pread_token st1
        let (rhs, st3) ← parse_expr f st2
        if st3.next_token.kind ≠ .Semicolon then .err ⟨.SyntaxError, "';' is expected."⟩
        else do
          let (_, st4) ← pread_token st3
          .ok (.mk .Assign (some lhs) (some rhs), st4)
    | _ => .err ⟨.SyntaxError, "Identifier is expected"⟩

def parse_while_stmt : Nat → PSt → CRes (ASTNode × PSt)
  | 0, _ => .timeout
  | f + 1, st =>
    if st.next_token.kind ≠ .KeywordWhile then .err ⟨.SyntaxError, "\"while\" is expected."⟩
    else do
      let (_, st1) ← pread_token st
      let (lhs, st2) ← parse_paren_expr f st1
      let (rhs, st3) ← parse_stmt f st2
      .ok (.mk .While (some lhs) (some rhs), st3)

def parse_if_stmt : Nat → PSt → CRes (ASTNode × PSt)
  | 0, _ => .timeout
  | f + 1, st =>
    if st.next_token.kind ≠ .KeywordIf then .err ⟨.SyntaxError, "\"if\" is expected."⟩
    else do
      let (_, st1) ← pread_token st
      let (condition, st2) ← parse_paren_expr f st1
      let (if_clause, st3) ← parse_stmt f st2
      if st3.next_token.kind = .KeywordElse then do
        let (_, st4) ← pread_token st3
        let (else_clause, st5) ← parse_stmt f st4
        .ok (.mk .If (some condition)
          (some (.mk .If (some if_clause) (some else_clause))), st5)
      else
        .ok (.mk .If (some condition) (some (.mk .If (some if_clause) none)), st3)

def make_string_node : Nat → PSt → CRes (ASTNode × PSt)
  | 0, _ => .timeout
  | _ + 1, st => do
    let (tok, st1) ← pread_token st
    match tok.kind with
    | .String s => .ok (.mk (.String s) none none, st1)
    | _ => .panic

def parse_prt_item : Nat → PSt → CRes (ASTNode × PSt)
  | 0, _ => .timeout
  | f + 1, st =>
    match st.next_token.kind with
    | .String _ => do
      let (node, st1) ← make_string_node f st
      .ok (.mk .Prts (some node) none, st1)
    | _ => do
      let (node, st1) ← parse_expr f st
      .ok (.mk .Prti (some node) none, st1)

def parsePrtListGo : Nat → PSt → ASTNode → CRes (ASTNode × PSt)
  | 0, _, _ => .timeout
  | f + 1, st, lhs =>
    if st.next_token.kind = .Comma then do
      let (_, st1) ← pread_token st
      let (node, st2) ← parse_prt_item f st1
      parsePrtListGo f st2 (.mk .Sequence (some lhs) (some node))
    else .ok (lhs, st)

def parse_prt_list : Nat → PSt → CRes (ASTNode × PSt)
  | 0, _ => .timeout
  | f + 1, st => do
    let (node, st1) ← parse_prt_item f st
    parsePrtListGo f st1 (.mk .Sequence none (some node))

def parse_print_stmt : Nat → PSt → CRes (ASTNode × PSt)
  | 0, _ => .timeout
  | f + 1, st =>
    if st.next_token.kind ≠ .KeywordPrint then .err ⟨.SyntaxError, "\"print\" is expected."⟩
    else do
      let (_, st1) ← pread_token st
      if st1.next_token.kind ≠ .LeftParen then .err ⟨.SyntaxError, "'(' is expected."⟩
      else do
        let (_, st2) ← pread_token st1
        let (node, st3) ← parse_prt_list f st2
        if st3.next_token.kind ≠ .RightParen then .err ⟨.SyntaxError, "')' is expected."⟩
        else do
          let (_, st4) ← pread_token st3
          if st4.next_token.kind ≠ .Semicolon then .err ⟨.SyntaxError, "';' is expected."⟩
          else do
            let (_, st5) ← pread_token st4
            .ok (node, st5)

def parse_putc_stmt : Nat → PSt → CRes (ASTNode × PSt)
  | 0, _ => .timeout
  | f + 1, st =>
    if st.next_token.kind ≠ .KeywordPutc then .err ⟨.SyntaxError, "\"putc\" is expected."⟩
    else do
      let (_, st1) ← pread_token st
      let (lhs, st2) ← parse_paren_expr f st1
      if st2.next_token.kind ≠ .Semicolon then .err ⟨.SyntaxError, "';' is expected."⟩
      else do
        let (_, st3) ← pread_token st2
        .ok (.mk .Prtc (some lhs) none, st3)

def parse_stmt : Nat → PSt → CRes (ASTNode × PSt)
  | 0, _ => .timeout
  | f + 1, st =>
    match st.next_token.kind with
    | .Semicolon => do
      let (_, st1) ← pread_token st
      .ok (.mk .Sequence none none, st1)
    | .Identifier _ => parse_assign_stmt f st
    | .KeywordWhile => parse_while_stmt f st
    | .KeywordIf => parse_if_stmt f st
    | .KeywordPrint => parse_print_stmt f st
    | .KeywordPutc => parse_putc_stmt f st
    | .LeftBrace => do
      let (_, st1) ← pread_token st
      let (node, st2) ← parse_stmt_list f st1
      if st2.next_token.kind ≠ .RightBrace then .err ⟨.SyntaxError, "'\x7d' is expected."⟩
      else do
        let (_, st3) ← pread_token st2
        .ok (node, st3)
    | _ => .err ⟨.SyntaxError, "unexpected token: " ++ String.mk (tokenDebug st.next_token)⟩

def parseStmtListGo : Nat → PSt → ASTNode → CRes (ASTNode × PSt)
  | 0, _, _ => .timeout
  | f + 1, st, acc =>
    if stmtStartKind st.next_token.kind then do
      let (s, st1) ← parse_stmt f st
      parseStmtListGo f st1 (.mk .Sequence (some acc) (some s))
    else .ok (acc, st)

def parse_stmt_list : Nat → PSt → CRes (ASTNode × PSt)
  | 0, _ => .timeout
  | f + 1, st =>
    if stmtStartKind st.next_token.kind then do
      let (s, st1) ← parse_stmt f st
      parseStmtListGo f st1 (.mk .Sequence none (some s))
    else .ok (.mk .Sequence none none, st)

end

/-- `SyntaxAnalyzer::parse`: an empty token iterator yields the empty
`Sequence`; otherwise parse a statement list starting from the first
token. -/
def parse (tokens : List Token) : CRes ASTNode :=
  match tokens with
  | [] => .ok (.mk .Sequence none none)
  | t :: rest => do
    let (node, _) ← parse_stmt_list ((tokens.length + 2) * 64) ⟨rest, t⟩
    .ok node

/-! ## AST interpreter (`ast_interpreter/src/lib.rs`) -/

inductive Value
  | Integer (i : Int)
  | String (s : List Char)
  deriving DecidableEq

/-- The interpreter's global environment (`HashMap<&str, Value>`):
modelled as an association list where insertion conses and lookup takes
the first match, which matches insert-overwrite semantics. -/
abbrev Env := List (List Char × Value)

def envLookup (env : Env) (name : List Char) : Option Value :=
  match env with
  | [] => none
  | (n, v) :: rest => if n = name then some v else envLookup rest name

def envInsert (env : Env) (name : List Char) (v : Value) : Env := (name, v) :: env

/-- Result of a run of the AST interpreter; errors and panics carry the
output written to the sink before the failure. -/
inductive IRes
  | ok (env : Env) (out : List Char) (val : Option Value)
  | err (e : CompileError) (out : List Char)
  | panic (out : List Char)
  | timeout
  deriving DecidableEq

/-- Rust `std::char::from_u32`. -/
def charFromU32 (u : Nat) : Option Char :=
  if u < 0xd800 ∨ (0xe000 ≤ u ∧ u < 0x110000) then some (Char.ofNat u) else none

/-- The integer-by-integer arm of `interpret_binary_op`.  `Divide` and
`Mod` trap (panic) on a zero divisor per Rust integer division;
overflow of the remaining operators wraps. -/
def evalBinary (k : NodeKind) (lop rop : Int) : CRes Int :=
  match k with
  | .Multiply => .ok (wmul lop rop)
  | .Divide =>
    match rustDiv lop rop with
    | some v => .ok v
    | none => .panic
  | .Mod =>
    match rustRem lop rop with
    | some v => .ok v
    | none => .panic
  | .Add => .ok (wadd lop rop)
  | .Subtract => .ok (wsub lop rop)
  | .Less => .ok (if lop < rop then 1 else 0)
  | .LessEqual => .ok (if lop ≤ rop then 1 else 0)
  | .Greater => .ok (if lop > rop then 1 else 0)
  | .GreaterEqual => .ok (if lop ≥ rop then 1 else 0)
  | .Equal => .ok (if lop = rop then 1 else 0)
  | .NotEqual => .ok (if lop ≠ rop then 1 else 0)
  | .And => .ok (if lop ≠ 0 ∧ rop ≠ 0 then 1 else 0)
  | .Or => .ok (if lop ≠ 0 ∨ rop ≠ 0 then 1 else 0)
  | _ => .err ⟨.InterpretationError, "Unknown Node."⟩

def isBinaryKind : NodeKind → Bool
  | .Multiply | .Divide | .Mod | .Add | .Subtract
  | .Less | .LessEqual | .Greater | .GreaterEqual
  | .Equal | .NotEqual | .And | .Or => true
  | _ => false

/-- `ASTInterpreter::interpret_body`, with fuel (the `While` arm and
every recursive descent consume one unit). -/
def interp : Nat → Env → List Char → ASTNode → IRes
  | 0, _, _, _ => .timeout
  | f + 1, env, out, node =>
    match node.kind with
    | .Sequence =>
      match (match node.lhs with
             | some l => interp f env out l
             | none => .ok env out none) with
      | .ok env1 out1 _ =>
        (match node.rhs with
         | some r =>
           match interp f env1 out1 r with
           | .ok env2 out2 _ => .ok env2 out2 none
           | rr => rr
         | none => .ok env1 out1 none)
      | rr => rr
    | .Assign =>
      match node.lhs with
      | none => .panic out
      | some variableNode =>
        match node.rhs with
        | none => .panic out
        | some rhs =>
          match interp f env out rhs with
          | .ok env1 out1 v =>
            (match v with
             | none => .panic out1
             | some value =>
               match variableNode.kind with
               | .Identifier identifier => .ok (envInsert env1 identifier value) out1 none
               | _ => .err ⟨.InterpretationError, "Identifier is expected."⟩ out1)
          | r => r
    | .Negate =>
      match node.lhs with
      | none => .panic out
      | some operand =>
        match interp f env out operand with
        | .ok env1 out1 v =>
          (match v with
           | none => .panic out1
           | some (.Integer val) => .ok env1 out1 (some (.Integer (wneg val)))
           | some (.String _) => .err ⟨.InterpretationError, "Integer value is expected"⟩ out1)
        | r => r
    | .Not =>
      match node.lhs with
      | none => .panic out
      | some operand =>
        match interp f env out operand with
        | .ok env1 out1 v =>
          (match v with
           | none => .panic out1
           | some (.Integer val) =>
             .ok env1 out1 (some (.Integer (if val = 0 then 1 else 0)))
           | some (.String _) => .err ⟨.InterpretationError, "Integer value is expected"⟩ out1)
        | r => r
    | .If =>
      match node.lhs with
      | none => .panic out
      | some cond =>
        match interp f env out cond with
        | .ok env1 out1 cv =>
          (match cv with
           | none => .panic out1
           | some condition =>
             match node.rhs with
             | none => .panic out1
             | some statement_node =>
               if condition ≠ .Integer 0 then
                 match statement_node.lhs with
                 | none => .panic out1
                 | some thenB =>
                   match interp f env1 out1 thenB with
                   | .ok env2 out2 _ => .ok env2 out2 none
                   | r => r
               else
                 match statement_node.rhs with
                 | some elseB =>
                   match interp f env1 out1 elseB with
                   | .ok env2 out2 _ => .ok env2 out2 none
                   | r => r
                 | none => .ok env1 out1 none)
        | r => r
    | .While =>
      match node.lhs with
      | none => .panic out
      | some condition =>
        match node.rhs with
        | none => .panic out
        | some statement =>
          match interp f env out condition with
          | .ok env1 out1 cv =>
            if cv ≠ some (Value.Integer 0) then
              match interp f env1 out1 statement with
              | .ok env2 out2 _ => interp f env2 out2 node
              | r => r
            else .ok env1 out1 none
          | r => r
    | .Identifier value =>
      match envLookup env value with
      | some v => .ok env out (some v)
      | none => .panic out
    | .Prtc =>
      match node.lhs with
      | none => .panic out
      | some child =>
        match interp f env out child with
        | .ok env1 out1 v =>
          (match v with
           | none => .panic out1
           | some (.Integer i) =>
             match charFromU32 (toU32 i) with
             | some c => .ok env1 (out1 ++ [c]) none
             | none => .err ⟨.InterpretationError, "non-integer value appeared."⟩ out1
           | some (.String _) => .err ⟨.InterpretationError, "integer is expected."⟩ out1)
        | r => r
    | .Prti =>
      match node.lhs with
      | none => .panic out
      | some child =>
        match interp f env out child with
        | .ok env1 out1 v =>
          (match v with
           | none => .panic out1
           | some (.Integer i) => .ok env1 (out1 ++ intToChars i) none
           | some (.String _) => .err ⟨.InterpretationError, "integet is expected."⟩ out1)
        | r => r
    | .Prts =>
      match node.lhs with
      | none => .panic out
      | some child =>
        match interp f env out child with
        | .ok env1 out1 v =>
          (match v with
           | none => .panic out1
           | some (.String s) => .ok env1 (out1 ++ s) none
           | some (.Integer _) => .err ⟨.InterpretationError, "string is expected."⟩ out1)
        | r => r
    | .String s => .ok env out (some (.String s))
    | .Integer v => .ok env out (some (.Integer v))
    | .None => .err ⟨.InterpretationError, "unknown node."⟩ out
    | k =>
      -- the thirteen binary-operator kinds
      match node.lhs with
      | none => .panic out
      | some l =>
        match interp f env out l with
        | .ok env1 out1 lv =>
          (match lv with
           | none => .panic out1
           | some loperand =>
             match node.rhs with
             | none => .panic out1
             | some r =>
               match interp f env1 out1 r with
               | .ok env2 out2 rv =>
                 (match rv with
                  | none => .panic out2
                  | some roperand =>
                    match loperand with
                    | .Integer lop =>
                      (match roperand with
                       | .Integer rop =>
                         match evalBinary k lop rop with
                         | .ok res => .ok env2 out2 (some (.Integer res))
                         | .err e => .err e out2
                         | .panic => .panic out2
                         | .timeout => .timeout
                       | .String _ =>
                         .err ⟨.InterpretationError, "Integer value is expected"⟩ out2)
                    | .String _ =>
                      .err ⟨.InterpretationError, "Integer value is expected"⟩ out2)
               | rr => rr)
        | rr => rr

/-- `ASTInterpreter::interpret`: run on an empty environment. -/
def interpret (fuel : Nat) (node : ASTNode) : IRes := interp fuel [] [] node

/-! ## Code generator (`code_generator/src/lib.rs`, `instruction.rs`) -/

inductive InstructionKind
  | Fetch (v : Nat)
  | Store (v : Nat)
  | Push (v : Int)
  | Jump (v : Int)
  | Jz (v : Int)
  | Add | Sub | Mul | Div | Mod
  | Lt | Gt | Le | Ge | Eq | Ne
  | And | Or | Neg | Not
  | Prtc | Prti | Prts | Halt
  deriving DecidableEq

structure Instruction where
  kind : InstructionKind
  address : Nat
  deriving DecidableEq

/-- The absolute-target cross-check printed by jump serialisation:
`(self.address + 1).wrapping_add(val as u32)`. -/
def jmpAbs (address : Nat) (v : Int) : Nat := (address + 1 + toU32 v) % 2 ^ 32

/-- `impl fmt::Display for Instruction`. -/
def instructionDisplay (i : Instruction) : List Char :=
  let a := natToChars i.address
  match i.kind with
  | .Fetch v => a ++ " fetch [".data ++ natToChars v ++ [']']
  | .Store v => a ++ " store [".data ++ natToChars v ++ [']']
  | .Push v => a ++ " push ".data ++ intToChars v
  | .Jump v => a ++ " jmp (".data ++ intToChars v ++ ") ".data ++ natToChars (jmpAbs i.address v)
  | .Jz v => a ++ " jz (".data ++ intToChars v ++ ") ".data ++ natToChars (jmpAbs i.address v)
  | .Add => a ++ " add".data
  | .Sub => a ++ " sub".data
  | .Mul => a ++ " mul".data
  | .Div => a ++ " div".data
  | .Mod => a ++ " mod".data
  | .Lt => a ++ " lt".data
  | .Gt => a ++ " gt".data
  | .Le => a ++ " le".data
  | .Ge => a ++ " ge".data
  | .Eq => a ++ " eq".data
  | .Ne => a ++ " ne".data
  | .And => a ++ " and".data
  | .Or => a ++ " or".data
  | .Neg => a ++ " neg".data
  | .Not => a ++ " not".data
  | .Prtc => a ++ " prtc".data
  | .Prti => a ++ " prti".data
  | .Prts => a ++ " prts".data
  | .Halt => a ++ " halt".data

/-- Code-generator state: `data_addr` (`HashMap<&str, u32>` with
addresses assigned as the map size at insertion — modelled as the list
of names in insertion order, the address being the index), the string
pool, the byte counter `pc`, and the emitted instruction list. -/
structure CGSt where
  data_addr : List (List Char)
  string_pool : List (List Char)
  pc : Nat
  instructions : List Instruction
  deriving DecidableEq

def listIndexOf (l : List (List Char)) (x : List Char) : Option Nat :=
  match l with
  | [] => none
  | y :: t => if y = x then some 0 else (listIndexOf t x).map (· + 1)

/-- `CodeGenerator::backpatch`: rewrite the relative immediate of the
jump at `idx` to point to the current `pc`; the offset is measured from
`address + 1`, the byte after the opcode.  A non-jump instruction at
`idx` is `unreachable!()`. -/
def backpatch (st : CGSt) (idx : Nat) : CRes CGSt :=
  match st.instructions.get? idx with
  | some i =>
    match i.kind with
    | .Jump _ =>
      .ok { st with instructions :=
        st.instructions.set idx ⟨.Jump (wrap32 ((st.pc : Int) - ((i.address : Int) + 1))), i.address⟩ }
    | .Jz _ =>
      .ok { st with instructions :=
        st.instructions.set idx ⟨.Jz (wrap32 ((st.pc : Int) - ((i.address : Int) + 1))), i.address⟩ }
    | _ => .panic
  | none => .panic

/-- `CodeGenerator::intern_string`: first-use interning into the pool. -/
def intern_string (st : CGSt) (s : List Char) : Nat × CGSt :=
  match listIndexOf st.string_pool s with
  | some i => (i, st)
  | none => (st.string_pool.length, { st with string_pool := st.string_pool ++ [s] })

/-- `CodeGenerator::intern`: address of a name in `data_addr`, assigned
as the map size on first use. -/
def intern (st : CGSt) (name : List Char) : Nat × CGSt :=
  match listIndexOf st.data_addr name with
  | some a => (a, st)
  | none => (st.data_addr.length, { st with data_addr := st.data_addr ++ [name] })

def emit (st : CGSt) (k : InstructionKind) (width : Nat) : CGSt :=
  { st with instructions := st.instructions ++ [⟨k, st.pc⟩], pc := st.pc + width }

/-- The one-byte opcode for a binary operator node
(`generate_binary_op`). -/
def binaryOpInstruction : NodeKind → Option InstructionKind
  | .Multiply => some .Mul
  | .Divide => some .Div
  | .Mod => some .Mod
  | .Add => some .Add
  | .Subtract => some .Sub
  | .Less => some .Lt
  | .LessEqual => some .Le
  | .Greater => some .Gt
  | .GreaterEqual => some .Ge
  | .Equal => some .Eq
  | .NotEqual => some .Ne
  | .And => some .And
  | .Or => some .Or
  | _ => none

/-- `CodeGenerator::generate_body` with the per-kind emitters
(`generate_fetch`, `generate_integer`, `generate_sequence`,
`generate_if`, `generate_while`, `generate_prts`, `generate_prtc`,
`generate_prti`, `generate_assign`, `generate_unary_op`,
`generate_binary_op`) inlined as match arms; `unwrap` on a missing
child is a panic. -/
def generate_body : ASTNode → CGSt → CRes CGSt
  | .mk k lhs rhs, st =>
    match k with
    | .Identifier identifier =>
      -- generate_fetch
      match listIndexOf st.data_addr identifier with
      | some addr => .ok (emit st (.Fetch addr) 5)
      | none =>
        .err ⟨.CodeGenerationError, "unknown identifier: " ++ String.mk identifier⟩
    | .Integer value =>
      -- generate_integer
      .ok (emit st (.Push value) 5)
    | .Sequence => do
      -- generate_sequence
      let st1 ← match lhs with
                | some l => generate_body l st
                | none => pure st
      match rhs with
      | some r => generate_body r st1
      | none => pure st1
    | .If =>
      -- generate_if
      (match lhs with
       | none => .panic
       | some cond => do
         let sA ← generate_body cond st
         let jump_if_clause_idx := sA.instructions.length
         let sB := emit sA (.Jz 0) 5
         match rhs with
         | none => .panic
         | some (.mk _ bodyLhs bodyRhs) =>
           match bodyLhs with
           | none => .panic
           | some thenB => do
             let sC ← generate_body thenB sB
             match bodyRhs with
             | some elseB => do
               let jump_instruction_idx := sC.instructions.length
               let sD := emit sC (.Jump 0) 5
               let sE ← backpatch sD jump_if_clause_idx
               let sF ← generate_body elseB sE
               backpatch sF jump_instruction_idx
             | none => backpatch sC jump_if_clause_idx)
    | .While =>
      -- generate_while
      (match lhs with
       | none => .panic
       | some cond => do
         let entry_address := st.pc
         let sA ← generate_body cond st
         let entry_index := sA.instructions.length
         let sB := emit sA (.Jz 0) 5
         match rhs with
         | none => .panic
         | some body => do
           let sC ← generate_body body sB
           let sD := emit sC (.Jump (wrap32 ((entry_address : Int) - ((sC.pc : Int) + 1)))) 5
           backpatch sD entry_index)
    | .Prts =>
      -- generate_prts
      (match lhs with
       | none => .panic
       | some string_node =>
         match string_node.kind with
         | .String s =>
           let (addr, st1) := intern_string st s
           let st2 := emit st1 (.Push (addr : Int)) 5
           .ok (emit st2 .Prts 1)
         | _ => .err ⟨.CodeGenerationError, "string expected"⟩)
    | .Prtc =>
      -- generate_prtc
      (match lhs with
       | none => .panic
       | some child => do
         let st1 ← generate_body child st
         .ok (emit st1 .Prtc 1))
    | .Prti =>
      -- generate_prti
      (match lhs with
       | none => .panic
       | some child => do
         let st1 ← generate_body child st
         .ok (emit st1 .Prti 1))
    | .Assign =>
      -- generate_assign
      (match lhs with
       | none => .panic
       | some identifier_node =>
         match rhs with
         | none => .panic
         | some r => do
           let st1 ← generate_body r st
           match identifier_node.kind with
           | .Identifier identifier =>
             let (addr, st2) := intern st1 identifier
             .ok (emit st2 (.Store addr) 5)
           | _ => .err ⟨.CodeGenerationError, "identifier is expected"⟩)
    | .Negate =>
      -- generate_unary_op
      (match lhs with
       | none => .panic
       | some child => do
         let st1 ← generate_body child st
         .ok (emit st1 .Neg 1))
    | .Not =>
      (match lhs with
       | none => .panic
       | some child => do
         let st1 ← generate_body child st
         .ok (emit st1 .Not 1))
    | .String _ => .err ⟨.CodeGenerationError, "unknown instruction"⟩
    | .None => .err ⟨.CodeGenerationError, "unknown instruction"⟩
    | k2 =>
      -- generate_binary_op (the thirteen binary kinds)
      (match lhs with
       | none => .panic
       | some l =>
         match rhs with
         | none => .panic
         | some r => do
           let st1 ← generate_body l st
           let st2 ← generate_body r st1
           match binaryOpInstruction k2 with
           | some ik => .ok (emit st2 ik 1)
           | none => .err ⟨.CodeGenerationError, "invalid binary operator"⟩)

/-- `CodeGenerator::generate` up to the final instruction list: run
`generate_body` from the empty state and append `HALT`. -/
def generateProg (ast : ASTNode) : CRes CGSt := do
  let g ← generate_body ast ⟨[], [], 0, []⟩
  .ok { g with instructions := g.instructions ++ [⟨.Halt, g.pc⟩] }

/-- The serialised text of the generated program: header line, the
Debug-escaped string pool (when nonempty), then the instruction
listing joined with newlines. -/
def generateText (g : CGSt) : List Char :=
  "Datasize: ".data ++ natToChars g.data_addr.length ++
    " Strings: ".data ++ natToChars g.string_pool.length ++ ['\n'] ++
  (if g.string_pool.length > 0 then
     joinSep ['\n'] (g.string_pool.map quoteEscape) ++ ['\n']
   else []) ++
  joinSep ['\n'] (g.instructions.map instructionDisplay)

/-- `CodeGenerator::generate`: the full textual output. -/
def generate (ast : ASTNode) : CRes (List Char) := do
  let g ← generateProg ast
  .ok (generateText g)

/-! ## Virtual machine (`virtual_machine_interpreter/src/lib.rs`) -/

def FETCH : Nat := 0
def STORE : Nat := 1
def PUSH : Nat := 2
def ADD : Nat := 3
def SUB : Nat := 4
def MUL : Nat := 5
def DIV : Nat := 6
def MOD : Nat := 7
def LT : Nat := 8
def GT : Nat := 9
def LE : Nat := 10
def GE : Nat := 11
def EQ : Nat := 12
def NE : Nat := 13
def AND : Nat := 14
def OR : Nat := 15
def NEG : Nat := 16
def NOT : Nat := 17
def JMP : Nat := 18
def JZ : Nat := 19
def PRTC : Nat := 20
def PRTS : Nat := 21
def PRTI : Nat := 22
def HALT : Nat := 23

def STACK_SIZE : Nat := 1000

/-- Assembled program: code image, string pool, `data_size` header
field. -/
structure VMProg where
  byte_code : List Nat
  string_pool : List (List Char)
  data_size : Nat
  deriving DecidableEq

/-- Execution state: `pc`, the evaluation stack (list head = top of
stack, standing for `stack[0..sp]` of the fixed 1000-slot array), the
data area, and the bytes written to the output sink. -/
structure VMSt where
  pc : Nat
  stack : List Int
  data : List Int
  out : List Char
  deriving DecidableEq

/-- `get_integer`: read a 4-byte immediate at `pc`; slicing outside the
code image is a panic (modelled `none`). -/
def get_integer (P : VMProg) (pc : Nat) : Option Int :=
  match P.byte_code.get? pc, P.byte_code.get? (pc + 1),
        P.byte_code.get? (pc + 2), P.byte_code.get? (pc + 3) with
  | some b0, some b1, some b2, some b3 => some (dec4 b0 b1 b2 b3)
  | _, _, _, _ => none

/-- `self.pc.wrapping_add(offset as usize)`: sign-extending cast of the
`i32` offset to 64-bit followed by wrapping addition. -/
def pcJump (pc : Nat) (offset : Int) : Nat :=
  (((pc : Int) + offset) % (2 ^ 64 : Int)).toNat

inductive StepRes
  | next (st : VMSt)
  | halt (st : VMSt)
  | err (e : CompileError) (out : List Char)
  | panic (out : List Char)
  deriving DecidableEq

/-- One iteration of the `execute` dispatch loop.  Indexing outside the
code image, the stack (1000 slots), the data area or the string pool is
a Rust panic. -/
def vmStep (P : VMProg) (st : VMSt) : StepRes :=
  match P.byte_code.get? st.pc with
  | none => .panic st.out
  | some opcode =>
    let pc1 := st.pc + 1
    if opcode = FETCH then
      match get_integer P pc1 with
      | none => .panic st.out
      | some index =>
        if index < 0 then .panic st.out
        else
          match st.data.get? index.toNat with
          | none => .panic st.out
          | some v =>
            if st.stack.length < STACK_SIZE then
              .next { st with stack := v :: st.stack, pc := pc1 + 4 }
            else .panic st.out
    else if opcode = STORE then
      match st.stack with
      | [] => .panic st.out
      | v :: rest =>
        match get_integer P pc1 with
        | none => .panic st.out
        | some index =>
          if index < 0 then .panic st.out
          else if index.toNat < st.data.length then
            .next { st with stack := rest, data := st.data.set index.toNat v, pc := pc1 + 4 }
          else .panic st.out
    else if opcode = PUSH then
      match get_integer P pc1 with
      | none => .panic st.out
      | some v =>
        if st.stack.length < STACK_SIZE then
          .next { st with stack := v :: st.stack, pc := pc1 + 4 }
        else .panic st.out
    else if opcode = JMP then
      match get_integer P pc1 with
      | none => .panic st.out
      | some offset => .next { st with pc := pcJump pc1 offset }
    else if opcode = JZ then
      match st.stack with
      | [] => .panic st.out
      | condition :: rest =>
        if condition = 0 then
          match get_integer P pc1 with
          | none => .panic st.out
          | some offset => .next { st with stack := rest, pc := pcJump pc1 offset }
        else .next { st with stack := rest, pc := pc1 + 4 }
    else if opcode = ADD then
      match st.stack with
      | operand1 :: operand0 :: rest =>
        .next { st with stack := wadd operand0 operand1 :: rest, pc := pc1 }
      | _ => .panic st.out
    else if opcode = SUB then
      match st.stack with
      | operand1 :: operand0 :: rest =>
        .next { st with stack := wsub operand0 operand1 :: rest, pc := pc1 }
      | _ => .panic st.out
    else if opcode = MUL then
      match st.stack with
      | operand1 :: operand0 :: rest =>
        .next { st with stack := wmul operand0 operand1 :: rest, pc := pc1 }
      | _ => .panic st.out
    else if opcode = DIV then
      match st.stack with
      | operand1 :: operand0 :: rest =>
        match rustDiv operand0 operand1 with
        | some v => .next { st with stack := v :: rest, pc := pc1 }
        | none => .panic st.out
      | _ => .panic st.out
    else if opcode = MOD then
      match st.stack with
      | operand1 :: operand0 :: rest =>
        match rustRem operand0 operand1 with
        | some v => .next { st with stack := v :: rest, pc := pc1 }
        | none => .panic st.out
      | _ => .panic st.out
    else if opcode = LT then
      match st.stack with
      | operand1 :: operand0 :: rest =>
        .next { st with stack := (if operand0 < operand1 then 1 else 0) :: rest, pc := pc1 }
      | _ => .panic st.out
    else if opcode = GT then
      match st.stack with
      | operand1 :: operand0 :: rest =>
        .next { st with stack := (if operand0 > operand1 then 1 else 0) :: rest, pc := pc1 }
      | _ => .panic st.out
    else if opcode = LE then
      match st.stack with
      | operand1 :: operand0 :: rest =>
        .next { st with stack := (if operand0 ≤ operand1 then 1 else 0) :: rest, pc := pc1 }
      | _ => .panic st.out
    else if opcode = GE then
      match st.stack with
      | operand1 :: operand0 :: rest =>
        .next { st with stack := (if operand0 ≥ operand1 then 1 else 0) :: rest, pc := pc1 }
      | _ => .panic st.out
    else if opcode = EQ then
      match st.stack with
      | operand1 :: operand0 :: rest =>
        .next { st with stack := (if operand0 = operand1 then 1 else 0) :: rest, pc := pc1 }
      | _ => .panic st.out
    else if opcode = NE then
      match st.stack with
      | operand1 :: operand0 :: rest =>
        .next { st with stack := (if operand0 ≠ operand1 then 1 else 0) :: rest, pc := pc1 }
      | _ => .panic st.out
    else if opcode = AND then
      match st.stack with
      | operand1 :: operand0 :: rest =>
        .next { st with stack := (if operand0 ≠ 0 ∧ operand1 ≠ 0 then 1 else 0) :: rest, pc := pc1 }
      | _ => .panic st.out
    else if opcode = OR then
      match st.stack with
      | operand1 :: operand0 :: rest =>
        .next { st with stack := (if operand0 ≠ 0 ∨ operand1 ≠ 0 then 1 else 0) :: rest, pc := pc1 }
      | _ => .panic st.out
    else if opcode = NEG then
      match st.stack with
      | top :: rest => .next { st with stack := wneg top :: rest, pc := pc1 }
      | _ => .panic st.out
    else if opcode = NOT then
      match st.stack with
      | top :: rest =>
        .next { st with stack := (if top = 0 then 1 else 0) :: rest, pc := pc1 }
      | _ => .panic st.out
    else if opcode = PRTC then
      match st.stack with
      | v :: rest =>
        match charFromU32 (toU32 v) with
        | some c => .next { st with stack := rest, out := st.out ++ [c], pc := pc1 }
        | none =>
          .err ⟨.VirtualMachineError,
            "illegal character value: " ++ String.mk (intToChars v)⟩ st.out
      | _ => .panic st.out
    else if opcode = PRTI then
      match st.stack with
      | v :: rest => .next { st with stack := rest, out := st.out ++ intToChars v, pc := pc1 }
      | _ => .panic st.out
    else if opcode = PRTS then
      match st.stack with
      | v :: rest =>
        if v < 0 then .panic st.out
        else
          match P.string_pool.get? v.toNat with
          | some s => .next { st with stack := rest, out := st.out ++ s, pc := pc1 }
          | none => .panic st.out
      | _ => .panic st.out
    else if opcode = HALT then .halt { st with pc := pc1 }
    else
      .err ⟨.VirtualMachineError,
        "illegal instruction: " ++ String.mk (natToChars opcode)⟩ st.out

/-- Result of a VM run; failures carry the output written before
them. -/
inductive VRes
  | ok (out : List Char)
  | err (e : CompileError) (out : List Char)
  | panic (out : List Char)
  | timeout
  deriving DecidableEq

/-- The `execute` loop, fuelled. -/
def vmRun : Nat → VMProg → VMSt → VRes
  | 0, _, _ => .timeout
  | f + 1, P, st =>
    match vmStep P st with
    | .next st1 => vmRun f P st1
    | .halt st1 => .ok st1.out
    | .err e o => .err e o
    | .panic o => .panic o

/-- `read_header`: expect exactly four whitespace-separated fields and
parse fields 1 and 3 as sizes. -/
def read_header (line : List Char) : CRes (Nat × Nat) :=
  match splitWs (trimChars line) with
  | [_, s1, _, s3] =>
    match parseUsize s1 with
    | none => .err ⟨.VirtualMachineError, "invalid data size"⟩
    | some data_size =>
      match parseUsize s3 with
      | none => .err ⟨.VirtualMachineError, "invalid string data size"⟩
      | some string_size => .ok (data_size, string_size)
  | _ => .err ⟨.VirtualMachineError, "invalid datasize format."⟩

/-- `VirtualMachineInterpreter::read_string` (pool lines). -/
def vm_read_string (s : List Char) : CRes (List Char) :=
  match s with
  | '"' :: rest =>
    match scanQuoted rest with
    | .ok content => .ok content
    | .badEscape => .err ⟨.VirtualMachineError, "invalid escape"⟩
    | .noClose => .err ⟨.VirtualMachineError, "\" not found"⟩
  | _ => .err ⟨.VirtualMachineError, "invalid string"⟩

/-- `read_integer`: parse an `i32` and append its native-endian bytes. -/
def read_integer (s : List Char) : CRes (List Nat) :=
  match parseI32 s with
  | some val => .ok (enc4 val)
  | none =>
    .err ⟨.VirtualMachineError, "cannot convert to integer: " ++ String.mk s⟩

/-- Strip the wrapping characters of a `[n]`/`(n)` operand
(`&v[1..v.len() - 1]`); a one-character operand is a slicing panic. -/
def stripEnds (v : List Char) : CRes (List Char) :=
  if v.length < 2 then .panic else .ok (v.drop 1).dropLast

/-- `read_instruction`: one instruction line to its bytes. -/
def read_instruction (s : List Char) : CRes (List Nat) :=
  match splitWs s with
  | [] => .panic
  | [_] => .err ⟨.VirtualMachineError, "invalid code"⟩
  | _ :: m1 :: rest =>
    if m1 = "fetch".data then do
      match rest with
      | [] => .panic
      | v :: _ => do
        let sv ← stripEnds v
        let bytes ← read_integer sv
        .ok (FETCH :: bytes)
    else if m1 = "store".data then do
      match rest with
      | [] => .panic
      | v :: _ => do
        let sv ← stripEnds v
        let bytes ← read_integer sv
        .ok (STORE :: bytes)
    else if m1 = "push".data then do
      match rest with
      | [] => .panic
      | v :: _ => do
        let bytes ← read_integer v
        .ok (PUSH :: bytes)
    else if m1 = "jmp".data then do
      match rest with
      | [] => .panic
      | v :: _ => do
        let sv ← stripEnds v
        let bytes ← read_integer sv
        .ok (JMP :: bytes)
    else if m1 = "jz".data then do
      match rest with
      | [] => .panic
      | v :: _ => do
        let sv ← stripEnds v
        let bytes ← read_integer sv
        .ok (JZ :: bytes)
    else if m1 = "add".data then .ok [ADD]
    else if m1 = "sub".data then .ok [SUB]
    else if m1 = "mul".data then .ok [MUL]
    else if m1 = "div".data then .ok [DIV]
    else if m1 = "mod".data then .ok [ MOD ]
    else if m1 = "lt".data then .ok [LT]
    else if m1 = "gt".data then .ok [GT]
    else if m1 = "le".data then .ok [LE]
    else if m1 = "ge".data then .ok [GE]
    else if m1 = "eq".data then .ok [EQ]
    else if m1 = "ne".data then .ok [NE]
    else if m1 = "and".data then .ok [AND]
    else if m1 = "or".data then .ok [OR]
    else if m1 = "neg".data then .ok [NEG]
    else if m1 = "not".data then .ok [NOT]
    else if m1 = "prtc".data then .ok [PRTC]
    else if m1 = "prti".data then .ok [PRTI]
    else if m1 = "prts".data then .ok [PRTS]
    else if m1 = "halt".data then .ok [HALT]
    else .err ⟨.VirtualMachineError, "illegal instruction"⟩

/-- The pool-reading loop of `assemble`. -/
def readPool : Nat → List (List Char) → CRes (List (List Char) × List (List Char))
  | 0, ls => .ok ([], ls)
  | _ + 1, [] => .err ⟨.VirtualMachineError, "unexpected EOF"⟩
  | n + 1, l :: ls => do
    let s ← vm_read_string l
    let (pool, rest) ← readPool n ls
    .ok (s :: pool, rest)

/-- The instruction-reading loop of `assemble`: trim each line, skip
empty lines, append the bytes of the rest. -/
def readInstructions : List (List Char) → CRes (List Nat)
  | [] => .ok []
  | l :: ls =>
    let line := trimChars l
    if line.length = 0 then readInstructions ls
    else do
      let bytes ← read_instruction line
      let more ← readInstructions ls
      .ok (bytes ++ more)

/-- `VirtualMachineInterpreter::assemble`. -/
def assemble (lines : List (List Char)) : CRes VMProg :=
  match lines with
  | [] => .err ⟨.VirtualMachineError, "empty file"⟩
  | header :: rest => do
    let (data_size, string_size) ← read_header header
    let (pool, rest2) ← readPool string_size rest
    let code ← readInstructions rest2
    .ok ⟨code, pool, data_size⟩

/-- The initial VM state built by `assemble`: `pc = 0`, empty stack,
zero-initialised data area, empty output. -/
def vmInit (P : VMProg) : VMSt := ⟨0, [], List.replicate P.data_size 0, []⟩

/-- `VirtualMachineInterpreter::interpret`: assemble the text lines and
execute. -/
def vmInterpret (fuel : Nat) (lines : List (List Char)) : VRes :=
  match assemble lines with
  | .ok P => vmRun fuel P (vmInit P)
  | .err e => .err e []
  | .panic => .panic []
  | .timeout => .timeout

/-! ## Claims -/

/-- Claim C6: on empty input the pipeline succeeds end to end: the lexer
yields only the `EndOfInput` sentinel, the parser returns a `Sequence`
node with both children absent, the code generator produces the header
`Datasize: 0 Strings: 0` and a program whose only instruction is `HALT`,
and the VM assembles and runs that program returning success with no
output. -/
theorem C6_empty_input_pipeline :
    lexTokens "".data = .ok [⟨.EndOfInput, 1, 1⟩] ∧
    parse [⟨.EndOfInput, 1, 1⟩] = .ok (.mk .Sequence none none) ∧
    generateProg (.mk .Sequence none none) = .ok ⟨[], [], 0, [⟨.Halt, 0⟩]⟩ ∧
    generate (.mk .Sequence none none) = .ok "Datasize: 0 Strings: 0\n0 halt".data ∧
    vmInterpret 10 (linesOf "Datasize: 0 Strings: 0\n0 halt".data) = .ok [] := by
  refine ⟨by decide, by decide, by decide, by decide, by decide⟩

/-- Claim C3 (divergence): the token `Display` writes `1 1 Identifier
Op_multiply` for the `*` token and `1 1 String End_of_input` for the
sentinel, instead of the fixed bare kind names; `Token::from_line`
misreads the former as an `Identifier` token named `Op_multiply` and
rejects the latter with a `ReadError`, while the bare form of the
spec's list is read back as the `*` token. -/
theorem C3_token_display_uses_wrong_kind_names :
    tokenDisplay ⟨.OpMultiply, 1, 1⟩ = "1 1 Identifier Op_multiply".data ∧
    tokenDisplay ⟨.OpDivide, 1, 1⟩ = "1 1 Identifier Op_divide".data ∧
    tokenDisplay ⟨.OpMod, 1, 1⟩ = "1 1 Identifier Op_mod".data ∧
    tokenDisplay ⟨.OpAdd, 1, 1⟩ = "1 1 Identifier Op_add".data ∧
    tokenDisplay ⟨.OpSubtract, 1, 1⟩ = "1 1 Identifier Op_subtract".data ∧
    tokenDisplay ⟨.OpLess, 1, 1⟩ = "1 1 Identifier Op_less".data ∧
    tokenDisplay ⟨.OpLessEqual, 1, 1⟩ = "1 1 Identifier Op_lessequal".data ∧
    tokenDisplay ⟨.OpGreater, 1, 1⟩ = "1 1 Identifier Op_greater".data ∧
    tokenDisplay ⟨.EndOfInput, 1, 1⟩ = "1 1 String End_of_input".data ∧
    fromLine "1 1 Identifier Op_multiply".data = .ok ⟨.Identifier "Op_multiply".data, 1, 1⟩ ∧
    fromLine "1 1 String End_of_input".data = .err ⟨.ReadError, "'\"' is expected"⟩ ∧
    fromLine "1 1 Op_multiply".data = .ok ⟨.OpMultiply, 1, 1⟩ := by
  refine ⟨by decide, by decide, by decide, by decide, by decide, by decide, by decide,
    by decide, by decide, by decide, by decide, by decide⟩

/-- Claim C8 (divergence): reading an identifier with no binding in the
environment is `self.global[identifier]`, an indexing panic, not a
returned `InterpretationError`: evaluating the bare identifier `x` in
the empty environment panics, and so does interpreting the program
`print(x);`. -/
theorem C8_unbound_identifier_read_panics :
    interp 1 [] [] (.mk (.Identifier "x".data) none none) = .panic [] ∧
    interpret 3 (.mk .Prti (some (.mk (.Identifier "x".data) none none)) none) = .panic [] := by
  refine ⟨by decide, by decide⟩

/-- Claim C7 (amended): a `DIV` or `MOD` opcode whose popped right
operand (the top of the stack) is zero is a Rust panic — the division
`operand0 / operand1` is unguarded — not a returned
`VirtualMachineError`. -/
theorem C7_div_mod_by_zero_panics (P : VMProg) (st : VMSt) (a : Int) (rest : List Int)
    (hop : P.byte_code.get? st.pc = some DIV ∨ P.byte_code.get? st.pc = some MOD)
    (hstack : st.stack = 0 :: a :: rest) :
    vmStep P st = .panic st.out := by
  rcases hop with h | h <;>
  · simp only [List.get?_eq_getElem?] at h
    simp [vmStep, h, hstack, DIV, MOD, FETCH, STORE, PUSH, JMP, JZ, ADD, SUB, MUL,
      rustDiv, rustRem]

/-- Witness for C7: the concrete one-byte program `div` with stack
`[0, 1]` panics. -/
theorem C7_div_mod_by_zero_panics_witness :
    vmStep ⟨[6], [], 0⟩ ⟨0, [0, 1], [], []⟩ = .panic [] :=
  C7_div_mod_by_zero_panics ⟨[6], [], 0⟩ ⟨0, [0, 1], [], []⟩ 1 []
    (Or.inl (by decide)) (by decide)

/-- Counterexample to C7 as stated: the generated-form program
`push 1; push 0; div; halt` makes the VM panic (the process aborts on
the unguarded division), so the run does not fail with a returned
`VirtualMachineError`. -/
theorem C7_counterexample_div_zero_is_panic_not_error :
    vmInterpret 10 (linesOf "Datasize: 0 Strings: 0\n0 push 1\n5 push 0\n10 div\n11 halt".data)
      = .panic [] := by decide

/-- The result of running a child node in statement position: a
successful child's value is discarded (the statement yields no value);
any failure propagates.  (The shape shared by the `If` then/else and
statement-sequencing arms of `interp`.) -/
def IRes.asStmt : IRes → IRes
  | .ok env out _ => .ok env out none
  | r => r

/-- Chaining a child result into a continuation on success (the shape
of the `While` arm of `interp`). -/
def IRes.andThen (r : IRes) (k : Env → List Char → IRes) : IRes :=
  match r with
  | .ok env out _ => k env out
  | rr => rr

/-- Claim C10: `If` and `While` conditions are never type-checked: a
condition that evaluates to any value other than exactly `Integer 0` —
in particular any `String` value — is treated as true (the then-branch
is entered, the `While` body is evaluated), with no type-mismatch
error. -/
theorem C10_if_while_conditions_not_type_checked
    (f : Nat) (env env1 : Env) (out out1 : List Char) (cond : ASTNode) (v : Value)
    (hcond : interp f env out cond = .ok env1 out1 (some v)) (hv : v ≠ .Integer 0) :
    (∀ (k : NodeKind) (thenB : ASTNode) (els : Option ASTNode),
      interp (f + 1) env out (.mk .If (some cond) (some (.mk k (some thenB) els))) =
        (interp f env1 out1 thenB).asStmt) ∧
    (∀ body : ASTNode,
      interp (f + 1) env out (.mk .While (some cond) (some body)) =
        (interp f env1 out1 body).andThen fun env2 out2 =>
          interp f env2 out2 (.mk .While (some cond) (some body))) := by
  constructor
  · intro k thenB els
    simp only [interp, ASTNode.kind, ASTNode.lhs, ASTNode.rhs, hcond, IRes.asStmt]
    rw [if_pos hv]
  · intro body
    have hv2 : some v ≠ some (Value.Integer 0) := by simpa using hv
    simp only [interp, ASTNode.kind, ASTNode.lhs, ASTNode.rhs, hcond]
    rw [if_pos hv2]
    rcases interp f env1 out1 body with _ | _ | _ | _ <;> simp [IRes.andThen]

/-- Witness for C10: the string condition `"s"` is treated as true: the
`If` executes its then-branch (printing `7`), and the `While` enters
its body (whose `Prts` of an integer errors, ending the run with the
body's error rather than any condition type error). -/
theorem C10_if_while_conditions_not_type_checked_witness :
    interp 3 [] [] (.mk .If (some (.mk (.String "s".data) none none))
        (some (.mk .If (some (.mk .Prti (some (.mk (.Integer 7) none none)) none)) none))) =
      .ok [] "7".data none ∧
    interp 3 [] [] (.mk .While (some (.mk (.String "s".data) none none))
        (some (.mk .Prts (some (.mk (.Integer 7) none none)) none))) =
      .err ⟨.InterpretationError, "string is expected."⟩ [] := by
  constructor
  · have h := (C10_if_while_conditions_not_type_checked 2 [] [] [] []
      (.mk (.String "s".data) none none) (.String "s".data) (by decide) (by decide)).1
      .If (.mk .Prti (some (.mk (.Integer 7) none none)) none) none
    exact h.trans (by decide)
  · have h := (C10_if_while_conditions_not_type_checked 2 [] [] [] []
      (.mk (.String "s".data) none none) (.String "s".data) (by decide) (by decide)).2
      (.mk .Prts (some (.mk (.Integer 7) none none)) none)
    exact h.trans (by decide)

/-- Claim C9: lexing the character literal `'c'` (for any `c` other
than a quote, a backslash or a newline) yields an `Integer` token
carrying the code point of `c`; the escapes `\n` and `\\` are decoded
to their code points; and the empty literal, a multi-character literal,
an unrecognized escape, and end of input before the closing quote are
all lexer errors. -/
theorem C9_char_literal_lexing (c : Char)
    (h1 : c ≠ '\'') (h2 : c ≠ '\\') (h3 : c ≠ '\n') :
    lexTokens ['\'', c, '\''] =
      .ok [⟨.Integer (c.toNat : Int), 1, 1⟩, ⟨.EndOfInput, 1, 4⟩] ∧
    lexTokens "'\\n'".data = .ok [⟨.Integer 10, 1, 1⟩, ⟨.EndOfInput, 1, 5⟩] ∧
    lexTokens "'\\\\'".data = .ok [⟨.Integer 92, 1, 1⟩, ⟨.EndOfInput, 1, 5⟩] ∧
    lexTokens "''".data = .err ⟨.LexicalAnalyzerError, "Empty character constant"⟩ ∧
    lexTokens "'ab'".data = .err ⟨.LexicalAnalyzerError, "Multi-character constant."⟩ ∧
    lexTokens "'\\x'".data = .err ⟨.LexicalAnalyzerError, "Unknown escape sequence"⟩ ∧
    lexTokens "'a".data = .err ⟨.LexicalAnalyzerError, "unexpected EOI"⟩ := by
  have step : ∀ (f : Nat) (st : LexState) (acc : List Token) (tok : Token) (st2 : LexState),
      next_token (st.stream.length + 2) st = .ok (tok, st2) → ¬ tok.kind = .EndOfInput →
      lexTokensGo (f + 1) st acc = lexTokensGo f st2 (acc ++ [tok]) := by
    intro f st acc tok st2 h hne
    rw [lexTokensGo, h]
    simp [hne]
  have stop : ∀ (f : Nat) (st : LexState) (acc : List Token) (tok : Token) (st2 : LexState),
      next_token (st.stream.length + 2) st = .ok (tok, st2) → tok.kind = .EndOfInput →
      lexTokensGo (f + 1) st acc = .ok (acc ++ [tok]) := by
    intro f st acc tok st2 h he
    rw [lexTokensGo, h]
    simp [he]
  refine ⟨?_, by decide, by decide, by decide, by decide, by decide, by decide⟩
  have hread : read_char_literal ⟨some '\'', [c, '\''], 1, 1⟩ 1 1 =
      .ok (⟨.Integer (c.toNat : Int), 1, 1⟩, ⟨none, [], 1, 4⟩) := by
    rw [read_char_literal.eq_def]
    have hrc : readChar ⟨some '\'', [c, '\''], 1, 1⟩ = ⟨some c, ['\''], 1, 2⟩ := rfl
    rw [hrc]
    dsimp only
    split
    · next heq => exact absurd (by simpa using heq) h1
    · next heq => exact absurd (by simpa using heq) h3
    · next c2 _ _ heq =>
      have hc2 : c2 = c := by simpa using heq.symm
      subst hc2
      rw [if_neg h2]
      simp [readChar, h3]
    · next heq => simp at heq
  have hnt : next_token (((⟨some '\'', [c, '\''], 1, 1⟩ : LexState)).stream.length + 2)
        ⟨some '\'', [c, '\''], 1, 1⟩ =
      .ok (⟨.Integer (c.toNat : Int), 1, 1⟩, ⟨none, [], 1, 4⟩) := hread
  show lexTokensGo (4 + 1) ⟨some '\'', [c, '\''], 1, 1⟩ [] = _
  rw [step 4 _ [] _ _ hnt (by simp)]
  have hnt2 : next_token (((⟨none, [], 1, 4⟩ : LexState)).stream.length + 2)
        ⟨none, [], 1, 4⟩ = .ok (⟨.EndOfInput, 1, 4⟩, ⟨none, [], 1, 4⟩) := by decide
  rw [stop 3 _ _ _ _ hnt2 rfl]
  simp

/-- Witness for C9 at `c := 'x'`: `'x'` lexes to the integer token
`120`, and the empty literal `''` is the lexer error `Empty character
constant`. -/
theorem C9_char_literal_lexing_witness :
    lexTokens ['\'', 'x', '\''] =
      .ok [⟨.Integer 120, 1, 1⟩, ⟨.EndOfInput, 1, 4⟩] ∧
    lexTokens "''".data = .err ⟨.LexicalAnalyzerError, "Empty character constant"⟩ :=
  ⟨(C9_char_literal_lexing 'x' (by decide) (by decide) (by decide)).1,
   (C9_char_literal_lexing 'x' (by decide) (by decide) (by decide)).2.2.2.1⟩

/-! ## Error-kind discipline (per stage) -/

/-- All errors a result can be carry the kind `k`. -/
def CRes.errKindIs {α : Type} (k : ErrorKind) : CRes α → Prop
  | .err e => e.kind = k
  | _ => True

theorem CRes.errKindIs_bind {α β : Type} {k : ErrorKind} {r : CRes α} {g : α → CRes β}
    (h1 : r.errKindIs k) (h2 : ∀ a, (g a).errKindIs k) : (CRes.bind r g).errKindIs k := by
  cases r <;> simp_all [CRes.bind, CRes.errKindIs]

theorem CRes.errKindIs_bindM {α β : Type} {k : ErrorKind} {r : CRes α} {g : α → CRes β}
    (h1 : r.errKindIs k) (h2 : ∀ a, (g a).errKindIs k) : (r >>= g).errKindIs k :=
  CRes.errKindIs_bind h1 h2

theorem CRes.errKindIs.kind_eqC {α : Type} {k : ErrorKind} {r : CRes α} {e : CompileError}
    (h : r.errKindIs k) (he : r = .err e) : e.kind = k := by
  subst he; exact h

/-- Lexer: `read_escaped_sequence` reports only `LexicalAnalyzerError`. -/
theorem read_escaped_sequence_errKind (st : LexState) :
    (read_escaped_sequence st).errKindIs .LexicalAnalyzerError := by
  unfold read_escaped_sequence; dsimp only
  split
  · trivial
  · split <;> trivial

theorem discardCommentGo_errKind (f : Nat) :
    ∀ st, (discardCommentGo f st).errKindIs .LexicalAnalyzerError := by
  induction f with
  | zero => intro st; trivial
  | succ f ih =>
    intro st
    unfold discardCommentGo; dsimp only
    split
    · split <;> first | trivial | exact ih _
    · exact ih _
    · trivial

theorem discard_comment_errKind (st : LexState) :
    (discard_comment st).errKindIs .LexicalAnalyzerError :=
  discardCommentGo_errKind _ _

theorem readIntegerLiteralGo_errKind (f : Nat) :
    ∀ st acc, (readIntegerLiteralGo f st acc).errKindIs .LexicalAnalyzerError := by
  induction f with
  | zero => intro st acc; trivial
  | succ f ih =>
    intro st acc
    unfold readIntegerLiteralGo
    split
    · split
      · exact ih _ _
      · split <;> trivial
    · trivial

theorem read_integer_literal_errKind (st : LexState) (ln col : Nat) :
    (read_integer_literal st ln col).errKindIs .LexicalAnalyzerError := by
  unfold read_integer_literal
  split
  · trivial
  · split
    · split <;> trivial
    · next heq => exact (readIntegerLiteralGo_errKind _ _ _).kind_eqC heq
    · trivial
    · trivial

theorem read_char_literal_errKind (st : LexState) (ln col : Nat) :
    (read_char_literal st ln col).errKindIs .LexicalAnalyzerError := by
  unfold read_char_literal; dsimp only
  split
  · trivial
  · trivial
  · split
    · split <;> trivial
    · next heq =>
      split at heq
      · exact (read_escaped_sequence_errKind _).kind_eqC heq
      · cases heq
    · trivial
    · trivial
  · trivial

theorem readStringLiteralGo_errKind (f : Nat) :
    ∀ st acc ln col, (readStringLiteralGo f st acc ln col).errKindIs .LexicalAnalyzerError := by
  induction f with
  | zero => intro st acc ln col; trivial
  | succ f ih =>
    intro st acc ln col
    unfold readStringLiteralGo
    split
    · trivial
    · trivial
    · split
      · split
        · exact ih _ _ _ _
        · next heq => exact (read_escaped_sequence_errKind _).kind_eqC heq
        · trivial
        · trivial
      · exact ih _ _ _ _
    · trivial

theorem next_token_errKind (f : Nat) :
    ∀ st, (next_token f st).errKindIs .LexicalAnalyzerError := by
  induction f with
  | zero => intro st; trivial
  | succ f ih =>
    intro st
    unfold next_token; dsimp only
    split
    · trivial
    · trivial
    · trivial
    · trivial
    · trivial
    · trivial
    · trivial
    · trivial
    · trivial
    · trivial
    · unfold read_less; dsimp only; split <;> trivial
    · unfold read_greater; dsimp only; split <;> trivial
    · unfold read_equal; dsimp only; split <;> trivial
    · unfold read_not; dsimp only; split <;> trivial
    · unfold read_and; dsimp only; split <;> trivial
    · unfold read_or; dsimp only; split <;> trivial
    · split
      · split
        · exact ih _
        · next heq => exact (discard_comment_errKind _).kind_eqC heq
        · trivial
        · trivial
      · trivial
    · split
      · unfold read_identifier; dsimp only; split <;> trivial
      · split
        · exact read_integer_literal_errKind _ _ _
        · split
          · exact read_char_literal_errKind _ _ _
          · split
            · exact readStringLiteralGo_errKind _ _ _ _ _
            · trivial
    · trivial

theorem lexTokensGo_errKind (f : Nat) :
    ∀ st acc, (lexTokensGo f st acc).errKindIs .LexicalAnalyzerError := by
  induction f with
  | zero => intro st acc; trivial
  | succ f ih =>
    intro st acc
    unfold lexTokensGo
    split
    · split
      · trivial
      · exact ih _ _
    · next heq => exact (next_token_errKind _ _).kind_eqC heq
    · trivial
    · trivial

/-- The lexical analyzer reports only `LexicalAnalyzerError`. -/
theorem lexTokens_errKind (s : List Char) :
    (lexTokens s).errKindIs .LexicalAnalyzerError :=
  lexTokensGo_errKind _ _ _

/-- `TokenReader::read_string` reports only `ReadError`. -/
theorem tokenReadString_errKind (s : List Char) :
    (tokenReadString s).errKindIs .ReadError := by
  unfold tokenReadString
  split
  · split <;> trivial
  · trivial

/-- `Token::from_line` reports only `ReadError`. -/
theorem fromLine_errKind (l : List Char) : (fromLine l).errKindIs .ReadError := by
  unfold fromLine; dsimp only
  split
  · trivial
  · split
    · trivial
    · split
      · trivial
      · split
        · split <;> trivial
        · split
          · trivial
          · split
            · split
              · trivial
              · next heq => exact (tokenReadString_errKind _).kind_eqC heq
              · trivial
              · trivial
            · trivial

def StepRes.errKindIs (k : ErrorKind) : StepRes → Prop
  | .err e _ => e.kind = k
  | _ => True

def VRes.errKindIs (k : ErrorKind) : VRes → Prop
  | .err e _ => e.kind = k
  | _ => True

theorem StepRes.errKindIs.kind_eqS {k : ErrorKind} {r : StepRes} {e : CompileError}
    {o : List Char} (h : r.errKindIs k) (he : r = .err e o) : e.kind = k := by
  subst he; exact h

/-- The VM dispatch reports only `VirtualMachineError`. -/
theorem vmStep_errKind (P : VMProg) (st : VMSt) :
    (vmStep P st).errKindIs .VirtualMachineError := by
  unfold vmStep; dsimp only
  split
  · trivial
  · next opcode heq =>
    by_cases h0 : opcode = FETCH
    · rw [if_pos h0]
      repeat' split
      all_goals trivial
    · rw [if_neg h0]
      by_cases h1 : opcode = STORE
      · rw [if_pos h1]
        repeat' split
        all_goals trivial
      · rw [if_neg h1]
        by_cases h2 : opcode = PUSH
        · rw [if_pos h2]
          repeat' split
          all_goals trivial
        · rw [if_neg h2]
          by_cases h3 : opcode = JMP
          · rw [if_pos h3]
            repeat' split
            all_goals trivial
          · rw [if_neg h3]
            by_cases h4 : opcode = JZ
            · rw [if_pos h4]
              repeat' split
              all_goals trivial
            · rw [if_neg h4]
              by_cases h5 : opcode = ADD
              · rw [if_pos h5]
                repeat' split
                all_goals trivial
              · rw [if_neg h5]
                by_cases h6 : opcode = SUB
                · rw [if_pos h6]
                  repeat' split
                  all_goals trivial
                · rw [if_neg h6]
                  by_cases h7 : opcode = MUL
                  · rw [if_pos h7]
                    repeat' split
                    all_goals trivial
                  · rw [if_neg h7]
                    by_cases h8 : opcode = DIV
                    · rw [if_pos h8]
                      repeat' split
                      all_goals trivial
                    · rw [if_neg h8]
                      by_cases h9 : opcode = MOD
                      · rw [if_pos h9]
                        repeat' split
                        all_goals trivial
                      · rw [if_neg h9]
                        by_cases h10 : opcode = LT
                        · rw [if_pos h10]
                          repeat' split
                          all_goals trivial
                        · rw [if_neg h10]
                          by_cases h11 : opcode = GT
                          · rw [if_pos h11]
                            repeat' split
                            all_goals trivial
                          · rw [if_neg h11]
                            by_cases h12 : opcode = LE
                            · rw [if_pos h12]
                              repeat' split
                              all_goals trivial
                            · rw [if_neg h12]
                              by_cases h13 : opcode = GE
                              · rw [if_pos h13]
                                repeat' split
                                all_goals trivial
                              · rw [if_neg h13]
                                by_cases h14 : opcode = EQ
                                · rw [if_pos h14]
                                  repeat' split
                                  all_goals trivial
                                · rw [if_neg h14]
                                  by_cases h15 : opcode = NE
                                  · rw [if_pos h15]
                                    repeat' split
                                    all_goals trivial
                                  · rw [if_neg h15]
                                    by_cases h16 : opcode = AND
                                    · rw [if_pos h16]
                                      repeat' split
                                      all_goals trivial
                                    · rw [if_neg h16]
                                      by_cases h17 : opcode = OR
                                      · rw [if_pos h17]
                                        repeat' split
                                        all_goals trivial
                                      · rw [if_neg h17]
                                        by_cases h18 : opcode = NEG
                                        · rw [if_pos h18]
                                          repeat' split
                                          all_goals trivial
                                        · rw [if_neg h18]
                                          by_cases h19 : opcode = NOT
                                          · rw [if_pos h19]
                                            repeat' split
                                            all_goals trivial
                                          · rw [if_neg h19]
                                            by_cases h20 : opcode = PRTC
                                            · rw [if_pos h20]
                                              repeat' split
                                              all_goals trivial
                                            · rw [if_neg h20]
                                              by_cases h21 : opcode = PRTI
                                              · rw [if_pos h21]
                                                repeat' split
                                                all_goals trivial
                                              · rw [if_neg h21]
                                                by_cases h22 : opcode = PRTS
                                                · rw [if_pos h22]
                                                  repeat' split
                                                  all_goals trivial
                                                · rw [if_neg h22]
                                                  by_cases h23 : opcode = HALT
                                                  · rw [if_pos h23]
                                                    repeat' split
                                                    all_goals trivial
                                                  · rw [if_neg h23]
                                                    trivial

theorem vmRun_errKind (f : Nat) :
    ∀ P st, (vmRun f P st).errKindIs .VirtualMachineError := by
  induction f with
  | zero => intro P st; trivial
  | succ f ih =>
    intro P st
    unfold vmRun
    split
    · exact ih _ _
    · trivial
    · next heq => exact (vmStep_errKind _ _).kind_eqS heq
    · trivial

theorem read_header_errKind (l : List Char) :
    (read_header l).errKindIs .VirtualMachineError := by
  unfold read_header
  repeat' split
  all_goals trivial

theorem vm_read_string_errKind (s : List Char) :
    (vm_read_string s).errKindIs .VirtualMachineError := by
  unfold vm_read_string
  repeat' split
  all_goals trivial

theorem read_integer_errKind (s : List Char) :
    (read_integer s).errKindIs .VirtualMachineError := by
  unfold read_integer
  repeat' split
  all_goals trivial

theorem stripEnds_errKind (v : List Char) :
    (stripEnds v).errKindIs .VirtualMachineError := by
  unfold stripEnds
  split <;> trivial

theorem read_instruction_errKind (s : List Char) :
    (read_instruction s).errKindIs .VirtualMachineError := by
  unfold read_instruction
  split
  · trivial
  · trivial
  · next m1 rest heq =>
    by_cases h0 : m1 = "fetch".data
    · rw [if_pos h0]
      split
      · trivial
      · refine CRes.errKindIs_bindM (stripEnds_errKind _) fun sv => ?_
        refine CRes.errKindIs_bindM (read_integer_errKind _) fun b => ?_
        trivial
    · rw [if_neg h0]
      by_cases h1 : m1 = "store".data
      · rw [if_pos h1]
        split
        · trivial
        · refine CRes.errKindIs_bindM (stripEnds_errKind _) fun sv => ?_
          refine CRes.errKindIs_bindM (read_integer_errKind _) fun b => ?_
          trivial
      · rw [if_neg h1]
        by_cases h2 : m1 = "push".data
        · rw [if_pos h2]
          split
          · trivial
          · refine CRes.errKindIs_bindM (read_integer_errKind _) fun b => ?_
            trivial
        · rw [if_neg h2]
          by_cases h3 : m1 = "jmp".data
          · rw [if_pos h3]
            split
            · trivial
            · refine CRes.errKindIs_bindM (stripEnds_errKind _) fun sv => ?_
              refine CRes.errKindIs_bindM (read_integer_errKind _) fun b => ?_
              trivial
          · rw [if_neg h3]
            by_cases h4 : m1 = "jz".data
            · rw [if_pos h4]
              split
              · trivial
              · refine CRes.errKindIs_bindM (stripEnds_errKind _) fun sv => ?_
                refine CRes.errKindIs_bindM (read_integer_errKind _) fun b => ?_
                trivial
            · rw [if_neg h4]
              by_cases h5 : m1 = "add".data
              · rw [if_pos h5]
                trivial
              · rw [if_neg h5]
                by_cases h6 : m1 = "sub".data
                · rw [if_pos h6]
                  trivial
                · rw [if_neg h6]
                  by_cases h7 : m1 = "mul".data
                  · rw [if_pos h7]
                    trivial
                  · rw [if_neg h7]
                    by_cases h8 : m1 = "div".data
                    · rw [if_pos h8]
                      trivial
                    · rw [if_neg h8]
                      by_cases h9 : m1 = "mod".data
                      · rw [if_pos h9]
                        trivial
                      · rw [if_neg h9]
                        by_cases h10 : m1 = "lt".data
                        · rw [if_pos h10]
                          trivial
                        · rw [if_neg h10]
                          by_cases h11 : m1 = "gt".data
                          · rw [if_pos h11]
                            trivial
                          · rw [if_neg h11]
                            by_cases h12 : m1 = "le".data
                            · rw [if_pos h12]
                              trivial
                            · rw [if_neg h12]
                              by_cases h13 : m1 = "ge".data
                              · rw [if_pos h13]
                                trivial
                              · rw [if_neg h13]
                                by_cases h14 : m1 = "eq".data
                                · rw [if_pos h14]
                                  trivial
                                · rw [if_neg h14]
                                  by_cases h15 : m1 = "ne".data
                                  · rw [if_pos h15]
                                    trivial
                                  · rw [if_neg h15]
                                    by_cases h16 : m1 = "and".data
                                    · rw [if_pos h16]
                                      trivial
                                    · rw [if_neg h16]
                                      by_cases h17 : m1 = "or".data
                                      · rw [if_pos h17]
                                        trivial
                                      · rw [if_neg h17]
                                        by_cases h18 : m1 = "neg".data
                                        · rw [if_pos h18]
                                          trivial
                                        · rw [if_neg h18]
                                          by_cases h19 : m1 = "not".data
                                          · rw [if_pos h19]
                                            trivial
                                          · rw [if_neg h19]
                                            by_cases h20 : m1 = "prtc".data
                                            · rw [if_pos h20]
                                              trivial
                                            · rw [if_neg h20]
                                              by_cases h21 : m1 = "prti".data
                                              · rw [if_pos h21]
                                                trivial
                                              · rw [if_neg h21]
                                                by_cases h22 : m1 = "prts".data
                                                · rw [if_pos h22]
                                                  trivial
                                                · rw [if_neg h22]
                                                  by_cases h23 : m1 = "halt".data
                                                  · rw [if_pos h23]
                                                    trivial
                                                  · rw [if_neg h23]
                                                    trivial

theorem readPool_errKind (n : Nat) :
    ∀ ls, (readPool n ls).errKindIs .VirtualMachineError := by
  induction n with
  | zero => intro ls; trivial
  | succ n ih =>
    intro ls
    cases ls with
    | nil => trivial
    | cons l ls =>
      unfold readPool
      refine CRes.errKindIs_bindM (vm_read_string_errKind _) fun s => ?_
      refine CRes.errKindIs_bindM (ih _) fun pr => ?_
      trivial

theorem readInstructions_errKind (ls : List (List Char)) :
    (readInstructions ls).errKindIs .VirtualMachineError := by
  induction ls with
  | nil => trivial
  | cons l ls ih =>
    unfold readInstructions
    dsimp only
    split
    · exact ih
    · refine CRes.errKindIs_bindM (read_instruction_errKind _) fun b => ?_
      refine CRes.errKindIs_bindM ih fun m => ?_
      trivial

theorem assemble_errKind (lines : List (List Char)) :
    (assemble lines).errKindIs .VirtualMachineError := by
  unfold assemble
  split
  · trivial
  · refine CRes.errKindIs_bindM (read_header_errKind _) fun a => ?_
    obtain ⟨ds, ss⟩ := a
    refine CRes.errKindIs_bindM (readPool_errKind _ _) fun b => ?_
    obtain ⟨pool, rest2⟩ := b
    refine CRes.errKindIs_bindM (readInstructions_errKind _) fun code => ?_
    trivial

/-- The virtual machine (assembler and execution loop) reports only
`VirtualMachineError`. -/
theorem vmInterpret_errKind (f : Nat) (lines : List (List Char)) :
    (vmInterpret f lines).errKindIs .VirtualMachineError := by
  unfold vmInterpret
  split
  · exact vmRun_errKind _ _ _
  · next heq => exact (assemble_errKind _).kind_eqC heq
  · trivial
  · trivial

def IRes.errKindIs (k : ErrorKind) : IRes → Prop
  | .err e _ => e.kind = k
  | _ => True

theorem IRes.errKindIs.kind_eqI {k : ErrorKind} {r : IRes} {e : CompileError}
    {o : List Char} (h : r.errKindIs k) (he : r = .err e o) : e.kind = k := by
  subst he; exact h

theorem evalBinary_errKind (k : NodeKind) (a b : Int) :
    (evalBinary k a b).errKindIs .InterpretationError := by
  unfold evalBinary
  repeat' split
  all_goals trivial

/-- The AST interpreter reports only `InterpretationError`. -/
theorem interp_errKind : ∀ (f : Nat) (env : Env) (out : List Char) (n : ASTNode)
    (e : CompileError) (o : List Char),
    interp f env out n = .err e o → e.kind = .InterpretationError := by
  intro f
  induction f with
  | zero => intro env out n e o h; cases h
  | succ f ih =>
    intro env out n e o h
    obtain ⟨k0, l, r⟩ := n
    unfold interp at h
    revert h
    cases l <;> cases r <;>
      (dsimp only [ASTNode.kind, ASTNode.lhs, ASTNode.rhs]
       intro h
       split at h
       all_goals repeat' (split at h)
       all_goals try (cases h)
       all_goals
         first
         | rfl
         | (exact ih _ _ _ _ _ (by assumption))
         | (exact (evalBinary_errKind _ _ _).kind_eqC (by assumption)))

theorem interpret_errKind (f : Nat) (n : ASTNode) (e : CompileError) (o : List Char)
    (h : interpret f n = .err e o) : e.kind = .InterpretationError :=
  interp_errKind f [] [] n e o h

/-- Strong induction on the size of an `ASTNode`. -/
theorem ASTNode.strongInductionOn {motive : ASTNode → Prop}
    (ind : ∀ n, (∀ m : ASTNode, sizeOf m < sizeOf n → motive m) → motive n)
    (n : ASTNode) : motive n := by
  have H : ∀ (s : Nat) (m : ASTNode), sizeOf m < s → motive m := by
    intro s
    induction s with
    | zero => intro m hm; omega
    | succ s ihs => intro m hm; exact ind m fun m2 hm2 => ihs m2 (by omega)
  exact ind n fun m hm => H _ m hm

theorem ASTNode.sizeOf_left {k : NodeKind} {l r : Option ASTNode} {x : ASTNode}
    (h : l = some x) : sizeOf x < sizeOf (ASTNode.mk k l r) := by
  subst h; simp; omega

theorem ASTNode.sizeOf_right {k : NodeKind} {l r : Option ASTNode} {x : ASTNode}
    (h : r = some x) : sizeOf x < sizeOf (ASTNode.mk k l r) := by
  subst h; simp; omega

theorem CRes.bindM_eq {α β : Type} (r : CRes α) (g : α → CRes β) :
    (r >>= g) = CRes.bind r g := rfl

theorem backpatch_err {st : CGSt} {idx : Nat} {e : CompileError}
    (h : backpatch st idx = .err e) : False := by
  unfold backpatch at h
  repeat' (split at h)
  all_goals cases h

/-- The code generator reports only `CodeGenerationError`. -/
theorem generate_body_errKind : ∀ (n : ASTNode) (st : CGSt) (e : CompileError),
    generate_body n st = .err e → e.kind = .CodeGenerationError := by
  intro n
  induction n using ASTNode.strongInductionOn with
  | ind n ih =>
    obtain ⟨k0, l, r⟩ := n
    intro st e h
    unfold generate_body at h
    simp only [CRes.bindM_eq, CRes.bind] at h
    revert h
    rcases l with _ | lx <;> rcases r with _ | ⟨bk, bl, br⟩ <;>
      (intro h
       try dsimp only at h
       split at h
       all_goals repeat' (split at h)
       all_goals try (cases h)
       all_goals first
         | rfl
         | (exact ih _ (ASTNode.sizeOf_left rfl) _ _ (by assumption))
         | (exact ih _ (ASTNode.sizeOf_right rfl) _ _ (by assumption))
         | (exact ih _ (Nat.lt_trans (ASTNode.sizeOf_left rfl)
              (ASTNode.sizeOf_right rfl)) _ _ (by assumption))
         | (exact ih _ (Nat.lt_trans (ASTNode.sizeOf_right rfl)
              (ASTNode.sizeOf_right rfl)) _ _ (by assumption))
         | (exact (backpatch_err (by assumption)).elim))

theorem generateProg_errKind (t : ASTNode) (e : CompileError)
    (h : generateProg t = .err e) : e.kind = .CodeGenerationError := by
  unfold generateProg at h
  simp only [CRes.bindM_eq, CRes.bind] at h
  split at h
  · cases h
  · next heq => cases h; exact generate_body_errKind _ _ _ heq
  · cases h
  · cases h

theorem generate_errKind (t : ASTNode) (e : CompileError)
    (h : generate t = .err e) : e.kind = .CodeGenerationError := by
  unfold generate at h
  simp only [CRes.bindM_eq, CRes.bind] at h
  split at h
  · cases h
  · next heq => cases h; exact generateProg_errKind _ _ heq
  · cases h
  · cases h
theorem pread_token_err {st : PSt} {e : CompileError}
    (h : pread_token st = .err e) : e.kind = .SyntaxError := by
  unfold pread_token at h
  split at h
  · cases h
  · cases h; rfl

/-- The parser reports only `SyntaxError`. -/
theorem parser_errKind : ∀ f : Nat,
    (∀ (st : PSt) (e : CompileError), parse_primary f st = .err e → e.kind = .SyntaxError) ∧
    (∀ (st : PSt) (e : CompileError), parse_expr f st = .err e → e.kind = .SyntaxError) ∧
    (∀ (st : PSt) (lhs : ASTNode) (mp : Int) (e : CompileError), parse_expr_body f st lhs mp = .err e → e.kind = .SyntaxError) ∧
    (∀ (st : PSt) (rhs : ASTNode) (op : Int) (e : CompileError), parseExprClimb f st rhs op = .err e → e.kind = .SyntaxError) ∧
    (∀ (st : PSt) (e : CompileError), parse_paren_expr f st = .err e → e.kind = .SyntaxError) ∧
    (∀ (st : PSt) (e : CompileError), parse_assign_stmt f st = .err e → e.kind = .SyntaxError) ∧
    (∀ (st : PSt) (e : CompileError), parse_while_stmt f st = .err e → e.kind = .SyntaxError) ∧
    (∀ (st : PSt) (e : CompileError), parse_if_stmt f st = .err e → e.kind = .SyntaxError) ∧
    (∀ (st : PSt) (e : CompileError), make_string_node f st = .err e → e.kind = .SyntaxError) ∧
    (∀ (st : PSt) (e : CompileError), parse_prt_item f st = .err e → e.kind = .SyntaxError) ∧
    (∀ (st : PSt) (lhs : ASTNode) (e : CompileError), parsePrtListGo f st lhs = .err e → e.kind = .SyntaxError) ∧
    (∀ (st : PSt) (e : CompileError), parse_prt_list f st = .err e → e.kind = .SyntaxError) ∧
    (∀ (st : PSt) (e : CompileError), parse_print_stmt f st = .err e → e.kind = .SyntaxError) ∧
    (∀ (st : PSt) (e : CompileError), parse_putc_stmt f st = .err e → e.kind = .SyntaxError) ∧
    (∀ (st : PSt) (e : CompileError), parse_stmt f st = .err e → e.kind = .SyntaxError) ∧
    (∀ (st : PSt) (acc : ASTNode) (e : CompileError), parseStmtListGo f st acc = .err e → e.kind = .SyntaxError) ∧
    (∀ (st : PSt) (e : CompileError), parse_stmt_list f st = .err e → e.kind = .SyntaxError) := by
  intro f
  induction f with
  | zero =>
    refine ⟨?_, ?_, ?_, ?_, ?_, ?_, ?_, ?_, ?_, ?_, ?_, ?_, ?_, ?_, ?_, ?_, ?_⟩
    · intro st e h
      unfold parse_primary at h
      cases h
    · intro st e h
      unfold parse_expr at h
      cases h
    · intro st lhs mp e h
      unfold parse_expr_body at h
      cases h
    · intro st rhs op e h
      unfold parseExprClimb at h
      cases h
    · intro st e h
      unfold parse_paren_expr at h
      cases h
    · intro st e h
      unfold parse_assign_stmt at h
      cases h
    · intro st e h
      unfold parse_while_stmt at h
      cases h
    · intro st e h
      unfold parse_if_stmt at h
      cases h
    · intro st e h
      unfold make_string_node at h
      cases h
    · intro st e h
      unfold parse_prt_item at h
      cases h
    · intro st lhs e h
      unfold parsePrtListGo at h
      cases h
    · intro st e h
      unfold parse_prt_list at h
      cases h
    · intro st e h
      unfold parse_print_stmt at h
      cases h
    · intro st e h
      unfold parse_putc_stmt at h
      cases h
    · intro st e h
      unfold parse_stmt at h
      cases h
    · intro st acc e h
      unfold parseStmtListGo at h
      cases h
    · intro st e h
      unfold parse_stmt_list at h
      cases h
  | succ f ih =>
    obtain ⟨ih1, ih2, ih3, ih4, ih5, ih6, ih7, ih8, ih9, ih10, ih11, ih12, ih13, ih14, ih15, ih16, ih17⟩ := ih
    refine ⟨?_, ?_, ?_, ?_, ?_, ?_, ?_, ?_, ?_, ?_, ?_, ?_, ?_, ?_, ?_, ?_, ?_⟩
    · intro st e h
      unfold parse_primary at h
      try simp only [CRes.bindM_eq, CRes.bind] at h
      try dsimp only at h
      repeat' (split at h)
      all_goals try (cases h)
      all_goals first
        | rfl
        | (exact pread_token_err (by assumption))
        | (exact ih1 _ _ (by assumption))
        | (exact ih2 _ _ (by assumption))
        | (exact ih3 _ _ _ _ (by assumption))
        | (exact ih4 _ _ _ _ (by assumption))
        | (exact ih5 _ _ (by assumption))
        | (exact ih6 _ _ (by assumption))
        | (exact ih7 _ _ (by assumption))
        | (exact ih8 _ _ (by assumption))
        | (exact ih9 _ _ (by assumption))
        | (exact ih10 _ _ (by assumption))
        | (exact ih11 _ _ _ (by assumption))
        | (exact ih12 _ _ (by assumption))
        | (exact ih13 _ _ (by assumption))
        | (exact ih14 _ _ (by assumption))
        | (exact ih15 _ _ (by assumption))
        | (exact ih16 _ _ _ (by assumption))
        | (exact ih17 _ _ (by assumption))
    · intro st e h
      unfold parse_expr at h
      try simp only [CRes.bindM_eq, CRes.bind] at h
      try dsimp only at h
      repeat' (split at h)
      all_goals try (cases h)
      all_goals first
        | rfl
        | (exact pread_token_err (by assumption))
        | (exact ih1 _ _ (by assumption))
        | (exact ih2 _ _ (by assumption))
        | (exact ih3 _ _ _ _ (by assumption))
        | (exact ih4 _ _ _ _ (by assumption))
        | (exact ih5 _ _ (by assumption))
        | (exact ih6 _ _ (by assumption))
        | (exact ih7 _ _ (by assumption))
        | (exact ih8 _ _ (by assumption))
        | (exact ih9 _ _ (by assumption))
        | (exact ih10 _ _ (by assumption))
        | (exact ih11 _ _ _ (by assumption))
        | (exact ih12 _ _ (by assumption))
        | (exact ih13 _ _ (by assumption))
        | (exact ih14 _ _ (by assumption))
        | (exact ih15 _ _ (by assumption))
        | (exact ih16 _ _ _ (by assumption))
        | (exact ih17 _ _ (by assumption))
    · intro st lhs mp e h
      unfold parse_expr_body at h
      try simp only [CRes.bindM_eq, CRes.bind] at h
      try dsimp only at h
      repeat' (split at h)
      all_goals try (cases h)
      all_goals first
        | rfl
        | (exact pread_token_err (by assumption))
        | (exact ih1 _ _ (by assumption))
        | (exact ih2 _ _ (by assumption))
        | (exact ih3 _ _ _ _ (by assumption))
        | (exact ih4 _ _ _ _ (by assumption))
        | (exact ih5 _ _ (by assumption))
        | (exact ih6 _ _ (by assumption))
        | (exact ih7 _ _ (by assumption))
        | (exact ih8 _ _ (by assumption))
        | (exact ih9 _ _ (by assumption))
        | (exact ih10 _ _ (by assumption))
        | (exact ih11 _ _ _ (by assumption))
        | (exact ih12 _ _ (by assumption))
        | (exact ih13 _ _ (by assumption))
        | (exact ih14 _ _ (by assumption))
        | (exact ih15 _ _ (by assumption))
        | (exact ih16 _ _ _ (by assumption))
        | (exact ih17 _ _ (by assumption))
    · intro st rhs op e h
      unfold parseExprClimb at h
      try simp only [CRes.bindM_eq, CRes.bind] at h
      try dsimp only at h
      repeat' (split at h)
      all_goals try (cases h)
      all_goals first
        | rfl
        | (exact pread_token_err (by assumption))
        | (exact ih1 _ _ (by assumption))
        | (exact ih2 _ _ (by assumption))
        | (exact ih3 _ _ _ _ (by assumption))
        | (exact ih4 _ _ _ _ (by assumption))
        | (exact ih5 _ _ (by assumption))
        | (exact ih6 _ _ (by assumption))
        | (exact ih7 _ _ (by assumption))
        | (exact ih8 _ _ (by assumption))
        | (exact ih9 _ _ (by assumption))
        | (exact ih10 _ _ (by assumption))
        | (exact ih11 _ _ _ (by assumption))
        | (exact ih12 _ _ (by assumption))
        | (exact ih13 _ _ (by assumption))
        | (exact ih14 _ _ (by assumption))
        | (exact ih15 _ _ (by assumption))
        | (exact ih16 _ _ _ (by assumption))
        | (exact ih17 _ _ (by assumption))
    · intro st e h
      unfold parse_paren_expr at h
      try simp only [CRes.bindM_eq, CRes.bind] at h
      try dsimp only at h
      repeat' (split at h)
      all_goals try (cases h)
      all_goals first
        | rfl
        | (exact pread_token_err (by assumption))
        | (exact ih1 _ _ (by assumption))
        | (exact ih2 _ _ (by assumption))
        | (exact ih3 _ _ _ _ (by assumption))
        | (exact ih4 _ _ _ _ (by assumption))
        | (exact ih5 _ _ (by assumption))
        | (exact ih6 _ _ (by assumption))
        | (exact ih7 _ _ (by assumption))
        | (exact ih8 _ _ (by assumption))
        | (exact ih9 _ _ (by assumption))
        | (exact ih10 _ _ (by assumption))
        | (exact ih11 _ _ _ (by assumption))
        | (exact ih12 _ _ (by assumption))
        | (exact ih13 _ _ (by assumption))
        | (exact ih14 _ _ (by assumption))
        | (exact ih15 _ _ (by assumption))
        | (exact ih16 _ _ _ (by assumption))
        | (exact ih17 _ _ (by assumption))
    · intro st e h
      unfold parse_assign_stmt at h
      try simp only [CRes.bindM_eq, CRes.bind] at h
      try dsimp only at h
      repeat' (split at h)
      all_goals try (cases h)
      all_goals first
        | rfl
        | (exact pread_token_err (by assumption))
        | (exact ih1 _ _ (by assumption))
        | (exact ih2 _ _ (by assumption))
        | (exact ih3 _ _ _ _ (by assumption))
        | (exact ih4 _ _ _ _ (by assumption))
        | (exact ih5 _ _ (by assumption))
        | (exact ih6 _ _ (by assumption))
        | (exact ih7 _ _ (by assumption))
        | (exact ih8 _ _ (by assumption))
        | (exact ih9 _ _ (by assumption))
        | (exact ih10 _ _ (by assumption))
        | (exact ih11 _ _ _ (by assumption))
        | (exact ih12 _ _ (by assumption))
        | (exact ih13 _ _ (by assumption))
        | (exact ih14 _ _ (by assumption))
        | (exact ih15 _ _ (by assumption))
        | (exact ih16 _ _ _ (by assumption))
        | (exact ih17 _ _ (by assumption))
    · intro st e h
      unfold parse_while_stmt at h
      try simp only [CRes.bindM_eq, CRes.bind] at h
      try dsimp only at h
      repeat' (split at h)
      all_goals try (cases h)
      all_goals first
        | rfl
        | (exact pread_token_err (by assumption))
        | (exact ih1 _ _ (by assumption))
        | (exact ih2 _ _ (by assumption))
        | (exact ih3 _ _ _ _ (by assumption))
        | (exact ih4 _ _ _ _ (by assumption))
        | (exact ih5 _ _ (by assumption))
        | (exact ih6 _ _ (by assumption))
        | (exact ih7 _ _ (by assumption))
        | (exact ih8 _ _ (by assumption))
        | (exact ih9 _ _ (by assumption))
        | (exact ih10 _ _ (by assumption))
        | (exact ih11 _ _ _ (by assumption))
        | (exact ih12 _ _ (by assumption))
        | (exact ih13 _ _ (by assumption))
        | (exact ih14 _ _ (by assumption))
        | (exact ih15 _ _ (by assumption))
        | (exact ih16 _ _ _ (by assumption))
        | (exact ih17 _ _ (by assumption))
    · intro st e h
      unfold parse_if_stmt at h
      try simp only [CRes.bindM_eq, CRes.bind] at h
      try dsimp only at h
      repeat' (split at h)
      all_goals try (cases h)
      all_goals first
        | rfl
        | (exact pread_token_err (by assumption))
        | (exact ih1 _ _ (by assumption))
        | (exact ih2 _ _ (by assumption))
        | (exact ih3 _ _ _ _ (by assumption))
        | (exact ih4 _ _ _ _ (by assumption))
        | (exact ih5 _ _ (by assumption))
        | (exact ih6 _ _ (by assumption))
        | (exact ih7 _ _ (by assumption))
        | (exact ih8 _ _ (by assumption))
        | (exact ih9 _ _ (by assumption))
        | (exact ih10 _ _ (by assumption))
        | (exact ih11 _ _ _ (by assumption))
        | (exact ih12 _ _ (by assumption))
        | (exact ih13 _ _ (by assumption))
        | (exact ih14 _ _ (by assumption))
        | (exact ih15 _ _ (by assumption))
        | (exact ih16 _ _ _ (by assumption))
        | (exact ih17 _ _ (by assumption))
    · intro st e h
      unfold make_string_node at h
      try simp only [CRes.bindM_eq, CRes.bind] at h
      try dsimp only at h
      repeat' (split at h)
      all_goals try (cases h)
      all_goals first
        | rfl
        | (exact pread_token_err (by assumption))
        | (exact ih1 _ _ (by assumption))
        | (exact ih2 _ _ (by assumption))
        | (exact ih3 _ _ _ _ (by assumption))
        | (exact ih4 _ _ _ _ (by assumption))
        | (exact ih5 _ _ (by assumption))
        | (exact ih6 _ _ (by assumption))
        | (exact ih7 _ _ (by assumption))
        | (exact ih8 _ _ (by assumption))
        | (exact ih9 _ _ (by assumption))
        | (exact ih10 _ _ (by assumption))
        | (exact ih11 _ _ _ (by assumption))
        | (exact ih12 _ _ (by assumption))
        | (exact ih13 _ _ (by assumption))
        | (exact ih14 _ _ (by assumption))
        | (exact ih15 _ _ (by assumption))
        | (exact ih16 _ _ _ (by assumption))
        | (exact ih17 _ _ (by assumption))
    · intro st e h
      unfold parse_prt_item at h
      try simp only [CRes.bindM_eq, CRes.bind] at h
      try dsimp only at h
      repeat' (split at h)
      all_goals try (cases h)
      all_goals first
        | rfl
        | (exact pread_token_err (by assumption))
        | (exact ih1 _ _ (by assumption))
        | (exact ih2 _ _ (by assumption))
        | (exact ih3 _ _ _ _ (by assumption))
        | (exact ih4 _ _ _ _ (by assumption))
        | (exact ih5 _ _ (by assumption))
        | (exact ih6 _ _ (by assumption))
        | (exact ih7 _ _ (by assumption))
        | (exact ih8 _ _ (by assumption))
        | (exact ih9 _ _ (by assumption))
        | (exact ih10 _ _ (by assumption))
        | (exact ih11 _ _ _ (by assumption))
        | (exact ih12 _ _ (by assumption))
        | (exact ih13 _ _ (by assumption))
        | (exact ih14 _ _ (by assumption))
        | (exact ih15 _ _ (by assumption))
        | (exact ih16 _ _ _ (by assumption))
        | (exact ih17 _ _ (by assumption))
    · intro st lhs e h
      unfold parsePrtListGo at h
      try simp only [CRes.bindM_eq, CRes.bind] at h
      try dsimp only at h
      repeat' (split at h)
      all_goals try (cases h)
      all_goals first
        | rfl
        | (exact pread_token_err (by assumption))
        | (exact ih1 _ _ (by assumption))
        | (exact ih2 _ _ (by assumption))
        | (exact ih3 _ _ _ _ (by assumption))
        | (exact ih4 _ _ _ _ (by assumption))
        | (exact ih5 _ _ (by assumption))
        | (exact ih6 _ _ (by assumption))
        | (exact ih7 _ _ (by assumption))
        | (exact ih8 _ _ (by assumption))
        | (exact ih9 _ _ (by assumption))
        | (exact ih10 _ _ (by assumption))
        | (exact ih11 _ _ _ (by assumption))
        | (exact ih12 _ _ (by assumption))
        | (exact ih13 _ _ (by assumption))
        | (exact ih14 _ _ (by assumption))
        | (exact ih15 _ _ (by assumption))
        | (exact ih16 _ _ _ (by assumption))
        | (exact ih17 _ _ (by assumption))
    · intro st e h
      unfold parse_prt_list at h
      try simp only [CRes.bindM_eq, CRes.bind] at h
      try dsimp only at h
      repeat' (split at h)
      all_goals try (cases h)
      all_goals first
        | rfl
        | (exact pread_token_err (by assumption))
        | (exact ih1 _ _ (by assumption))
        | (exact ih2 _ _ (by assumption))
        | (exact ih3 _ _ _ _ (by assumption))
        | (exact ih4 _ _ _ _ (by assumption))
        | (exact ih5 _ _ (by assumption))
        | (exact ih6 _ _ (by assumption))
        | (exact ih7 _ _ (by assumption))
        | (exact ih8 _ _ (by assumption))
        | (exact ih9 _ _ (by assumption))
        | (exact ih10 _ _ (by assumption))
        | (exact ih11 _ _ _ (by assumption))
        | (exact ih12 _ _ (by assumption))
        | (exact ih13 _ _ (by assumption))
        | (exact ih14 _ _ (by assumption))
        | (exact ih15 _ _ (by assumption))
        | (exact ih16 _ _ _ (by assumption))
        | (exact ih17 _ _ (by assumption))
    · intro st e h
      unfold parse_print_stmt at h
      try simp only [CRes.bindM_eq, CRes.bind] at h
      try dsimp only at h
      repeat' (split at h)
      all_goals try (cases h)
      all_goals first
        | rfl
        | (exact pread_token_err (by assumption))
        | (exact ih1 _ _ (by assumption))
        | (exact ih2 _ _ (by assumption))
        | (exact ih3 _ _ _ _ (by assumption))
        | (exact ih4 _ _ _ _ (by assumption))
        | (exact ih5 _ _ (by assumption))
        | (exact ih6 _ _ (by assumption))
        | (exact ih7 _ _ (by assumption))
        | (exact ih8 _ _ (by assumption))
        | (exact ih9 _ _ (by assumption))
        | (exact ih10 _ _ (by assumption))
        | (exact ih11 _ _ _ (by assumption))
        | (exact ih12 _ _ (by assumption))
        | (exact ih13 _ _ (by assumption))
        | (exact ih14 _ _ (by assumption))
        | (exact ih15 _ _ (by assumption))
        | (exact ih16 _ _ _ (by assumption))
        | (exact ih17 _ _ (by assumption))
    · intro st e h
      unfold parse_putc_stmt at h
      try simp only [CRes.bindM_eq, CRes.bind] at h
      try dsimp only at h
      repeat' (split at h)
      all_goals try (cases h)
      all_goals first
        | rfl
        | (exact pread_token_err (by assumption))
        | (exact ih1 _ _ (by assumption))
        | (exact ih2 _ _ (by assumption))
        | (exact ih3 _ _ _ _ (by assumption))
        | (exact ih4 _ _ _ _ (by assumption))
        | (exact ih5 _ _ (by assumption))
        | (exact ih6 _ _ (by assumption))
        | (exact ih7 _ _ (by assumption))
        | (exact ih8 _ _ (by assumption))
        | (exact ih9 _ _ (by assumption))
        | (exact ih10 _ _ (by assumption))
        | (exact ih11 _ _ _ (by assumption))
        | (exact ih12 _ _ (by assumption))
        | (exact ih13 _ _ (by assumption))
        | (exact ih14 _ _ (by assumption))
        | (exact ih15 _ _ (by assumption))
        | (exact ih16 _ _ _ (by assumption))
        | (exact ih17 _ _ (by assumption))
    · intro st e h
      unfold parse_stmt at h
      try simp only [CRes.bindM_eq, CRes.bind] at h
      try dsimp only at h
      repeat' (split at h)
      all_goals try (cases h)
      all_goals first
        | rfl
        | (exact pread_token_err (by assumption))
        | (exact ih1 _ _ (by assumption))
        | (exact ih2 _ _ (by assumption))
        | (exact ih3 _ _ _ _ (by assumption))
        | (exact ih4 _ _ _ _ (by assumption))
        | (exact ih5 _ _ (by assumption))
        | (exact ih6 _ _ (by assumption))
        | (exact ih7 _ _ (by assumption))
        | (exact ih8 _ _ (by assumption))
        | (exact ih9 _ _ (by assumption))
        | (exact ih10 _ _ (by assumption))
        | (exact ih11 _ _ _ (by assumption))
        | (exact ih12 _ _ (by assumption))
        | (exact ih13 _ _ (by assumption))
        | (exact ih14 _ _ (by assumption))
        | (exact ih15 _ _ (by assumption))
        | (exact ih16 _ _ _ (by assumption))
        | (exact ih17 _ _ (by assumption))
    · intro st acc e h
      unfold parseStmtListGo at h
      try simp only [CRes.bindM_eq, CRes.bind] at h
      try dsimp only at h
      repeat' (split at h)
      all_goals try (cases h)
      all_goals first
        | rfl
        | (exact pread_token_err (by assumption))
        | (exact ih1 _ _ (by assumption))
        | (exact ih2 _ _ (by assumption))
        | (exact ih3 _ _ _ _ (by assumption))
        | (exact ih4 _ _ _ _ (by assumption))
        | (exact ih5 _ _ (by assumption))
        | (exact ih6 _ _ (by assumption))
        | (exact ih7 _ _ (by assumption))
        | (exact ih8 _ _ (by assumption))
        | (exact ih9 _ _ (by assumption))
        | (exact ih10 _ _ (by assumption))
        | (exact ih11 _ _ _ (by assumption))
        | (exact ih12 _ _ (by assumption))
        | (exact ih13 _ _ (by assumption))
        | (exact ih14 _ _ (by assumption))
        | (exact ih15 _ _ (by assumption))
        | (exact ih16 _ _ _ (by assumption))
        | (exact ih17 _ _ (by assumption))
    · intro st e h
      unfold parse_stmt_list at h
      try simp only [CRes.bindM_eq, CRes.bind] at h
      try dsimp only at h
      repeat' (split at h)
      all_goals try (cases h)
      all_goals first
        | rfl
        | (exact pread_token_err (by assumption))
        | (exact ih1 _ _ (by assumption))
        | (exact ih2 _ _ (by assumption))
        | (exact ih3 _ _ _ _ (by assumption))
        | (exact ih4 _ _ _ _ (by assumption))
        | (exact ih5 _ _ (by assumption))
        | (exact ih6 _ _ (by assumption))
        | (exact ih7 _ _ (by assumption))
        | (exact ih8 _ _ (by assumption))
        | (exact ih9 _ _ (by assumption))
        | (exact ih10 _ _ (by assumption))
        | (exact ih11 _ _ _ (by assumption))
        | (exact ih12 _ _ (by assumption))
        | (exact ih13 _ _ (by assumption))
        | (exact ih14 _ _ (by assumption))
        | (exact ih15 _ _ (by assumption))
        | (exact ih16 _ _ _ (by assumption))
        | (exact ih17 _ _ (by assumption))

theorem parse_errKind (tokens : List Token) (e : CompileError)
    (h : parse tokens = .err e) : e.kind = .SyntaxError := by
  unfold parse at h
  split at h
  · cases h
  · simp only [CRes.bindM_eq, CRes.bind] at h
    split at h
    · cases h
    · next heq =>
      cases h
      exact (parser_errKind _).2.2.2.2.2.2.2.2.2.2.2.2.2.2.2.2 _ _ heq
    · cases h
    · cases h

theorem VRes.errKindIs.kind_eqV {k : ErrorKind} {r : VRes} {e : CompileError}
    {o : List Char} (h : r.errKindIs k) (he : r = .err e o) : e.kind = k := by
  subst he; exact h

/-- The three `ErrorKind` variants declared in
`lexical_analyzer/src/error.rs` (lines 8-12). -/
def declaredErrorKinds : List ErrorKind := [.ReadError, .LexicalAnalyzerError, .ParseError]

/-- The kinds actually constructed somewhere in the toolchain's
sources. -/
def constructedErrorKinds : List ErrorKind :=
  [.ReadError, .LexicalAnalyzerError, .SyntaxError, .InterpretationError,
   .CodeGenerationError, .VirtualMachineError]

/-- The six kind names the spec's error-taxonomy sentence lists
(spec-side definition, for comparison with the code's enumeration). -/
def specClaimedErrorKindNames : List String :=
  ["ReadError", "LexicalError", "SyntaxError", "InterpretationError",
   "CodeGenerationError", "VirtualMachineError"]

/-- Counterexample to C4 as stated: the enumeration declared in
`error.rs` has three variants — `ReadError`, `LexicalAnalyzerError`,
`ParseError` — not the spec's six; no kind is named `LexicalError`
anywhere (the lexer's kind is `LexicalAnalyzerError`, a name absent
from the spec's list), and `ParseError` is declared but absent from
the spec's list. -/
theorem C4_counterexample_error_kind_enumeration :
    declaredErrorKinds.map ErrorKind.name ≠ specClaimedErrorKindNames ∧
    declaredErrorKinds.map ErrorKind.name =
      ["ReadError", "LexicalAnalyzerError", "ParseError"] ∧
    "LexicalError" ∉ constructedErrorKinds.map ErrorKind.name ∧
    "LexicalError" ∉ declaredErrorKinds.map ErrorKind.name ∧
    "LexicalAnalyzerError" ∉ specClaimedErrorKindNames ∧
    "ParseError" ∉ specClaimedErrorKindNames := by
  refine ⟨by decide, by decide, by decide, by decide, by decide, by decide⟩

/-- Claim C4 (amended): `error.rs` declares exactly `ReadError`,
`LexicalAnalyzerError` and `ParseError`; the stages construct, in
addition, `SyntaxError`, `InterpretationError`, `CodeGenerationError`
and `VirtualMachineError` (and never a `LexicalError`), and every
failing operation reports its stage's fixed kind: the lexer
`LexicalAnalyzerError`, the token reader `ReadError`, the parser
`SyntaxError`, the AST interpreter `InterpretationError`, the code
generator `CodeGenerationError`, and the virtual machine
`VirtualMachineError`. -/
theorem C4_error_kinds_per_stage :
    declaredErrorKinds = [.ReadError, .LexicalAnalyzerError, .ParseError] ∧
    (∀ (s : List Char) (e : CompileError),
      lexTokens s = .err e → e.kind = .LexicalAnalyzerError) ∧
    (∀ (l : List Char) (e : CompileError),
      fromLine l = .err e → e.kind = .ReadError) ∧
    (∀ (ts : List Token) (e : CompileError),
      parse ts = .err e → e.kind = .SyntaxError) ∧
    (∀ (f : Nat) (n : ASTNode) (e : CompileError) (o : List Char),
      interpret f n = .err e o → e.kind = .InterpretationError) ∧
    (∀ (t : ASTNode) (e : CompileError),
      generate t = .err e → e.kind = .CodeGenerationError) ∧
    (∀ (f : Nat) (ls : List (List Char)) (e : CompileError) (o : List Char),
      vmInterpret f ls = .err e o → e.kind = .VirtualMachineError) := by
  refine ⟨rfl, ?_, ?_, ?_, ?_, ?_, ?_⟩
  · exact fun s e h => (lexTokens_errKind s).kind_eqC h
  · exact fun l e h => (fromLine_errKind l).kind_eqC h
  · exact parse_errKind
  · exact fun f n e o h => interp_errKind f [] [] n e o h
  · exact generate_errKind
  · exact fun f ls e o h => (vmInterpret_errKind f ls).kind_eqV h

/-- Witness for C4 at concrete failing inputs of all six reporting
sites: an unrecognized character for the lexer, an unknown token-kind
name for the token reader, a truncated `if` for the parser, the `None`
node for the interpreter, a bare `String` node for the code generator,
and an empty file for the VM. -/
theorem C4_error_kinds_per_stage_witness :
    (⟨.LexicalAnalyzerError, "Unrecognized character: ^"⟩ : CompileError).kind
        = .LexicalAnalyzerError ∧
    (⟨.ReadError, "unknown token kind: Foo"⟩ : CompileError).kind = .ReadError ∧
    (⟨.SyntaxError, "unexpected EOF"⟩ : CompileError).kind = .SyntaxError ∧
    (⟨.InterpretationError, "unknown node."⟩ : CompileError).kind = .InterpretationError ∧
    (⟨.CodeGenerationError, "unknown instruction"⟩ : CompileError).kind
        = .CodeGenerationError ∧
    (⟨.VirtualMachineError, "empty file"⟩ : CompileError).kind = .VirtualMachineError :=
  ⟨C4_error_kinds_per_stage.2.1 "^".data _ (by decide),
   C4_error_kinds_per_stage.2.2.1 "1 1 Foo".data _ (by decide),
   C4_error_kinds_per_stage.2.2.2.1 [⟨.KeywordIf, 1, 1⟩] _ (by decide),
   C4_error_kinds_per_stage.2.2.2.2.1 2 (.mk .None none none) _ [] (by decide),
   C4_error_kinds_per_stage.2.2.2.2.2.1 (.mk (.String "s".data) none none) _ (by decide),
   C4_error_kinds_per_stage.2.2.2.2.2.2 5 [] _ [] (by decide)⟩

/-! ## Serializable ASTs and the print/read roundtrip -/

/-- Leaf payload kinds and `None` are not interior kinds. -/
def isInterior : NodeKind → Bool
  | .Identifier _ | .String _ | .Integer _ | .None => false
  | _ => true

mutual

/-- A *serializable* AST: `Identifier` leaves carry a nonempty
whitespace-free name, `Integer` leaves an in-range `i32`, `String`
leaves only characters whose Debug-escape the reader can undo
(`cleanChar`), leaves have no children, and the `None` kind does not
occur. -/
def serializableB : ASTNode → Bool
  | .mk k l r =>
    match k with
    | .Identifier n =>
      (!n.isEmpty) && n.all (fun c => !c.isWhitespace) && l.isNone && r.isNone
    | .Integer v => decide (inI32 v) && l.isNone && r.isNone
    | .String s => s.all (fun c => decide (cleanChar c)) && l.isNone && r.isNone
    | .None => false
    | _ => oserializableB l && oserializableB r

def oserializableB : Option ASTNode → Bool
  | none => true
  | some t => serializableB t

end

mutual

/-- The lines (without terminators) of the pre-order serialisation. -/
def astLines : ASTNode → List (List Char)
  | .mk k l r =>
    match k with
    | .Identifier n => ["Identifier ".data ++ n]
    | .String s => ["String ".data ++ quoteEscape s]
    | .Integer v => ["Integer ".data ++ intToChars v]
    | _ => nodeKindName k :: (olines l ++ olines r)

def olines : Option ASTNode → List (List Char)
  | none => [";".data]
  | some t => astLines t

end

theorem astDisplay_eq_lines :
    ∀ t, astDisplay t = ((astLines t).map (fun l => l ++ ['\n'])).flatten := by
  intro t
  induction t using ASTNode.strongInductionOn with
  | ind t ih =>
    obtain ⟨k, l, r⟩ := t
    rcases l with _ | lc <;> rcases r with _ | rc
    · cases k <;> simp [astDisplay, astLines, olines]
    · have h2 := ih rc (ASTNode.sizeOf_right rfl)
      cases k <;> simp [astDisplay, astLines, olines, h2]
    · have h1 := ih lc (ASTNode.sizeOf_left rfl)
      cases k <;> simp [astDisplay, astLines, olines, h1]
    · have h1 := ih lc (ASTNode.sizeOf_left rfl)
      have h2 := ih rc (ASTNode.sizeOf_right rfl)
      cases k <;> simp [astDisplay, astLines, olines, h1, h2]

theorem linesOf_lineText (ls : List (List Char)) (h : ∀ l ∈ ls, lineOk l) :
    linesOf ((ls.map (fun l => l ++ ['\n'])).flatten) = ls := by
  induction ls with
  | nil => exact linesOf_nil
  | cons w rest ih =>
    obtain ⟨hne, hnc⟩ := h w (by simp)
    have hnn : ∀ c ∈ w, (fun x => x ≠ '\n' : Char → Bool) c := by
      intro c hc; simp [(hnc c hc).1]
    have hflat : ((w :: rest).map (fun l => l ++ ['\n'])).flatten =
        w ++ '\n' :: (rest.map (fun l => l ++ ['\n'])).flatten := by simp
    rw [hflat,
        linesOf_drop_cons (dropWhile_append_stop hnn (by simp) _),
        takeWhile_append_stop hnn (by simp) _,
        trimCr_of_no_cr (fun c hc => (hnc c hc).2),
        ih (fun y hy => h y (by simp [hy]))]

theorem natToChars_mem_digit {n : Nat} {c : Char} (hc : c ∈ natToChars n) : c.isDigit := by
  have h := natToChars_digits n
  rw [List.all_eq_true] at h
  exact h c hc

theorem intToChars_chars {v : Int} {c : Char} (hc : c ∈ intToChars v) :
    c.isDigit ∨ c = '-' := by
  unfold intToChars at hc
  split at hc
  · rcases List.mem_cons.1 hc with rfl | hm
    · right; rfl
    · left; exact natToChars_mem_digit hm
  · left; exact natToChars_mem_digit hc

theorem isDigit_not_ws {c : Char} (h : c.isDigit) : ¬ c.isWhitespace := by
  intro hw
  have hd := h
  simp [Char.isDigit] at hd
  simp [Char.isWhitespace] at hw
  rcases hw with ((rfl | rfl) | rfl) | rfl <;> revert hd <;> decide

theorem isDigit_ne_nl {c : Char} (h : c.isDigit) : c ≠ '\n' := by
  rintro rfl; revert h; decide

theorem isDigit_ne_cr {c : Char} (h : c.isDigit) : c ≠ '\r' := by
  rintro rfl; revert h; decide

theorem isDigit_ne_space {c : Char} (h : c.isDigit) : c ≠ ' ' := by
  rintro rfl; revert h; decide

theorem cleanChar_escapeChar_mem {c c' : Char} (h : cleanChar c) (hm : c' ∈ escapeChar c) :
    c' ≠ '\n' ∧ c' ≠ '\r' := by
  rcases escapeChar_clean h with ⟨hcn, he⟩ | ⟨hcb, he⟩ | ⟨hn, hb, hq, he⟩ <;> rw [he] at hm
  · rcases List.mem_cons.1 hm with rfl | hm2
    · exact ⟨by decide, by decide⟩
    · simp at hm2; subst hm2; exact ⟨by decide, by decide⟩
  · rcases List.mem_cons.1 hm with rfl | hm2
    · exact ⟨by decide, by decide⟩
    · simp at hm2; subst hm2; exact ⟨by decide, by decide⟩
  · simp at hm; subst hm
    refine ⟨hn, ?_⟩
    rcases h with rfl | rfl | ⟨h32, _, _⟩
    · exact absurd rfl hn
    · exact absurd rfl hb
    · rintro rfl; exact absurd h32 (by decide)

theorem interior_name_props (k : NodeKind) (hk : isInterior k = true) :
    nodeKindName k ≠ [] ∧
    (∀ c ∈ nodeKindName k, c ≠ ' ' ∧ ¬ c.isWhitespace ∧ c ≠ '\n' ∧ c ≠ '\r') ∧
    nodeKindName k ≠ ";".data ∧
    nodeKindName k ≠ "Identifier".data ∧
    nodeKindName k ≠ "Integer".data ∧
    nodeKindName k ≠ "String".data ∧
    interiorKindOfName (nodeKindName k) = some k := by
  cases k <;> first | decide | simp [isInterior] at hk

theorem dropWhile_eq_self_of_head {p : Char → Bool} {l : List Char}
    (h : ∀ c, l.head? = some c → ¬ p c) : l.dropWhile p = l := by
  cases l with
  | nil => rfl
  | cons a t =>
    have ha := h a rfl
    simp [List.dropWhile, ha]

theorem trimChars_eq_self {l : List Char}
    (h1 : ∀ c, l.head? = some c → ¬ c.isWhitespace)
    (h2 : ∀ c, l.getLast? = some c → ¬ c.isWhitespace) : trimChars l = l := by
  unfold trimChars
  have e1 : l.dropWhile Char.isWhitespace = l :=
    dropWhile_eq_self_of_head (by intro c hc; simpa using h1 c hc)
  have e2 : l.reverse.dropWhile Char.isWhitespace = l.reverse :=
    dropWhile_eq_self_of_head
      (by intro c hc; rw [List.head?_reverse] at hc; simpa using h2 c hc)
  rw [e1, e2, List.reverse_reverse]

theorem splitN2_word_space {w : List Char} (hw : ∀ c ∈ w, c ≠ ' ') (p : List Char) :
    splitN2 (w ++ ' ' :: p) = (w, some p) := by
  unfold splitN2
  have hww : ∀ c ∈ w, (fun c => c ≠ ' ' : Char → Bool) c = true := by
    intro c hc; simp [hw c hc]
  rw [takeWhile_append_stop hww (by simp) p, dropWhile_append_stop hww (by simp) p]
  simp

theorem splitN2_word {w : List Char} (hw : ∀ c ∈ w, c ≠ ' ') :
    splitN2 w = (w, none) := by
  unfold splitN2
  have hww : ∀ c ∈ w, (fun c => c ≠ ' ' : Char → Bool) c = true := by
    intro c hc; simp [hw c hc]
  rw [takeWhile_all hww, dropWhile_all hww]
  simp

theorem getLast?_append_right {l1 l2 : List Char} (h : l2 ≠ []) :
    (l1 ++ l2).getLast? = l2.getLast? := by
  rw [List.getLast?_append]
  cases hgl : l2.getLast? with
  | none =>
    cases l2 with
    | nil => exact absurd rfl h
    | cons a t => rw [List.getLast?_cons] at hgl; simp at hgl
  | some a => rfl

theorem makeNode_semi (f : Nat) (R : List (List Char)) :
    makeNode (f + 1) (";".data :: R) = .ok (none, R) := rfl

theorem makeNode_identifier (f : Nat) {n : List Char} (hne : n ≠ [])
    (hnw : ∀ c ∈ n, ¬ c.isWhitespace) (R : List (List Char)) :
    makeNode (f + 1) (("Identifier ".data ++ n) :: R) =
      .ok (some (.mk (.Identifier n) none none), R) := by
  have htn : trimChars n = n :=
    trimChars_eq_self
      (fun c hc => hnw c (by cases n with | nil => cases hc | cons a t => cases hc; simp))
      (fun c hc => hnw c (List.mem_of_mem_getLast? hc))
  have htrim : trimChars ("Identifier ".data ++ n) = "Identifier ".data ++ n :=
    trimChars_eq_self
      (by intro c hc; cases hc; decide)
      (by
        intro c hc
        rw [getLast?_append_right hne] at hc
        exact hnw c (List.mem_of_mem_getLast? hc))
  have hsplit : splitN2 ("Identifier ".data ++ n) = ("Identifier".data, some n) := by
    have he : "Identifier ".data ++ n = "Identifier".data ++ ' ' :: n := rfl
    rw [he, splitN2_word_space (by decide) n]
  rw [makeNode, htrim, hsplit]
  dsimp only
  rw [if_neg (by decide), if_pos rfl, htn]

theorem makeNode_integer (f : Nat) {v : Int} (hv : inI32 v) (R : List (List Char)) :
    makeNode (f + 1) (("Integer ".data ++ intToChars v) :: R) =
      .ok (some (.mk (.Integer v) none none), R) := by
  have hne : intToChars v ≠ [] := by
    unfold intToChars
    split
    · simp
    · exact natToChars_ne_nil _
  have hnw : ∀ c ∈ intToChars v, ¬ c.isWhitespace := by
    intro c hc
    rcases intToChars_chars hc with hd | rfl
    · exact isDigit_not_ws hd
    · decide
  have htn : trimChars (intToChars v) = intToChars v :=
    trimChars_eq_self
      (fun c hc => hnw c (by
        cases he : intToChars v with
        | nil => rw [he] at hc; cases hc
        | cons a t => rw [he] at hc; cases hc; simp [he]))
      (fun c hc => hnw c (List.mem_of_mem_getLast? hc))
  have htrim : trimChars ("Integer ".data ++ intToChars v) = "Integer ".data ++ intToChars v :=
    trimChars_eq_self
      (by intro c hc; cases hc; decide)
      (by
        intro c hc
        rw [getLast?_append_right hne] at hc
        exact hnw c (List.mem_of_mem_getLast? hc))
  have hnosp : ∀ c ∈ intToChars v, c ≠ ' ' := by
    intro c hc
    rcases intToChars_chars hc with hd | rfl
    · exact isDigit_ne_space hd
    · decide
  have hsplit : splitN2 ("Integer ".data ++ intToChars v) =
      ("Integer".data, some (intToChars v)) := by
    have he : "Integer ".data ++ intToChars v = "Integer".data ++ ' ' :: intToChars v := rfl
    rw [he, splitN2_word_space (by decide) _]
  rw [makeNode, htrim, hsplit]
  dsimp only
  rw [if_neg (by decide), if_neg (by decide), if_pos rfl, htn, parseI32_intToChars hv]

theorem makeNode_string (f : Nat) {s : List Char} (hs : cleanChars s) (R : List (List Char)) :
    makeNode (f + 1) (("String ".data ++ quoteEscape s) :: R) =
      .ok (some (.mk (.String s) none none), R) := by
  have hql : (quoteEscape s).getLast? = some '"' := by
    show ('"' :: (escapeChars s ++ ['"'])).getLast? = some '"'
    rw [show ('"' :: (escapeChars s ++ ['"'])) = ('"' :: escapeChars s) ++ ['"'] by simp,
        getLast?_append_right (by simp)]
    rfl
  have htq : trimChars (quoteEscape s) = quoteEscape s :=
    trimChars_eq_self
      (by intro c hc; cases hc; decide)
      (by intro c hc; rw [hql] at hc; cases hc; decide)
  have htrim : trimChars ("String ".data ++ quoteEscape s) = "String ".data ++ quoteEscape s :=
    trimChars_eq_self
      (by intro c hc; cases hc; decide)
      (by
        intro c hc
        rw [getLast?_append_right (by simp [quoteEscape])] at hc
        rw [hql] at hc; cases hc; decide)
  have hsplit : splitN2 ("String ".data ++ quoteEscape s) =
      ("String".data, some (quoteEscape s)) := by
    have he : "String ".data ++ quoteEscape s = "String".data ++ ' ' :: quoteEscape s := rfl
    rw [he, splitN2_word_space (by decide) _]
  have hmk : makeStringNodePayload (quoteEscape s) = .ok s := by
    show makeStringNodePayload ('"' :: (escapeChars s ++ ['"'])) = .ok s
    show (match scanQuoted (escapeChars s ++ ['"']) with
          | ScanRes.ok content => CRes.ok content
          | _ => CRes.panic) = CRes.ok s
    rw [scanQuoted_escapeChars hs]
  rw [makeNode, htrim, hsplit]
  dsimp only
  rw [if_neg (by decide), if_neg (by decide), if_neg (by decide), if_pos rfl, htq, hmk]

theorem astLines_length_pos (t : ASTNode) : 1 ≤ (astLines t).length := by
  obtain ⟨k, l, r⟩ := t
  cases k <;> simp [astLines]

theorem olines_length_pos (o : Option ASTNode) : 1 ≤ (olines o).length := by
  cases o with
  | none => simp [olines]
  | some t => exact astLines_length_pos t

theorem not_ws_ne_nl {c : Char} (h : ¬ c.isWhitespace) : c ≠ '\n' ∧ c ≠ '\r' :=
  ⟨by rintro rfl; exact h (by decide), by rintro rfl; exact h (by decide)⟩

theorem serializableB_identifier (n : List Char) (l r : Option ASTNode) :
    serializableB (.mk (.Identifier n) l r) =
      ((!n.isEmpty) && n.all (fun c => !c.isWhitespace) && l.isNone && r.isNone) := rfl

theorem serializableB_integer (v : Int) (l r : Option ASTNode) :
    serializableB (.mk (.Integer v) l r) =
      (decide (inI32 v) && l.isNone && r.isNone) := rfl

theorem serializableB_string (s : List Char) (l r : Option ASTNode) :
    serializableB (.mk (.String s) l r) =
      (s.all (fun c => decide (cleanChar c)) && l.isNone && r.isNone) := rfl

theorem serializableB_none_kind (l r : Option ASTNode) :
    serializableB (.mk .None l r) = false := rfl

theorem serializableB_interior {k : NodeKind} (hk : isInterior k = true)
    (l r : Option ASTNode) :
    serializableB (.mk k l r) = (oserializableB l && oserializableB r) := by
  cases k <;> first | rfl | simp [isInterior] at hk

theorem astLines_interior {k : NodeKind} (hk : isInterior k = true) (l r : Option ASTNode) :
    astLines (.mk k l r) = nodeKindName k :: (olines l ++ olines r) := by
  cases k <;> first | rfl | simp [isInterior] at hk

set_option maxHeartbeats 1000000 in
/-- For an interior kind, one `make_node` step on the kind-name line
reads the two children from the following lines. -/
theorem makeNode_interior_step {k : NodeKind} (hk : isInterior k = true)
    (f2 : Nat) (rest : List (List Char)) :
    makeNode (f2 + 1) (nodeKindName k :: rest) =
      (match makeNode f2 rest with
       | .ok (lhs, rest1) =>
         (match makeNode f2 rest1 with
          | .ok (rhs, rest2) => .ok (some (.mk k lhs rhs), rest2)
          | r => r)
       | r => r) := by
  cases k <;> first | rfl | simp [isInterior] at hk

theorem makeNode_astLines : ∀ (t : ASTNode), serializableB t = true →
    ∀ (R : List (List Char)) (f : Nat), (astLines t).length + 1 ≤ f →
      makeNode f (astLines t ++ R) = .ok (some t, R) := by
  intro t
  induction t using ASTNode.strongInductionOn with
  | ind t ih =>
    obtain ⟨k, l, r⟩ := t
    intro hwf R f hf
    cases f with
    | zero => exact absurd hf (by omega)
    | succ f2 =>
      cases k
      case Identifier n =>
        rw [serializableB_identifier, Bool.and_eq_true, Bool.and_eq_true,
          Bool.and_eq_true] at hwf
        obtain ⟨⟨⟨hne, hall⟩, hl⟩, hr⟩ := hwf
        rw [Option.isNone_iff_eq_none] at hl hr
        subst hl; subst hr
        rw [List.all_eq_true] at hall
        simp only [astLines, List.singleton_append]
        refine makeNode_identifier f2 ?_ (fun c hc => by simpa using hall c hc) R
        intro hnil
        rw [hnil] at hne
        exact absurd hne (by decide)
      case Integer v =>
        rw [serializableB_integer, Bool.and_eq_true, Bool.and_eq_true] at hwf
        obtain ⟨⟨hv, hl⟩, hr⟩ := hwf
        rw [Option.isNone_iff_eq_none] at hl hr
        subst hl; subst hr
        rw [decide_eq_true_eq] at hv
        simp only [astLines, List.singleton_append]
        exact makeNode_integer f2 hv R
      case String s =>
        rw [serializableB_string, Bool.and_eq_true, Bool.and_eq_true] at hwf
        obtain ⟨⟨hs, hl⟩, hr⟩ := hwf
        rw [Option.isNone_iff_eq_none] at hl hr
        subst hl; subst hr
        rw [List.all_eq_true] at hs
        simp only [astLines, List.singleton_append]
        exact makeNode_string f2 (fun c hc => by simpa using hs c hc) R
      case None =>
        rw [serializableB_none_kind] at hwf
        cases hwf
      all_goals (
        rw [serializableB_interior (by decide), Bool.and_eq_true] at hwf
        obtain ⟨hwl, hwr⟩ := hwf
        rw [astLines_interior (by decide)] at hf ⊢
        rw [List.length_cons, List.length_append] at hf
        rw [List.cons_append, List.append_assoc,
            makeNode_interior_step (by decide)]
        have hlenl := olines_length_pos l
        have hlenr := olines_length_pos r
        have hleft : makeNode f2 (olines l ++ (olines r ++ R)) =
            .ok (l, olines r ++ R) := by
          cases l with
          | none =>
            show makeNode f2 (";".data :: (olines r ++ R)) = .ok (none, olines r ++ R)
            cases f2 with
            | zero => omega
            | succ f3 => exact makeNode_semi f3 _
          | some lc =>
            show makeNode f2 (astLines lc ++ (olines r ++ R)) = .ok (some lc, olines r ++ R)
            refine ih lc (ASTNode.sizeOf_left rfl)
              (by rw [show oserializableB (some lc) = serializableB lc from rfl] at hwl
                  exact hwl) _ f2 ?_
            rw [show olines (some lc) = astLines lc from rfl] at hf
            omega
        have hright : makeNode f2 (olines r ++ R) = .ok (r, R) := by
          cases r with
          | none =>
            show makeNode f2 (";".data :: R) = .ok (none, R)
            cases f2 with
            | zero => omega
            | succ f3 => exact makeNode_semi f3 _
          | some rc =>
            show makeNode f2 (astLines rc ++ R) = .ok (some rc, R)
            refine ih rc (ASTNode.sizeOf_right rfl)
              (by rw [show oserializableB (some rc) = serializableB rc from rfl] at hwr
                  exact hwr) _ f2 ?_
            rw [show olines (some rc) = astLines rc from rfl] at hf
            omega
        rw [hleft]
        dsimp only
        rw [hright])

theorem astLines_lineOk : ∀ (t : ASTNode), serializableB t = true →
    ∀ l ∈ astLines t, lineOk l := by
  intro t
  induction t using ASTNode.strongInductionOn with
  | ind t ih =>
    obtain ⟨k, l, r⟩ := t
    intro hwf line hline
    cases k
    case Identifier n =>
      rw [serializableB_identifier, Bool.and_eq_true, Bool.and_eq_true,
        Bool.and_eq_true, List.all_eq_true] at hwf
      obtain ⟨⟨⟨-, hall⟩, -⟩, -⟩ := hwf
      simp only [astLines, List.mem_singleton] at hline
      subst hline
      refine ⟨by simp, ?_⟩
      intro c hc
      rcases List.mem_append.1 hc with hm | hm
      · exact (by decide : ∀ c ∈ "Identifier ".data, c ≠ '\n' ∧ c ≠ '\r') c hm
      · exact not_ws_ne_nl (by simpa using hall c hm)
    case Integer v =>
      simp only [astLines, List.mem_singleton] at hline
      subst hline
      refine ⟨by simp, ?_⟩
      intro c hc
      rcases List.mem_append.1 hc with hm | hm
      · exact (by decide : ∀ c ∈ "Integer ".data, c ≠ '\n' ∧ c ≠ '\r') c hm
      · rcases intToChars_chars hm with hd | rfl
        · exact ⟨isDigit_ne_nl hd, isDigit_ne_cr hd⟩
        · exact ⟨by decide, by decide⟩
    case String s =>
      rw [serializableB_string, Bool.and_eq_true, Bool.and_eq_true,
        List.all_eq_true] at hwf
      obtain ⟨⟨hs, -⟩, -⟩ := hwf
      simp only [astLines, List.mem_singleton] at hline
      subst hline
      refine ⟨by simp, ?_⟩
      intro c hc
      rcases List.mem_append.1 hc with hm | hm
      · exact (by decide : ∀ c ∈ "String ".data, c ≠ '\n' ∧ c ≠ '\r') c hm
      · rcases List.mem_cons.1 hm with rfl | hm2
        · exact ⟨by decide, by decide⟩
        · rcases List.mem_append.1 hm2 with hm3 | hm3
          · rw [escapeChars, List.mem_flatten] at hm3
            obtain ⟨piece, hpiece, hcpiece⟩ := hm3
            rw [List.mem_map] at hpiece
            obtain ⟨c0, hc0, rfl⟩ := hpiece
            exact cleanChar_escapeChar_mem (by simpa using hs c0 hc0) hcpiece
          · simp only [List.mem_singleton] at hm3
            subst hm3
            exact ⟨by decide, by decide⟩
    case None =>
      rw [serializableB_none_kind] at hwf
      cases hwf
    all_goals (
      rw [serializableB_interior (by decide), Bool.and_eq_true] at hwf
      obtain ⟨hwl, hwr⟩ := hwf
      rw [astLines_interior (by decide)] at hline
      rcases List.mem_cons.1 hline with rfl | hm
      · exact ⟨by decide, by decide⟩
      · rcases List.mem_append.1 hm with hm2 | hm2
        · cases l with
          | none =>
            simp only [olines, List.mem_singleton] at hm2
            subst hm2; exact ⟨by decide, by decide⟩
          | some lc =>
            exact ih lc (ASTNode.sizeOf_left rfl)
              (by rw [show oserializableB (some lc) = serializableB lc from rfl] at hwl
                  exact hwl) line hm2
        · cases r with
          | none =>
            simp only [olines, List.mem_singleton] at hm2
            subst hm2; exact ⟨by decide, by decide⟩
          | some rc =>
            exact ih rc (ASTNode.sizeOf_right rfl)
              (by rw [show oserializableB (some rc) = serializableB rc from rfl] at hwr
                  exact hwr) line hm2)

/-- Claim C5 (amended): for every serializable AST — `Identifier`
leaves with nonempty whitespace-free names, `Integer` leaves in `i32`
range, `String` leaves of clean characters, no `None` kind, leaves
childless — printing in the pre-order textual form and reading the
text back with the AST reader yields a structurally equal tree. -/
theorem C5_serializable_ast_roundtrip (t : ASTNode) (h : serializableB t = true) :
    read_ast (linesOf (astDisplay t)) = .ok t := by
  rw [astDisplay_eq_lines, linesOf_lineText _ (astLines_lineOk t h)]
  unfold read_ast
  have hm := makeNode_astLines t h [] ((astLines t).length + 1) (le_refl _)
  rw [List.append_nil] at hm
  rw [hm]

/-- Witness for C5 at a concrete serializable tree using every leaf
payload form (`x = -7; print("a b");` shaped). -/
theorem C5_serializable_ast_roundtrip_witness :
    read_ast (linesOf (astDisplay (.mk .Sequence
      (some (.mk .Assign (some (.mk (.Identifier "x".data) none none))
        (some (.mk (.Integer (-7)) none none))))
      (some (.mk .Prts (some (.mk (.String "a b".data) none none)) none))))) =
    .ok (.mk .Sequence
      (some (.mk .Assign (some (.mk (.Identifier "x".data) none none))
        (some (.mk (.Integer (-7)) none none))))
      (some (.mk .Prts (some (.mk (.String "a b".data) none none)) none))) :=
  C5_serializable_ast_roundtrip _ (by decide)

/-- Counterexample to C5 as stated: the valid source `print("<TAB>");`
parses to a tree whose `String` leaf holds a raw tab; printing that
tree Debug-escapes the tab as `\t`, which `make_string` does not
recognise, so reading the printed text back panics (`unreachable!`)
instead of returning the tree. -/
theorem C5_counterexample_tab_string :
    lexTokens "print(\"\t\");".data =
      .ok [⟨.KeywordPrint, 1, 1⟩, ⟨.LeftParen, 1, 6⟩, ⟨.String ['\t'], 1, 7⟩,
           ⟨.RightParen, 1, 10⟩, ⟨.Semicolon, 1, 11⟩, ⟨.EndOfInput, 1, 12⟩] ∧
    parse [⟨.KeywordPrint, 1, 1⟩, ⟨.LeftParen, 1, 6⟩, ⟨.String ['\t'], 1, 7⟩,
           ⟨.RightParen, 1, 10⟩, ⟨.Semicolon, 1, 11⟩, ⟨.EndOfInput, 1, 12⟩] =
      .ok (.mk .Sequence none (some (.mk .Sequence none (some (.mk .Prts (some (.mk (.String ['\t']) none none)) none))))) ∧
    read_ast (linesOf (astDisplay (.mk .Sequence none (some (.mk .Sequence none (some (.mk .Prts (some (.mk (.String ['\t']) none none)) none))))))) = .panic := by
  refine ⟨by decide, by decide, by decide⟩

/-! ## Code-generator layout and jump invariants -/

/-- Byte width of an instruction: opcode plus a 4-byte immediate for
`FETCH`, `STORE`, `PUSH`, `JMP`, `JZ`. -/
def instWidth : InstructionKind → Nat
  | .Fetch _ | .Store _ | .Push _ | .Jump _ | .Jz _ => 5
  | _ => 1

theorem instWidth_pos (k : InstructionKind) : 1 ≤ instWidth k := by
  cases k <;> simp [instWidth]

/-- The instructions occupy consecutive addresses from `a` to `b`. -/
def layout : Nat → List Instruction → Nat → Prop
  | a, [], b => a = b
  | a, i :: t, b => i.address = a ∧ layout (a + instWidth i.kind) t b

theorem layout_le : ∀ {a : Nat} {Δ : List Instruction} {b : Nat}, layout a Δ b → a ≤ b := by
  intro a Δ
  induction Δ generalizing a with
  | nil => intro b h; exact Nat.le_of_eq h
  | cons i t ih =>
    intro b h
    obtain ⟨-, h2⟩ := h
    have := ih h2
    omega

theorem layout_append {a b c : Nat} {Δ1 Δ2 : List Instruction}
    (h1 : layout a Δ1 b) (h2 : layout b Δ2 c) : layout a (Δ1 ++ Δ2) c := by
  induction Δ1 generalizing a with
  | nil => rw [show a = b from h1]; simpa using h2
  | cons i t ih =>
    obtain ⟨hi, ht⟩ := h1
    exact ⟨hi, ih ht⟩

theorem layout_mem_bounds : ∀ {a : Nat} {Δ : List Instruction} {b : Nat} {i : Instruction},
    layout a Δ b → i ∈ Δ → a ≤ i.address ∧ i.address < b := by
  intro a Δ
  induction Δ generalizing a with
  | nil => intro b i _ hm; cases hm
  | cons j t ih =>
    intro b i h hm
    obtain ⟨hj, ht⟩ := h
    rcases List.mem_cons.1 hm with rfl | hm2
    · have h1 := layout_le ht
      have h2 := instWidth_pos i.kind
      omega
    · have := ih ht hm2
      have h2 := instWidth_pos j.kind
      omega

/-- Every `JZ`/`JMP` already carries a relative immediate that encodes
an absolute target between `lo` and `hi`, measured from the byte after
the opcode. -/
def jumpsPatched (lo hi : Nat) (ins : List Instruction) : Prop :=
  ∀ i ∈ ins, ∀ v : Int, (i.kind = .Jz v ∨ i.kind = .Jump v) →
    ∃ target : Nat, lo ≤ target ∧ target ≤ hi ∧
      v = wrap32 ((target : Int) - ((i.address : Int) + 1))

theorem jumpsPatched_nil (lo hi : Nat) : jumpsPatched lo hi [] := by
  intro i hm; cases hm

theorem jumpsPatched_mono {lo lo' hi hi' : Nat} {Δ : List Instruction}
    (h : jumpsPatched lo hi Δ) (h1 : lo' ≤ lo) (h2 : hi ≤ hi') :
    jumpsPatched lo' hi' Δ := by
  intro i hm v hv
  obtain ⟨t, ht1, ht2, ht3⟩ := h i hm v hv
  exact ⟨t, by omega, by omega, ht3⟩

theorem jumpsPatched_append {lo hi : Nat} {Δ1 Δ2 : List Instruction}
    (h1 : jumpsPatched lo hi Δ1) (h2 : jumpsPatched lo hi Δ2) :
    jumpsPatched lo hi (Δ1 ++ Δ2) := by
  intro i hm v hv
  rcases List.mem_append.1 hm with hm2 | hm2
  · exact h1 i hm2 v hv
  · exact h2 i hm2 v hv

theorem jumpsPatched_single_nonjump {lo hi : Nat} {i : Instruction}
    (h : ∀ v : Int, i.kind ≠ .Jz v ∧ i.kind ≠ .Jump v) :
    jumpsPatched lo hi [i] := by
  intro j hm v hv
  rcases List.mem_singleton.1 hm with rfl
  rcases hv with hv | hv
  · exact absurd hv (h v).1
  · exact absurd hv (h v).2

theorem emit_fields (st : CGSt) (k : InstructionKind) (w : Nat) :
    (emit st k w).data_addr = st.data_addr ∧
    (emit st k w).string_pool = st.string_pool ∧
    (emit st k w).pc = st.pc + w ∧
    (emit st k w).instructions = st.instructions ++ [⟨k, st.pc⟩] :=
  ⟨rfl, rfl, rfl, rfl⟩

theorem intern_fields (st : CGSt) (name : List Char) :
    ∃ ds, (intern st name).2 = { st with data_addr := st.data_addr ++ ds } := by
  unfold intern
  split
  · exact ⟨[], by simp⟩
  · exact ⟨[name], rfl⟩

theorem intern_string_fields (st : CGSt) (s : List Char) :
    ∃ ps, (intern_string st s).2 = { st with string_pool := st.string_pool ++ ps } := by
  unfold intern_string
  split
  · exact ⟨[], by simp⟩
  · exact ⟨[s], rfl⟩

theorem get?_append_cons {α : Type} (pre : List α) (x : α) (post : List α) :
    (pre ++ x :: post).get? pre.length = some x := by
  induction pre with
  | nil => rfl
  | cons a t ih => simpa using ih

theorem set_append_cons {α : Type} (pre : List α) (x y : α) (post : List α) :
    (pre ++ x :: post).set pre.length y = pre ++ y :: post := by
  induction pre with
  | nil => rfl
  | cons a t ih => simpa using ih

theorem backpatch_jz {st : CGSt} {pre post : List Instruction} {a : Nat} {v0 : Int}
    (hins : st.instructions = pre ++ ⟨.Jz v0, a⟩ :: post) :
    backpatch st pre.length = .ok { st with instructions :=
      pre ++ ⟨.Jz (wrap32 ((st.pc : Int) - ((a : Int) + 1))), a⟩ :: post } := by
  unfold backpatch
  rw [hins, get?_append_cons]
  dsimp only
  rw [set_append_cons]

theorem backpatch_jump {st : CGSt} {pre post : List Instruction} {a : Nat} {v0 : Int}
    (hins : st.instructions = pre ++ ⟨.Jump v0, a⟩ :: post) :
    backpatch st pre.length = .ok { st with instructions :=
      pre ++ ⟨.Jump (wrap32 ((st.pc : Int) - ((a : Int) + 1))), a⟩ :: post } := by
  unfold backpatch
  rw [hins, get?_append_cons]
  dsimp only
  rw [set_append_cons]

/-- The state evolution contract of one `generate_body` call: `pc`
grows, `data_addr` and `string_pool` grow by appending, and the
instruction list grows by a block laid out contiguously from the old
`pc` to the new one whose jumps all target addresses inside the
block's address range. -/
def cgSpec (st st' : CGSt) : Prop :=
  st.pc ≤ st'.pc ∧
  (∃ ds, st'.data_addr = st.data_addr ++ ds) ∧
  (∃ ps, st'.string_pool = st.string_pool ++ ps) ∧
  ∃ Δ, st'.instructions = st.instructions ++ Δ ∧
    layout st.pc Δ st'.pc ∧ jumpsPatched st.pc st'.pc Δ

theorem cgSpec_refl (st : CGSt) : cgSpec st st :=
  ⟨le_refl _, ⟨[], by simp⟩, ⟨[], by simp⟩, [], by simp, rfl, jumpsPatched_nil _ _⟩

theorem cgSpec_trans {s1 s2 s3 : CGSt} (h1 : cgSpec s1 s2) (h2 : cgSpec s2 s3) :
    cgSpec s1 s3 := by
  obtain ⟨hp1, ⟨d1, hd1⟩, ⟨p1, hq1⟩, Δ1, hi1, hl1, hj1⟩ := h1
  obtain ⟨hp2, ⟨d2, hd2⟩, ⟨p2, hpp2⟩, Δ2, hi2, hl2, hj2⟩ := h2
  refine ⟨by omega, ⟨d1 ++ d2, by rw [hd2, hd1, List.append_assoc]⟩,
    ⟨p1 ++ p2, by rw [hpp2, hq1, List.append_assoc]⟩,
    Δ1 ++ Δ2, by rw [hi2, hi1, List.append_assoc], layout_append hl1 hl2,
    jumpsPatched_append (jumpsPatched_mono hj1 (le_refl _) hp2)
      (jumpsPatched_mono hj2 hp1 (le_refl _))⟩

theorem cgSpec_emit {st : CGSt} {k : InstructionKind} {w : Nat}
    (hw : instWidth k = w) (hnj : ∀ v : Int, k ≠ .Jz v ∧ k ≠ .Jump v) :
    cgSpec st (emit st k w) := by
  refine ⟨by simp [emit], ⟨[], by simp [emit]⟩, ⟨[], by simp [emit]⟩,
    [⟨k, st.pc⟩], by simp [emit], ⟨rfl, ?_⟩, ?_⟩
  · show st.pc + instWidth k = (emit st k w).pc
    simp [emit, hw]
  · exact jumpsPatched_single_nonjump (fun v => hnj v)

theorem cgSpec_intern {st : CGSt} (name : List Char) : cgSpec st (intern st name).2 := by
  obtain ⟨ds, hds⟩ := intern_fields st name
  rw [hds]
  exact ⟨le_refl _, ⟨ds, rfl⟩, ⟨[], by simp⟩, [], by simp, rfl, jumpsPatched_nil _ _⟩

theorem cgSpec_intern_string {st : CGSt} (s : List Char) :
    cgSpec st (intern_string st s).2 := by
  obtain ⟨ps, hps⟩ := intern_string_fields st s
  rw [hps]
  exact ⟨le_refl _, ⟨[], by simp⟩, ⟨ps, rfl⟩, [], by simp, rfl, jumpsPatched_nil _ _⟩

theorem CRes.bind_ok_elim {α β : Type} {r : CRes α} {g : α → CRes β} {b : β}
    (h : CRes.bind r g = .ok b) : ∃ a, r = .ok a ∧ g a = .ok b := by
  cases r <;> simp_all [CRes.bind]

set_option maxHeartbeats 1600000 in
/-- The state contract of `generate_body`, by structural induction. -/
theorem generate_body_spec : ∀ (n : ASTNode) (st st' : CGSt),
    generate_body n st = .ok st' → cgSpec st st' := by
  intro n
  induction n using ASTNode.strongInductionOn with
  | ind n ih =>
    obtain ⟨k, l, r⟩ := n
    intro st st' h
    unfold generate_body at h
    simp only [CRes.bindM_eq] at h
    cases k
    case Identifier name =>
      dsimp only at h
      split at h
      · cases h; exact cgSpec_emit rfl (fun v => ⟨by simp, by simp⟩)
      · cases h
    case Integer v =>
      dsimp only at h
      cases h
      exact cgSpec_emit rfl (fun v2 => ⟨by simp, by simp⟩)
    case String s => cases h
    case None => cases h
    case Sequence =>
      dsimp only at h
      cases l with
      | none =>
        obtain ⟨st1, h1, h2⟩ := CRes.bind_ok_elim h
        cases h1
        cases r with
        | none => cases h2; exact cgSpec_refl _
        | some rc => exact ih rc (ASTNode.sizeOf_right rfl) _ _ h2
      | some lc =>
        obtain ⟨st1, h1, h2⟩ := CRes.bind_ok_elim h
        have s1 := ih lc (ASTNode.sizeOf_left rfl) _ _ h1
        cases r with
        | none => cases h2; exact s1
        | some rc => exact cgSpec_trans s1 (ih rc (ASTNode.sizeOf_right rfl) _ _ h2)
    case Prts =>
      rcases l with _ | ⟨sk, sl, sr⟩
      · cases h
      dsimp only at h
      split at h
      · next s heq2 =>
        cases h
        exact cgSpec_trans (cgSpec_intern_string s)
          (cgSpec_trans (cgSpec_emit rfl (fun v => ⟨by simp, by simp⟩))
            (cgSpec_emit rfl (fun v => ⟨by simp, by simp⟩)))
      · cases h
    case Prtc =>
      rcases l with _ | child
      · cases h
      dsimp only at h
      obtain ⟨st1, h1, h2⟩ := CRes.bind_ok_elim h
      cases h2
      exact cgSpec_trans (ih child (ASTNode.sizeOf_left rfl) _ _ h1)
        (cgSpec_emit rfl (fun v => ⟨by simp, by simp⟩))
    case Prti =>
      rcases l with _ | child
      · cases h
      dsimp only at h
      obtain ⟨st1, h1, h2⟩ := CRes.bind_ok_elim h
      cases h2
      exact cgSpec_trans (ih child (ASTNode.sizeOf_left rfl) _ _ h1)
        (cgSpec_emit rfl (fun v => ⟨by simp, by simp⟩))
    case Negate =>
      rcases l with _ | child
      · cases h
      dsimp only at h
      obtain ⟨st1, h1, h2⟩ := CRes.bind_ok_elim h
      cases h2
      exact cgSpec_trans (ih child (ASTNode.sizeOf_left rfl) _ _ h1)
        (cgSpec_emit rfl (fun v => ⟨by simp, by simp⟩))
    case Not =>
      rcases l with _ | child
      · cases h
      dsimp only at h
      obtain ⟨st1, h1, h2⟩ := CRes.bind_ok_elim h
      cases h2
      exact cgSpec_trans (ih child (ASTNode.sizeOf_left rfl) _ _ h1)
        (cgSpec_emit rfl (fun v => ⟨by simp, by simp⟩))
    case Assign =>
      rcases l with _ | ⟨ik, il, ir⟩
      · cases h
      rcases r with _ | rhsN
      · cases h
      dsimp only at h
      obtain ⟨st1, h1, h2⟩ := CRes.bind_ok_elim h
      have s1 : cgSpec st st1 := ih rhsN (ASTNode.sizeOf_right rfl) _ _ h1
      split at h2
      · next name heq2 =>
        cases h2
        exact cgSpec_trans s1 (cgSpec_trans (cgSpec_intern name)
          (cgSpec_emit rfl (fun v => ⟨by simp, by simp⟩)))
      · cases h2
    case If =>
      rcases l with _ | cond
      · cases h
      rcases r with _ | ⟨bk, bl, br⟩
      · dsimp only at h
        obtain ⟨sA, h1, h2⟩ := CRes.bind_ok_elim h
        cases h2
      rcases bl with _ | thenB
      · dsimp only at h
        obtain ⟨sA, h1, h2⟩ := CRes.bind_ok_elim h
        cases h2
      dsimp only at h
      obtain ⟨sA, h1, h2⟩ := CRes.bind_ok_elim h
      try dsimp only at h2
      obtain ⟨sC, h3, h4⟩ := CRes.bind_ok_elim h2
      have hA : cgSpec st sA := ih cond (ASTNode.sizeOf_left rfl) _ _ h1
      have hC : cgSpec (emit sA (.Jz 0) 5) sC :=
        ih thenB (Nat.lt_trans (ASTNode.sizeOf_left rfl) (ASTNode.sizeOf_right rfl)) _ _ h3
      obtain ⟨hpA, ⟨dA, hdA⟩, ⟨pA, hqA⟩, ΔA, hiA, hlA, hjA⟩ := hA
      obtain ⟨hpC, ⟨dC, hdC⟩, ⟨pC, hqC⟩, ΔC, hiC, hlC, hjC⟩ := hC
      cases br with
      | none =>
        dsimp only at h4
        have hlen : sA.instructions.length = (st.instructions ++ ΔA).length := by rw [hiA]
        have hins : sC.instructions =
            (st.instructions ++ ΔA) ++ ⟨.Jz 0, sA.pc⟩ :: ΔC := by
          rw [hiC]
          simp [emit, hiA]
        rw [hlen, backpatch_jz hins] at h4
        cases h4
        refine ⟨?_, ⟨dA ++ dC, ?_⟩, ⟨pA ++ pC, ?_⟩,
          ΔA ++ ⟨.Jz (wrap32 ((sC.pc : Int) - ((sA.pc : Int) + 1))), sA.pc⟩ :: ΔC,
          ?_, ?_, ?_⟩
        · show st.pc ≤ sC.pc
          have : (emit sA (.Jz 0) 5).pc = sA.pc + 5 := rfl
          omega
        · show sC.data_addr = st.data_addr ++ (dA ++ dC)
          rw [hdC]; simp [emit, hdA]
        · show sC.string_pool = st.string_pool ++ (pA ++ pC)
          rw [hqC]; simp [emit, hqA]
        · simp
        · show layout st.pc _ sC.pc
          refine layout_append hlA ⟨rfl, ?_⟩
          show layout (sA.pc + 5) ΔC sC.pc
          have : (emit sA (.Jz 0) 5).pc = sA.pc + 5 := rfl
          rw [← this]
          exact hlC
        · have hpc5 : (emit sA (.Jz 0) 5).pc = sA.pc + 5 := rfl
          show jumpsPatched st.pc sC.pc
            (ΔA ++ ⟨.Jz (wrap32 ((sC.pc : Int) - ((sA.pc : Int) + 1))), sA.pc⟩ :: ΔC)
          refine jumpsPatched_append
            (jumpsPatched_mono hjA (le_refl _) (by omega)) ?_
          intro i hm v hv
          rcases List.mem_cons.1 hm with rfl | hm2
          · rcases hv with hv | hv
            · cases hv
              exact ⟨sC.pc, by omega, le_refl _, rfl⟩
            · cases hv
          · obtain ⟨t, ht1, ht2, ht3⟩ := hjC i hm2 v hv
            exact ⟨t, by omega, ht2, ht3⟩
      | some elseB =>
        dsimp only at h4
        obtain ⟨sE, h5, h6⟩ := CRes.bind_ok_elim h4
        obtain ⟨sF, h7, h8⟩ := CRes.bind_ok_elim h6
        -- h5 : backpatch (emit sC (.Jump 0) 5) sA.instructions.length = .ok sE
        have hlen : sA.instructions.length = (st.instructions ++ ΔA).length := by rw [hiA]
        have hinsD : (emit sC (.Jump 0) 5).instructions =
            (st.instructions ++ ΔA) ++ ⟨.Jz 0, sA.pc⟩ :: (ΔC ++ [⟨.Jump 0, sC.pc⟩]) := by
          rw [show (emit sC (.Jump 0) 5).instructions =
              sC.instructions ++ [⟨.Jump 0, sC.pc⟩] from rfl, hiC]
          simp [emit, hiA]
        rw [hlen, backpatch_jz hinsD] at h5
        cases h5
        -- sE is sD with the Jz patched to target sD.pc = sC.pc + 5
        have hF : cgSpec _ sF := ih elseB
          (Nat.lt_trans (ASTNode.sizeOf_right rfl) (ASTNode.sizeOf_right rfl)) _ _ h7
        obtain ⟨hpF, ⟨dF, hdF⟩, ⟨pF, hqF⟩, ΔF, hiF, hlF, hjF⟩ := hF
        dsimp only [emit] at hpF hdF hqF hiF hlF hjF
        -- h8 : backpatch sF sC.instructions.length = .ok st'
        have hlen2 : sC.instructions.length =
            ((st.instructions ++ ΔA) ++
              ⟨.Jz (wrap32 (((sC.pc + 5 : Nat) : Int) - ((sA.pc : Int) + 1))), sA.pc⟩ ::
                ΔC).length := by
          rw [hiC]
          simp [emit, hiA]
        have hinsF : sF.instructions =
            ((st.instructions ++ ΔA) ++
              ⟨.Jz (wrap32 (((sC.pc + 5 : Nat) : Int) - ((sA.pc : Int) + 1))), sA.pc⟩ :: ΔC)
            ++ ⟨.Jump 0, sC.pc⟩ :: ΔF := by
          rw [hiF]
          simp
        rw [hlen2, backpatch_jump hinsF] at h8
        cases h8
        have hpc5 : (emit sA (.Jz 0) 5).pc = sA.pc + 5 := rfl
        have hpcD : (emit sC (.Jump 0) 5).pc = sC.pc + 5 := rfl
        have hpcE : sF.pc ≤ sF.pc := le_refl _
        refine ⟨?_, ⟨dA ++ (dC ++ dF), ?_⟩, ⟨pA ++ (pC ++ pF), ?_⟩,
          ΔA ++ ⟨.Jz (wrap32 (((sC.pc + 5 : Nat) : Int) - ((sA.pc : Int) + 1))), sA.pc⟩ ::
            (ΔC ++ ⟨.Jump (wrap32 ((sF.pc : Int) - ((sC.pc : Int) + 1))), sC.pc⟩ :: ΔF),
          ?_, ?_, ?_⟩
        · show st.pc ≤ sF.pc
          have h9 : (emit sC (.Jump 0) 5).pc ≤ sF.pc := hpF
          omega
        · show sF.data_addr = st.data_addr ++ (dA ++ (dC ++ dF))
          rw [hdF]; simp [emit, hdC, hdA]
        · show sF.string_pool = st.string_pool ++ (pA ++ (pC ++ pF))
          rw [hqF]; simp [emit, hqC, hqA]
        · show (((st.instructions ++ ΔA) ++ _ :: ΔC) ++ _ :: ΔF) = st.instructions ++ _
          simp
        · show layout st.pc _ sF.pc
          refine layout_append hlA ⟨rfl, ?_⟩
          show layout (sA.pc + instWidth (.Jz _)) _ sF.pc
          rw [show instWidth (.Jz (wrap32 (((sC.pc + 5 : Nat) : Int) - ((sA.pc : Int) + 1)))) = 5
            from rfl]
          rw [← hpc5]
          refine layout_append hlC ⟨rfl, ?_⟩
          show layout (sC.pc + instWidth (.Jump _)) ΔF sF.pc
          rw [show instWidth (.Jump (wrap32 ((sF.pc : Int) - ((sC.pc : Int) + 1)))) = 5 from rfl]
          rw [← hpcD]
          exact hlF
        · have hle1 : st.pc ≤ sA.pc := hpA
          have hle2 : sA.pc + 5 ≤ sC.pc := by rw [← hpc5]; exact hpC
          have hle3 : sC.pc + 5 ≤ sF.pc := by rw [← hpcD]; exact hpF
          show jumpsPatched st.pc sF.pc _
          refine jumpsPatched_append
            (jumpsPatched_mono hjA (le_refl _) (by omega)) ?_
          intro i hm v hv
          rcases List.mem_cons.1 hm with rfl | hm2
          · rcases hv with hv | hv
            · cases hv
              exact ⟨sC.pc + 5, by omega, by omega, by push_cast; rfl⟩
            · cases hv
          · rcases List.mem_append.1 hm2 with hm3 | hm3
            · obtain ⟨t, ht1, ht2, ht3⟩ := hjC i hm3 v hv
              rw [hpc5] at ht1
              exact ⟨t, by omega, by omega, ht3⟩
            · rcases List.mem_cons.1 hm3 with rfl | hm4
              · rcases hv with hv | hv
                · cases hv
                · cases hv
                  exact ⟨sF.pc, by omega, le_refl _, rfl⟩
              · obtain ⟨t, ht1, ht2, ht3⟩ := hjF i hm4 v hv
                exact ⟨t, by omega, ht2, ht3⟩
    case While =>
      rcases l with _ | cond
      · cases h
      rcases r with _ | body
      · dsimp only at h
        obtain ⟨sA, h1, h2⟩ := CRes.bind_ok_elim h
        cases h2
      dsimp only at h
      obtain ⟨sA, h1, h2⟩ := CRes.bind_ok_elim h
      try dsimp only at h2
      obtain ⟨sC, h3, h4⟩ := CRes.bind_ok_elim h2
      have hA : cgSpec st sA := ih cond (ASTNode.sizeOf_left rfl) _ _ h1
      have hC : cgSpec (emit sA (.Jz 0) 5) sC :=
        ih body (ASTNode.sizeOf_right rfl) _ _ h3
      obtain ⟨hpA, ⟨dA, hdA⟩, ⟨pA, hqA⟩, ΔA, hiA, hlA, hjA⟩ := hA
      obtain ⟨hpC, ⟨dC, hdC⟩, ⟨pC, hqC⟩, ΔC, hiC, hlC, hjC⟩ := hC
      -- h4 : backpatch (emit sC (.Jump rel) 5) sA.instructions.length = .ok st'
      have hlen : sA.instructions.length = (st.instructions ++ ΔA).length := by rw [hiA]
      have hinsD : (emit sC (.Jump (wrap32 ((st.pc : Int) - ((sC.pc : Int) + 1)))) 5).instructions =
          (st.instructions ++ ΔA) ++ ⟨.Jz 0, sA.pc⟩ ::
            (ΔC ++ [⟨.Jump (wrap32 ((st.pc : Int) - ((sC.pc : Int) + 1))), sC.pc⟩]) := by
        rw [show (emit sC (.Jump (wrap32 ((st.pc : Int) - ((sC.pc : Int) + 1)))) 5).instructions =
            sC.instructions ++ [⟨.Jump (wrap32 ((st.pc : Int) - ((sC.pc : Int) + 1))), sC.pc⟩]
          from rfl, hiC]
        simp [emit, hiA]
      rw [hlen, backpatch_jz hinsD] at h4
      cases h4
      have hpc5 : (emit sA (.Jz 0) 5).pc = sA.pc + 5 := rfl
      have hle2 : sA.pc + 5 ≤ sC.pc := by rw [← hpc5]; exact hpC
      refine ⟨?_, ⟨dA ++ dC, ?_⟩, ⟨pA ++ pC, ?_⟩,
        ΔA ++ ⟨.Jz (wrap32 (((sC.pc + 5 : Nat) : Int) - ((sA.pc : Int) + 1))), sA.pc⟩ ::
          (ΔC ++ [⟨.Jump (wrap32 ((st.pc : Int) - ((sC.pc : Int) + 1))), sC.pc⟩]),
        ?_, ?_, ?_⟩
      · dsimp only [emit]
        omega
      · dsimp only [emit]
        dsimp only [emit] at hdC
        rw [hdC, hdA]
        simp
      · dsimp only [emit]
        dsimp only [emit] at hqC
        rw [hqC, hqA]
        simp
      · dsimp only [emit]
        simp
      · dsimp only [emit]
        dsimp only [emit] at hlC
        refine layout_append hlA ⟨rfl, ?_⟩
        refine layout_append hlC ⟨rfl, ?_⟩
        rfl
      · dsimp only [emit]
        refine jumpsPatched_append
          (jumpsPatched_mono hjA (le_refl _) (by omega)) ?_
        intro i hm v hv
        rcases List.mem_cons.1 hm with rfl | hm2
        · rcases hv with hv | hv
          · cases hv
            exact ⟨sC.pc + 5, by omega, le_refl _, by push_cast; rfl⟩
          · cases hv
        · rcases List.mem_append.1 hm2 with hm3 | hm3
          · obtain ⟨t, ht1, ht2, ht3⟩ := hjC i hm3 v hv
            rw [hpc5] at ht1
            exact ⟨t, by omega, by omega, ht3⟩
          · rcases List.mem_singleton.1 hm3 with rfl
            rcases hv with hv | hv
            · cases hv
            · cases hv
              exact ⟨st.pc, le_refl _, by omega, rfl⟩
    all_goals (
      rcases l with _ | lx
      · cases h
      rcases r with _ | rx
      · cases h
      dsimp only at h
      obtain ⟨st1, h1, h2⟩ := CRes.bind_ok_elim h
      obtain ⟨st2, h3, h4⟩ := CRes.bind_ok_elim h2
      cases h4
      exact cgSpec_trans (ih lx (ASTNode.sizeOf_left rfl) _ _ h1)
        (cgSpec_trans (ih rx (ASTNode.sizeOf_right rfl) _ _ h3)
          (cgSpec_emit rfl (fun v => ⟨by simp, by simp⟩))))

/-- `generateProg` lays the whole image out contiguously from address
`0`, ends it with the `HALT` at address `pc`, and leaves every jump
pointing at an absolute target in `[0, pc]` encoded relative to the
byte after its opcode. -/
theorem generateProg_spec {ast : ASTNode} {g : CGSt}
    (h : generateProg ast = .ok g) :
    ⟨.Halt, g.pc⟩ ∈ g.instructions ∧
    layout 0 g.instructions (g.pc + 1) ∧
    jumpsPatched 0 g.pc g.instructions := by
  unfold generateProg at h
  simp only [CRes.bindM_eq] at h
  obtain ⟨g0, h1, h2⟩ := CRes.bind_ok_elim h
  cases h2
  obtain ⟨hp, -, -, Δ, hi, hl, hj⟩ := generate_body_spec ast _ _ h1
  have hi2 : g0.instructions = Δ := by simpa using hi
  have hl2 : layout 0 Δ g0.pc := hl
  have hj2 : jumpsPatched 0 g0.pc Δ := hj
  dsimp only
  rw [hi2]
  refine ⟨by simp, ?_, ?_⟩
  · exact layout_append hl2 ⟨rfl, rfl⟩
  · exact jumpsPatched_append hj2
      (jumpsPatched_single_nonjump (fun v => ⟨by simp, by simp⟩))

/-- Claim C2 (amended): every `JZ`/`JMP` immediate the generator emits
is relative to `address + 1`, the byte after the one-byte opcode (not
the byte after the 4-byte immediate); provided the code size stays
below `2^31` the encoded target is exact and lies in `[0, pc]`, the
address range of the image whose last instruction is the `HALT` at
`pc`.  The VM applies the same convention: `JMP`, and `JZ` on a zero
condition, set `pc` to `pcJump (pc + 1) offset`, and `pcJump` is exact
addition whenever the sum is an in-range address. -/
theorem C2_jump_convention :
    (∀ (t : ASTNode) (g : CGSt), generateProg t = .ok g → (g.pc : Int) < 2 ^ 31 →
      ∀ i ∈ g.instructions, ∀ v : Int, (i.kind = .Jz v ∨ i.kind = .Jump v) →
        ∃ target : Nat, target ≤ g.pc ∧
          v = (target : Int) - ((i.address : Int) + 1) ∧
          ((i.address : Int) + 1) + v = (target : Int)) ∧
    (∀ (P : VMProg) (st : VMSt) (offset : Int),
      P.byte_code.get? st.pc = some JMP →
      get_integer P (st.pc + 1) = some offset →
      vmStep P st = .next { st with pc := pcJump (st.pc + 1) offset }) ∧
    (∀ (P : VMProg) (st : VMSt) (offset : Int) (rest : List Int),
      P.byte_code.get? st.pc = some JZ → st.stack = 0 :: rest →
      get_integer P (st.pc + 1) = some offset →
      vmStep P st = .next { st with stack := rest, pc := pcJump (st.pc + 1) offset }) ∧
    (∀ (a : Nat) (v : Int), 0 ≤ (a : Int) + v → (a : Int) + v < 2 ^ 64 →
      (pcJump a v : Int) = (a : Int) + v) := by
  refine ⟨?_, ?_, ?_, ?_⟩
  · intro t g h hlt i hm v hv
    obtain ⟨hmem, hlay, hjp⟩ := generateProg_spec h
    obtain ⟨tg, ht0, ht1, ht2⟩ := hjp i hm v hv
    have hab := (layout_mem_bounds hlay hm).2
    have hw : wrap32 ((tg : Int) - ((i.address : Int) + 1)) =
        (tg : Int) - ((i.address : Int) + 1) :=
      wrap32_eq_self ⟨by omega, by omega⟩
    refine ⟨tg, ht1, ?_, ?_⟩
    · rw [ht2, hw]
    · rw [ht2, hw]; ring
  · intro P st offset h1 h2
    simp only [List.get?_eq_getElem?] at h1
    simp [vmStep, h1, h2, FETCH, STORE, PUSH, JMP]
  · intro P st offset rest h1 hs h2
    simp only [List.get?_eq_getElem?] at h1
    simp [vmStep, h1, hs, h2, FETCH, STORE, PUSH, JMP, JZ]
  · intro a v h1 h2
    unfold pcJump
    rw [Int.emod_eq_of_lt h1 h2, Int.toNat_of_nonneg h1]

/-- Counterexample to C2 as stated: in the program generated for
`if (1) \x7b x = 2; \x7d`, the `JZ` at address 5 carries immediate 14
and its target is the join point `20 = 5 + 1 + 14`, measured from the
byte after the opcode; measured from the byte after the 4-byte
immediate it would be `5 + 5 + 14 = 24`, which is not even an address
of the image (its last address is the `HALT` at 20). -/
theorem C2_counterexample_jump_base :
    (CRes.bind (lexTokens "if (1) \x7b x = 2; \x7d".data)
        (fun ts => CRes.bind (parse ts) generateProg) =
      .ok ⟨[['x']], [], 20, [⟨.Push 1, 0⟩, ⟨.Jz 14, 5⟩, ⟨.Push 2, 10⟩,
        ⟨.Store 0, 15⟩, ⟨.Halt, 20⟩]⟩) ∧
    5 + 1 + 14 = 20 ∧ 5 + 5 + 14 = 24 ∧ ¬ (24 ≤ 20) := by
  refine ⟨by decide, by decide, by decide, by decide⟩

def C2wT : ASTNode :=
  .mk .Sequence none (some (.mk .If
    (some (.mk (.Integer 1) none none))
    (some (.mk .If
      (some (.mk .Sequence none (some (.mk .Assign
        (some (.mk (.Identifier ['x']) none none))
        (some (.mk (.Integer 2) none none))))))
      none))))

def C2wG : CGSt :=
  ⟨[['x']], [], 20, [⟨.Push 1, 0⟩, ⟨.Jz 14, 5⟩, ⟨.Push 2, 10⟩,
    ⟨.Store 0, 15⟩, ⟨.Halt, 20⟩]⟩

/-- Witness for C2 at concrete inputs: the `JZ` of the image generated
for `if (1) \x7b x = 2; \x7d` targets 20 = 5 + 1 + 14; a concrete `JMP`
and a taken `JZ` step with offset 0 jump to `pcJump (pc + 1) 0`; and
`pcJump 6 14` is exactly 20. -/
theorem C2_jump_convention_witness :
    (∃ target : Nat, target ≤ 20 ∧
        (14 : Int) = (target : Int) - ((5 : Int) + 1) ∧
        ((5 : Int) + 1) + 14 = (target : Int)) ∧
    vmStep ⟨[18, 0, 0, 0, 0], [], 0⟩ ⟨0, [], [], []⟩ = .next ⟨1, [], [], []⟩ ∧
    vmStep ⟨[19, 0, 0, 0, 0], [], 0⟩ ⟨0, [0], [], []⟩ = .next ⟨1, [], [], []⟩ ∧
    (pcJump 6 14 : Int) = (6 : Int) + 14 :=
  ⟨C2_jump_convention.1 C2wT C2wG (by decide) (by decide) ⟨.Jz 14, 5⟩ (by decide) 14
      (Or.inl rfl),
   C2_jump_convention.2.1 _ _ 0 (by decide) (by decide),
   C2_jump_convention.2.2.1 _ _ 0 [] (by decide) (by decide) (by decide),
   C2_jump_convention.2.2.2 6 14 (by decide) (by decide)⟩

/-! ## C1: forward simulation of the AST interpreter by the VM -/

/-- The bytes `emit_byte`/`emit_integer` produce for one instruction
(`CodeGenerator` serialises through text; these are the bytes the VM's
`assemble` recovers from one instruction line). -/
def instBytes (i : Instruction) : List Nat :=
  match i.kind with
  | .Fetch a => FETCH :: enc4 (a : Int)
  | .Store a => STORE :: enc4 (a : Int)
  | .Push v => PUSH :: enc4 v
  | .Jump v => JMP :: enc4 v
  | .Jz v => JZ :: enc4 v
  | .Add => [ADD]
  | .Sub => [SUB]
  | .Mul => [MUL]
  | .Div => [DIV]
  | .Mod => [ MOD ]
  | .Lt => [LT]
  | .Gt => [GT]
  | .Le => [LE]
  | .Ge => [GE]
  | .Eq => [EQ]
  | .Ne => [NE]
  | .And => [AND]
  | .Or => [OR]
  | .Neg => [NEG]
  | .Not => [NOT]
  | .Prtc => [PRTC]
  | .Prti => [PRTI]
  | .Prts => [PRTS]
  | .Halt => [HALT]

def instFlat : List Instruction → List Nat
  | [] => []
  | i :: t => instBytes i ++ instFlat t

/-- The immediate of the instruction survives the decimal-text
round trip: indices fit an `i32` and immediates are in range. -/
def instOk (i : Instruction) : Prop :=
  match i.kind with
  | .Fetch a => (a : Int) < 2 ^ 31
  | .Store a => (a : Int) < 2 ^ 31
  | .Push v => inI32 v
  | .Jump v => inI32 v
  | .Jz v => inI32 v
  | _ => True

theorem instBytes_length (i : Instruction) : (instBytes i).length = instWidth i.kind := by
  rcases i with ⟨k, a⟩
  cases k <;> rfl

theorem instFlat_append (l1 l2 : List Instruction) :
    instFlat (l1 ++ l2) = instFlat l1 ++ instFlat l2 := by
  induction l1 with
  | nil => rfl
  | cons i t ih => simp [instFlat, ih]

mutual
/-- The number of AST nodes: a crude but sound bound for the VM
evaluation-stack depth the generated code for the tree can reach. -/
def astSize : ASTNode → Nat
  | .mk _ l r => 1 + oastSize l + oastSize r
def oastSize : Option ASTNode → Nat
  | none => 0
  | some n => astSize n
end

mutual
/-- The syntactic side conditions of the simulation: every integer
literal fits an `i32` (the generated `push` goes through a decimal
`i32` round trip) and every string literal survives Debug-escaping
followed by the VM reader's unescaping. -/
def srcOkB : ASTNode → Bool
  | .mk k l r =>
    (match k with
     | .Integer v => decide (inI32 v)
     | .String s => decide (cleanChars s)
     | _ => true) && osrcOkB l && osrcOkB r
def osrcOkB : Option ASTNode → Bool
  | none => true
  | some n => srcOkB n
end

/-- The part of the generation state a later state keeps: instructions,
data map and string pool grow by appending, `pc` grows. -/
def extendsTo (s G : CGSt) : Prop :=
  s.pc ≤ G.pc ∧
  (∃ Δ, G.instructions = s.instructions ++ Δ) ∧
  (∃ d, G.data_addr = s.data_addr ++ d) ∧
  (∃ p, G.string_pool = s.string_pool ++ p)

theorem extendsTo_refl (s : CGSt) : extendsTo s s :=
  ⟨le_refl _, ⟨[], by simp⟩, ⟨[], by simp⟩, ⟨[], by simp⟩⟩

theorem cgSpec.extendsTo {s G : CGSt} (h : cgSpec s G) : extendsTo s G := by
  obtain ⟨hp, hd, hq, Δ, hi, -, -⟩ := h
  exact ⟨hp, ⟨Δ, hi⟩, hd, hq⟩

theorem extendsTo_trans {s1 s2 s3 : CGSt} (h1 : extendsTo s1 s2) (h2 : extendsTo s2 s3) :
    extendsTo s1 s3 := by
  obtain ⟨hp1, ⟨i1, hi1⟩, ⟨d1, hd1⟩, ⟨p1, hq1⟩⟩ := h1
  obtain ⟨hp2, ⟨i2, hi2⟩, ⟨d2, hd2⟩, ⟨p2, hq2⟩⟩ := h2
  exact ⟨le_trans hp1 hp2, ⟨i1 ++ i2, by rw [hi2, hi1, List.append_assoc]⟩,
    ⟨d1 ++ d2, by rw [hd2, hd1, List.append_assoc]⟩,
    ⟨p1 ++ p2, by rw [hq2, hq1, List.append_assoc]⟩⟩

/-- `k` consecutive `.next` steps of the VM. -/
def stepN (P : VMProg) : Nat → VMSt → Option VMSt
  | 0, σ => some σ
  | k + 1, σ =>
    match vmStep P σ with
    | .next σ1 => stepN P k σ1
    | _ => none

theorem stepN_one {P : VMProg} {σ σ1 : VMSt} (h : vmStep P σ = .next σ1) :
    stepN P 1 σ = some σ1 := by
  show (match vmStep P σ with | .next σ1 => stepN P 0 σ1 | _ => none) = some σ1
  rw [h]
  rfl

theorem stepN_trans {P : VMProg} {k1 k2 : Nat} {σ σ1 σ2 : VMSt}
    (h1 : stepN P k1 σ = some σ1) (h2 : stepN P k2 σ1 = some σ2) :
    stepN P (k1 + k2) σ = some σ2 := by
  induction k1 generalizing σ with
  | zero =>
    cases h1
    simpa using h2
  | succ k ih =>
    rw [show k + 1 + k2 = (k + k2) + 1 from by omega]
    rw [stepN] at h1 ⊢
    revert h1
    cases vmStep P σ <;> intro h1 <;> first
      | exact ih h1
      | cases h1

theorem vmRun_of_stepN {P : VMProg} {k : Nat} {σ σ1 : VMSt}
    (h : stepN P k σ = some σ1) (f : Nat) :
    vmRun (k + f) P σ = vmRun f P σ1 := by
  induction k generalizing σ with
  | zero => cases h; rw [Nat.zero_add]
  | succ k ih =>
    rw [stepN] at h
    revert h
    cases hs : vmStep P σ <;> intro h <;> try cases h
    rw [show k + 1 + f = (k + f) + 1 from by omega, vmRun, hs]
    exact ih h

/-- The byte image the VM executes, together with the bounds that make
the decimal/byte round trips of the immediates exact. -/
structure GoodImage (G : CGSt) (P : VMProg) : Prop where
  code : P.byte_code = instFlat G.instructions
  pool : P.string_pool = G.string_pool
  dsize : P.data_size = G.data_addr.length
  lay : layout 0 G.instructions (G.pc + 1)
  pc31 : (G.pc : Int) < 2 ^ 31
  data31 : G.data_addr.length ≤ 2 ^ 31
  pool31 : G.string_pool.length ≤ 2 ^ 31

theorem layout_flat_at : ∀ {a : Nat} {Δ : List Instruction} {b : Nat} {i : Instruction},
    layout a Δ b → i ∈ Δ →
    ∃ pre post, instFlat Δ = pre ++ (instBytes i ++ post) ∧ a + pre.length = i.address := by
  intro a Δ
  induction Δ generalizing a with
  | nil => intro b i _ hm; cases hm
  | cons j t ih =>
    intro b i h hm
    obtain ⟨hj, ht⟩ := h
    rcases List.mem_cons.1 hm with rfl | hm2
    · exact ⟨[], instFlat t, by simp [instFlat], by simp [hj]⟩
    · obtain ⟨pre, post, hfl, hlen⟩ := ih ht hm2
      refine ⟨instBytes j ++ pre, post, by simp [instFlat, hfl], ?_⟩
      rw [List.length_append, instBytes_length]
      omega

theorem code_at {G : CGSt} {P : VMProg} (hG : GoodImage G P) {i : Instruction}
    (hm : i ∈ G.instructions) :
    ∃ pre post, P.byte_code = pre ++ (instBytes i ++ post) ∧ pre.length = i.address := by
  obtain ⟨pre, post, hfl, hlen⟩ := layout_flat_at hG.lay hm
  exact ⟨pre, post, by rw [hG.code, hfl], by omega⟩

theorem code_get {G : CGSt} {P : VMProg} (hG : GoodImage G P) {i : Instruction}
    (hm : i ∈ G.instructions) {j : Nat} (hj : j < (instBytes i).length) :
    P.byte_code.get? (i.address + j) = (instBytes i).get? j := by
  obtain ⟨pre, post, hfl, hlen⟩ := code_at hG hm
  rw [hfl, ← hlen, List.get?_eq_getElem?, List.get?_eq_getElem?,
      List.getElem?_append_right (by omega), Nat.add_sub_cancel_left,
      List.getElem?_append_left (by omega)]

theorem code_op {G : CGSt} {P : VMProg} (hG : GoodImage G P) {i : Instruction}
    (hm : i ∈ G.instructions) {op : Nat} {imm : List Nat} (hb : instBytes i = op :: imm) :
    P.byte_code.get? i.address = some op := by
  have := code_get hG hm (j := 0) (by rw [hb]; simp)
  rw [Nat.add_zero, hb] at this
  exact this

theorem code_imm {G : CGSt} {P : VMProg} (hG : GoodImage G P) {i : Instruction}
    (hm : i ∈ G.instructions) {op : Nat} {v : Int} (hb : instBytes i = op :: enc4 v) :
    get_integer P (i.address + 1) = some (wrap32 v) := by
  have h1 := code_get hG hm (j := 1) (by rw [hb]; simp [enc4])
  have h2 := code_get hG hm (j := 2) (by rw [hb]; simp [enc4])
  have h3 := code_get hG hm (j := 3) (by rw [hb]; simp [enc4])
  have h4 := code_get hG hm (j := 4) (by rw [hb]; simp [enc4])
  rw [hb] at h1 h2 h3 h4
  unfold get_integer
  rw [show i.address + 1 + 1 = i.address + 2 from rfl,
      show i.address + 2 + 1 = i.address + 3 from rfl,
      show i.address + 3 + 1 = i.address + 4 from rfl,
      h1, h2, h3, h4]
  show some (dec4 _ _ _ _) = _
  rw [dec4_enc4]

theorem pcJump_target {a t : Nat} {v : Int} (hv : v = (t : Int) - ((a : Int) + 1))
    (ht : (t : Int) < 2 ^ 64) : pcJump (a + 1) v = t := by
  unfold pcJump
  subst hv
  rw [show ((a + 1 : Nat) : Int) + ((t : Int) - ((a : Int) + 1)) = (t : Int) from by
        push_cast; ring,
      Int.emod_eq_of_lt (by omega) ht]
  omega

theorem step_push {G : CGSt} {P : VMProg} (hG : GoodImage G P) {v : Int} {a : Nat}
    (hm : ⟨.Push v, a⟩ ∈ G.instructions) (hv : inI32 v) {σ : VMSt} (hpc : σ.pc = a)
    (hroom : σ.stack.length < STACK_SIZE) :
    vmStep P σ = .next { σ with stack := v :: σ.stack, pc := a + 5 } := by
  have hop := code_op hG hm rfl
  have him := code_imm hG hm rfl
  rw [wrap32_eq_self hv] at him
  simp only [List.get?_eq_getElem?] at hop
  simp [vmStep, hpc, hop, him, hroom, FETCH, STORE, PUSH,
    show a + 1 + 4 = a + 5 from rfl]

theorem step_fetch {G : CGSt} {P : VMProg} (hG : GoodImage G P) {ad a : Nat}
    (hm : ⟨.Fetch ad, a⟩ ∈ G.instructions) (had : (ad : Int) < 2 ^ 31) {σ : VMSt}
    (hpc : σ.pc = a) {x : Int} (hdx : σ.data.get? ad = some x)
    (hroom : σ.stack.length < STACK_SIZE) :
    vmStep P σ = .next { σ with stack := x :: σ.stack, pc := a + 5 } := by
  have hop := code_op hG hm rfl
  have him := code_imm hG hm rfl
  rw [wrap32_eq_self ⟨by omega, had⟩] at him
  simp only [List.get?_eq_getElem?] at hop hdx
  simp [vmStep, hpc, hop, him, hdx, hroom, FETCH,
    (show ¬ ((ad : Int) < 0) from by omega), Int.toNat_natCast,
    show a + 1 + 4 = a + 5 from rfl]

theorem step_store {G : CGSt} {P : VMProg} (hG : GoodImage G P) {ad a : Nat}
    (hm : ⟨.Store ad, a⟩ ∈ G.instructions) (had : (ad : Int) < 2 ^ 31) {σ : VMSt}
    (hpc : σ.pc = a) {x : Int} {rest : List Int} (hs : σ.stack = x :: rest)
    (hlen : ad < σ.data.length) :
    vmStep P σ = .next { σ with stack := rest, data := σ.data.set ad x, pc := a + 5 } := by
  have hop := code_op hG hm rfl
  have him := code_imm hG hm rfl
  rw [wrap32_eq_self ⟨by omega, had⟩] at him
  simp only [List.get?_eq_getElem?] at hop
  simp [vmStep, hpc, hop, him, hs, hlen, FETCH, STORE,
    (show ¬ ((ad : Int) < 0) from by omega), Int.toNat_natCast,
    show a + 1 + 4 = a + 5 from rfl]

theorem step_jmp {G : CGSt} {P : VMProg} (hG : GoodImage G P) {v : Int} {a : Nat}
    (hm : ⟨.Jump v, a⟩ ∈ G.instructions) (hv : inI32 v) {σ : VMSt} (hpc : σ.pc = a) :
    vmStep P σ = .next { σ with pc := pcJump (a + 1) v } := by
  have hop := code_op hG hm rfl
  have him := code_imm hG hm rfl
  rw [wrap32_eq_self hv] at him
  simp only [List.get?_eq_getElem?] at hop
  simp [vmStep, hpc, hop, him, FETCH, STORE, PUSH, JMP]

theorem step_jz_taken {G : CGSt} {P : VMProg} (hG : GoodImage G P) {v : Int} {a : Nat}
    (hm : ⟨.Jz v, a⟩ ∈ G.instructions) (hv : inI32 v) {σ : VMSt} (hpc : σ.pc = a)
    {rest : List Int} (hs : σ.stack = 0 :: rest) :
    vmStep P σ = .next { σ with stack := rest, pc := pcJump (a + 1) v } := by
  have hop := code_op hG hm rfl
  have him := code_imm hG hm rfl
  rw [wrap32_eq_self hv] at him
  simp only [List.get?_eq_getElem?] at hop
  simp [vmStep, hpc, hop, him, hs, FETCH, STORE, PUSH, JMP, JZ]

theorem step_jz_skip {G : CGSt} {P : VMProg} (hG : GoodImage G P) {v : Int} {a : Nat}
    (hm : ⟨.Jz v, a⟩ ∈ G.instructions) {σ : VMSt} (hpc : σ.pc = a)
    {x : Int} {rest : List Int} (hs : σ.stack = x :: rest) (hx : x ≠ 0) :
    vmStep P σ = .next { σ with stack := rest, pc := a + 5 } := by
  have hop := code_op hG hm rfl
  simp only [List.get?_eq_getElem?] at hop
  simp [vmStep, hpc, hop, hs, hx, FETCH, STORE, PUSH, JMP, JZ,
    show a + 1 + 4 = a + 5 from rfl]

theorem step_neg {G : CGSt} {P : VMProg} (hG : GoodImage G P) {a : Nat}
    (hm : ⟨.Neg, a⟩ ∈ G.instructions) {σ : VMSt} (hpc : σ.pc = a)
    {x : Int} {rest : List Int} (hs : σ.stack = x :: rest) :
    vmStep P σ = .next { σ with stack := wneg x :: rest, pc := a + 1 } := by
  have hop := code_op hG hm rfl
  simp only [List.get?_eq_getElem?] at hop
  simp [vmStep, hpc, hop, hs, FETCH, STORE, PUSH, JMP, JZ, ADD, SUB, MUL, DIV, MOD, LT, GT, LE, GE, EQ, NE, AND, OR, NEG, NOT, PRTC, PRTI, PRTS, HALT]

theorem step_not {G : CGSt} {P : VMProg} (hG : GoodImage G P) {a : Nat}
    (hm : ⟨.Not, a⟩ ∈ G.instructions) {σ : VMSt} (hpc : σ.pc = a)
    {x : Int} {rest : List Int} (hs : σ.stack = x :: rest) :
    vmStep P σ = .next { σ with stack := (if x = 0 then 1 else 0) :: rest, pc := a + 1 } := by
  have hop := code_op hG hm rfl
  simp only [List.get?_eq_getElem?] at hop
  simp [vmStep, hpc, hop, hs, FETCH, STORE, PUSH, JMP, JZ, ADD, SUB, MUL, DIV, MOD, LT, GT, LE, GE, EQ, NE, AND, OR, NEG, NOT, PRTC, PRTI, PRTS, HALT]

theorem step_prtc {G : CGSt} {P : VMProg} (hG : GoodImage G P) {a : Nat}
    (hm : ⟨.Prtc, a⟩ ∈ G.instructions) {σ : VMSt} (hpc : σ.pc = a)
    {x : Int} {rest : List Int} (hs : σ.stack = x :: rest)
    {c : Char} (hc : charFromU32 (toU32 x) = some c) :
    vmStep P σ = .next { σ with stack := rest, out := σ.out ++ [c], pc := a + 1 } := by
  have hop := code_op hG hm rfl
  simp only [List.get?_eq_getElem?] at hop
  simp [vmStep, hpc, hop, hs, hc, FETCH, STORE, PUSH, JMP, JZ, ADD, SUB, MUL, DIV, MOD, LT, GT, LE, GE, EQ, NE, AND, OR, NEG, NOT, PRTC, PRTI, PRTS, HALT]

theorem step_prti {G : CGSt} {P : VMProg} (hG : GoodImage G P) {a : Nat}
    (hm : ⟨.Prti, a⟩ ∈ G.instructions) {σ : VMSt} (hpc : σ.pc = a)
    {x : Int} {rest : List Int} (hs : σ.stack = x :: rest) :
    vmStep P σ = .next { σ with stack := rest, out := σ.out ++ intToChars x, pc := a + 1 } := by
  have hop := code_op hG hm rfl
  simp only [List.get?_eq_getElem?] at hop
  simp [vmStep, hpc, hop, hs, FETCH, STORE, PUSH, JMP, JZ, ADD, SUB, MUL, DIV, MOD, LT, GT, LE, GE, EQ, NE, AND, OR, NEG, NOT, PRTC, PRTI, PRTS, HALT]

theorem step_prts {G : CGSt} {P : VMProg} (hG : GoodImage G P) {a : Nat}
    (hm : ⟨.Prts, a⟩ ∈ G.instructions) {σ : VMSt} (hpc : σ.pc = a)
    {idx : Nat} {rest : List Int} (hs : σ.stack = (idx : Int) :: rest)
    {s : List Char} (hsp : G.string_pool.get? idx = some s) :
    vmStep P σ = .next { σ with stack := rest, out := σ.out ++ s, pc := a + 1 } := by
  have hop := code_op hG hm rfl
  simp only [List.get?_eq_getElem?] at hop hsp
  rw [← hG.pool] at hsp
  simp [vmStep, hpc, hop, hs, hsp, FETCH, STORE, PUSH, JMP, JZ, ADD, SUB, MUL, DIV, MOD, LT, GT, LE, GE, EQ, NE, AND, OR, NEG, NOT, PRTC, PRTI, PRTS, HALT,
    (show ¬ ((idx : Int) < 0) from by omega), Int.toNat_natCast]

theorem step_halt {G : CGSt} {P : VMProg} (hG : GoodImage G P) {a : Nat}
    (hm : ⟨.Halt, a⟩ ∈ G.instructions) {σ : VMSt} (hpc : σ.pc = a) :
    vmStep P σ = .halt { σ with pc := a + 1 } := by
  have hop := code_op hG hm rfl
  simp only [List.get?_eq_getElem?] at hop
  simp [vmStep, hpc, hop, FETCH, STORE, PUSH, JMP, JZ, ADD, SUB, MUL, DIV, MOD, LT, GT, LE, GE, EQ, NE, AND, OR, NEG, NOT, PRTC, PRTI, PRTS, HALT]

theorem step_binop {G : CGSt} {P : VMProg} (hG : GoodImage G P) {k : NodeKind}
    {ik : InstructionKind} {a : Nat} (hik : binaryOpInstruction k = some ik)
    (hm : ⟨ik, a⟩ ∈ G.instructions) {x y z : Int} (hz : evalBinary k x y = .ok z)
    {σ : VMSt} {rest : List Int} (hpc : σ.pc = a) (hs : σ.stack = y :: x :: rest) :
    vmStep P σ = .next { σ with stack := z :: rest, pc := a + 1 } := by
  cases k <;> simp only [binaryOpInstruction] at hik <;> try cases hik
  case Multiply =>
    have hop := code_op hG hm rfl
    simp only [List.get?_eq_getElem?] at hop
    simp only [evalBinary] at hz
    cases hz
    simp [vmStep, hpc, hop, hs, FETCH, STORE, PUSH, JMP, JZ, ADD, SUB, MUL, DIV, MOD, LT, GT, LE, GE, EQ, NE, AND, OR, NEG, NOT, PRTC, PRTI, PRTS, HALT]
  case Divide =>
    have hop := code_op hG hm rfl
    simp only [List.get?_eq_getElem?] at hop
    simp only [evalBinary] at hz
    revert hz
    split
    all_goals intro hz
    all_goals cases hz
    simp [vmStep, hpc, hop, hs, FETCH, STORE, PUSH, JMP, JZ, ADD, SUB, MUL, DIV, MOD, LT, GT, LE, GE, EQ, NE, AND, OR, NEG, NOT, PRTC, PRTI, PRTS, HALT]
    next heq =>
      simp [vmStep, hpc, hop, hs, heq, FETCH, STORE, PUSH, JMP, JZ, ADD, SUB, MUL, DIV, MOD, LT, GT, LE, GE, EQ, NE, AND, OR, NEG, NOT, PRTC, PRTI, PRTS, HALT]
  case Mod =>
    have hop := code_op hG hm rfl
    simp only [List.get?_eq_getElem?] at hop
    simp only [evalBinary] at hz
    revert hz
    split
    all_goals intro hz
    all_goals cases hz
    simp [vmStep, hpc, hop, hs, FETCH, STORE, PUSH, JMP, JZ, ADD, SUB, MUL, DIV, MOD, LT, GT, LE, GE, EQ, NE, AND, OR, NEG, NOT, PRTC, PRTI, PRTS, HALT]
    next heq =>
      simp [vmStep, hpc, hop, hs, heq, FETCH, STORE, PUSH, JMP, JZ, ADD, SUB, MUL, DIV, MOD, LT, GT, LE, GE, EQ, NE, AND, OR, NEG, NOT, PRTC, PRTI, PRTS, HALT]
  case Add =>
    have hop := code_op hG hm rfl
    simp only [List.get?_eq_getElem?] at hop
    simp only [evalBinary] at hz
    cases hz
    simp [vmStep, hpc, hop, hs, FETCH, STORE, PUSH, JMP, JZ, ADD, SUB, MUL, DIV, MOD, LT, GT, LE, GE, EQ, NE, AND, OR, NEG, NOT, PRTC, PRTI, PRTS, HALT]
  case Subtract =>
    have hop := code_op hG hm rfl
    simp only [List.get?_eq_getElem?] at hop
    simp only [evalBinary] at hz
    cases hz
    simp [vmStep, hpc, hop, hs, FETCH, STORE, PUSH, JMP, JZ, ADD, SUB, MUL, DIV, MOD, LT, GT, LE, GE, EQ, NE, AND, OR, NEG, NOT, PRTC, PRTI, PRTS, HALT]
  case Less =>
    have hop := code_op hG hm rfl
    simp only [List.get?_eq_getElem?] at hop
    simp only [evalBinary] at hz
    cases hz
    simp [vmStep, hpc, hop, hs, FETCH, STORE, PUSH, JMP, JZ, ADD, SUB, MUL, DIV, MOD, LT, GT, LE, GE, EQ, NE, AND, OR, NEG, NOT, PRTC, PRTI, PRTS, HALT]
  case LessEqual =>
    have hop := code_op hG hm rfl
    simp only [List.get?_eq_getElem?] at hop
    simp only [evalBinary] at hz
    cases hz
    simp [vmStep, hpc, hop, hs, FETCH, STORE, PUSH, JMP, JZ, ADD, SUB, MUL, DIV, MOD, LT, GT, LE, GE, EQ, NE, AND, OR, NEG, NOT, PRTC, PRTI, PRTS, HALT]
  case Greater =>
    have hop := code_op hG hm rfl
    simp only [List.get?_eq_getElem?] at hop
    simp only [evalBinary] at hz
    cases hz
    simp [vmStep, hpc, hop, hs, FETCH, STORE, PUSH, JMP, JZ, ADD, SUB, MUL, DIV, MOD, LT, GT, LE, GE, EQ, NE, AND, OR, NEG, NOT, PRTC, PRTI, PRTS, HALT]
  case GreaterEqual =>
    have hop := code_op hG hm rfl
    simp only [List.get?_eq_getElem?] at hop
    simp only [evalBinary] at hz
    cases hz
    simp [vmStep, hpc, hop, hs, FETCH, STORE, PUSH, JMP, JZ, ADD, SUB, MUL, DIV, MOD, LT, GT, LE, GE, EQ, NE, AND, OR, NEG, NOT, PRTC, PRTI, PRTS, HALT]
  case Equal =>
    have hop := code_op hG hm rfl
    simp only [List.get?_eq_getElem?] at hop
    simp only [evalBinary] at hz
    cases hz
    simp [vmStep, hpc, hop, hs, FETCH, STORE, PUSH, JMP, JZ, ADD, SUB, MUL, DIV, MOD, LT, GT, LE, GE, EQ, NE, AND, OR, NEG, NOT, PRTC, PRTI, PRTS, HALT]
  case NotEqual =>
    have hop := code_op hG hm rfl
    simp only [List.get?_eq_getElem?] at hop
    simp only [evalBinary] at hz
    cases hz
    simp [vmStep, hpc, hop, hs, FETCH, STORE, PUSH, JMP, JZ, ADD, SUB, MUL, DIV, MOD, LT, GT, LE, GE, EQ, NE, AND, OR, NEG, NOT, PRTC, PRTI, PRTS, HALT]
  case And =>
    have hop := code_op hG hm rfl
    simp only [List.get?_eq_getElem?] at hop
    simp only [evalBinary] at hz
    cases hz
    simp [vmStep, hpc, hop, hs, FETCH, STORE, PUSH, JMP, JZ, ADD, SUB, MUL, DIV, MOD, LT, GT, LE, GE, EQ, NE, AND, OR, NEG, NOT, PRTC, PRTI, PRTS, HALT]
  case Or =>
    have hop := code_op hG hm rfl
    simp only [List.get?_eq_getElem?] at hop
    simp only [evalBinary] at hz
    cases hz
    simp [vmStep, hpc, hop, hs, FETCH, STORE, PUSH, JMP, JZ, ADD, SUB, MUL, DIV, MOD, LT, GT, LE, GE, EQ, NE, AND, OR, NEG, NOT, PRTC, PRTI, PRTS, HALT]

theorem listIndexOf_lt_length :
    ∀ {l : List (List Char)} {x : List Char} {i : Nat},
      listIndexOf l x = some i → i < l.length := by
  intro l
  induction l with
  | nil => intro x i h; cases h
  | cons y t ih =>
    intro x i h
    rw [listIndexOf] at h
    split at h
    · cases h; simp
    · cases hi : listIndexOf t x with
      | none => rw [hi] at h; cases h
      | some j =>
        rw [hi] at h
        cases h
        have := ih hi
        simp
        omega

theorem listIndexOf_get :
    ∀ {l : List (List Char)} {x : List Char} {i : Nat},
      listIndexOf l x = some i → l.get? i = some x := by
  intro l
  induction l with
  | nil => intro x i h; cases h
  | cons y t ih =>
    intro x i h
    rw [listIndexOf] at h
    split at h
    next heq => cases h; simp [heq]
    · cases hi : listIndexOf t x with
      | none => rw [hi] at h; cases h
      | some j =>
        rw [hi] at h
        cases h
        simpa using ih hi

theorem listIndexOf_append_left :
    ∀ {l : List (List Char)} {x : List Char} {i : Nat} (e : List (List Char)),
      listIndexOf l x = some i → listIndexOf (l ++ e) x = some i := by
  intro l
  induction l with
  | nil => intro x i e h; cases h
  | cons y t ih =>
    intro x i e h
    rw [listIndexOf] at h
    rw [List.cons_append, listIndexOf]
    split at h
    next heq => cases h; rw [if_pos heq]
    next heq =>
      rw [if_neg heq]
      cases hi : listIndexOf t x with
      | none => rw [hi] at h; cases h
      | some j =>
        rw [hi] at h
        cases h
        rw [ih e hi]
        rfl

theorem listIndexOf_self_append {l : List (List Char)} {x : List Char}
    (h : listIndexOf l x = none) : listIndexOf (l ++ [x]) x = some l.length := by
  induction l with
  | nil => simp [listIndexOf]
  | cons y t ih =>
    rw [listIndexOf] at h
    split at h
    · cases h
    next heq =>
      cases hi : listIndexOf t x with
      | none =>
        rw [List.cons_append, listIndexOf, if_neg heq, ih hi]
        rfl
      | some j => rw [hi] at h; cases h

/-- `intern` behaviour: the returned address holds the name in the new
map, the map only grows, nothing else changes. -/
theorem intern_spec (st : CGSt) (n : List Char) :
    listIndexOf (intern st n).2.data_addr n = some (intern st n).1 ∧
    (intern st n).1 < (intern st n).2.data_addr.length ∧
    (∃ d, (intern st n).2.data_addr = st.data_addr ++ d) ∧
    (intern st n).2.string_pool = st.string_pool ∧
    (intern st n).2.pc = st.pc ∧
    (intern st n).2.instructions = st.instructions := by
  unfold intern
  cases hi : listIndexOf st.data_addr n with
  | some a =>
    refine ⟨hi, listIndexOf_lt_length hi, ⟨[], by simp⟩, rfl, rfl, rfl⟩
  | none =>
    refine ⟨listIndexOf_self_append hi, by simp, ⟨[n], rfl⟩, rfl, rfl, rfl⟩

/-- `intern_string` behaviour. -/
theorem intern_string_spec (st : CGSt) (s : List Char) :
    (intern_string st s).2.string_pool.get? (intern_string st s).1 = some s ∧
    (intern_string st s).1 < (intern_string st s).2.string_pool.length ∧
    (∃ p, (intern_string st s).2.string_pool = st.string_pool ++ p) ∧
    (intern_string st s).2.data_addr = st.data_addr ∧
    (intern_string st s).2.pc = st.pc ∧
    (intern_string st s).2.instructions = st.instructions := by
  unfold intern_string
  cases hi : listIndexOf st.string_pool s with
  | some a =>
    refine ⟨listIndexOf_get hi, listIndexOf_lt_length hi, ⟨[], by simp⟩, rfl, rfl, rfl⟩
  | none =>
    refine ⟨?_, by simp, ⟨[s], rfl⟩, rfl, rfl, rfl⟩
    rw [List.get?_eq_getElem?]
    simp

/-- The data area realises the interpreter environment: every binding
is an integer stored at the address the final data map assigns to the
name. -/
def EnvData (G : CGSt) (env : Env) (data : List Int) : Prop :=
  data.length = G.data_addr.length ∧
  ∀ n v, envLookup env n = some v →
    ∃ (a : Nat) (x : Int), listIndexOf G.data_addr n = some a ∧
      data.get? a = some x ∧ v = .Integer x

theorem EnvData_insert {G : CGSt} {env : Env} {data : List Int}
    (h : EnvData G env data) {n : List Char} {a : Nat}
    (ha : listIndexOf G.data_addr n = some a) (x : Int) :
    EnvData G (envInsert env n (.Integer x)) (data.set a x) := by
  obtain ⟨hlen, hrel⟩ := h
  have haG := listIndexOf_lt_length ha
  refine ⟨by simp [hlen], ?_⟩
  intro m v hm
  unfold envInsert envLookup at hm
  split at hm
  next heq =>
    cases hm
    subst heq
    refine ⟨a, x, ha, ?_, rfl⟩
    rw [List.get?_eq_getElem?, List.getElem?_set_self (by omega)]
  next heq =>
    obtain ⟨b, y, hb, hy, rfl⟩ := hrel m v hm
    have hba : b ≠ a := by
      intro hcontra
      subst hcontra
      have h1 := listIndexOf_get ha
      have h2 := listIndexOf_get hb
      rw [h1] at h2
      cases h2
      exact heq rfl
    refine ⟨b, y, hb, ?_, rfl⟩
    rw [List.get?_eq_getElem?, List.getElem?_set_ne (by omega)]
    rw [List.get?_eq_getElem?] at hy
    exact hy

/-- The node kinds whose interpretation never produces a value. -/
def isStmtKind : NodeKind → Bool
  | .Sequence | .Assign | .If | .While | .Prts | .Prtc | .Prti | .None => true
  | _ => false

theorem interp_stmt_none : ∀ (f : Nat) (n : ASTNode) (env : Env) (out : List Char)
    (env' : Env) (out' : List Char) (res : Option Value),
    isStmtKind n.kind = true → interp f env out n = .ok env' out' res → res = none := by
  intro f
  induction f with
  | zero => intro n env out env' out' res hs h; cases h
  | succ f ih =>
    intro n env out env' out' res hs h
    obtain ⟨k0, l, r⟩ := n
    dsimp only [ASTNode.kind] at hs
    unfold interp at h
    revert h
    cases k0 <;> simp only [isStmtKind] at hs <;>
      (dsimp only [ASTNode.kind, ASTNode.lhs, ASTNode.rhs]
       intro h
       repeat' (split at h)
       all_goals try (cases h)
       all_goals
         first
         | exact absurd hs (by decide)
         | rfl
         | (refine ih _ _ _ _ _ _ ?_ (by assumption); rfl)
         | (exfalso; solve_by_elim))

theorem interp_expr_some : ∀ (f : Nat) (n : ASTNode) (env : Env) (out : List Char)
    (env' : Env) (out' : List Char) (res : Option Value),
    isStmtKind n.kind = false → interp f env out n = .ok env' out' res →
    ∃ v, res = some v := by
  intro f
  cases f with
  | zero => intro n env out env' out' res hs h; cases h
  | succ f =>
    intro n env out env' out' res hs h
    obtain ⟨k0, l, r⟩ := n
    dsimp only [ASTNode.kind] at hs
    unfold interp at h
    revert h
    cases k0 <;> simp only [isStmtKind] at hs <;>
      (dsimp only [ASTNode.kind, ASTNode.lhs, ASTNode.rhs]
       intro h
       repeat' (split at h)
       all_goals try (cases h)
       all_goals
         first
         | exact absurd hs (by decide)
         | exact ⟨_, rfl⟩
         | (exfalso; solve_by_elim))

/-- A `While` whose condition is a statement-kind node can never
interpret to a success: its condition never produces the integer the
exit test needs. -/
theorem while_stmt_cond_no_ok : ∀ (f : Nat) (cond body : ASTNode) (env : Env)
    (out : List Char) (env' : Env) (out' : List Char) (res : Option Value),
    isStmtKind cond.kind = true →
    interp f env out (.mk .While (some cond) (some body)) = .ok env' out' res → False := by
  intro f
  induction f with
  | zero => intro cond body env out env' out' res hs h; cases h
  | succ f ih =>
    intro cond body env out env' out' res hs h
    unfold interp at h
    dsimp only [ASTNode.kind, ASTNode.lhs, ASTNode.rhs] at h
    revert h
    split
    all_goals intro h
    case _ env1 out1 cv heq =>
      have hcv : cv = none := interp_stmt_none f cond env out env1 out1 cv hs heq
      subst hcv
      rw [if_pos (by simp)] at h
      revert h
      split
      all_goals intro h
      · exact ih cond body _ _ _ _ _ hs h
      all_goals first
        | (cases h)
        | (exfalso; solve_by_elim)
    all_goals first
      | (cases h)
      | (exfalso; solve_by_elim)

/-- The instructions the block generated between `st` and `st'` are all
present (already in final, patched form) in the full image `G`, whose
data map and string pool extend `st'`'s, with all addresses below
`G.pc`. -/
def blockIn (st st' G : CGSt) : Prop :=
  st'.pc ≤ G.pc ∧
  (∃ d, G.data_addr = st'.data_addr ++ d) ∧
  (∃ p, G.string_pool = st'.string_pool ++ p) ∧
  ∀ i ∈ st'.instructions.drop st.instructions.length, i ∈ G.instructions

/-- Restrict a block to an initial sub-block: `st → s1 → st'` in the
same call and the tail from `s1` only appends. -/
theorem blockIn_init {st s1 st' G : CGSt} (h : blockIn st st' G)
    (htail : cgSpec s1 st') (hlen : st.instructions.length ≤ s1.instructions.length) :
    blockIn st s1 G := by
  obtain ⟨hpc, ⟨d, hd⟩, ⟨p, hq⟩, hmem⟩ := h
  obtain ⟨hp2, ⟨d2, hd2⟩, ⟨p2, hq2⟩, Δ2, hi2, -, -⟩ := htail
  refine ⟨by omega, ⟨d2 ++ d, by rw [hd, hd2, List.append_assoc]⟩,
    ⟨p2 ++ p, by rw [hq, hq2, List.append_assoc]⟩, ?_⟩
  intro i hm
  refine hmem i ?_
  rw [hi2, List.drop_append_of_le_length hlen]
  exact List.mem_append_left _ hm

/-- Restrict a block to a later sub-block: drop a longer prefix. -/
theorem blockIn_rest {st s1 st' G : CGSt} (h : blockIn st st' G)
    (hlen : st.instructions.length ≤ s1.instructions.length) :
    blockIn s1 st' G := by
  obtain ⟨hpc, hd, hq, hmem⟩ := h
  refine ⟨hpc, hd, hq, ?_⟩
  intro i hm
  refine hmem i ?_
  have : st'.instructions.drop s1.instructions.length =
      (st'.instructions.drop st.instructions.length).drop
        (s1.instructions.length - st.instructions.length) := by
    rw [List.drop_drop]
    congr 1
    omega
  rw [this] at hm
  exact List.drop_subset _ _ hm

theorem srcOkB_children {k : NodeKind} {l r : Option ASTNode}
    (h : srcOkB (.mk k l r) = true) : osrcOkB l = true ∧ osrcOkB r = true := by
  rw [srcOkB.eq_def] at h
  dsimp only at h
  simp only [Bool.and_eq_true] at h
  exact ⟨h.1.2, h.2⟩

theorem srcOkB_integer {v : Int} {l r : Option ASTNode}
    (h : srcOkB (.mk (.Integer v) l r) = true) : inI32 v := by
  rw [srcOkB.eq_def] at h
  dsimp only at h
  simp only [Bool.and_eq_true, decide_eq_true_eq] at h
  exact h.1.1

theorem srcOkB_string {s : List Char} {l r : Option ASTNode}
    (h : srcOkB (.mk (.String s) l r) = true) : cleanChars s := by
  rw [srcOkB.eq_def] at h
  dsimp only at h
  simp only [Bool.and_eq_true, decide_eq_true_eq] at h
  exact h.1.1

theorem astSize_mk (k : NodeKind) (l r : Option ASTNode) :
    astSize (.mk k l r) = 1 + oastSize l + oastSize r := by
  rw [astSize]

theorem oastSize_some (n : ASTNode) : oastSize (some n) = astSize n := by
  rw [oastSize]

theorem oastSize_none : oastSize none = 0 := by
  rw [oastSize]

theorem mem_drop_append (Δ : List Instruction) {pre full : List Instruction}
    (hi : full = pre ++ Δ) {i : Instruction} (him : i ∈ Δ) : i ∈ full.drop pre.length := by
  subst hi
  rw [List.drop_left]
  exact him

theorem blockIn_init' {st s1 st' G : CGSt} (h : blockIn st st' G)
    (hp : s1.pc ≤ st'.pc) (hd : ∃ d, st'.data_addr = s1.data_addr ++ d)
    (hq : ∃ p, st'.string_pool = s1.string_pool ++ p)
    (hi : ∃ Δ, st'.instructions = s1.instructions ++ Δ)
    (hlen : st.instructions.length ≤ s1.instructions.length) :
    blockIn st s1 G := by
  obtain ⟨hpc, ⟨d, hdG⟩, ⟨p, hqG⟩, hmem⟩ := h
  obtain ⟨d2, hd2⟩ := hd
  obtain ⟨p2, hq2⟩ := hq
  obtain ⟨Δ2, hi2⟩ := hi
  refine ⟨by omega, ⟨d2 ++ d, by rw [hdG, hd2, List.append_assoc]⟩,
    ⟨p2 ++ p, by rw [hqG, hq2, List.append_assoc]⟩, ?_⟩
  intro i hm
  refine hmem i ?_
  rw [hi2, List.drop_append_of_le_length hlen]
  exact List.mem_append_left _ hm

theorem astSize_pos (n : ASTNode) : 1 ≤ astSize n := by
  obtain ⟨k, l, r⟩ := n
  rw [astSize_mk]
  omega

theorem osrcOkB_some {n : ASTNode} (h : osrcOkB (some n) = true) : srcOkB n = true := h

mutual
/-- Well-formedness of statement positions: the nodes standing where a
statement is executed (`Sequence` children, `If` branches, `While`
bodies) are statement kinds themselves, so the generated code for them
leaves the evaluation stack unchanged. -/
def stmtOkB : ASTNode → Bool
  | .mk k l r =>
    match k with
    | .Sequence => ostmtOkB l && ostmtOkB r
    | .If =>
      (match r with
       | some (.mk _ bl br) => ostmtOkB bl && ostmtOkB br
       | none => true)
    | .While => ostmtOkB r
    | .Assign | .Prts | .Prtc | .Prti | .None => true
    | _ => false
def ostmtOkB : Option ASTNode → Bool
  | none => true
  | some n => stmtOkB n
end

/-- The node may stand in a statement position. -/
def posOk (n : ASTNode) : Prop := isStmtKind n.kind = true → stmtOkB n = true

theorem ostmtOkB_some {n : ASTNode} (h : ostmtOkB (some n) = true) : stmtOkB n = true := h

theorem stmtOkB_isStmt {n : ASTNode} (h : stmtOkB n = true) : isStmtKind n.kind = true := by
  obtain ⟨k, l, r⟩ := n
  rw [stmtOkB.eq_def] at h
  dsimp only at h
  cases k <;> first | rfl | (exact absurd h (by simp))

theorem stmtOkB_posOk {n : ASTNode} (h : stmtOkB n = true) : posOk n := fun _ => h

theorem exprKind_posOk {n : ASTNode} (h : isStmtKind n.kind = false) : posOk n :=
  fun hco => absurd hco (by rw [h]; simp)

theorem stmtOkB_seq {l r : Option ASTNode} (h : stmtOkB (.mk .Sequence l r) = true) :
    ostmtOkB l = true ∧ ostmtOkB r = true := by
  rw [stmtOkB.eq_def] at h
  dsimp only at h
  simpa using h

theorem stmtOkB_if {l : Option ASTNode} {bk : NodeKind} {bl br : Option ASTNode}
    (h : stmtOkB (.mk .If l (some (.mk bk bl br))) = true) :
    ostmtOkB bl = true ∧ ostmtOkB br = true := by
  rw [stmtOkB.eq_def] at h
  dsimp only at h
  simpa using h

theorem stmtOkB_while {l r : Option ASTNode} (h : stmtOkB (.mk .While l r) = true) :
    ostmtOkB r = true := by
  rw [stmtOkB.eq_def] at h
  dsimp only at h
  simpa using h

/-- The simulation statement at interpreter fuel `f`: a successful
interpreter run of `node` is matched by a sequence of VM steps over the
generated block, preserving the environment/data relation and the
output, and following the stack discipline of the block. -/
def SimP (f : Nat) : Prop :=
  ∀ (node : ASTNode) (env : Env) (out : List Char) (env' : Env) (out' : List Char)
    (res : Option Value), interp f env out node = .ok env' out' res →
  ∀ (st st' : CGSt), generate_body node st = .ok st' → srcOkB node = true → posOk node →
  ∀ (G : CGSt) (P : VMProg), blockIn st st' G → GoodImage G P →
  ∀ (σ : VMSt), σ.pc = st.pc → σ.out = out → EnvData G env σ.data →
    σ.stack.length + astSize node ≤ STACK_SIZE →
  ∃ (k : Nat) (σ' : VMSt), stepN P k σ = some σ' ∧ σ'.pc = st'.pc ∧ σ'.out = out' ∧
    EnvData G env' σ'.data ∧
    (isStmtKind node.kind = true → σ'.stack = σ.stack) ∧
    (isStmtKind node.kind = false → ∃ x : Int, res = some (.Integer x) ∧
      σ'.stack = x :: σ.stack)


set_option maxHeartbeats 3200000 in
/-- One step of the simulation induction: fuel `f + 1` reduces to fuel
`f` runs of the children (and of the loop tail for `While`). -/
theorem sim_step (f : Nat) (ih : SimP f) : SimP (f + 1) := by
  intro node env out env' out' res hI st st' hg hsrc hposn G P hblk hG σ hpc hout hED hroom
  obtain ⟨k, l, r⟩ := node
  have hI0 := hI
  have hg0 := hg
  have hsub := srcOkB_children hsrc
  rw [astSize_mk] at hroom
  unfold interp at hI
  dsimp only [ASTNode.kind, ASTNode.lhs, ASTNode.rhs] at hI
  unfold generate_body at hg
  cases k
  case Integer v =>
    dsimp only at hI hg
    cases hI
    cases hg
    have hv : inI32 v := srcOkB_integer hsrc
    have hmem : (⟨.Push v, st.pc⟩ : Instruction) ∈ G.instructions := by
      refine hblk.2.2.2 _ (mem_drop_append [⟨.Push v, st.pc⟩] ?_ ?_)
      · show (emit st (.Push v) 5).instructions = st.instructions ++ [⟨.Push v, st.pc⟩]
        rfl
      · simp
    have hstep := step_push hG hmem hv hpc (by simp only [STACK_SIZE] at hroom ⊢; omega)
    refine ⟨1, _, stepN_one hstep, rfl, hout, hED, ?_, ?_⟩
    · intro hco
      exact absurd hco (by simp [ASTNode.kind, isStmtKind])
    · intro hco
      exact ⟨v, rfl, rfl⟩
  case Identifier name =>
    dsimp only at hI hg
    revert hg
    cases hia : listIndexOf st.data_addr name with
    | none => intro hg; cases hg
    | some addr =>
    intro hg
    cases hg
    revert hI
    cases hle : envLookup env name with
    | none => intro hI; cases hI
    | some v =>
    intro hI
    cases hI
    obtain ⟨hdl, hrel⟩ := hED
    obtain ⟨a, x, ha, hx, hveq⟩ := hrel name v hle
    have haG : listIndexOf G.data_addr name = some addr := by
      obtain ⟨d, hd⟩ := hblk.2.1
      rw [hd]
      exact listIndexOf_append_left d hia
    rw [haG] at ha
    cases ha
    have hd31 : (addr : Int) < 2 ^ 31 := by
      have h1 := listIndexOf_lt_length haG
      have h2 := hG.data31
      omega
    have hmem : (⟨.Fetch addr, st.pc⟩ : Instruction) ∈ G.instructions := by
      refine hblk.2.2.2 _ (mem_drop_append [⟨.Fetch addr, st.pc⟩] ?_ ?_)
      · show (emit st (.Fetch addr) 5).instructions = st.instructions ++ [⟨.Fetch addr, st.pc⟩]
        rfl
      · simp
    have hstep := step_fetch hG hmem hd31 hpc hx
      (by simp only [STACK_SIZE] at hroom ⊢; omega)
    subst hveq
    refine ⟨1, _, stepN_one hstep, rfl, hout, ⟨hdl, hrel⟩, ?_, ?_⟩
    · intro hco
      exact absurd hco (by simp [ASTNode.kind, isStmtKind])
    · intro hco
      exact ⟨x, rfl, rfl⟩
  case String s =>
    dsimp only at hg
    cases hg
  case None =>
    dsimp only at hg
    cases hg
  case Sequence =>
    rcases l with _ | l0
    · rcases r with _ | r0
      · dsimp only at hI hg
        cases hI
        simp only [CRes.bindM_eq] at hg
        obtain ⟨s1, hg1, hg2⟩ := CRes.bind_ok_elim hg
        cases hg1
        cases hg2
        exact ⟨0, σ, rfl, hpc, hout, hED, fun _ => rfl,
          fun hco => absurd hco (by simp [ASTNode.kind, isStmtKind])⟩
      · dsimp only at hI hg
        simp only [CRes.bindM_eq] at hg
        obtain ⟨s1, hg1, hg2⟩ := CRes.bind_ok_elim hg
        cases hg1
        revert hI
        cases hIr : interp f env out r0 with
        | ok env' out' v2 =>
          intro hI
          dsimp only at hI
          cases hI
          have hstm : stmtOkB (.mk .Sequence none (some r0)) = true := hposn rfl
          have hr0 := ostmtOkB_some (stmtOkB_seq hstm).2
          obtain ⟨k1, σ1, hs1, hpc1, hout1, hED1, hstk1, -⟩ :=
            ih r0 env out env' out' v2 hIr st st' hg2 (osrcOkB_some hsub.2)
              (stmtOkB_posOk hr0) G P hblk hG σ hpc hout hED
              (by simp only [oastSize_some, oastSize_none, STACK_SIZE] at hroom ⊢; omega)
          exact ⟨k1, σ1, hs1, hpc1, hout1, hED1,
            fun _ => hstk1 (stmtOkB_isStmt hr0),
            fun hco => absurd hco (by simp [ASTNode.kind, isStmtKind])⟩
        | err e o => intro hI; cases hI
        | panic o => intro hI; cases hI
        | timeout => intro hI; cases hI
    · rcases r with _ | r0
      · dsimp only at hI hg
        simp only [CRes.bindM_eq] at hg
        obtain ⟨s1, hg1, hg2⟩ := CRes.bind_ok_elim hg
        cases hg2
        revert hI
        cases hIl : interp f env out l0 with
        | ok env' out' v1 =>
          intro hI
          dsimp only at hI
          cases hI
          have hstm : stmtOkB (.mk .Sequence (some l0) none) = true := hposn rfl
          have hl0 := ostmtOkB_some (stmtOkB_seq hstm).1
          obtain ⟨k1, σ1, hs1, hpc1, hout', hED1, hstk1, -⟩ :=
            ih l0 env out env' out' v1 hIl st st' hg1 (osrcOkB_some hsub.1)
              (stmtOkB_posOk hl0) G P hblk hG σ hpc hout hED
              (by simp only [oastSize_some, oastSize_none, STACK_SIZE] at hroom ⊢; omega)
          exact ⟨k1, σ1, hs1, hpc1, hout', hED1,
            fun _ => hstk1 (stmtOkB_isStmt hl0),
            fun hco => absurd hco (by simp [ASTNode.kind, isStmtKind])⟩
        | err e o => intro hI; cases hI
        | panic o => intro hI; cases hI
        | timeout => intro hI; cases hI
      · dsimp only at hI hg
        simp only [CRes.bindM_eq] at hg
        obtain ⟨s1, hg1, hg2⟩ := CRes.bind_ok_elim hg
        revert hI
        cases hIl : interp f env out l0 with
        | ok env1 out1 v1 =>
          intro hI
          dsimp only at hI
          revert hI
          cases hIr : interp f env1 out1 r0 with
          | ok env' out' v2 =>
            intro hI
            dsimp only at hI
            cases hI
            have hstm : stmtOkB (.mk .Sequence (some l0) (some r0)) = true := hposn rfl
            have hl0 := ostmtOkB_some (stmtOkB_seq hstm).1
            have hr0 := ostmtOkB_some (stmtOkB_seq hstm).2
            have hB := generate_body_spec r0 _ _ hg2
            have hA := generate_body_spec l0 _ _ hg1
            obtain ⟨hpA, ⟨dA, hdA⟩, ⟨pA, hqA⟩, ΔA, hiA, -, -⟩ := hA
            have hblkA : blockIn st s1 G := blockIn_init hblk hB (by rw [hiA]; simp)
            obtain ⟨k1, σ1, hs1, hpc1, hout1, hED1, hstk1, -⟩ :=
              ih l0 env out env1 out1 v1 hIl st s1 hg1 (osrcOkB_some hsub.1)
                (stmtOkB_posOk hl0) G P hblkA hG σ hpc hout hED
                (by simp only [oastSize_some, oastSize_none, STACK_SIZE] at hroom ⊢; omega)
            have hstk1e := hstk1 (stmtOkB_isStmt hl0)
            have hblkB : blockIn s1 st' G := blockIn_rest hblk (by rw [hiA]; simp)
            obtain ⟨k2, σ2, hs2, hpc2, hout', hED2, hstk2, -⟩ :=
              ih r0 env1 out1 env' out' v2 hIr s1 st' hg2 (osrcOkB_some hsub.2)
                (stmtOkB_posOk hr0) G P hblkB hG σ1 hpc1 hout1 hED1
                (by rw [hstk1e]
                    simp only [oastSize_some, oastSize_none, STACK_SIZE] at hroom ⊢
                    omega)
            exact ⟨k1 + k2, σ2, stepN_trans hs1 hs2, hpc2, hout', hED2,
              fun _ => (hstk2 (stmtOkB_isStmt hr0)).trans hstk1e,
              fun hco => absurd hco (by simp [ASTNode.kind, isStmtKind])⟩
          | err e o => intro hI; cases hI
          | panic o => intro hI; cases hI
          | timeout => intro hI; cases hI
        | err e o => intro hI; cases hI
        | panic o => intro hI; cases hI
        | timeout => intro hI; cases hI
  case Negate =>
    rcases l with _ | c0
    · cases hg
    dsimp only at hI hg
    simp only [CRes.bindM_eq] at hg
    obtain ⟨s1, hg1, hg2⟩ := CRes.bind_ok_elim hg
    cases hg2
    revert hI
    cases hIc : interp f env out c0 with
    | ok env' out' cv =>
      intro hI
      dsimp only at hI
      rcases cv with _ | cval
      · cases hI
      rcases cval with val | s
      · dsimp only at hI
        cases hI
        have hc0e : isStmtKind c0.kind = false := by
          cases hb : isStmtKind c0.kind
          · rfl
          · exact absurd (interp_stmt_none f c0 env out env' out' _ hb hIc) (by simp)
        have hA := generate_body_spec c0 _ _ hg1
        obtain ⟨hpA, ⟨dA, hdA⟩, ⟨pA, hqA⟩, ΔA, hiA, -, -⟩ := hA
        have hblkA : blockIn st s1 G := blockIn_init hblk
          (cgSpec_emit rfl (fun v => ⟨by simp, by simp⟩)) (by rw [hiA]; simp)
        obtain ⟨k1, σ1, hs1, hpc1, hout', hED1, -, hstkE⟩ :=
          ih c0 env out env' out' _ hIc st s1 hg1 (osrcOkB_some hsub.1)
            (exprKind_posOk hc0e) G P hblkA hG σ hpc hout hED
            (by simp only [oastSize_some, oastSize_none, STACK_SIZE] at hroom ⊢; omega)
        obtain ⟨x, hx, hstk1⟩ := hstkE hc0e
        cases hx
        have hmem : (⟨.Neg, s1.pc⟩ : Instruction) ∈ G.instructions := by
          refine hblk.2.2.2 _
            (mem_drop_append (ΔA ++ [⟨.Neg, s1.pc⟩]) ?_ ?_)
          · show (emit s1 .Neg 1).instructions =
              st.instructions ++ (ΔA ++ [⟨.Neg, s1.pc⟩])
            show s1.instructions ++ [⟨.Neg, s1.pc⟩] = _
            rw [hiA, List.append_assoc]
          · simp
        have hstep := step_neg hG hmem hpc1 hstk1
        refine ⟨k1 + 1, _, stepN_trans hs1 (stepN_one hstep), rfl, hout', hED1, ?_, ?_⟩
        · intro hco
          exact absurd hco (by simp [ASTNode.kind, isStmtKind])
        · intro hco
          exact ⟨wneg val, rfl, rfl⟩
      · cases hI
    | err e o => intro hI; cases hI
    | panic o => intro hI; cases hI
    | timeout => intro hI; cases hI
  case Not =>
    rcases l with _ | c0
    · cases hg
    dsimp only at hI hg
    simp only [CRes.bindM_eq] at hg
    obtain ⟨s1, hg1, hg2⟩ := CRes.bind_ok_elim hg
    cases hg2
    revert hI
    cases hIc : interp f env out c0 with
    | ok env' out' cv =>
      intro hI
      dsimp only at hI
      rcases cv with _ | cval
      · cases hI
      rcases cval with val | s
      · dsimp only at hI
        cases hI
        have hc0e : isStmtKind c0.kind = false := by
          cases hb : isStmtKind c0.kind
          · rfl
          · exact absurd (interp_stmt_none f c0 env out env' out' _ hb hIc) (by simp)
        have hA := generate_body_spec c0 _ _ hg1
        obtain ⟨hpA, ⟨dA, hdA⟩, ⟨pA, hqA⟩, ΔA, hiA, -, -⟩ := hA
        have hblkA : blockIn st s1 G := blockIn_init hblk
          (cgSpec_emit rfl (fun v => ⟨by simp, by simp⟩)) (by rw [hiA]; simp)
        obtain ⟨k1, σ1, hs1, hpc1, hout', hED1, -, hstkE⟩ :=
          ih c0 env out env' out' _ hIc st s1 hg1 (osrcOkB_some hsub.1)
            (exprKind_posOk hc0e) G P hblkA hG σ hpc hout hED
            (by simp only [oastSize_some, oastSize_none, STACK_SIZE] at hroom ⊢; omega)
        obtain ⟨x, hx, hstk1⟩ := hstkE hc0e
        cases hx
        have hmem : (⟨.Not, s1.pc⟩ : Instruction) ∈ G.instructions := by
          refine hblk.2.2.2 _
            (mem_drop_append (ΔA ++ [⟨.Not, s1.pc⟩]) ?_ ?_)
          · show (emit s1 .Not 1).instructions =
              st.instructions ++ (ΔA ++ [⟨.Not, s1.pc⟩])
            show s1.instructions ++ [⟨.Not, s1.pc⟩] = _
            rw [hiA, List.append_assoc]
          · simp
        have hstep := step_not hG hmem hpc1 hstk1
        refine ⟨k1 + 1, _, stepN_trans hs1 (stepN_one hstep), rfl, hout', hED1, ?_, ?_⟩
        · intro hco
          exact absurd hco (by simp [ASTNode.kind, isStmtKind])
        · intro hco
          exact ⟨if val = 0 then 1 else 0, rfl, rfl⟩
      · cases hI
    | err e o => intro hI; cases hI
    | panic o => intro hI; cases hI
    | timeout => intro hI; cases hI
  case Prtc =>
    rcases l with _ | c0
    · cases hg
    dsimp only at hI hg
    simp only [CRes.bindM_eq] at hg
    obtain ⟨s1, hg1, hg2⟩ := CRes.bind_ok_elim hg
    cases hg2
    revert hI
    cases hIc : interp f env out c0 with
    | ok env' out1 cv =>
      intro hI
      dsimp only at hI
      rcases cv with _ | cval
      · cases hI
      rcases cval with val | s
      · dsimp only at hI
        revert hI
        cases hch : charFromU32 (toU32 val)
        case none => intro hI; cases hI
        rename_i c
        intro hI
        dsimp only at hI
        cases hI
        have hc0e : isStmtKind c0.kind = false := by
          cases hb : isStmtKind c0.kind
          · rfl
          · exact absurd (interp_stmt_none f c0 env out env' out1 _ hb hIc) (by simp)
        have hA := generate_body_spec c0 _ _ hg1
        obtain ⟨hpA, ⟨dA, hdA⟩, ⟨pA, hqA⟩, ΔA, hiA, -, -⟩ := hA
        have hblkA : blockIn st s1 G := blockIn_init hblk
          (cgSpec_emit rfl (fun v => ⟨by simp, by simp⟩)) (by rw [hiA]; simp)
        obtain ⟨k1, σ1, hs1, hpc1, hout1, hED1, -, hstkE⟩ :=
          ih c0 env out env' out1 _ hIc st s1 hg1 (osrcOkB_some hsub.1)
            (exprKind_posOk hc0e) G P hblkA hG σ hpc hout hED
            (by simp only [oastSize_some, oastSize_none, STACK_SIZE] at hroom ⊢; omega)
        obtain ⟨x, hx, hstk1⟩ := hstkE hc0e
        cases hx
        have hmem : (⟨.Prtc, s1.pc⟩ : Instruction) ∈ G.instructions := by
          refine hblk.2.2.2 _ (mem_drop_append (ΔA ++ [⟨.Prtc, s1.pc⟩]) ?_ ?_)
          · show (emit s1 .Prtc 1).instructions = st.instructions ++ (ΔA ++ [⟨.Prtc, s1.pc⟩])
            show s1.instructions ++ [⟨.Prtc, s1.pc⟩] = _
            rw [hiA, List.append_assoc]
          · simp
        have hstep := step_prtc hG hmem hpc1 hstk1 hch
        refine ⟨k1 + 1, _, stepN_trans hs1 (stepN_one hstep), rfl, ?_, hED1, ?_, ?_⟩
        · show σ1.out ++ [c] = out1 ++ [c]
          rw [hout1]
        · intro hco
          exact rfl
        · intro hco
          exact absurd hco (by simp [ASTNode.kind, isStmtKind])
      · cases hI
    | err e o => intro hI; cases hI
    | panic o => intro hI; cases hI
    | timeout => intro hI; cases hI
  case Prti =>
    rcases l with _ | c0
    · cases hg
    dsimp only at hI hg
    simp only [CRes.bindM_eq] at hg
    obtain ⟨s1, hg1, hg2⟩ := CRes.bind_ok_elim hg
    cases hg2
    revert hI
    cases hIc : interp f env out c0 with
    | ok env' out1 cv =>
      intro hI
      dsimp only at hI
      rcases cv with _ | cval
      · cases hI
      rcases cval with val | s
      · dsimp only at hI
        cases hI
        have hc0e : isStmtKind c0.kind = false := by
          cases hb : isStmtKind c0.kind
          · rfl
          · exact absurd (interp_stmt_none f c0 env out env' out1 _ hb hIc) (by simp)
        have hA := generate_body_spec c0 _ _ hg1
        obtain ⟨hpA, ⟨dA, hdA⟩, ⟨pA, hqA⟩, ΔA, hiA, -, -⟩ := hA
        have hblkA : blockIn st s1 G := blockIn_init hblk
          (cgSpec_emit rfl (fun v => ⟨by simp, by simp⟩)) (by rw [hiA]; simp)
        obtain ⟨k1, σ1, hs1, hpc1, hout1, hED1, -, hstkE⟩ :=
          ih c0 env out env' out1 _ hIc st s1 hg1 (osrcOkB_some hsub.1)
            (exprKind_posOk hc0e) G P hblkA hG σ hpc hout hED
            (by simp only [oastSize_some, oastSize_none, STACK_SIZE] at hroom ⊢; omega)
        obtain ⟨x, hx, hstk1⟩ := hstkE hc0e
        cases hx
        have hmem : (⟨.Prti, s1.pc⟩ : Instruction) ∈ G.instructions := by
          refine hblk.2.2.2 _ (mem_drop_append (ΔA ++ [⟨.Prti, s1.pc⟩]) ?_ ?_)
          · show (emit s1 .Prti 1).instructions = st.instructions ++ (ΔA ++ [⟨.Prti, s1.pc⟩])
            show s1.instructions ++ [⟨.Prti, s1.pc⟩] = _
            rw [hiA, List.append_assoc]
          · simp
        have hstep := step_prti hG hmem hpc1 hstk1
        refine ⟨k1 + 1, _, stepN_trans hs1 (stepN_one hstep), rfl, ?_, hED1, ?_, ?_⟩
        · show σ1.out ++ intToChars val = out1 ++ intToChars val
          rw [hout1]
        · intro hco
          exact rfl
        · intro hco
          exact absurd hco (by simp [ASTNode.kind, isStmtKind])
      · cases hI
    | err e o => intro hI; cases hI
    | panic o => intro hI; cases hI
    | timeout => intro hI; cases hI
  case Prts =>
    rcases l with _ | sn
    · cases hg
    obtain ⟨sk, sl, sr⟩ := sn
    cases sk
    case String s =>
      dsimp only at hI hg
      cases hg
      cases f with
      | zero =>
        rw [show interp 0 env out (.mk (.String s) sl sr) = .timeout from rfl] at hI
        dsimp only at hI
        cases hI
      | succ f2 =>
        rw [show interp (f2 + 1) env out (.mk (.String s) sl sr) =
            .ok env out (some (.String s)) from rfl] at hI
        dsimp only at hI
        cases hI
        obtain ⟨hsp1, hsplt, ⟨pS, hpS⟩, hsd, hspc, hsins⟩ := intern_string_spec st s
        have hplen : (intern_string st s).2.string_pool.length ≤ G.string_pool.length := by
          obtain ⟨p, hp⟩ := hblk.2.2.1
          dsimp only [emit] at hp
          rw [hp]
          simp
        have hin32 : inI32 ((intern_string st s).1 : Int) := by
          have h3 := hG.pool31
          constructor
          · omega
          · omega
        have hmem1 : (⟨.Push ((intern_string st s).1 : Int), st.pc⟩ : Instruction) ∈
            G.instructions := by
          refine hblk.2.2.2 _ (mem_drop_append
            [⟨.Push ((intern_string st s).1 : Int), st.pc⟩, ⟨.Prts, st.pc + 5⟩] ?_ ?_)
          · dsimp only [emit]
            rw [hsins, hspc]
            simp
          · simp
        have hmem2 : (⟨.Prts, st.pc + 5⟩ : Instruction) ∈ G.instructions := by
          refine hblk.2.2.2 _ (mem_drop_append
            [⟨.Push ((intern_string st s).1 : Int), st.pc⟩, ⟨.Prts, st.pc + 5⟩] ?_ ?_)
          · dsimp only [emit]
            rw [hsins, hspc]
            simp
          · simp
        have hpool : G.string_pool.get? (intern_string st s).1 = some s := by
          obtain ⟨p, hp⟩ := hblk.2.2.1
          dsimp only [emit] at hp
          rw [hp, List.get?_eq_getElem?, List.getElem?_append_left hsplt,
              ← List.get?_eq_getElem?]
          exact hsp1
        have hstep1 := step_push hG hmem1 hin32 hpc
          (by simp only [STACK_SIZE] at hroom ⊢; omega)
        have hstep2 := step_prts (σ := { σ with
            stack := ((intern_string st s).1 : Int) :: σ.stack, pc := st.pc + 5 })
          hG hmem2 rfl rfl hpool
        refine ⟨2, _, stepN_trans (stepN_one hstep1) (stepN_one hstep2), ?_, ?_, hED, ?_, ?_⟩
        · show st.pc + 5 + 1 = ((emit (emit (intern_string st s).2
            (.Push ((intern_string st s).1 : Int)) 5) .Prts 1) : CGSt).pc
          dsimp only [emit]
          rw [hspc]
        · show σ.out ++ s = out ++ s
          rw [hout]
        · intro hco
          exact rfl
        · intro hco
          exact absurd hco (by simp [ASTNode.kind, isStmtKind])
    all_goals (dsimp only at hg; cases hg)
  case Assign =>
    rcases l with _ | idn
    · cases hg
    rcases r with _ | rhs0
    · dsimp only at hg
      cases hg
    dsimp only at hI hg
    simp only [CRes.bindM_eq] at hg
    obtain ⟨s1, hg1, hg2⟩ := CRes.bind_ok_elim hg
    obtain ⟨ik0, il, ir⟩ := idn
    revert hI
    cases hIr : interp f env out rhs0 with
    | ok env1 out' v1 =>
      intro hI
      dsimp only at hI
      rcases v1 with _ | val
      · cases hI
      cases ik0
      case Identifier name =>
        dsimp only at hI hg2
        cases hI
        cases hg2
        have hrhse : isStmtKind rhs0.kind = false := by
          cases hb : isStmtKind rhs0.kind
          · rfl
          · exact absurd (interp_stmt_none f rhs0 env out env1 out' _ hb hIr) (by simp)
        have hA := generate_body_spec rhs0 _ _ hg1
        obtain ⟨hpA, ⟨dA, hdA⟩, ⟨pA, hqA⟩, ΔA, hiA, -, -⟩ := hA
        obtain ⟨hia, hialt, ⟨dI, hdI⟩, hqI, hpcI, hinsI⟩ := intern_spec s1 name
        have hblkA : blockIn st s1 G := blockIn_init' hblk
          (by dsimp only [emit]; omega)
          ⟨dI, by dsimp only [emit]; exact hdI⟩
          ⟨[], by dsimp only [emit]; rw [hqI]; simp⟩
          ⟨[⟨.Store (intern s1 name).1, (intern s1 name).2.pc⟩],
            by dsimp only [emit]; rw [hinsI]⟩
          (by rw [hiA]; simp)
        obtain ⟨k1, σ1, hs1, hpc1, hout', hED1, -, hstkE⟩ :=
          ih rhs0 env out env1 out' _ hIr st s1 hg1 (osrcOkB_some hsub.2)
            (exprKind_posOk hrhse) G P hblkA hG σ hpc hout hED
            (by simp only [oastSize_some, oastSize_none, STACK_SIZE] at hroom ⊢; omega)
        obtain ⟨x, hx, hstk1⟩ := hstkE hrhse
        cases hx
        have haG : listIndexOf G.data_addr name = some (intern s1 name).1 := by
          obtain ⟨d, hd⟩ := hblk.2.1
          dsimp only [emit] at hd
          rw [hd]
          exact listIndexOf_append_left d hia
        have hmem : (⟨.Store (intern s1 name).1, (intern s1 name).2.pc⟩ : Instruction) ∈
            G.instructions := by
          refine hblk.2.2.2 _ (mem_drop_append
            (ΔA ++ [⟨.Store (intern s1 name).1, (intern s1 name).2.pc⟩]) ?_ ?_)
          · dsimp only [emit]
            rw [hinsI, hiA, List.append_assoc]
          · simp
        have h31 : ((intern s1 name).1 : Int) < 2 ^ 31 := by
          have h1 := listIndexOf_lt_length haG
          have h2 := hG.data31
          omega
        have hlen2 : (intern s1 name).1 < σ1.data.length := by
          have h1 := listIndexOf_lt_length haG
          have h2 := hED1.1
          omega
        have hstep := step_store hG hmem h31 (hpc1.trans hpcI.symm) hstk1 hlen2
        have hED2 := EnvData_insert hED1 haG x
        refine ⟨k1 + 1, _, stepN_trans hs1 (stepN_one hstep), rfl, hout', hED2, ?_, ?_⟩
        · intro hco
          exact rfl
        · intro hco
          exact absurd hco (by simp [ASTNode.kind, isStmtKind])
      all_goals (dsimp only at hI; cases hI)
    | err e o => intro hI; cases hI
    | panic o => intro hI; cases hI
    | timeout => intro hI; cases hI
  case If =>
    rcases l with _ | cond
    · cases hg
    rcases r with _ | sn
    · dsimp only at hg
      simp only [CRes.bindM_eq] at hg
      obtain ⟨sA, h1, h2⟩ := CRes.bind_ok_elim hg
      cases h2
    obtain ⟨bk, bl, br⟩ := sn
    rcases bl with _ | thenB
    · dsimp only at hg
      simp only [CRes.bindM_eq] at hg
      obtain ⟨sA, h1, h2⟩ := CRes.bind_ok_elim hg
      cases h2
    dsimp only at hg
    simp only [CRes.bindM_eq] at hg
    obtain ⟨sA, h1, h2⟩ := CRes.bind_ok_elim hg
    try dsimp only at h2
    obtain ⟨sC, h3, h4⟩ := CRes.bind_ok_elim h2
    have hA := generate_body_spec cond _ _ h1
    have hCs := generate_body_spec thenB _ _ h3
    obtain ⟨hpA, ⟨dA, hdA⟩, ⟨pA, hqA⟩, ΔA, hiA, hlA, hjA⟩ := hA
    obtain ⟨hpC, ⟨dC, hdC⟩, ⟨pC, hqC⟩, ΔC, hiC, hlC, hjC⟩ := hCs
    dsimp only [emit] at hpC hdC hqC hiC
    dsimp only at hI
    revert hI
    cases hIc : interp f env out cond
    case err e o => intro hI; cases hI
    case panic o => intro hI; cases hI
    case timeout => intro hI; cases hI
    rename_i env1 out1 cv
    intro hI
    dsimp only at hI
    rcases cv with _ | cval
    · cases hI
    have hcnde : isStmtKind cond.kind = false := by
      cases hb : isStmtKind cond.kind
      · rfl
      · exact absurd (interp_stmt_none f cond env out env1 out1 _ hb hIc) (by simp)
    have hstm : stmtOkB (.mk .If (some cond) (some (.mk bk (some thenB) br))) = true :=
      hposn rfl
    have hthen := ostmtOkB_some (stmtOkB_if hstm).1
    have hsrcT := osrcOkB_some (srcOkB_children (osrcOkB_some hsub.2)).1
    cases br with
    | none =>
      dsimp only at h4
      have hlen4 : sA.instructions.length = (st.instructions ++ ΔA).length := by rw [hiA]
      have hins : sC.instructions = (st.instructions ++ ΔA) ++ ⟨.Jz 0, sA.pc⟩ :: ΔC := by
        rw [hiC, hiA]
        simp
      rw [hlen4, backpatch_jz hins] at h4
      cases h4
      have hGpc : sC.pc ≤ G.pc := hblk.1
      have h31 := hG.pc31
      have hstpc : st.pc ≤ sA.pc := hpA
      have hblkA : blockIn st sA G := blockIn_init' hblk
        (show sA.pc ≤ sC.pc from by omega) ⟨dC, hdC⟩ ⟨pC, hqC⟩
        ⟨⟨.Jz (wrap32 ((sC.pc : Int) - ((sA.pc : Int) + 1))), sA.pc⟩ :: ΔC, by
          show (st.instructions ++ ΔA) ++ _ :: ΔC = _
          rw [hiA]⟩
        (by rw [hiA]; simp)
      obtain ⟨k1, σ1, hs1, hpc1, hout1, hED1, -, hstkE⟩ :=
        ih cond env out env1 out1 _ hIc st sA h1 (osrcOkB_some hsub.1)
          (exprKind_posOk hcnde) G P hblkA hG σ hpc hout hED
          (by simp only [oastSize_some, oastSize_none, astSize_mk, STACK_SIZE] at hroom ⊢
              omega)
      obtain ⟨x, hx, hstk1⟩ := hstkE hcnde
      cases hx
      have hmemJ : (⟨.Jz (wrap32 ((sC.pc : Int) - ((sA.pc : Int) + 1))), sA.pc⟩ :
          Instruction) ∈ G.instructions := by
        refine hblk.2.2.2 _ (mem_drop_append
          (ΔA ++ ⟨.Jz (wrap32 ((sC.pc : Int) - ((sA.pc : Int) + 1))), sA.pc⟩ :: ΔC) ?_ ?_)
        · dsimp only
          simp
        · simp
      by_cases hx0 : x = 0
      · subst hx0
        try dsimp only at hI
        rw [if_neg (by simp)] at hI
        try dsimp only at hI
        cases hI
        have hw : wrap32 ((sC.pc : Int) - ((sA.pc : Int) + 1)) =
            (sC.pc : Int) - ((sA.pc : Int) + 1) :=
          wrap32_eq_self ⟨by omega, by omega⟩
        have hpj : pcJump (sA.pc + 1) (wrap32 ((sC.pc : Int) - ((sA.pc : Int) + 1))) =
            sC.pc := pcJump_target hw (by omega)
        have hstep := step_jz_taken hG hmemJ (wrap32_inI32 _) hpc1 hstk1
        rw [hpj] at hstep
        refine ⟨k1 + 1, _, stepN_trans hs1 (stepN_one hstep), rfl, hout1, hED1,
          fun _ => rfl, fun hco => absurd hco (by simp [ASTNode.kind, isStmtKind])⟩
      · try dsimp only at hI
        rw [if_pos (by simp [hx0])] at hI
        try dsimp only at hI
        revert hI
        cases hIt : interp f env1 out1 thenB
        all_goals intro hI
        all_goals try (cases hI)
        rename_i v2
        have hstep := step_jz_skip hG hmemJ hpc1 hstk1 hx0
        have hblkC : blockIn (emit sA (.Jz 0) 5) sC G := by
          refine ⟨hGpc, ?_, ?_, ?_⟩
          · obtain ⟨d, hd⟩ := hblk.2.1
            try dsimp only at hd
            exact ⟨d, hd⟩
          · obtain ⟨p, hp⟩ := hblk.2.2.1
            try dsimp only at hp
            exact ⟨p, hp⟩
          · intro i hm
            dsimp only [emit] at hm
            rw [hiC, List.drop_left] at hm
            refine hblk.2.2.2 i (mem_drop_append
              (ΔA ++ ⟨.Jz (wrap32 ((sC.pc : Int) - ((sA.pc : Int) + 1))), sA.pc⟩ :: ΔC)
              ?_ ?_)
            · dsimp only
              simp
            · simp [hm]
        obtain ⟨k2, σ3, hs3, hpc3, hout3, hED3, hstk3, -⟩ :=
          ih thenB env1 out1 env' out' v2 hIt (emit sA (.Jz 0) 5) sC h3 hsrcT
            (stmtOkB_posOk hthen) G P hblkC hG
              ({ σ1 with stack := σ.stack, pc := sA.pc + 5 } : VMSt) rfl hout1 hED1
            (by show σ.stack.length + astSize thenB ≤ STACK_SIZE
                simp only [oastSize_some, oastSize_none, astSize_mk, STACK_SIZE]
                  at hroom ⊢
                omega)
        refine ⟨k1 + (1 + k2), σ3, stepN_trans hs1 (stepN_trans (stepN_one hstep) hs3),
          hpc3, hout3, hED3, ?_, fun hco => absurd hco (by simp [ASTNode.kind, isStmtKind])⟩
        intro hco2
        rw [hstk3 (stmtOkB_isStmt hthen)]
    | some elseB =>
      dsimp only at h4
      obtain ⟨sE, h5, h6⟩ := CRes.bind_ok_elim h4
      obtain ⟨sF, h7, h8⟩ := CRes.bind_ok_elim h6
      have hlen4 : sA.instructions.length = (st.instructions ++ ΔA).length := by rw [hiA]
      have hinsD : (emit sC (.Jump 0) 5).instructions =
          (st.instructions ++ ΔA) ++ ⟨.Jz 0, sA.pc⟩ :: (ΔC ++ [⟨.Jump 0, sC.pc⟩]) := by
        rw [show (emit sC (.Jump 0) 5).instructions =
            sC.instructions ++ [⟨.Jump 0, sC.pc⟩] from rfl, hiC, hiA]
        simp
      rw [hlen4, backpatch_jz hinsD] at h5
      cases h5
      have hF := generate_body_spec elseB _ _ h7
      obtain ⟨hpF, ⟨dF, hdF⟩, ⟨pF, hqF⟩, ΔF, hiF, hlF, hjF⟩ := hF
      dsimp only [emit] at hpF hdF hqF hiF
      have hlen5 : sC.instructions.length =
          ((st.instructions ++ ΔA) ++
            ⟨.Jz (wrap32 (((sC.pc + 5 : Nat) : Int) - ((sA.pc : Int) + 1))), sA.pc⟩ ::
              ΔC).length := by
        rw [hiC, hiA]
        simp
      have hinsF : sF.instructions =
          ((st.instructions ++ ΔA) ++
            ⟨.Jz (wrap32 (((sC.pc + 5 : Nat) : Int) - ((sA.pc : Int) + 1))), sA.pc⟩ :: ΔC)
          ++ ⟨.Jump 0, sC.pc⟩ :: ΔF := by
        rw [hiF]
        simp
      rw [hlen5, backpatch_jump hinsF] at h8
      cases h8
      have hGpc : sF.pc ≤ G.pc := hblk.1
      have h31 := hG.pc31
      have hstpc : st.pc ≤ sA.pc := hpA
      have helse := ostmtOkB_some (stmtOkB_if hstm).2
      have hsrcE := osrcOkB_some (srcOkB_children (osrcOkB_some hsub.2)).2
      have hblkA : blockIn st sA G := blockIn_init' hblk
        (show sA.pc ≤ sF.pc from by omega)
        ⟨dC ++ dF, by rw [hdF, hdC, List.append_assoc]⟩
        ⟨pC ++ pF, by rw [hqF, hqC, List.append_assoc]⟩
        ⟨⟨.Jz (wrap32 (((sC.pc + 5 : Nat) : Int) - ((sA.pc : Int) + 1))), sA.pc⟩ ::
            (ΔC ++ ⟨.Jump (wrap32 ((sF.pc : Int) - ((sC.pc : Int) + 1))), sC.pc⟩ :: ΔF), by
          show ((st.instructions ++ ΔA) ++ _ :: ΔC) ++ _ :: ΔF = _
          rw [hiA]
          simp⟩
        (by rw [hiA]; simp)
      obtain ⟨k1, σ1, hs1, hpc1, hout1, hED1, -, hstkE⟩ :=
        ih cond env out env1 out1 _ hIc st sA h1 (osrcOkB_some hsub.1)
          (exprKind_posOk hcnde) G P hblkA hG σ hpc hout hED
          (by simp only [oastSize_some, oastSize_none, astSize_mk, STACK_SIZE] at hroom ⊢
              omega)
      obtain ⟨x, hx, hstk1⟩ := hstkE hcnde
      cases hx
      have hmemJ : (⟨.Jz (wrap32 (((sC.pc + 5 : Nat) : Int) - ((sA.pc : Int) + 1))),
          sA.pc⟩ : Instruction) ∈ G.instructions := by
        refine hblk.2.2.2 _ (mem_drop_append
          (ΔA ++ ⟨.Jz (wrap32 (((sC.pc + 5 : Nat) : Int) - ((sA.pc : Int) + 1))), sA.pc⟩ ::
            (ΔC ++ ⟨.Jump (wrap32 ((sF.pc : Int) - ((sC.pc : Int) + 1))), sC.pc⟩ :: ΔF))
          ?_ ?_)
        · dsimp only
          simp
        · simp
      have hmemU : (⟨.Jump (wrap32 ((sF.pc : Int) - ((sC.pc : Int) + 1))), sC.pc⟩ :
          Instruction) ∈ G.instructions := by
        refine hblk.2.2.2 _ (mem_drop_append
          (ΔA ++ ⟨.Jz (wrap32 (((sC.pc + 5 : Nat) : Int) - ((sA.pc : Int) + 1))), sA.pc⟩ ::
            (ΔC ++ ⟨.Jump (wrap32 ((sF.pc : Int) - ((sC.pc : Int) + 1))), sC.pc⟩ :: ΔF))
          ?_ ?_)
        · dsimp only
          simp
        · simp
      by_cases hx0 : x = 0
      · subst hx0
        try dsimp only at hI
        rw [if_neg (by simp)] at hI
        try dsimp only at hI
        revert hI
        cases hIe : interp f env1 out1 elseB
        all_goals intro hI
        all_goals try (cases hI)
        rename_i v2
        have hw : wrap32 (((sC.pc + 5 : Nat) : Int) - ((sA.pc : Int) + 1)) =
            ((sC.pc + 5 : Nat) : Int) - ((sA.pc : Int) + 1) :=
          wrap32_eq_self ⟨by push_cast; omega, by push_cast; omega⟩
        have hpj : pcJump (sA.pc + 1)
            (wrap32 (((sC.pc + 5 : Nat) : Int) - ((sA.pc : Int) + 1))) = sC.pc + 5 :=
          pcJump_target hw (by push_cast; omega)
        have hstep := step_jz_taken hG hmemJ (wrap32_inI32 _) hpc1 hstk1
        rw [hpj] at hstep
        have hblkE : blockIn { emit sC (.Jump 0) 5 with instructions :=
            (st.instructions ++ ΔA) ++
              ⟨.Jz (wrap32 (((emit sC (.Jump 0) 5).pc : Int) - ((sA.pc : Int) + 1))),
                sA.pc⟩ :: (ΔC ++ [⟨.Jump 0, sC.pc⟩]) } sF G := by
          refine ⟨hGpc, ?_, ?_, ?_⟩
          · obtain ⟨d, hd⟩ := hblk.2.1
            try dsimp only at hd
            refine ⟨d, ?_⟩
            try dsimp only [emit]
            exact hd
          · obtain ⟨p, hp⟩ := hblk.2.2.1
            try dsimp only at hp
            refine ⟨p, ?_⟩
            try dsimp only [emit]
            exact hp
          · intro i hm
            dsimp only [emit] at hm
            rw [hiF, List.drop_left] at hm
            refine hblk.2.2.2 i (mem_drop_append
              (ΔA ++ ⟨.Jz (wrap32 (((sC.pc + 5 : Nat) : Int) - ((sA.pc : Int) + 1))),
                sA.pc⟩ ::
                (ΔC ++ ⟨.Jump (wrap32 ((sF.pc : Int) - ((sC.pc : Int) + 1))), sC.pc⟩ ::
                  ΔF)) ?_ ?_)
            · dsimp only
              simp
            · simp [hm]
        obtain ⟨k2, σ3, hs3, hpc3, hout3, hED3, hstk3, -⟩ :=
          ih elseB env1 out1 env' out' v2 hIe _ sF h7 hsrcE
            (stmtOkB_posOk helse) G P hblkE hG
              ({ σ1 with stack := σ.stack, pc := sC.pc + 5 } : VMSt) rfl hout1 hED1
            (by show σ.stack.length + astSize elseB ≤ STACK_SIZE
                simp only [oastSize_some, oastSize_none, astSize_mk, STACK_SIZE]
                  at hroom ⊢
                omega)
        refine ⟨k1 + (1 + k2), σ3, stepN_trans hs1 (stepN_trans (stepN_one hstep) hs3),
          hpc3, hout3, hED3, ?_, fun hco => absurd hco (by simp [ASTNode.kind, isStmtKind])⟩
        intro hco2
        rw [hstk3 (stmtOkB_isStmt helse)]
      · try dsimp only at hI
        rw [if_pos (by simp [hx0])] at hI
        try dsimp only at hI
        revert hI
        cases hIt : interp f env1 out1 thenB
        all_goals intro hI
        all_goals try (cases hI)
        rename_i v2
        have hstep := step_jz_skip hG hmemJ hpc1 hstk1 hx0
        have hblkC : blockIn (emit sA (.Jz 0) 5) sC G := by
          refine ⟨by omega, ?_, ?_, ?_⟩
          · obtain ⟨d, hd⟩ := hblk.2.1
            try dsimp only at hd
            exact ⟨dF ++ d, by rw [hd, hdF, List.append_assoc]⟩
          · obtain ⟨p, hp⟩ := hblk.2.2.1
            try dsimp only at hp
            exact ⟨pF ++ p, by rw [hp, hqF, List.append_assoc]⟩
          · intro i hm
            dsimp only [emit] at hm
            rw [hiC, List.drop_left] at hm
            refine hblk.2.2.2 i (mem_drop_append
              (ΔA ++ ⟨.Jz (wrap32 (((sC.pc + 5 : Nat) : Int) - ((sA.pc : Int) + 1))),
                sA.pc⟩ ::
                (ΔC ++ ⟨.Jump (wrap32 ((sF.pc : Int) - ((sC.pc : Int) + 1))), sC.pc⟩ ::
                  ΔF)) ?_ ?_)
            · dsimp only
              simp
            · simp [hm]
        obtain ⟨k2, σ3, hs3, hpc3, hout3, hED3, hstk3, -⟩ :=
          ih thenB env1 out1 env' out' v2 hIt (emit sA (.Jz 0) 5) sC h3 hsrcT
            (stmtOkB_posOk hthen) G P hblkC hG
              ({ σ1 with stack := σ.stack, pc := sA.pc + 5 } : VMSt) rfl hout1 hED1
            (by show σ.stack.length + astSize thenB ≤ STACK_SIZE
                simp only [oastSize_some, oastSize_none, astSize_mk, STACK_SIZE]
                  at hroom ⊢
                omega)
        have hw : wrap32 ((sF.pc : Int) - ((sC.pc : Int) + 1)) =
            (sF.pc : Int) - ((sC.pc : Int) + 1) :=
          wrap32_eq_self ⟨by omega, by omega⟩
        have hpj : pcJump (sC.pc + 1) (wrap32 ((sF.pc : Int) - ((sC.pc : Int) + 1))) =
            sF.pc := pcJump_target hw (by omega)
        have hstep2 := step_jmp hG hmemU (wrap32_inI32 _) hpc3
        rw [hpj] at hstep2
        refine ⟨k1 + (1 + (k2 + 1)), _,
          stepN_trans hs1 (stepN_trans (stepN_one hstep)
            (stepN_trans hs3 (stepN_one hstep2))), rfl, ?_, hED3, ?_,
          fun hco => absurd hco (by simp [ASTNode.kind, isStmtKind])⟩
        · exact hout3
        · intro hco2
          show σ3.stack = σ.stack
          rw [hstk3 (stmtOkB_isStmt hthen)]
  case While =>
    rcases l with _ | cond
    · cases hg
    rcases r with _ | body
    · dsimp only at hg
      simp only [CRes.bindM_eq] at hg
      obtain ⟨sA, h1, h2⟩ := CRes.bind_ok_elim hg
      cases h2
    dsimp only at hg
    simp only [CRes.bindM_eq] at hg
    obtain ⟨sA, h1, h2⟩ := CRes.bind_ok_elim hg
    try dsimp only at h2
    obtain ⟨sC, h3, h4⟩ := CRes.bind_ok_elim h2
    have hA := generate_body_spec cond _ _ h1
    have hCs := generate_body_spec body _ _ h3
    obtain ⟨hpA, ⟨dA, hdA⟩, ⟨pA, hqA⟩, ΔA, hiA, hlA, hjA⟩ := hA
    obtain ⟨hpC, ⟨dC, hdC⟩, ⟨pC, hqC⟩, ΔC, hiC, hlC, hjC⟩ := hCs
    dsimp only [emit] at hpC hdC hqC hiC
    have hlen4 : sA.instructions.length = (st.instructions ++ ΔA).length := by rw [hiA]
    have hinsD : (emit sC (.Jump (wrap32 ((st.pc : Int) - ((sC.pc : Int) + 1)))) 5).instructions =
        (st.instructions ++ ΔA) ++ ⟨.Jz 0, sA.pc⟩ ::
          (ΔC ++ [⟨.Jump (wrap32 ((st.pc : Int) - ((sC.pc : Int) + 1))), sC.pc⟩]) := by
      rw [show (emit sC (.Jump (wrap32 ((st.pc : Int) - ((sC.pc : Int) + 1)))) 5).instructions =
          sC.instructions ++ [⟨.Jump (wrap32 ((st.pc : Int) - ((sC.pc : Int) + 1))), sC.pc⟩]
        from rfl, hiC, hiA]
      simp
    rw [hlen4, backpatch_jz hinsD] at h4
    cases h4
    have hGpc : sC.pc + 5 ≤ G.pc := by
      have h9 := hblk.1
      dsimp only [emit] at h9
      omega
    have h31 := hG.pc31
    have hstpc : st.pc ≤ sA.pc := hpA
    have hstm : stmtOkB (.mk .While (some cond) (some body)) = true := hposn rfl
    have hbody := ostmtOkB_some (stmtOkB_while hstm)
    dsimp only at hI
    revert hI
    cases hIc : interp f env out cond
    case err e o => intro hI; cases hI
    case panic o => intro hI; cases hI
    case timeout => intro hI; cases hI
    rename_i env1 out1 cv
    intro hI
    dsimp only at hI
    rcases cv with _ | cval
    · exfalso
      have hcs : isStmtKind cond.kind = true := by
        cases hb : isStmtKind cond.kind
        · exact absurd (interp_expr_some f cond env out env1 out1 none hb hIc) (by simp)
        · rfl
      exact while_stmt_cond_no_ok (f + 1) cond body env out env' out' res hcs hI0
    have hcnde : isStmtKind cond.kind = false := by
      cases hb : isStmtKind cond.kind
      · rfl
      · exact absurd (interp_stmt_none f cond env out env1 out1 _ hb hIc) (by simp)
    have hblkA : blockIn st sA G := blockIn_init' hblk
      (show sA.pc ≤ (emit sC (.Jump (wrap32 ((st.pc : Int) - ((sC.pc : Int) + 1)))) 5).pc
        from by dsimp only [emit]; omega)
      ⟨dC, by dsimp only [emit]; exact hdC⟩
      ⟨pC, by dsimp only [emit]; exact hqC⟩
      ⟨⟨.Jz (wrap32 ((((emit sC (.Jump (wrap32 ((st.pc : Int) - ((sC.pc : Int) + 1)))) 5).pc :
            Nat) : Int) - ((sA.pc : Int) + 1))), sA.pc⟩ ::
          (ΔC ++ [⟨.Jump (wrap32 ((st.pc : Int) - ((sC.pc : Int) + 1))), sC.pc⟩]), by
        show (st.instructions ++ ΔA) ++ _ :: (ΔC ++ _) = _
        rw [hiA]⟩
      (by rw [hiA]; simp)
    obtain ⟨k1, σ1, hs1, hpc1, hout1, hED1, -, hstkE⟩ :=
      ih cond env out env1 out1 _ hIc st sA h1 (osrcOkB_some hsub.1)
        (exprKind_posOk hcnde) G P hblkA hG σ hpc hout hED
        (by simp only [oastSize_some, oastSize_none, STACK_SIZE] at hroom ⊢; omega)
    obtain ⟨x, hx, hstk1⟩ := hstkE hcnde
    cases hx
    have hmemJ : (⟨.Jz (wrap32 (((sC.pc + 5 : Nat) : Int) - ((sA.pc : Int) + 1))), sA.pc⟩ :
        Instruction) ∈ G.instructions := by
      refine hblk.2.2.2 _ (mem_drop_append
        (ΔA ++ ⟨.Jz (wrap32 (((sC.pc + 5 : Nat) : Int) - ((sA.pc : Int) + 1))), sA.pc⟩ ::
          (ΔC ++ [⟨.Jump (wrap32 ((st.pc : Int) - ((sC.pc : Int) + 1))), sC.pc⟩])) ?_ ?_)
      · dsimp only [emit]
        simp
      · simp
    have hmemU : (⟨.Jump (wrap32 ((st.pc : Int) - ((sC.pc : Int) + 1))), sC.pc⟩ :
        Instruction) ∈ G.instructions := by
      refine hblk.2.2.2 _ (mem_drop_append
        (ΔA ++ ⟨.Jz (wrap32 (((sC.pc + 5 : Nat) : Int) - ((sA.pc : Int) + 1))), sA.pc⟩ ::
          (ΔC ++ [⟨.Jump (wrap32 ((st.pc : Int) - ((sC.pc : Int) + 1))), sC.pc⟩])) ?_ ?_)
      · dsimp only [emit]
        simp
      · simp
    by_cases hx0 : x = 0
    · subst hx0
      rw [if_neg (by simp)] at hI
      cases hI
      have hw : wrap32 (((sC.pc + 5 : Nat) : Int) - ((sA.pc : Int) + 1)) =
          ((sC.pc + 5 : Nat) : Int) - ((sA.pc : Int) + 1) :=
        wrap32_eq_self ⟨by push_cast; omega, by push_cast; omega⟩
      have hpj : pcJump (sA.pc + 1)
          (wrap32 (((sC.pc + 5 : Nat) : Int) - ((sA.pc : Int) + 1))) = sC.pc + 5 :=
        pcJump_target hw (by push_cast; omega)
      have hstep := step_jz_taken hG hmemJ (wrap32_inI32 _) hpc1 hstk1
      rw [hpj] at hstep
      refine ⟨k1 + 1, _, stepN_trans hs1 (stepN_one hstep), ?_, hout1, hED1,
        fun _ => rfl, fun hco => absurd hco (by simp [ASTNode.kind, isStmtKind])⟩
      show sC.pc + 5 =
        ({ emit sC (.Jump (wrap32 ((st.pc : Int) - ((sC.pc : Int) + 1)))) 5 with
          instructions := _ } : CGSt).pc
      dsimp only [emit]
    · rw [if_pos (by simp [hx0])] at hI
      revert hI
      cases hIb : interp f env1 out1 body
      all_goals intro hI
      all_goals try (cases hI)
      rename_i env2 out2 v2
      try dsimp only at hI
      have hstep := step_jz_skip hG hmemJ hpc1 hstk1 hx0
      have hblkC : blockIn (emit sA (.Jz 0) 5) sC G := by
        refine ⟨by omega, ?_, ?_, ?_⟩
        · obtain ⟨d, hd⟩ := hblk.2.1
          try dsimp only [emit] at hd
          refine ⟨d, ?_⟩
          try dsimp only [emit]
          exact hd
        · obtain ⟨p, hp⟩ := hblk.2.2.1
          try dsimp only [emit] at hp
          refine ⟨p, ?_⟩
          try dsimp only [emit]
          exact hp
        · intro i hm
          dsimp only [emit] at hm
          rw [hiC, List.drop_left] at hm
          refine hblk.2.2.2 i (mem_drop_append
            (ΔA ++ ⟨.Jz (wrap32 (((sC.pc + 5 : Nat) : Int) - ((sA.pc : Int) + 1))),
              sA.pc⟩ ::
              (ΔC ++ [⟨.Jump (wrap32 ((st.pc : Int) - ((sC.pc : Int) + 1))), sC.pc⟩]))
            ?_ ?_)
          · dsimp only [emit]
            simp
          · simp [hm]
      obtain ⟨k2, σ3, hs3, hpc3, hout3, hED3, hstk3, -⟩ :=
        ih body env1 out1 env2 out2 v2 hIb (emit sA (.Jz 0) 5) sC h3
          (osrcOkB_some hsub.2) (stmtOkB_posOk hbody) G P hblkC hG
          ({ σ1 with stack := σ.stack, pc := sA.pc + 5 } : VMSt) rfl hout1 hED1
          (by show σ.stack.length + astSize body ≤ STACK_SIZE
              simp only [oastSize_some, oastSize_none, STACK_SIZE] at hroom ⊢
              omega)
      have hstk3e := hstk3 (stmtOkB_isStmt hbody)
      have hw : wrap32 ((st.pc : Int) - ((sC.pc : Int) + 1)) =
          (st.pc : Int) - ((sC.pc : Int) + 1) :=
        wrap32_eq_self ⟨by omega, by omega⟩
      have hpj : pcJump (sC.pc + 1) (wrap32 ((st.pc : Int) - ((sC.pc : Int) + 1))) =
          st.pc := pcJump_target hw (by omega)
      have hstep2 := step_jmp hG hmemU (wrap32_inI32 _) hpc3
      rw [hpj] at hstep2
      obtain ⟨k4, σ5, hs5, hpc5, hout5, hED5, hstk5, -⟩ :=
        ih (.mk .While (some cond) (some body)) env2 out2 env' out' res hI st _ hg0 hsrc
          hposn G P hblk hG ({ σ3 with pc := st.pc } : VMSt) rfl hout3 hED3
          (by show σ3.stack.length + astSize (.mk .While (some cond) (some body)) ≤
                STACK_SIZE
              rw [hstk3e, astSize_mk]
              simp only [oastSize_some, oastSize_none, STACK_SIZE] at hroom ⊢
              omega)
      refine ⟨k1 + (1 + (k2 + (1 + k4))), σ5,
        stepN_trans hs1 (stepN_trans (stepN_one hstep)
          (stepN_trans hs3 (stepN_trans (stepN_one hstep2) hs5))), hpc5, hout5, hED5,
        ?_, fun hco => absurd hco (by simp [ASTNode.kind, isStmtKind])⟩
      intro hco2
      rw [hstk5 (by rfl), hstk3e]
  case Multiply =>
    rcases l with _ | l0
    · cases hg
    rcases r with _ | r0
    · dsimp only at hg
      cases hg
    dsimp only at hI hg
    simp only [CRes.bindM_eq] at hg
    obtain ⟨s1, hg1, hg2⟩ := CRes.bind_ok_elim hg
    obtain ⟨s2, hg3, hg4⟩ := CRes.bind_ok_elim hg2
    dsimp only [binaryOpInstruction] at hg4
    cases hg4
    revert hI
    cases hIl : interp f env out l0
    case err e o => intro hI; cases hI
    case panic o => intro hI; cases hI
    case timeout => intro hI; cases hI
    rename_i env1 out1 lv
    intro hI
    dsimp only at hI
    rcases lv with _ | lval
    · cases hI
    revert hI
    cases hIr : interp f env1 out1 r0
    case err e o => intro hI; cases hI
    case panic o => intro hI; cases hI
    case timeout => intro hI; cases hI
    rename_i env' out' rv
    intro hI
    dsimp only at hI
    rcases rv with _ | rval
    · cases hI
    rcases lval with lop | ls
    · rcases rval with rop | rs
      · dsimp only at hI
        revert hI
        cases hEB : evalBinary .Multiply lop rop
        case err e => intro hI; cases hI
        case panic => intro hI; cases hI
        case timeout => intro hI; cases hI
        rename_i z
        intro hI
        dsimp only at hI
        cases hI
        have hle : isStmtKind l0.kind = false := by
          cases hb : isStmtKind l0.kind
          · rfl
          · exact absurd (interp_stmt_none f l0 env out env1 out1 _ hb hIl) (by simp)
        have hre : isStmtKind r0.kind = false := by
          cases hb : isStmtKind r0.kind
          · rfl
          · exact absurd (interp_stmt_none f r0 env1 out1 env' out' _ hb hIr) (by simp)
        have hA := generate_body_spec l0 _ _ hg1
        have hB := generate_body_spec r0 _ _ hg3
        obtain ⟨hpA, ⟨dA, hdA⟩, ⟨pA, hqA⟩, ΔA, hiA, -, -⟩ := hA
        obtain ⟨hpB, ⟨dB, hdB⟩, ⟨pB, hqB⟩, ΔB, hiB, -, -⟩ := hB
        have hblkA : blockIn st s1 G := blockIn_init hblk
          (cgSpec_trans (generate_body_spec r0 _ _ hg3)
            (cgSpec_emit rfl (fun v => ⟨by simp, by simp⟩)))
          (by rw [hiA]; simp)
        have hblkB : blockIn s1 s2 G := blockIn_init
          (blockIn_rest hblk (by rw [hiA]; simp))
          (cgSpec_emit rfl (fun v => ⟨by simp, by simp⟩)) (by rw [hiB]; simp)
        obtain ⟨k1, σ1, hs1, hpc1, hout1, hED1, -, hstkE1⟩ :=
          ih l0 env out env1 out1 _ hIl st s1 hg1 (osrcOkB_some hsub.1)
            (exprKind_posOk hle) G P hblkA hG σ hpc hout hED
            (by simp only [oastSize_some, oastSize_none, STACK_SIZE] at hroom ⊢; omega)
        obtain ⟨x1, hx1, hstk1⟩ := hstkE1 hle
        cases hx1
        obtain ⟨k2, σ2, hs2, hpc2, hout', hED2, -, hstkE2⟩ :=
          ih r0 env1 out1 env' out' _ hIr s1 s2 hg3 (osrcOkB_some hsub.2)
            (exprKind_posOk hre) G P hblkB hG σ1 hpc1 hout1 hED1
            (by have hp1 := astSize_pos l0
                rw [hstk1]
                simp only [oastSize_some, oastSize_none, STACK_SIZE, List.length_cons]
                  at hroom ⊢
                omega)
        obtain ⟨x2, hx2, hstk2⟩ := hstkE2 hre
        cases hx2
        have hmem : (⟨.Mul, s2.pc⟩ : Instruction) ∈ G.instructions := by
          refine hblk.2.2.2 _ (mem_drop_append (ΔA ++ (ΔB ++ [⟨.Mul, s2.pc⟩])) ?_ ?_)
          · show (emit s2 .Mul 1).instructions =
              st.instructions ++ (ΔA ++ (ΔB ++ [⟨.Mul, s2.pc⟩]))
            show s2.instructions ++ [⟨.Mul, s2.pc⟩] = _
            rw [hiB, hiA]
            simp
          · simp
        have hstep := step_binop hG (show binaryOpInstruction .Multiply = some InstructionKind.Mul from rfl) hmem hEB hpc2 (by rw [hstk2, hstk1])
        refine ⟨k1 + (k2 + 1), _,
          stepN_trans hs1 (stepN_trans hs2 (stepN_one hstep)), rfl, hout', hED2, ?_, ?_⟩
        · intro hco
          exact absurd hco (by simp [ASTNode.kind, isStmtKind])
        · intro hco
          exact ⟨z, rfl, rfl⟩
      · cases hI
    · cases hI
  case Divide =>
    rcases l with _ | l0
    · cases hg
    rcases r with _ | r0
    · dsimp only at hg
      cases hg
    dsimp only at hI hg
    simp only [CRes.bindM_eq] at hg
    obtain ⟨s1, hg1, hg2⟩ := CRes.bind_ok_elim hg
    obtain ⟨s2, hg3, hg4⟩ := CRes.bind_ok_elim hg2
    dsimp only [binaryOpInstruction] at hg4
    cases hg4
    revert hI
    cases hIl : interp f env out l0
    case err e o => intro hI; cases hI
    case panic o => intro hI; cases hI
    case timeout => intro hI; cases hI
    rename_i env1 out1 lv
    intro hI
    dsimp only at hI
    rcases lv with _ | lval
    · cases hI
    revert hI
    cases hIr : interp f env1 out1 r0
    case err e o => intro hI; cases hI
    case panic o => intro hI; cases hI
    case timeout => intro hI; cases hI
    rename_i env' out' rv
    intro hI
    dsimp only at hI
    rcases rv with _ | rval
    · cases hI
    rcases lval with lop | ls
    · rcases rval with rop | rs
      · dsimp only at hI
        revert hI
        cases hEB : evalBinary .Divide lop rop
        case err e => intro hI; cases hI
        case panic => intro hI; cases hI
        case timeout => intro hI; cases hI
        rename_i z
        intro hI
        dsimp only at hI
        cases hI
        have hle : isStmtKind l0.kind = false := by
          cases hb : isStmtKind l0.kind
          · rfl
          · exact absurd (interp_stmt_none f l0 env out env1 out1 _ hb hIl) (by simp)
        have hre : isStmtKind r0.kind = false := by
          cases hb : isStmtKind r0.kind
          · rfl
          · exact absurd (interp_stmt_none f r0 env1 out1 env' out' _ hb hIr) (by simp)
        have hA := generate_body_spec l0 _ _ hg1
        have hB := generate_body_spec r0 _ _ hg3
        obtain ⟨hpA, ⟨dA, hdA⟩, ⟨pA, hqA⟩, ΔA, hiA, -, -⟩ := hA
        obtain ⟨hpB, ⟨dB, hdB⟩, ⟨pB, hqB⟩, ΔB, hiB, -, -⟩ := hB
        have hblkA : blockIn st s1 G := blockIn_init hblk
          (cgSpec_trans (generate_body_spec r0 _ _ hg3)
            (cgSpec_emit rfl (fun v => ⟨by simp, by simp⟩)))
          (by rw [hiA]; simp)
        have hblkB : blockIn s1 s2 G := blockIn_init
          (blockIn_rest hblk (by rw [hiA]; simp))
          (cgSpec_emit rfl (fun v => ⟨by simp, by simp⟩)) (by rw [hiB]; simp)
        obtain ⟨k1, σ1, hs1, hpc1, hout1, hED1, -, hstkE1⟩ :=
          ih l0 env out env1 out1 _ hIl st s1 hg1 (osrcOkB_some hsub.1)
            (exprKind_posOk hle) G P hblkA hG σ hpc hout hED
            (by simp only [oastSize_some, oastSize_none, STACK_SIZE] at hroom ⊢; omega)
        obtain ⟨x1, hx1, hstk1⟩ := hstkE1 hle
        cases hx1
        obtain ⟨k2, σ2, hs2, hpc2, hout', hED2, -, hstkE2⟩ :=
          ih r0 env1 out1 env' out' _ hIr s1 s2 hg3 (osrcOkB_some hsub.2)
            (exprKind_posOk hre) G P hblkB hG σ1 hpc1 hout1 hED1
            (by have hp1 := astSize_pos l0
                rw [hstk1]
                simp only [oastSize_some, oastSize_none, STACK_SIZE, List.length_cons]
                  at hroom ⊢
                omega)
        obtain ⟨x2, hx2, hstk2⟩ := hstkE2 hre
        cases hx2
        have hmem : (⟨.Div, s2.pc⟩ : Instruction) ∈ G.instructions := by
          refine hblk.2.2.2 _ (mem_drop_append (ΔA ++ (ΔB ++ [⟨.Div, s2.pc⟩])) ?_ ?_)
          · show (emit s2 .Div 1).instructions =
              st.instructions ++ (ΔA ++ (ΔB ++ [⟨.Div, s2.pc⟩]))
            show s2.instructions ++ [⟨.Div, s2.pc⟩] = _
            rw [hiB, hiA]
            simp
          · simp
        have hstep := step_binop hG (show binaryOpInstruction .Divide = some InstructionKind.Div from rfl) hmem hEB hpc2 (by rw [hstk2, hstk1])
        refine ⟨k1 + (k2 + 1), _,
          stepN_trans hs1 (stepN_trans hs2 (stepN_one hstep)), rfl, hout', hED2, ?_, ?_⟩
        · intro hco
          exact absurd hco (by simp [ASTNode.kind, isStmtKind])
        · intro hco
          exact ⟨z, rfl, rfl⟩
      · cases hI
    · cases hI
  case Mod =>
    rcases l with _ | l0
    · cases hg
    rcases r with _ | r0
    · dsimp only at hg
      cases hg
    dsimp only at hI hg
    simp only [CRes.bindM_eq] at hg
    obtain ⟨s1, hg1, hg2⟩ := CRes.bind_ok_elim hg
    obtain ⟨s2, hg3, hg4⟩ := CRes.bind_ok_elim hg2
    dsimp only [binaryOpInstruction] at hg4
    cases hg4
    revert hI
    cases hIl : interp f env out l0
    case err e o => intro hI; cases hI
    case panic o => intro hI; cases hI
    case timeout => intro hI; cases hI
    rename_i env1 out1 lv
    intro hI
    dsimp only at hI
    rcases lv with _ | lval
    · cases hI
    revert hI
    cases hIr : interp f env1 out1 r0
    case err e o => intro hI; cases hI
    case panic o => intro hI; cases hI
    case timeout => intro hI; cases hI
    rename_i env' out' rv
    intro hI
    dsimp only at hI
    rcases rv with _ | rval
    · cases hI
    rcases lval with lop | ls
    · rcases rval with rop | rs
      · dsimp only at hI
        revert hI
        cases hEB : evalBinary .Mod lop rop
        case err e => intro hI; cases hI
        case panic => intro hI; cases hI
        case timeout => intro hI; cases hI
        rename_i z
        intro hI
        dsimp only at hI
        cases hI
        have hle : isStmtKind l0.kind = false := by
          cases hb : isStmtKind l0.kind
          · rfl
          · exact absurd (interp_stmt_none f l0 env out env1 out1 _ hb hIl) (by simp)
        have hre : isStmtKind r0.kind = false := by
          cases hb : isStmtKind r0.kind
          · rfl
          · exact absurd (interp_stmt_none f r0 env1 out1 env' out' _ hb hIr) (by simp)
        have hA := generate_body_spec l0 _ _ hg1
        have hB := generate_body_spec r0 _ _ hg3
        obtain ⟨hpA, ⟨dA, hdA⟩, ⟨pA, hqA⟩, ΔA, hiA, -, -⟩ := hA
        obtain ⟨hpB, ⟨dB, hdB⟩, ⟨pB, hqB⟩, ΔB, hiB, -, -⟩ := hB
        have hblkA : blockIn st s1 G := blockIn_init hblk
          (cgSpec_trans (generate_body_spec r0 _ _ hg3)
            (cgSpec_emit rfl (fun v => ⟨by simp, by simp⟩)))
          (by rw [hiA]; simp)
        have hblkB : blockIn s1 s2 G := blockIn_init
          (blockIn_rest hblk (by rw [hiA]; simp))
          (cgSpec_emit rfl (fun v => ⟨by simp, by simp⟩)) (by rw [hiB]; simp)
        obtain ⟨k1, σ1, hs1, hpc1, hout1, hED1, -, hstkE1⟩ :=
          ih l0 env out env1 out1 _ hIl st s1 hg1 (osrcOkB_some hsub.1)
            (exprKind_posOk hle) G P hblkA hG σ hpc hout hED
            (by simp only [oastSize_some, oastSize_none, STACK_SIZE] at hroom ⊢; omega)
        obtain ⟨x1, hx1, hstk1⟩ := hstkE1 hle
        cases hx1
        obtain ⟨k2, σ2, hs2, hpc2, hout', hED2, -, hstkE2⟩ :=
          ih r0 env1 out1 env' out' _ hIr s1 s2 hg3 (osrcOkB_some hsub.2)
            (exprKind_posOk hre) G P hblkB hG σ1 hpc1 hout1 hED1
            (by have hp1 := astSize_pos l0
                rw [hstk1]
                simp only [oastSize_some, oastSize_none, STACK_SIZE, List.length_cons]
                  at hroom ⊢
                omega)
        obtain ⟨x2, hx2, hstk2⟩ := hstkE2 hre
        cases hx2
        have hmem : (⟨.Mod, s2.pc⟩ : Instruction) ∈ G.instructions := by
          refine hblk.2.2.2 _ (mem_drop_append (ΔA ++ (ΔB ++ [⟨.Mod, s2.pc⟩])) ?_ ?_)
          · show (emit s2 .Mod 1).instructions =
              st.instructions ++ (ΔA ++ (ΔB ++ [⟨.Mod, s2.pc⟩]))
            show s2.instructions ++ [⟨.Mod, s2.pc⟩] = _
            rw [hiB, hiA]
            simp
          · simp
        have hstep := step_binop hG (show binaryOpInstruction .Mod = some InstructionKind.Mod from rfl) hmem hEB hpc2 (by rw [hstk2, hstk1])
        refine ⟨k1 + (k2 + 1), _,
          stepN_trans hs1 (stepN_trans hs2 (stepN_one hstep)), rfl, hout', hED2, ?_, ?_⟩
        · intro hco
          exact absurd hco (by simp [ASTNode.kind, isStmtKind])
        · intro hco
          exact ⟨z, rfl, rfl⟩
      · cases hI
    · cases hI
  case Add =>
    rcases l with _ | l0
    · cases hg
    rcases r with _ | r0
    · dsimp only at hg
      cases hg
    dsimp only at hI hg
    simp only [CRes.bindM_eq] at hg
    obtain ⟨s1, hg1, hg2⟩ := CRes.bind_ok_elim hg
    obtain ⟨s2, hg3, hg4⟩ := CRes.bind_ok_elim hg2
    dsimp only [binaryOpInstruction] at hg4
    cases hg4
    revert hI
    cases hIl : interp f env out l0
    case err e o => intro hI; cases hI
    case panic o => intro hI; cases hI
    case timeout => intro hI; cases hI
    rename_i env1 out1 lv
    intro hI
    dsimp only at hI
    rcases lv with _ | lval
    · cases hI
    revert hI
    cases hIr : interp f env1 out1 r0
    case err e o => intro hI; cases hI
    case panic o => intro hI; cases hI
    case timeout => intro hI; cases hI
    rename_i env' out' rv
    intro hI
    dsimp only at hI
    rcases rv with _ | rval
    · cases hI
    rcases lval with lop | ls
    · rcases rval with rop | rs
      · dsimp only at hI
        revert hI
        cases hEB : evalBinary .Add lop rop
        case err e => intro hI; cases hI
        case panic => intro hI; cases hI
        case timeout => intro hI; cases hI
        rename_i z
        intro hI
        dsimp only at hI
        cases hI
        have hle : isStmtKind l0.kind = false := by
          cases hb : isStmtKind l0.kind
          · rfl
          · exact absurd (interp_stmt_none f l0 env out env1 out1 _ hb hIl) (by simp)
        have hre : isStmtKind r0.kind = false := by
          cases hb : isStmtKind r0.kind
          · rfl
          · exact absurd (interp_stmt_none f r0 env1 out1 env' out' _ hb hIr) (by simp)
        have hA := generate_body_spec l0 _ _ hg1
        have hB := generate_body_spec r0 _ _ hg3
        obtain ⟨hpA, ⟨dA, hdA⟩, ⟨pA, hqA⟩, ΔA, hiA, -, -⟩ := hA
        obtain ⟨hpB, ⟨dB, hdB⟩, ⟨pB, hqB⟩, ΔB, hiB, -, -⟩ := hB
        have hblkA : blockIn st s1 G := blockIn_init hblk
          (cgSpec_trans (generate_body_spec r0 _ _ hg3)
            (cgSpec_emit rfl (fun v => ⟨by simp, by simp⟩)))
          (by rw [hiA]; simp)
        have hblkB : blockIn s1 s2 G := blockIn_init
          (blockIn_rest hblk (by rw [hiA]; simp))
          (cgSpec_emit rfl (fun v => ⟨by simp, by simp⟩)) (by rw [hiB]; simp)
        obtain ⟨k1, σ1, hs1, hpc1, hout1, hED1, -, hstkE1⟩ :=
          ih l0 env out env1 out1 _ hIl st s1 hg1 (osrcOkB_some hsub.1)
            (exprKind_posOk hle) G P hblkA hG σ hpc hout hED
            (by simp only [oastSize_some, oastSize_none, STACK_SIZE] at hroom ⊢; omega)
        obtain ⟨x1, hx1, hstk1⟩ := hstkE1 hle
        cases hx1
        obtain ⟨k2, σ2, hs2, hpc2, hout', hED2, -, hstkE2⟩ :=
          ih r0 env1 out1 env' out' _ hIr s1 s2 hg3 (osrcOkB_some hsub.2)
            (exprKind_posOk hre) G P hblkB hG σ1 hpc1 hout1 hED1
            (by have hp1 := astSize_pos l0
                rw [hstk1]
                simp only [oastSize_some, oastSize_none, STACK_SIZE, List.length_cons]
                  at hroom ⊢
                omega)
        obtain ⟨x2, hx2, hstk2⟩ := hstkE2 hre
        cases hx2
        have hmem : (⟨.Add, s2.pc⟩ : Instruction) ∈ G.instructions := by
          refine hblk.2.2.2 _ (mem_drop_append (ΔA ++ (ΔB ++ [⟨.Add, s2.pc⟩])) ?_ ?_)
          · show (emit s2 .Add 1).instructions =
              st.instructions ++ (ΔA ++ (ΔB ++ [⟨.Add, s2.pc⟩]))
            show s2.instructions ++ [⟨.Add, s2.pc⟩] = _
            rw [hiB, hiA]
            simp
          · simp
        have hstep := step_binop hG (show binaryOpInstruction .Add = some InstructionKind.Add from rfl) hmem hEB hpc2 (by rw [hstk2, hstk1])
        refine ⟨k1 + (k2 + 1), _,
          stepN_trans hs1 (stepN_trans hs2 (stepN_one hstep)), rfl, hout', hED2, ?_, ?_⟩
        · intro hco
          exact absurd hco (by simp [ASTNode.kind, isStmtKind])
        · intro hco
          exact ⟨z, rfl, rfl⟩
      · cases hI
    · cases hI
  case Subtract =>
    rcases l with _ | l0
    · cases hg
    rcases r with _ | r0
    · dsimp only at hg
      cases hg
    dsimp only at hI hg
    simp only [CRes.bindM_eq] at hg
    obtain ⟨s1, hg1, hg2⟩ := CRes.bind_ok_elim hg
    obtain ⟨s2, hg3, hg4⟩ := CRes.bind_ok_elim hg2
    dsimp only [binaryOpInstruction] at hg4
    cases hg4
    revert hI
    cases hIl : interp f env out l0
    case err e o => intro hI; cases hI
    case panic o => intro hI; cases hI
    case timeout => intro hI; cases hI
    rename_i env1 out1 lv
    intro hI
    dsimp only at hI
    rcases lv with _ | lval
    · cases hI
    revert hI
    cases hIr : interp f env1 out1 r0
    case err e o => intro hI; cases hI
    case panic o => intro hI; cases hI
    case timeout => intro hI; cases hI
    rename_i env' out' rv
    intro hI
    dsimp only at hI
    rcases rv with _ | rval
    · cases hI
    rcases lval with lop | ls
    · rcases rval with rop | rs
      · dsimp only at hI
        revert hI
        cases hEB : evalBinary .Subtract lop rop
        case err e => intro hI; cases hI
        case panic => intro hI; cases hI
        case timeout => intro hI; cases hI
        rename_i z
        intro hI
        dsimp only at hI
        cases hI
        have hle : isStmtKind l0.kind = false := by
          cases hb : isStmtKind l0.kind
          · rfl
          · exact absurd (interp_stmt_none f l0 env out env1 out1 _ hb hIl) (by simp)
        have hre : isStmtKind r0.kind = false := by
          cases hb : isStmtKind r0.kind
          · rfl
          · exact absurd (interp_stmt_none f r0 env1 out1 env' out' _ hb hIr) (by simp)
        have hA := generate_body_spec l0 _ _ hg1
        have hB := generate_body_spec r0 _ _ hg3
        obtain ⟨hpA, ⟨dA, hdA⟩, ⟨pA, hqA⟩, ΔA, hiA, -, -⟩ := hA
        obtain ⟨hpB, ⟨dB, hdB⟩, ⟨pB, hqB⟩, ΔB, hiB, -, -⟩ := hB
        have hblkA : blockIn st s1 G := blockIn_init hblk
          (cgSpec_trans (generate_body_spec r0 _ _ hg3)
            (cgSpec_emit rfl (fun v => ⟨by simp, by simp⟩)))
          (by rw [hiA]; simp)
        have hblkB : blockIn s1 s2 G := blockIn_init
          (blockIn_rest hblk (by rw [hiA]; simp))
          (cgSpec_emit rfl (fun v => ⟨by simp, by simp⟩)) (by rw [hiB]; simp)
        obtain ⟨k1, σ1, hs1, hpc1, hout1, hED1, -, hstkE1⟩ :=
          ih l0 env out env1 out1 _ hIl st s1 hg1 (osrcOkB_some hsub.1)
            (exprKind_posOk hle) G P hblkA hG σ hpc hout hED
            (by simp only [oastSize_some, oastSize_none, STACK_SIZE] at hroom ⊢; omega)
        obtain ⟨x1, hx1, hstk1⟩ := hstkE1 hle
        cases hx1
        obtain ⟨k2, σ2, hs2, hpc2, hout', hED2, -, hstkE2⟩ :=
          ih r0 env1 out1 env' out' _ hIr s1 s2 hg3 (osrcOkB_some hsub.2)
            (exprKind_posOk hre) G P hblkB hG σ1 hpc1 hout1 hED1
            (by have hp1 := astSize_pos l0
                rw [hstk1]
                simp only [oastSize_some, oastSize_none, STACK_SIZE, List.length_cons]
                  at hroom ⊢
                omega)
        obtain ⟨x2, hx2, hstk2⟩ := hstkE2 hre
        cases hx2
        have hmem : (⟨.Sub, s2.pc⟩ : Instruction) ∈ G.instructions := by
          refine hblk.2.2.2 _ (mem_drop_append (ΔA ++ (ΔB ++ [⟨.Sub, s2.pc⟩])) ?_ ?_)
          · show (emit s2 .Sub 1).instructions =
              st.instructions ++ (ΔA ++ (ΔB ++ [⟨.Sub, s2.pc⟩]))
            show s2.instructions ++ [⟨.Sub, s2.pc⟩] = _
            rw [hiB, hiA]
            simp
          · simp
        have hstep := step_binop hG (show binaryOpInstruction .Subtract = some InstructionKind.Sub from rfl) hmem hEB hpc2 (by rw [hstk2, hstk1])
        refine ⟨k1 + (k2 + 1), _,
          stepN_trans hs1 (stepN_trans hs2 (stepN_one hstep)), rfl, hout', hED2, ?_, ?_⟩
        · intro hco
          exact absurd hco (by simp [ASTNode.kind, isStmtKind])
        · intro hco
          exact ⟨z, rfl, rfl⟩
      · cases hI
    · cases hI
  case Less =>
    rcases l with _ | l0
    · cases hg
    rcases r with _ | r0
    · dsimp only at hg
      cases hg
    dsimp only at hI hg
    simp only [CRes.bindM_eq] at hg
    obtain ⟨s1, hg1, hg2⟩ := CRes.bind_ok_elim hg
    obtain ⟨s2, hg3, hg4⟩ := CRes.bind_ok_elim hg2
    dsimp only [binaryOpInstruction] at hg4
    cases hg4
    revert hI
    cases hIl : interp f env out l0
    case err e o => intro hI; cases hI
    case panic o => intro hI; cases hI
    case timeout => intro hI; cases hI
    rename_i env1 out1 lv
    intro hI
    dsimp only at hI
    rcases lv with _ | lval
    · cases hI
    revert hI
    cases hIr : interp f env1 out1 r0
    case err e o => intro hI; cases hI
    case panic o => intro hI; cases hI
    case timeout => intro hI; cases hI
    rename_i env' out' rv
    intro hI
    dsimp only at hI
    rcases rv with _ | rval
    · cases hI
    rcases lval with lop | ls
    · rcases rval with rop | rs
      · dsimp only at hI
        revert hI
        cases hEB : evalBinary .Less lop rop
        case err e => intro hI; cases hI
        case panic => intro hI; cases hI
        case timeout => intro hI; cases hI
        rename_i z
        intro hI
        dsimp only at hI
        cases hI
        have hle : isStmtKind l0.kind = false := by
          cases hb : isStmtKind l0.kind
          · rfl
          · exact absurd (interp_stmt_none f l0 env out env1 out1 _ hb hIl) (by simp)
        have hre : isStmtKind r0.kind = false := by
          cases hb : isStmtKind r0.kind
          · rfl
          · exact absurd (interp_stmt_none f r0 env1 out1 env' out' _ hb hIr) (by simp)
        have hA := generate_body_spec l0 _ _ hg1
        have hB := generate_body_spec r0 _ _ hg3
        obtain ⟨hpA, ⟨dA, hdA⟩, ⟨pA, hqA⟩, ΔA, hiA, -, -⟩ := hA
        obtain ⟨hpB, ⟨dB, hdB⟩, ⟨pB, hqB⟩, ΔB, hiB, -, -⟩ := hB
        have hblkA : blockIn st s1 G := blockIn_init hblk
          (cgSpec_trans (generate_body_spec r0 _ _ hg3)
            (cgSpec_emit rfl (fun v => ⟨by simp, by simp⟩)))
          (by rw [hiA]; simp)
        have hblkB : blockIn s1 s2 G := blockIn_init
          (blockIn_rest hblk (by rw [hiA]; simp))
          (cgSpec_emit rfl (fun v => ⟨by simp, by simp⟩)) (by rw [hiB]; simp)
        obtain ⟨k1, σ1, hs1, hpc1, hout1, hED1, -, hstkE1⟩ :=
          ih l0 env out env1 out1 _ hIl st s1 hg1 (osrcOkB_some hsub.1)
            (exprKind_posOk hle) G P hblkA hG σ hpc hout hED
            (by simp only [oastSize_some, oastSize_none, STACK_SIZE] at hroom ⊢; omega)
        obtain ⟨x1, hx1, hstk1⟩ := hstkE1 hle
        cases hx1
        obtain ⟨k2, σ2, hs2, hpc2, hout', hED2, -, hstkE2⟩ :=
          ih r0 env1 out1 env' out' _ hIr s1 s2 hg3 (osrcOkB_some hsub.2)
            (exprKind_posOk hre) G P hblkB hG σ1 hpc1 hout1 hED1
            (by have hp1 := astSize_pos l0
                rw [hstk1]
                simp only [oastSize_some, oastSize_none, STACK_SIZE, List.length_cons]
                  at hroom ⊢
                omega)
        obtain ⟨x2, hx2, hstk2⟩ := hstkE2 hre
        cases hx2
        have hmem : (⟨.Lt, s2.pc⟩ : Instruction) ∈ G.instructions := by
          refine hblk.2.2.2 _ (mem_drop_append (ΔA ++ (ΔB ++ [⟨.Lt, s2.pc⟩])) ?_ ?_)
          · show (emit s2 .Lt 1).instructions =
              st.instructions ++ (ΔA ++ (ΔB ++ [⟨.Lt, s2.pc⟩]))
            show s2.instructions ++ [⟨.Lt, s2.pc⟩] = _
            rw [hiB, hiA]
            simp
          · simp
        have hstep := step_binop hG (show binaryOpInstruction .Less = some InstructionKind.Lt from rfl) hmem hEB hpc2 (by rw [hstk2, hstk1])
        refine ⟨k1 + (k2 + 1), _,
          stepN_trans hs1 (stepN_trans hs2 (stepN_one hstep)), rfl, hout', hED2, ?_, ?_⟩
        · intro hco
          exact absurd hco (by simp [ASTNode.kind, isStmtKind])
        · intro hco
          exact ⟨z, rfl, rfl⟩
      · cases hI
    · cases hI
  case LessEqual =>
    rcases l with _ | l0
    · cases hg
    rcases r with _ | r0
    · dsimp only at hg
      cases hg
    dsimp only at hI hg
    simp only [CRes.bindM_eq] at hg
    obtain ⟨s1, hg1, hg2⟩ := CRes.bind_ok_elim hg
    obtain ⟨s2, hg3, hg4⟩ := CRes.bind_ok_elim hg2
    dsimp only [binaryOpInstruction] at hg4
    cases hg4
    revert hI
    cases hIl : interp f env out l0
    case err e o => intro hI; cases hI
    case panic o => intro hI; cases hI
    case timeout => intro hI; cases hI
    rename_i env1 out1 lv
    intro hI
    dsimp only at hI
    rcases lv with _ | lval
    · cases hI
    revert hI
    cases hIr : interp f env1 out1 r0
    case err e o => intro hI; cases hI
    case panic o => intro hI; cases hI
    case timeout => intro hI; cases hI
    rename_i env' out' rv
    intro hI
    dsimp only at hI
    rcases rv with _ | rval
    · cases hI
    rcases lval with lop | ls
    · rcases rval with rop | rs
      · dsimp only at hI
        revert hI
        cases hEB : evalBinary .LessEqual lop rop
        case err e => intro hI; cases hI
        case panic => intro hI; cases hI
        case timeout => intro hI; cases hI
        rename_i z
        intro hI
        dsimp only at hI
        cases hI
        have hle : isStmtKind l0.kind = false := by
          cases hb : isStmtKind l0.kind
          · rfl
          · exact absurd (interp_stmt_none f l0 env out env1 out1 _ hb hIl) (by simp)
        have hre : isStmtKind r0.kind = false := by
          cases hb : isStmtKind r0.kind
          · rfl
          · exact absurd (interp_stmt_none f r0 env1 out1 env' out' _ hb hIr) (by simp)
        have hA := generate_body_spec l0 _ _ hg1
        have hB := generate_body_spec r0 _ _ hg3
        obtain ⟨hpA, ⟨dA, hdA⟩, ⟨pA, hqA⟩, ΔA, hiA, -, -⟩ := hA
        obtain ⟨hpB, ⟨dB, hdB⟩, ⟨pB, hqB⟩, ΔB, hiB, -, -⟩ := hB
        have hblkA : blockIn st s1 G := blockIn_init hblk
          (cgSpec_trans (generate_body_spec r0 _ _ hg3)
            (cgSpec_emit rfl (fun v => ⟨by simp, by simp⟩)))
          (by rw [hiA]; simp)
        have hblkB : blockIn s1 s2 G := blockIn_init
          (blockIn_rest hblk (by rw [hiA]; simp))
          (cgSpec_emit rfl (fun v => ⟨by simp, by simp⟩)) (by rw [hiB]; simp)
        obtain ⟨k1, σ1, hs1, hpc1, hout1, hED1, -, hstkE1⟩ :=
          ih l0 env out env1 out1 _ hIl st s1 hg1 (osrcOkB_some hsub.1)
            (exprKind_posOk hle) G P hblkA hG σ hpc hout hED
            (by simp only [oastSize_some, oastSize_none, STACK_SIZE] at hroom ⊢; omega)
        obtain ⟨x1, hx1, hstk1⟩ := hstkE1 hle
        cases hx1
        obtain ⟨k2, σ2, hs2, hpc2, hout', hED2, -, hstkE2⟩ :=
          ih r0 env1 out1 env' out' _ hIr s1 s2 hg3 (osrcOkB_some hsub.2)
            (exprKind_posOk hre) G P hblkB hG σ1 hpc1 hout1 hED1
            (by have hp1 := astSize_pos l0
                rw [hstk1]
                simp only [oastSize_some, oastSize_none, STACK_SIZE, List.length_cons]
                  at hroom ⊢
                omega)
        obtain ⟨x2, hx2, hstk2⟩ := hstkE2 hre
        cases hx2
        have hmem : (⟨.Le, s2.pc⟩ : Instruction) ∈ G.instructions := by
          refine hblk.2.2.2 _ (mem_drop_append (ΔA ++ (ΔB ++ [⟨.Le, s2.pc⟩])) ?_ ?_)
          · show (emit s2 .Le 1).instructions =
              st.instructions ++ (ΔA ++ (ΔB ++ [⟨.Le, s2.pc⟩]))
            show s2.instructions ++ [⟨.Le, s2.pc⟩] = _
            rw [hiB, hiA]
            simp
          · simp
        have hstep := step_binop hG (show binaryOpInstruction .LessEqual = some InstructionKind.Le from rfl) hmem hEB hpc2 (by rw [hstk2, hstk1])
        refine ⟨k1 + (k2 + 1), _,
          stepN_trans hs1 (stepN_trans hs2 (stepN_one hstep)), rfl, hout', hED2, ?_, ?_⟩
        · intro hco
          exact absurd hco (by simp [ASTNode.kind, isStmtKind])
        · intro hco
          exact ⟨z, rfl, rfl⟩
      · cases hI
    · cases hI
  case Greater =>
    rcases l with _ | l0
    · cases hg
    rcases r with _ | r0
    · dsimp only at hg
      cases hg
    dsimp only at hI hg
    simp only [CRes.bindM_eq] at hg
    obtain ⟨s1, hg1, hg2⟩ := CRes.bind_ok_elim hg
    obtain ⟨s2, hg3, hg4⟩ := CRes.bind_ok_elim hg2
    dsimp only [binaryOpInstruction] at hg4
    cases hg4
    revert hI
    cases hIl : interp f env out l0
    case err e o => intro hI; cases hI
    case panic o => intro hI; cases hI
    case timeout => intro hI; cases hI
    rename_i env1 out1 lv
    intro hI
    dsimp only at hI
    rcases lv with _ | lval
    · cases hI
    revert hI
    cases hIr : interp f env1 out1 r0
    case err e o => intro hI; cases hI
    case panic o => intro hI; cases hI
    case timeout => intro hI; cases hI
    rename_i env' out' rv
    intro hI
    dsimp only at hI
    rcases rv with _ | rval
    · cases hI
    rcases lval with lop | ls
    · rcases rval with rop | rs
      · dsimp only at hI
        revert hI
        cases hEB : evalBinary .Greater lop rop
        case err e => intro hI; cases hI
        case panic => intro hI; cases hI
        case timeout => intro hI; cases hI
        rename_i z
        intro hI
        dsimp only at hI
        cases hI
        have hle : isStmtKind l0.kind = false := by
          cases hb : isStmtKind l0.kind
          · rfl
          · exact absurd (interp_stmt_none f l0 env out env1 out1 _ hb hIl) (by simp)
        have hre : isStmtKind r0.kind = false := by
          cases hb : isStmtKind r0.kind
          · rfl
          · exact absurd (interp_stmt_none f r0 env1 out1 env' out' _ hb hIr) (by simp)
        have hA := generate_body_spec l0 _ _ hg1
        have hB := generate_body_spec r0 _ _ hg3
        obtain ⟨hpA, ⟨dA, hdA⟩, ⟨pA, hqA⟩, ΔA, hiA, -, -⟩ := hA
        obtain ⟨hpB, ⟨dB, hdB⟩, ⟨pB, hqB⟩, ΔB, hiB, -, -⟩ := hB
        have hblkA : blockIn st s1 G := blockIn_init hblk
          (cgSpec_trans (generate_body_spec r0 _ _ hg3)
            (cgSpec_emit rfl (fun v => ⟨by simp, by simp⟩)))
          (by rw [hiA]; simp)
        have hblkB : blockIn s1 s2 G := blockIn_init
          (blockIn_rest hblk (by rw [hiA]; simp))
          (cgSpec_emit rfl (fun v => ⟨by simp, by simp⟩)) (by rw [hiB]; simp)
        obtain ⟨k1, σ1, hs1, hpc1, hout1, hED1, -, hstkE1⟩ :=
          ih l0 env out env1 out1 _ hIl st s1 hg1 (osrcOkB_some hsub.1)
            (exprKind_posOk hle) G P hblkA hG σ hpc hout hED
            (by simp only [oastSize_some, oastSize_none, STACK_SIZE] at hroom ⊢; omega)
        obtain ⟨x1, hx1, hstk1⟩ := hstkE1 hle
        cases hx1
        obtain ⟨k2, σ2, hs2, hpc2, hout', hED2, -, hstkE2⟩ :=
          ih r0 env1 out1 env' out' _ hIr s1 s2 hg3 (osrcOkB_some hsub.2)
            (exprKind_posOk hre) G P hblkB hG σ1 hpc1 hout1 hED1
            (by have hp1 := astSize_pos l0
                rw [hstk1]
                simp only [oastSize_some, oastSize_none, STACK_SIZE, List.length_cons]
                  at hroom ⊢
                omega)
        obtain ⟨x2, hx2, hstk2⟩ := hstkE2 hre
        cases hx2
        have hmem : (⟨.Gt, s2.pc⟩ : Instruction) ∈ G.instructions := by
          refine hblk.2.2.2 _ (mem_drop_append (ΔA ++ (ΔB ++ [⟨.Gt, s2.pc⟩])) ?_ ?_)
          · show (emit s2 .Gt 1).instructions =
              st.instructions ++ (ΔA ++ (ΔB ++ [⟨.Gt, s2.pc⟩]))
            show s2.instructions ++ [⟨.Gt, s2.pc⟩] = _
            rw [hiB, hiA]
            simp
          · simp
        have hstep := step_binop hG (show binaryOpInstruction .Greater = some InstructionKind.Gt from rfl) hmem hEB hpc2 (by rw [hstk2, hstk1])
        refine ⟨k1 + (k2 + 1), _,
          stepN_trans hs1 (stepN_trans hs2 (stepN_one hstep)), rfl, hout', hED2, ?_, ?_⟩
        · intro hco
          exact absurd hco (by simp [ASTNode.kind, isStmtKind])
        · intro hco
          exact ⟨z, rfl, rfl⟩
      · cases hI
    · cases hI
  case GreaterEqual =>
    rcases l with _ | l0
    · cases hg
    rcases r with _ | r0
    · dsimp only at hg
      cases hg
    dsimp only at hI hg
    simp only [CRes.bindM_eq] at hg
    obtain ⟨s1, hg1, hg2⟩ := CRes.bind_ok_elim hg
    obtain ⟨s2, hg3, hg4⟩ := CRes.bind_ok_elim hg2
    dsimp only [binaryOpInstruction] at hg4
    cases hg4
    revert hI
    cases hIl : interp f env out l0
    case err e o => intro hI; cases hI
    case panic o => intro hI; cases hI
    case timeout => intro hI; cases hI
    rename_i env1 out1 lv
    intro hI
    dsimp only at hI
    rcases lv with _ | lval
    · cases hI
    revert hI
    cases hIr : interp f env1 out1 r0
    case err e o => intro hI; cases hI
    case panic o => intro hI; cases hI
    case timeout => intro hI; cases hI
    rename_i env' out' rv
    intro hI
    dsimp only at hI
    rcases rv with _ | rval
    · cases hI
    rcases lval with lop | ls
    · rcases rval with rop | rs
      · dsimp only at hI
        revert hI
        cases hEB : evalBinary .GreaterEqual lop rop
        case err e => intro hI; cases hI
        case panic => intro hI; cases hI
        case timeout => intro hI; cases hI
        rename_i z
        intro hI
        dsimp only at hI
        cases hI
        have hle : isStmtKind l0.kind = false := by
          cases hb : isStmtKind l0.kind
          · rfl
          · exact absurd (interp_stmt_none f l0 env out env1 out1 _ hb hIl) (by simp)
        have hre : isStmtKind r0.kind = false := by
          cases hb : isStmtKind r0.kind
          · rfl
          · exact absurd (interp_stmt_none f r0 env1 out1 env' out' _ hb hIr) (by simp)
        have hA := generate_body_spec l0 _ _ hg1
        have hB := generate_body_spec r0 _ _ hg3
        obtain ⟨hpA, ⟨dA, hdA⟩, ⟨pA, hqA⟩, ΔA, hiA, -, -⟩ := hA
        obtain ⟨hpB, ⟨dB, hdB⟩, ⟨pB, hqB⟩, ΔB, hiB, -, -⟩ := hB
        have hblkA : blockIn st s1 G := blockIn_init hblk
          (cgSpec_trans (generate_body_spec r0 _ _ hg3)
            (cgSpec_emit rfl (fun v => ⟨by simp, by simp⟩)))
          (by rw [hiA]; simp)
        have hblkB : blockIn s1 s2 G := blockIn_init
          (blockIn_rest hblk (by rw [hiA]; simp))
          (cgSpec_emit rfl (fun v => ⟨by simp, by simp⟩)) (by rw [hiB]; simp)
        obtain ⟨k1, σ1, hs1, hpc1, hout1, hED1, -, hstkE1⟩ :=
          ih l0 env out env1 out1 _ hIl st s1 hg1 (osrcOkB_some hsub.1)
            (exprKind_posOk hle) G P hblkA hG σ hpc hout hED
            (by simp only [oastSize_some, oastSize_none, STACK_SIZE] at hroom ⊢; omega)
        obtain ⟨x1, hx1, hstk1⟩ := hstkE1 hle
        cases hx1
        obtain ⟨k2, σ2, hs2, hpc2, hout', hED2, -, hstkE2⟩ :=
          ih r0 env1 out1 env' out' _ hIr s1 s2 hg3 (osrcOkB_some hsub.2)
            (exprKind_posOk hre) G P hblkB hG σ1 hpc1 hout1 hED1
            (by have hp1 := astSize_pos l0
                rw [hstk1]
                simp only [oastSize_some, oastSize_none, STACK_SIZE, List.length_cons]
                  at hroom ⊢
                omega)
        obtain ⟨x2, hx2, hstk2⟩ := hstkE2 hre
        cases hx2
        have hmem : (⟨.Ge, s2.pc⟩ : Instruction) ∈ G.instructions := by
          refine hblk.2.2.2 _ (mem_drop_append (ΔA ++ (ΔB ++ [⟨.Ge, s2.pc⟩])) ?_ ?_)
          · show (emit s2 .Ge 1).instructions =
              st.instructions ++ (ΔA ++ (ΔB ++ [⟨.Ge, s2.pc⟩]))
            show s2.instructions ++ [⟨.Ge, s2.pc⟩] = _
            rw [hiB, hiA]
            simp
          · simp
        have hstep := step_binop hG (show binaryOpInstruction .GreaterEqual = some InstructionKind.Ge from rfl) hmem hEB hpc2 (by rw [hstk2, hstk1])
        refine ⟨k1 + (k2 + 1), _,
          stepN_trans hs1 (stepN_trans hs2 (stepN_one hstep)), rfl, hout', hED2, ?_, ?_⟩
        · intro hco
          exact absurd hco (by simp [ASTNode.kind, isStmtKind])
        · intro hco
          exact ⟨z, rfl, rfl⟩
      · cases hI
    · cases hI
  case Equal =>
    rcases l with _ | l0
    · cases hg
    rcases r with _ | r0
    · dsimp only at hg
      cases hg
    dsimp only at hI hg
    simp only [CRes.bindM_eq] at hg
    obtain ⟨s1, hg1, hg2⟩ := CRes.bind_ok_elim hg
    obtain ⟨s2, hg3, hg4⟩ := CRes.bind_ok_elim hg2
    dsimp only [binaryOpInstruction] at hg4
    cases hg4
    revert hI
    cases hIl : interp f env out l0
    case err e o => intro hI; cases hI
    case panic o => intro hI; cases hI
    case timeout => intro hI; cases hI
    rename_i env1 out1 lv
    intro hI
    dsimp only at hI
    rcases lv with _ | lval
    · cases hI
    revert hI
    cases hIr : interp f env1 out1 r0
    case err e o => intro hI; cases hI
    case panic o => intro hI; cases hI
    case timeout => intro hI; cases hI
    rename_i env' out' rv
    intro hI
    dsimp only at hI
    rcases rv with _ | rval
    · cases hI
    rcases lval with lop | ls
    · rcases rval with rop | rs
      · dsimp only at hI
        revert hI
        cases hEB : evalBinary .Equal lop rop
        case err e => intro hI; cases hI
        case panic => intro hI; cases hI
        case timeout => intro hI; cases hI
        rename_i z
        intro hI
        dsimp only at hI
        cases hI
        have hle : isStmtKind l0.kind = false := by
          cases hb : isStmtKind l0.kind
          · rfl
          · exact absurd (interp_stmt_none f l0 env out env1 out1 _ hb hIl) (by simp)
        have hre : isStmtKind r0.kind = false := by
          cases hb : isStmtKind r0.kind
          · rfl
          · exact absurd (interp_stmt_none f r0 env1 out1 env' out' _ hb hIr) (by simp)
        have hA := generate_body_spec l0 _ _ hg1
        have hB := generate_body_spec r0 _ _ hg3
        obtain ⟨hpA, ⟨dA, hdA⟩, ⟨pA, hqA⟩, ΔA, hiA, -, -⟩ := hA
        obtain ⟨hpB, ⟨dB, hdB⟩, ⟨pB, hqB⟩, ΔB, hiB, -, -⟩ := hB
        have hblkA : blockIn st s1 G := blockIn_init hblk
          (cgSpec_trans (generate_body_spec r0 _ _ hg3)
            (cgSpec_emit rfl (fun v => ⟨by simp, by simp⟩)))
          (by rw [hiA]; simp)
        have hblkB : blockIn s1 s2 G := blockIn_init
          (blockIn_rest hblk (by rw [hiA]; simp))
          (cgSpec_emit rfl (fun v => ⟨by simp, by simp⟩)) (by rw [hiB]; simp)
        obtain ⟨k1, σ1, hs1, hpc1, hout1, hED1, -, hstkE1⟩ :=
          ih l0 env out env1 out1 _ hIl st s1 hg1 (osrcOkB_some hsub.1)
            (exprKind_posOk hle) G P hblkA hG σ hpc hout hED
            (by simp only [oastSize_some, oastSize_none, STACK_SIZE] at hroom ⊢; omega)
        obtain ⟨x1, hx1, hstk1⟩ := hstkE1 hle
        cases hx1
        obtain ⟨k2, σ2, hs2, hpc2, hout', hED2, -, hstkE2⟩ :=
          ih r0 env1 out1 env' out' _ hIr s1 s2 hg3 (osrcOkB_some hsub.2)
            (exprKind_posOk hre) G P hblkB hG σ1 hpc1 hout1 hED1
            (by have hp1 := astSize_pos l0
                rw [hstk1]
                simp only [oastSize_some, oastSize_none, STACK_SIZE, List.length_cons]
                  at hroom ⊢
                omega)
        obtain ⟨x2, hx2, hstk2⟩ := hstkE2 hre
        cases hx2
        have hmem : (⟨.Eq, s2.pc⟩ : Instruction) ∈ G.instructions := by
          refine hblk.2.2.2 _ (mem_drop_append (ΔA ++ (ΔB ++ [⟨.Eq, s2.pc⟩])) ?_ ?_)
          · show (emit s2 .Eq 1).instructions =
              st.instructions ++ (ΔA ++ (ΔB ++ [⟨.Eq, s2.pc⟩]))
            show s2.instructions ++ [⟨.Eq, s2.pc⟩] = _
            rw [hiB, hiA]
            simp
          · simp
        have hstep := step_binop hG (show binaryOpInstruction .Equal = some InstructionKind.Eq from rfl) hmem hEB hpc2 (by rw [hstk2, hstk1])
        refine ⟨k1 + (k2 + 1), _,
          stepN_trans hs1 (stepN_trans hs2 (stepN_one hstep)), rfl, hout', hED2, ?_, ?_⟩
        · intro hco
          exact absurd hco (by simp [ASTNode.kind, isStmtKind])
        · intro hco
          exact ⟨z, rfl, rfl⟩
      · cases hI
    · cases hI
  case NotEqual =>
    rcases l with _ | l0
    · cases hg
    rcases r with _ | r0
    · dsimp only at hg
      cases hg
    dsimp only at hI hg
    simp only [CRes.bindM_eq] at hg
    obtain ⟨s1, hg1, hg2⟩ := CRes.bind_ok_elim hg
    obtain ⟨s2, hg3, hg4⟩ := CRes.bind_ok_elim hg2
    dsimp only [binaryOpInstruction] at hg4
    cases hg4
    revert hI
    cases hIl : interp f env out l0
    case err e o => intro hI; cases hI
    case panic o => intro hI; cases hI
    case timeout => intro hI; cases hI
    rename_i env1 out1 lv
    intro hI
    dsimp only at hI
    rcases lv with _ | lval
    · cases hI
    revert hI
    cases hIr : interp f env1 out1 r0
    case err e o => intro hI; cases hI
    case panic o => intro hI; cases hI
    case timeout => intro hI; cases hI
    rename_i env' out' rv
    intro hI
    dsimp only at hI
    rcases rv with _ | rval
    · cases hI
    rcases lval with lop | ls
    · rcases rval with rop | rs
      · dsimp only at hI
        revert hI
        cases hEB : evalBinary .NotEqual lop rop
        case err e => intro hI; cases hI
        case panic => intro hI; cases hI
        case timeout => intro hI; cases hI
        rename_i z
        intro hI
        dsimp only at hI
        cases hI
        have hle : isStmtKind l0.kind = false := by
          cases hb : isStmtKind l0.kind
          · rfl
          · exact absurd (interp_stmt_none f l0 env out env1 out1 _ hb hIl) (by simp)
        have hre : isStmtKind r0.kind = false := by
          cases hb : isStmtKind r0.kind
          · rfl
          · exact absurd (interp_stmt_none f r0 env1 out1 env' out' _ hb hIr) (by simp)
        have hA := generate_body_spec l0 _ _ hg1
        have hB := generate_body_spec r0 _ _ hg3
        obtain ⟨hpA, ⟨dA, hdA⟩, ⟨pA, hqA⟩, ΔA, hiA, -, -⟩ := hA
        obtain ⟨hpB, ⟨dB, hdB⟩, ⟨pB, hqB⟩, ΔB, hiB, -, -⟩ := hB
        have hblkA : blockIn st s1 G := blockIn_init hblk
          (cgSpec_trans (generate_body_spec r0 _ _ hg3)
            (cgSpec_emit rfl (fun v => ⟨by simp, by simp⟩)))
          (by rw [hiA]; simp)
        have hblkB : blockIn s1 s2 G := blockIn_init
          (blockIn_rest hblk (by rw [hiA]; simp))
          (cgSpec_emit rfl (fun v => ⟨by simp, by simp⟩)) (by rw [hiB]; simp)
        obtain ⟨k1, σ1, hs1, hpc1, hout1, hED1, -, hstkE1⟩ :=
          ih l0 env out env1 out1 _ hIl st s1 hg1 (osrcOkB_some hsub.1)
            (exprKind_posOk hle) G P hblkA hG σ hpc hout hED
            (by simp only [oastSize_some, oastSize_none, STACK_SIZE] at hroom ⊢; omega)
        obtain ⟨x1, hx1, hstk1⟩ := hstkE1 hle
        cases hx1
        obtain ⟨k2, σ2, hs2, hpc2, hout', hED2, -, hstkE2⟩ :=
          ih r0 env1 out1 env' out' _ hIr s1 s2 hg3 (osrcOkB_some hsub.2)
            (exprKind_posOk hre) G P hblkB hG σ1 hpc1 hout1 hED1
            (by have hp1 := astSize_pos l0
                rw [hstk1]
                simp only [oastSize_some, oastSize_none, STACK_SIZE, List.length_cons]
                  at hroom ⊢
                omega)
        obtain ⟨x2, hx2, hstk2⟩ := hstkE2 hre
        cases hx2
        have hmem : (⟨.Ne, s2.pc⟩ : Instruction) ∈ G.instructions := by
          refine hblk.2.2.2 _ (mem_drop_append (ΔA ++ (ΔB ++ [⟨.Ne, s2.pc⟩])) ?_ ?_)
          · show (emit s2 .Ne 1).instructions =
              st.instructions ++ (ΔA ++ (ΔB ++ [⟨.Ne, s2.pc⟩]))
            show s2.instructions ++ [⟨.Ne, s2.pc⟩] = _
            rw [hiB, hiA]
            simp
          · simp
        have hstep := step_binop hG (show binaryOpInstruction .NotEqual = some InstructionKind.Ne from rfl) hmem hEB hpc2 (by rw [hstk2, hstk1])
        refine ⟨k1 + (k2 + 1), _,
          stepN_trans hs1 (stepN_trans hs2 (stepN_one hstep)), rfl, hout', hED2, ?_, ?_⟩
        · intro hco
          exact absurd hco (by simp [ASTNode.kind, isStmtKind])
        · intro hco
          exact ⟨z, rfl, rfl⟩
      · cases hI
    · cases hI
  case And =>
    rcases l with _ | l0
    · cases hg
    rcases r with _ | r0
    · dsimp only at hg
      cases hg
    dsimp only at hI hg
    simp only [CRes.bindM_eq] at hg
    obtain ⟨s1, hg1, hg2⟩ := CRes.bind_ok_elim hg
    obtain ⟨s2, hg3, hg4⟩ := CRes.bind_ok_elim hg2
    dsimp only [binaryOpInstruction] at hg4
    cases hg4
    revert hI
    cases hIl : interp f env out l0
    case err e o => intro hI; cases hI
    case panic o => intro hI; cases hI
    case timeout => intro hI; cases hI
    rename_i env1 out1 lv
    intro hI
    dsimp only at hI
    rcases lv with _ | lval
    · cases hI
    revert hI
    cases hIr : interp f env1 out1 r0
    case err e o => intro hI; cases hI
    case panic o => intro hI; cases hI
    case timeout => intro hI; cases hI
    rename_i env' out' rv
    intro hI
    dsimp only at hI
    rcases rv with _ | rval
    · cases hI
    rcases lval with lop | ls
    · rcases rval with rop | rs
      · dsimp only at hI
        revert hI
        cases hEB : evalBinary .And lop rop
        case err e => intro hI; cases hI
        case panic => intro hI; cases hI
        case timeout => intro hI; cases hI
        rename_i z
        intro hI
        dsimp only at hI
        cases hI
        have hle : isStmtKind l0.kind = false := by
          cases hb : isStmtKind l0.kind
          · rfl
          · exact absurd (interp_stmt_none f l0 env out env1 out1 _ hb hIl) (by simp)
        have hre : isStmtKind r0.kind = false := by
          cases hb : isStmtKind r0.kind
          · rfl
          · exact absurd (interp_stmt_none f r0 env1 out1 env' out' _ hb hIr) (by simp)
        have hA := generate_body_spec l0 _ _ hg1
        have hB := generate_body_spec r0 _ _ hg3
        obtain ⟨hpA, ⟨dA, hdA⟩, ⟨pA, hqA⟩, ΔA, hiA, -, -⟩ := hA
        obtain ⟨hpB, ⟨dB, hdB⟩, ⟨pB, hqB⟩, ΔB, hiB, -, -⟩ := hB
        have hblkA : blockIn st s1 G := blockIn_init hblk
          (cgSpec_trans (generate_body_spec r0 _ _ hg3)
            (cgSpec_emit rfl (fun v => ⟨by simp, by simp⟩)))
          (by rw [hiA]; simp)
        have hblkB : blockIn s1 s2 G := blockIn_init
          (blockIn_rest hblk (by rw [hiA]; simp))
          (cgSpec_emit rfl (fun v => ⟨by simp, by simp⟩)) (by rw [hiB]; simp)
        obtain ⟨k1, σ1, hs1, hpc1, hout1, hED1, -, hstkE1⟩ :=
          ih l0 env out env1 out1 _ hIl st s1 hg1 (osrcOkB_some hsub.1)
            (exprKind_posOk hle) G P hblkA hG σ hpc hout hED
            (by simp only [oastSize_some, oastSize_none, STACK_SIZE] at hroom ⊢; omega)
        obtain ⟨x1, hx1, hstk1⟩ := hstkE1 hle
        cases hx1
        obtain ⟨k2, σ2, hs2, hpc2, hout', hED2, -, hstkE2⟩ :=
          ih r0 env1 out1 env' out' _ hIr s1 s2 hg3 (osrcOkB_some hsub.2)
            (exprKind_posOk hre) G P hblkB hG σ1 hpc1 hout1 hED1
            (by have hp1 := astSize_pos l0
                rw [hstk1]
                simp only [oastSize_some, oastSize_none, STACK_SIZE, List.length_cons]
                  at hroom ⊢
                omega)
        obtain ⟨x2, hx2, hstk2⟩ := hstkE2 hre
        cases hx2
        have hmem : (⟨.And, s2.pc⟩ : Instruction) ∈ G.instructions := by
          refine hblk.2.2.2 _ (mem_drop_append (ΔA ++ (ΔB ++ [⟨.And, s2.pc⟩])) ?_ ?_)
          · show (emit s2 .And 1).instructions =
              st.instructions ++ (ΔA ++ (ΔB ++ [⟨.And, s2.pc⟩]))
            show s2.instructions ++ [⟨.And, s2.pc⟩] = _
            rw [hiB, hiA]
            simp
          · simp
        have hstep := step_binop hG (show binaryOpInstruction .And = some InstructionKind.And from rfl) hmem hEB hpc2 (by rw [hstk2, hstk1])
        refine ⟨k1 + (k2 + 1), _,
          stepN_trans hs1 (stepN_trans hs2 (stepN_one hstep)), rfl, hout', hED2, ?_, ?_⟩
        · intro hco
          exact absurd hco (by simp [ASTNode.kind, isStmtKind])
        · intro hco
          exact ⟨z, rfl, rfl⟩
      · cases hI
    · cases hI
  case Or =>
    rcases l with _ | l0
    · cases hg
    rcases r with _ | r0
    · dsimp only at hg
      cases hg
    dsimp only at hI hg
    simp only [CRes.bindM_eq] at hg
    obtain ⟨s1, hg1, hg2⟩ := CRes.bind_ok_elim hg
    obtain ⟨s2, hg3, hg4⟩ := CRes.bind_ok_elim hg2
    dsimp only [binaryOpInstruction] at hg4
    cases hg4
    revert hI
    cases hIl : interp f env out l0
    case err e o => intro hI; cases hI
    case panic o => intro hI; cases hI
    case timeout => intro hI; cases hI
    rename_i env1 out1 lv
    intro hI
    dsimp only at hI
    rcases lv with _ | lval
    · cases hI
    revert hI
    cases hIr : interp f env1 out1 r0
    case err e o => intro hI; cases hI
    case panic o => intro hI; cases hI
    case timeout => intro hI; cases hI
    rename_i env' out' rv
    intro hI
    dsimp only at hI
    rcases rv with _ | rval
    · cases hI
    rcases lval with lop | ls
    · rcases rval with rop | rs
      · dsimp only at hI
        revert hI
        cases hEB : evalBinary .Or lop rop
        case err e => intro hI; cases hI
        case panic => intro hI; cases hI
        case timeout => intro hI; cases hI
        rename_i z
        intro hI
        dsimp only at hI
        cases hI
        have hle : isStmtKind l0.kind = false := by
          cases hb : isStmtKind l0.kind
          · rfl
          · exact absurd (interp_stmt_none f l0 env out env1 out1 _ hb hIl) (by simp)
        have hre : isStmtKind r0.kind = false := by
          cases hb : isStmtKind r0.kind
          · rfl
          · exact absurd (interp_stmt_none f r0 env1 out1 env' out' _ hb hIr) (by simp)
        have hA := generate_body_spec l0 _ _ hg1
        have hB := generate_body_spec r0 _ _ hg3
        obtain ⟨hpA, ⟨dA, hdA⟩, ⟨pA, hqA⟩, ΔA, hiA, -, -⟩ := hA
        obtain ⟨hpB, ⟨dB, hdB⟩, ⟨pB, hqB⟩, ΔB, hiB, -, -⟩ := hB
        have hblkA : blockIn st s1 G := blockIn_init hblk
          (cgSpec_trans (generate_body_spec r0 _ _ hg3)
            (cgSpec_emit rfl (fun v => ⟨by simp, by simp⟩)))
          (by rw [hiA]; simp)
        have hblkB : blockIn s1 s2 G := blockIn_init
          (blockIn_rest hblk (by rw [hiA]; simp))
          (cgSpec_emit rfl (fun v => ⟨by simp, by simp⟩)) (by rw [hiB]; simp)
        obtain ⟨k1, σ1, hs1, hpc1, hout1, hED1, -, hstkE1⟩ :=
          ih l0 env out env1 out1 _ hIl st s1 hg1 (osrcOkB_some hsub.1)
            (exprKind_posOk hle) G P hblkA hG σ hpc hout hED
            (by simp only [oastSize_some, oastSize_none, STACK_SIZE] at hroom ⊢; omega)
        obtain ⟨x1, hx1, hstk1⟩ := hstkE1 hle
        cases hx1
        obtain ⟨k2, σ2, hs2, hpc2, hout', hED2, -, hstkE2⟩ :=
          ih r0 env1 out1 env' out' _ hIr s1 s2 hg3 (osrcOkB_some hsub.2)
            (exprKind_posOk hre) G P hblkB hG σ1 hpc1 hout1 hED1
            (by have hp1 := astSize_pos l0
                rw [hstk1]
                simp only [oastSize_some, oastSize_none, STACK_SIZE, List.length_cons]
                  at hroom ⊢
                omega)
        obtain ⟨x2, hx2, hstk2⟩ := hstkE2 hre
        cases hx2
        have hmem : (⟨.Or, s2.pc⟩ : Instruction) ∈ G.instructions := by
          refine hblk.2.2.2 _ (mem_drop_append (ΔA ++ (ΔB ++ [⟨.Or, s2.pc⟩])) ?_ ?_)
          · show (emit s2 .Or 1).instructions =
              st.instructions ++ (ΔA ++ (ΔB ++ [⟨.Or, s2.pc⟩]))
            show s2.instructions ++ [⟨.Or, s2.pc⟩] = _
            rw [hiB, hiA]
            simp
          · simp
        have hstep := step_binop hG (show binaryOpInstruction .Or = some InstructionKind.Or from rfl) hmem hEB hpc2 (by rw [hstk2, hstk1])
        refine ⟨k1 + (k2 + 1), _,
          stepN_trans hs1 (stepN_trans hs2 (stepN_one hstep)), rfl, hout', hED2, ?_, ?_⟩
        · intro hco
          exact absurd hco (by simp [ASTNode.kind, isStmtKind])
        · intro hco
          exact ⟨z, rfl, rfl⟩
      · cases hI
    · cases hI

theorem sim_all : ∀ f, SimP f := by
  intro f
  induction f with
  | zero =>
    intro node env out env' out' res hI
    cases hI
  | succ f ih => exact sim_step f ih

/-! ## Serialisation round trip: the generated text reassembles into the
generated image -/

/-- The non-jump payload bounds `generate_body` maintains: data indices
stay below the data-map size and `push` immediates are either `i32`
source literals or string-pool indices. -/
def payloadOk (n m : Nat) (i : Instruction) : Prop :=
  match i.kind with
  | .Fetch a => a < n
  | .Store a => a < n
  | .Push v => inI32 v ∨ (0 ≤ v ∧ v < (m : Int))
  | _ => True

/-- Payload bounds for every instruction plus pool cleanliness, as a
state invariant of the generator. -/
def PayInv (st : CGSt) : Prop :=
  (∀ i ∈ st.instructions, payloadOk st.data_addr.length st.string_pool.length i) ∧
  (∀ s ∈ st.string_pool, cleanChars s)

theorem payloadOk_mono {n n' m m' : Nat} {i : Instruction} (h : payloadOk n m i)
    (h1 : n ≤ n') (h2 : m ≤ m') : payloadOk n' m' i := by
  rcases i with ⟨k, a⟩
  cases k <;> try exact h
  case Fetch v => exact lt_of_lt_of_le h h1
  case Store v => exact lt_of_lt_of_le h h1
  case Push v =>
    rcases h with h | ⟨ha, hb⟩
    · exact Or.inl h
    · exact Or.inr ⟨ha, lt_of_lt_of_le hb (by exact_mod_cast h2)⟩

theorem payInv_emit {st : CGSt} {k : InstructionKind} {w : Nat}
    (hp : PayInv st) (hk : payloadOk st.data_addr.length st.string_pool.length ⟨k, st.pc⟩) :
    PayInv (emit st k w) := by
  refine ⟨?_, hp.2⟩
  intro i hm
  have hm2 : i ∈ st.instructions ++ [(⟨k, st.pc⟩ : Instruction)] := hm
  rcases List.mem_append.1 hm2 with h3 | h3
  · exact hp.1 i h3
  · rw [List.mem_singleton.1 h3]
    exact hk

theorem payInv_intern {st : CGSt} (name : List Char) (hp : PayInv st) :
    PayInv (intern st name).2 := by
  obtain ⟨-, -, ⟨d, hd⟩, hq, -, hi⟩ := intern_spec st name
  refine ⟨?_, ?_⟩
  · intro i hm
    rw [hi] at hm
    refine payloadOk_mono (hp.1 i hm) ?_ (Nat.le_of_eq (by rw [hq]))
    rw [hd]
    simp
  · intro s hm
    rw [hq] at hm
    exact hp.2 s hm

theorem payInv_intern_string {st : CGSt} {s : List Char} (hc : cleanChars s)
    (hp : PayInv st) : PayInv (intern_string st s).2 := by
  unfold intern_string
  cases hi : listIndexOf st.string_pool s with
  | some a => exact hp
  | none =>
    refine ⟨?_, ?_⟩
    · intro i hm
      refine payloadOk_mono (hp.1 i hm) (le_refl _) ?_
      simp
    · intro x hm
      rcases List.mem_append.1 hm with h3 | h3
      · exact hp.2 x h3
      · rw [List.mem_singleton.1 h3]
        exact hc

theorem payInv_backpatch {st st' : CGSt} {idx : Nat}
    (h : backpatch st idx = .ok st') (hp : PayInv st) : PayInv st' := by
  unfold backpatch at h
  cases hg : st.instructions.get? idx with
  | none => rw [hg] at h; cases h
  | some i0 =>
    rw [hg] at h
    rcases i0 with ⟨k0, a0⟩
    cases k0
    case Jump v =>
      cases h
      refine ⟨?_, hp.2⟩
      intro i hm
      rcases List.mem_or_eq_of_mem_set hm with h3 | h3
      · exact hp.1 i h3
      · rw [h3]
        exact True.intro
    case Jz v =>
      cases h
      refine ⟨?_, hp.2⟩
      intro i hm
      rcases List.mem_or_eq_of_mem_set hm with h3 | h3
      · exact hp.1 i h3
      · rw [h3]
        exact True.intro
    all_goals cases h

set_option maxHeartbeats 1600000 in
/-- `generate_body` maintains the payload invariant on well-formed
sources. -/
theorem generate_body_payloads : ∀ (n : ASTNode) (st st' : CGSt),
    generate_body n st = .ok st' → srcOkB n = true → PayInv st → PayInv st' := by
  intro n
  induction n using ASTNode.strongInductionOn with
  | ind n ih =>
    obtain ⟨k, l, r⟩ := n
    intro st st' h hsrc hp
    have hsub := srcOkB_children hsrc
    unfold generate_body at h
    simp only [CRes.bindM_eq] at h
    cases k
    case Identifier name =>
      dsimp only at h
      split at h
      · next addr heq =>
        cases h
        exact payInv_emit hp (listIndexOf_lt_length heq)
      · cases h
    case Integer v =>
      dsimp only at h
      cases h
      exact payInv_emit hp (Or.inl (srcOkB_integer hsrc))
    case String s => cases h
    case None => cases h
    case Sequence =>
      dsimp only at h
      cases l with
      | none =>
        obtain ⟨st1, h1, h2⟩ := CRes.bind_ok_elim h
        cases h1
        cases r with
        | none => cases h2; exact hp
        | some rc => exact ih rc (ASTNode.sizeOf_right rfl) _ _ h2 (osrcOkB_some hsub.2) hp
      | some lc =>
        obtain ⟨st1, h1, h2⟩ := CRes.bind_ok_elim h
        have p1 := ih lc (ASTNode.sizeOf_left rfl) _ _ h1 (osrcOkB_some hsub.1) hp
        cases r with
        | none => cases h2; exact p1
        | some rc => exact ih rc (ASTNode.sizeOf_right rfl) _ _ h2 (osrcOkB_some hsub.2) p1
    case Prts =>
      rcases l with _ | ⟨sk, sl, sr⟩
      · cases h
      dsimp only at h
      split at h
      · next s heq2 =>
        cases h
        have hcs : cleanChars s := by
          have hchild := osrcOkB_some hsub.1
          have hk : sk = .String s := heq2
          rw [hk] at hchild
          exact srcOkB_string hchild
        have hP1 := payInv_intern_string hcs hp
        have hlt := (intern_string_spec st s).2.1
        exact payInv_emit (payInv_emit hP1
          (Or.inr ⟨by exact_mod_cast Nat.zero_le _, by exact_mod_cast hlt⟩)) True.intro
      · cases h
    case Prtc =>
      rcases l with _ | child
      · cases h
      dsimp only at h
      obtain ⟨st1, h1, h2⟩ := CRes.bind_ok_elim h
      cases h2
      exact payInv_emit (ih child (ASTNode.sizeOf_left rfl) _ _ h1
        (osrcOkB_some hsub.1) hp) True.intro
    case Prti =>
      rcases l with _ | child
      · cases h
      dsimp only at h
      obtain ⟨st1, h1, h2⟩ := CRes.bind_ok_elim h
      cases h2
      exact payInv_emit (ih child (ASTNode.sizeOf_left rfl) _ _ h1
        (osrcOkB_some hsub.1) hp) True.intro
    case Negate =>
      rcases l with _ | child
      · cases h
      dsimp only at h
      obtain ⟨st1, h1, h2⟩ := CRes.bind_ok_elim h
      cases h2
      exact payInv_emit (ih child (ASTNode.sizeOf_left rfl) _ _ h1
        (osrcOkB_some hsub.1) hp) True.intro
    case Not =>
      rcases l with _ | child
      · cases h
      dsimp only at h
      obtain ⟨st1, h1, h2⟩ := CRes.bind_ok_elim h
      cases h2
      exact payInv_emit (ih child (ASTNode.sizeOf_left rfl) _ _ h1
        (osrcOkB_some hsub.1) hp) True.intro
    case Assign =>
      rcases l with _ | ⟨ik, il, ir⟩
      · cases h
      rcases r with _ | rhsN
      · cases h
      dsimp only at h
      obtain ⟨st1, h1, h2⟩ := CRes.bind_ok_elim h
      have p1 := ih rhsN (ASTNode.sizeOf_right rfl) _ _ h1 (osrcOkB_some hsub.2) hp
      split at h2
      · next name heq2 =>
        cases h2
        exact payInv_emit (payInv_intern name p1) (intern_spec st1 name).2.1
      · cases h2
    case If =>
      rcases l with _ | cond
      · cases h
      rcases r with _ | ⟨bk, bl, br⟩
      · dsimp only at h
        obtain ⟨sA, h1, h2⟩ := CRes.bind_ok_elim h
        cases h2
      rcases bl with _ | thenB
      · dsimp only at h
        obtain ⟨sA, h1, h2⟩ := CRes.bind_ok_elim h
        cases h2
      dsimp only at h
      obtain ⟨sA, h1, h2⟩ := CRes.bind_ok_elim h
      try dsimp only at h2
      obtain ⟨sC, h3, h4⟩ := CRes.bind_ok_elim h2
      have hsubB := srcOkB_children (osrcOkB_some hsub.2)
      have pA := ih cond (ASTNode.sizeOf_left rfl) _ _ h1 (osrcOkB_some hsub.1) hp
      have pB : PayInv (emit sA (.Jz 0) 5) := payInv_emit pA True.intro
      have pC := ih thenB (Nat.lt_trans (ASTNode.sizeOf_left rfl) (ASTNode.sizeOf_right rfl))
        _ _ h3 (osrcOkB_some hsubB.1) pB
      cases br with
      | none =>
        dsimp only at h4
        exact payInv_backpatch h4 pC
      | some elseB =>
        dsimp only at h4
        obtain ⟨sE, h5, h6⟩ := CRes.bind_ok_elim h4
        obtain ⟨sF, h7, h8⟩ := CRes.bind_ok_elim h6
        have pD : PayInv (emit sC (.Jump 0) 5) := payInv_emit pC True.intro
        have pE := payInv_backpatch h5 pD
        have pF := ih elseB (Nat.lt_trans (ASTNode.sizeOf_right rfl) (ASTNode.sizeOf_right rfl))
          _ _ h7 (osrcOkB_some hsubB.2) pE
        exact payInv_backpatch h8 pF
    case While =>
      rcases l with _ | cond
      · cases h
      rcases r with _ | body
      · dsimp only at h
        obtain ⟨sA, h1, h2⟩ := CRes.bind_ok_elim h
        cases h2
      dsimp only at h
      obtain ⟨sA, h1, h2⟩ := CRes.bind_ok_elim h
      try dsimp only at h2
      obtain ⟨sC, h3, h4⟩ := CRes.bind_ok_elim h2
      have pA := ih cond (ASTNode.sizeOf_left rfl) _ _ h1 (osrcOkB_some hsub.1) hp
      have pC := ih body (ASTNode.sizeOf_right rfl) _ _ h3 (osrcOkB_some hsub.2)
        (payInv_emit pA True.intro)
      exact payInv_backpatch h4 (payInv_emit pC True.intro)
    all_goals (
      rcases l with _ | lx
      · cases h
      rcases r with _ | rx
      · cases h
      dsimp only at h
      obtain ⟨st1, h1, h2⟩ := CRes.bind_ok_elim h
      obtain ⟨st2, h3, h4⟩ := CRes.bind_ok_elim h2
      cases h4
      exact payInv_emit (ih rx (ASTNode.sizeOf_right rfl) _ _ h3 (osrcOkB_some hsub.2)
        (ih lx (ASTNode.sizeOf_left rfl) _ _ h1 (osrcOkB_some hsub.1) hp)) True.intro)

/-- Every instruction of the final image round-trips through its
decimal text, and the pool is clean, under the size bounds. -/
theorem generateProg_instOk {ast : ASTNode} {g : CGSt}
    (h : generateProg ast = .ok g) (hsrc : srcOkB ast = true)
    (hd : g.data_addr.length ≤ 2 ^ 31) (hq : g.string_pool.length ≤ 2 ^ 31) :
    (∀ i ∈ g.instructions, instOk i) ∧ ∀ s ∈ g.string_pool, cleanChars s := by
  have hjp := (generateProg_spec h).2.2
  unfold generateProg at h
  simp only [CRes.bindM_eq] at h
  obtain ⟨g0, h1, h2⟩ := CRes.bind_ok_elim h
  have p0 : PayInv (⟨[], [], 0, []⟩ : CGSt) :=
    ⟨fun i hm => absurd hm (List.not_mem_nil i), fun s hm => absurd hm (List.not_mem_nil s)⟩
  have pg := generate_body_payloads ast _ _ h1 hsrc p0
  cases h2
  refine ⟨?_, fun s hm => pg.2 s hm⟩
  intro i hm
  have hm2 : i ∈ g0.instructions ++ [(⟨.Halt, g0.pc⟩ : Instruction)] := hm
  have hpay : payloadOk g0.data_addr.length g0.string_pool.length i := by
    rcases List.mem_append.1 hm2 with h3 | h3
    · exact pg.1 i h3
    · rw [List.mem_singleton.1 h3]
      exact True.intro
  have hd0 : g0.data_addr.length ≤ 2 ^ 31 := hd
  have hq0 : g0.string_pool.length ≤ 2 ^ 31 := hq
  rcases i with ⟨ik, ia⟩
  cases ik
  case Fetch v =>
    show (v : Int) < 2 ^ 31
    have hv : v < g0.data_addr.length := hpay
    have : (v : Int) < (g0.data_addr.length : Int) := by exact_mod_cast hv
    have h31 : ((g0.data_addr.length : Int)) ≤ 2 ^ 31 := by exact_mod_cast hd0
    omega
  case Store v =>
    show (v : Int) < 2 ^ 31
    have hv : v < g0.data_addr.length := hpay
    have : (v : Int) < (g0.data_addr.length : Int) := by exact_mod_cast hv
    have h31 : ((g0.data_addr.length : Int)) ≤ 2 ^ 31 := by exact_mod_cast hd0
    omega
  case Push v =>
    show inI32 v
    rcases hpay with hv | ⟨hv1, hv2⟩
    · exact hv
    · have h31 : ((g0.string_pool.length : Int)) ≤ 2 ^ 31 := by exact_mod_cast hq0
      exact ⟨by omega, by omega⟩
  case Jump v =>
    show inI32 v
    obtain ⟨t, -, -, hv⟩ := hjp _ hm v (Or.inr rfl)
    rw [hv]
    exact wrap32_inI32 _
  case Jz v =>
    show inI32 v
    obtain ⟨t, -, -, hv⟩ := hjp _ hm v (Or.inl rfl)
    rw [hv]
    exact wrap32_inI32 _
  all_goals exact True.intro

/-! ### The instruction listing parses back to the instruction bytes -/

theorem wordOk_num (n : Nat) : wordOk (natToChars n) :=
  ⟨natToChars_ne_nil n, fun _ hc => isDigit_not_ws (natToChars_mem_digit hc)⟩

theorem intToChars_ne_nil (v : Int) : intToChars v ≠ [] := by
  unfold intToChars
  split
  · simp
  · exact natToChars_ne_nil _

theorem wordOk_int (v : Int) : wordOk (intToChars v) := by
  refine ⟨intToChars_ne_nil v, fun c hc => ?_⟩
  rcases intToChars_chars hc with h | h
  · exact isDigit_not_ws h
  · rw [h]; decide

theorem wordOk_wrap {o e : Char} (ho : ¬ o.isWhitespace) (he : ¬ e.isWhitespace)
    {w : List Char} (hw : ∀ x ∈ w, ¬ x.isWhitespace) : wordOk (o :: (w ++ [e])) := by
  refine ⟨by simp, ?_⟩
  intro x hx
  rcases List.mem_cons.1 hx with rfl | hx2
  · exact ho
  rcases List.mem_append.1 hx2 with h3 | h3
  · exact hw x h3
  · rw [List.mem_singleton.1 h3]; exact he

theorem parseI32_natToChars {v : Nat} (hv : (v : Int) < 2 ^ 31) :
    parseI32 (natToChars v) = some (v : Int) := by
  have h := parseI32_intToChars (v := (v : Int)) ⟨by omega, hv⟩
  rw [show intToChars (v : Int) = natToChars v from ?_] at h
  · exact h
  · unfold intToChars
    rw [if_neg (by omega)]
    simp

theorem read_integer_nat {v : Nat} (hv : (v : Int) < 2 ^ 31) :
    read_integer (natToChars v) = .ok (enc4 (v : Int)) := by
  unfold read_integer
  rw [parseI32_natToChars hv]

theorem read_integer_int {v : Int} (h : inI32 v) :
    read_integer (intToChars v) = .ok (enc4 v) := by
  unfold read_integer
  rw [parseI32_intToChars h]

theorem stripEnds_wrap (o e : Char) (w : List Char) : stripEnds (o :: (w ++ [e])) = .ok w := by
  have hlen : (o :: (w ++ [e])).length = w.length + 2 := by simp
  unfold stripEnds
  rw [if_neg (by omega)]
  simp

theorem splitWs_display_fetch (v a : Nat) :
    splitWs (instructionDisplay ⟨.Fetch v, a⟩) =
      [natToChars a, ['f','e','t','c','h'], '[' :: (natToChars v ++ [']'])] := by
  have he : instructionDisplay ⟨.Fetch v, a⟩ =
      joinSep [' '] [natToChars a, ['f','e','t','c','h'], '[' :: (natToChars v ++ [']'])] := by
    show natToChars a ++ [' ','f','e','t','c','h',' ','['] ++ natToChars v ++ [']'] = _
    simp [joinSep]
  rw [he]
  refine splitWs_sep _ ?_
  rintro w hw
  rcases List.mem_cons.1 hw with rfl | hw
  · exact wordOk_num a
  rcases List.mem_cons.1 hw with rfl | hw
  · exact ⟨by simp, by decide⟩
  rcases List.mem_cons.1 hw with rfl | hw
  · exact wordOk_wrap (by decide) (by decide)
      (fun x hx => isDigit_not_ws (natToChars_mem_digit hx))
  · cases hw

theorem splitWs_display_store (v a : Nat) :
    splitWs (instructionDisplay ⟨.Store v, a⟩) =
      [natToChars a, ['s','t','o','r','e'], '[' :: (natToChars v ++ [']'])] := by
  have he : instructionDisplay ⟨.Store v, a⟩ =
      joinSep [' '] [natToChars a, ['s','t','o','r','e'], '[' :: (natToChars v ++ [']'])] := by
    show natToChars a ++ [' ','s','t','o','r','e',' ','['] ++ natToChars v ++ [']'] = _
    simp [joinSep]
  rw [he]
  refine splitWs_sep _ ?_
  rintro w hw
  rcases List.mem_cons.1 hw with rfl | hw
  · exact wordOk_num a
  rcases List.mem_cons.1 hw with rfl | hw
  · exact ⟨by simp, by decide⟩
  rcases List.mem_cons.1 hw with rfl | hw
  · exact wordOk_wrap (by decide) (by decide)
      (fun x hx => isDigit_not_ws (natToChars_mem_digit hx))
  · cases hw

theorem splitWs_display_push (v : Int) (a : Nat) :
    splitWs (instructionDisplay ⟨.Push v, a⟩) =
      [natToChars a, ['p','u','s','h'], intToChars v] := by
  have he : instructionDisplay ⟨.Push v, a⟩ =
      joinSep [' '] [natToChars a, ['p','u','s','h'], intToChars v] := by
    show natToChars a ++ [' ','p','u','s','h',' '] ++ intToChars v = _
    simp [joinSep]
  rw [he]
  refine splitWs_sep _ ?_
  rintro w hw
  rcases List.mem_cons.1 hw with rfl | hw
  · exact wordOk_num a
  rcases List.mem_cons.1 hw with rfl | hw
  · exact ⟨by simp, by decide⟩
  rcases List.mem_cons.1 hw with rfl | hw
  · exact wordOk_int v
  · cases hw

theorem splitWs_display_jmp (v : Int) (a : Nat) :
    splitWs (instructionDisplay ⟨.Jump v, a⟩) =
      [natToChars a, ['j','m','p'], '(' :: (intToChars v ++ [')']),
        natToChars (jmpAbs a v)] := by
  have he : instructionDisplay ⟨.Jump v, a⟩ =
      joinSep [' '] [natToChars a, ['j','m','p'], '(' :: (intToChars v ++ [')']),
        natToChars (jmpAbs a v)] := by
    show natToChars a ++ [' ','j','m','p',' ','('] ++ intToChars v ++ [')',' '] ++
        natToChars (jmpAbs a v) = _
    simp [joinSep]
  rw [he]
  refine splitWs_sep _ ?_
  rintro w hw
  rcases List.mem_cons.1 hw with rfl | hw
  · exact wordOk_num a
  rcases List.mem_cons.1 hw with rfl | hw
  · exact ⟨by simp, by decide⟩
  rcases List.mem_cons.1 hw with rfl | hw
  · exact wordOk_wrap (by decide) (by decide)
      (fun x hx => (wordOk_int v).2 x hx)
  rcases List.mem_cons.1 hw with rfl | hw
  · exact wordOk_num _
  · cases hw

theorem splitWs_display_jz (v : Int) (a : Nat) :
    splitWs (instructionDisplay ⟨.Jz v, a⟩) =
      [natToChars a, ['j','z'], '(' :: (intToChars v ++ [')']),
        natToChars (jmpAbs a v)] := by
  have he : instructionDisplay ⟨.Jz v, a⟩ =
      joinSep [' '] [natToChars a, ['j','z'], '(' :: (intToChars v ++ [')']),
        natToChars (jmpAbs a v)] := by
    show natToChars a ++ [' ','j','z',' ','('] ++ intToChars v ++ [')',' '] ++
        natToChars (jmpAbs a v) = _
    simp [joinSep]
  rw [he]
  refine splitWs_sep _ ?_
  rintro w hw
  rcases List.mem_cons.1 hw with rfl | hw
  · exact wordOk_num a
  rcases List.mem_cons.1 hw with rfl | hw
  · exact ⟨by simp, by decide⟩
  rcases List.mem_cons.1 hw with rfl | hw
  · exact wordOk_wrap (by decide) (by decide)
      (fun x hx => (wordOk_int v).2 x hx)
  rcases List.mem_cons.1 hw with rfl | hw
  · exact wordOk_num _
  · cases hw

theorem splitWs_display_add (a : Nat) :
    splitWs (instructionDisplay ⟨.Add, a⟩) = [natToChars a, ['a','d','d']] := by
  have he : instructionDisplay ⟨.Add, a⟩ =
      joinSep [' '] [natToChars a, ['a','d','d']] := by
    show natToChars a ++ [' ','a','d','d'] = _
    simp [joinSep]
  rw [he]
  refine splitWs_sep _ ?_
  rintro w hw
  rcases List.mem_cons.1 hw with rfl | hw
  · exact wordOk_num a
  rcases List.mem_cons.1 hw with rfl | hw
  · exact ⟨by simp, by decide⟩
  · cases hw

theorem splitWs_display_sub (a : Nat) :
    splitWs (instructionDisplay ⟨.Sub, a⟩) = [natToChars a, ['s','u','b']] := by
  have he : instructionDisplay ⟨.Sub, a⟩ =
      joinSep [' '] [natToChars a, ['s','u','b']] := by
    show natToChars a ++ [' ','s','u','b'] = _
    simp [joinSep]
  rw [he]
  refine splitWs_sep _ ?_
  rintro w hw
  rcases List.mem_cons.1 hw with rfl | hw
  · exact wordOk_num a
  rcases List.mem_cons.1 hw with rfl | hw
  · exact ⟨by simp, by decide⟩
  · cases hw

theorem splitWs_display_mul (a : Nat) :
    splitWs (instructionDisplay ⟨.Mul, a⟩) = [natToChars a, ['m','u','l']] := by
  have he : instructionDisplay ⟨.Mul, a⟩ =
      joinSep [' '] [natToChars a, ['m','u','l']] := by
    show natToChars a ++ [' ','m','u','l'] = _
    simp [joinSep]
  rw [he]
  refine splitWs_sep _ ?_
  rintro w hw
  rcases List.mem_cons.1 hw with rfl | hw
  · exact wordOk_num a
  rcases List.mem_cons.1 hw with rfl | hw
  · exact ⟨by simp, by decide⟩
  · cases hw

theorem splitWs_display_div (a : Nat) :
    splitWs (instructionDisplay ⟨.Div, a⟩) = [natToChars a, ['d','i','v']] := by
  have he : instructionDisplay ⟨.Div, a⟩ =
      joinSep [' '] [natToChars a, ['d','i','v']] := by
    show natToChars a ++ [' ','d','i','v'] = _
    simp [joinSep]
  rw [he]
  refine splitWs_sep _ ?_
  rintro w hw
  rcases List.mem_cons.1 hw with rfl | hw
  · exact wordOk_num a
  rcases List.mem_cons.1 hw with rfl | hw
  · exact ⟨by simp, by decide⟩
  · cases hw

theorem splitWs_display_mod (a : Nat) :
    splitWs (instructionDisplay ⟨.Mod, a⟩) = [natToChars a, ['m','o','d']] := by
  have he : instructionDisplay ⟨.Mod, a⟩ =
      joinSep [' '] [natToChars a, ['m','o','d']] := by
    show natToChars a ++ [' ','m','o','d'] = _
    simp [joinSep]
  rw [he]
  refine splitWs_sep _ ?_
  rintro w hw
  rcases List.mem_cons.1 hw with rfl | hw
  · exact wordOk_num a
  rcases List.mem_cons.1 hw with rfl | hw
  · exact ⟨by simp, by decide⟩
  · cases hw

theorem splitWs_display_lt (a : Nat) :
    splitWs (instructionDisplay ⟨.Lt, a⟩) = [natToChars a, ['l','t']] := by
  have he : instructionDisplay ⟨.Lt, a⟩ =
      joinSep [' '] [natToChars a, ['l','t']] := by
    show natToChars a ++ [' ','l','t'] = _
    simp [joinSep]
  rw [he]
  refine splitWs_sep _ ?_
  rintro w hw
  rcases List.mem_cons.1 hw with rfl | hw
  · exact wordOk_num a
  rcases List.mem_cons.1 hw with rfl | hw
  · exact ⟨by simp, by decide⟩
  · cases hw

theorem splitWs_display_gt (a : Nat) :
    splitWs (instructionDisplay ⟨.Gt, a⟩) = [natToChars a, ['g','t']] := by
  have he : instructionDisplay ⟨.Gt, a⟩ =
      joinSep [' '] [natToChars a, ['g','t']] := by
    show natToChars a ++ [' ','g','t'] = _
    simp [joinSep]
  rw [he]
  refine splitWs_sep _ ?_
  rintro w hw
  rcases List.mem_cons.1 hw with rfl | hw
  · exact wordOk_num a
  rcases List.mem_cons.1 hw with rfl | hw
  · exact ⟨by simp, by decide⟩
  · cases hw

theorem splitWs_display_le (a : Nat) :
    splitWs (instructionDisplay ⟨.Le, a⟩) = [natToChars a, ['l','e']] := by
  have he : instructionDisplay ⟨.Le, a⟩ =
      joinSep [' '] [natToChars a, ['l','e']] := by
    show natToChars a ++ [' ','l','e'] = _
    simp [joinSep]
  rw [he]
  refine splitWs_sep _ ?_
  rintro w hw
  rcases List.mem_cons.1 hw with rfl | hw
  · exact wordOk_num a
  rcases List.mem_cons.1 hw with rfl | hw
  · exact ⟨by simp, by decide⟩
  · cases hw

theorem splitWs_display_ge (a : Nat) :
    splitWs (instructionDisplay ⟨.Ge, a⟩) = [natToChars a, ['g','e']] := by
  have he : instructionDisplay ⟨.Ge, a⟩ =
      joinSep [' '] [natToChars a, ['g','e']] := by
    show natToChars a ++ [' ','g','e'] = _
    simp [joinSep]
  rw [he]
  refine splitWs_sep _ ?_
  rintro w hw
  rcases List.mem_cons.1 hw with rfl | hw
  · exact wordOk_num a
  rcases List.mem_cons.1 hw with rfl | hw
  · exact ⟨by simp, by decide⟩
  · cases hw

theorem splitWs_display_eq (a : Nat) :
    splitWs (instructionDisplay ⟨.Eq, a⟩) = [natToChars a, ['e','q']] := by
  have he : instructionDisplay ⟨.Eq, a⟩ =
      joinSep [' '] [natToChars a, ['e','q']] := by
    show natToChars a ++ [' ','e','q'] = _
    simp [joinSep]
  rw [he]
  refine splitWs_sep _ ?_
  rintro w hw
  rcases List.mem_cons.1 hw with rfl | hw
  · exact wordOk_num a
  rcases List.mem_cons.1 hw with rfl | hw
  · exact ⟨by simp, by decide⟩
  · cases hw

theorem splitWs_display_ne (a : Nat) :
    splitWs (instructionDisplay ⟨.Ne, a⟩) = [natToChars a, ['n','e']] := by
  have he : instructionDisplay ⟨.Ne, a⟩ =
      joinSep [' '] [natToChars a, ['n','e']] := by
    show natToChars a ++ [' ','n','e'] = _
    simp [joinSep]
  rw [he]
  refine splitWs_sep _ ?_
  rintro w hw
  rcases List.mem_cons.1 hw with rfl | hw
  · exact wordOk_num a
  rcases List.mem_cons.1 hw with rfl | hw
  · exact ⟨by simp, by decide⟩
  · cases hw

theorem splitWs_display_and (a : Nat) :
    splitWs (instructionDisplay ⟨.And, a⟩) = [natToChars a, ['a','n','d']] := by
  have he : instructionDisplay ⟨.And, a⟩ =
      joinSep [' '] [natToChars a, ['a','n','d']] := by
    show natToChars a ++ [' ','a','n','d'] = _
    simp [joinSep]
  rw [he]
  refine splitWs_sep _ ?_
  rintro w hw
  rcases List.mem_cons.1 hw with rfl | hw
  · exact wordOk_num a
  rcases List.mem_cons.1 hw with rfl | hw
  · exact ⟨by simp, by decide⟩
  · cases hw

theorem splitWs_display_or (a : Nat) :
    splitWs (instructionDisplay ⟨.Or, a⟩) = [natToChars a, ['o','r']] := by
  have he : instructionDisplay ⟨.Or, a⟩ =
      joinSep [' '] [natToChars a, ['o','r']] := by
    show natToChars a ++ [' ','o','r'] = _
    simp [joinSep]
  rw [he]
  refine splitWs_sep _ ?_
  rintro w hw
  rcases List.mem_cons.1 hw with rfl | hw
  · exact wordOk_num a
  rcases List.mem_cons.1 hw with rfl | hw
  · exact ⟨by simp, by decide⟩
  · cases hw

theorem splitWs_display_neg (a : Nat) :
    splitWs (instructionDisplay ⟨.Neg, a⟩) = [natToChars a, ['n','e','g']] := by
  have he : instructionDisplay ⟨.Neg, a⟩ =
      joinSep [' '] [natToChars a, ['n','e','g']] := by
    show natToChars a ++ [' ','n','e','g'] = _
    simp [joinSep]
  rw [he]
  refine splitWs_sep _ ?_
  rintro w hw
  rcases List.mem_cons.1 hw with rfl | hw
  · exact wordOk_num a
  rcases List.mem_cons.1 hw with rfl | hw
  · exact ⟨by simp, by decide⟩
  · cases hw

theorem splitWs_display_not (a : Nat) :
    splitWs (instructionDisplay ⟨.Not, a⟩) = [natToChars a, ['n','o','t']] := by
  have he : instructionDisplay ⟨.Not, a⟩ =
      joinSep [' '] [natToChars a, ['n','o','t']] := by
    show natToChars a ++ [' ','n','o','t'] = _
    simp [joinSep]
  rw [he]
  refine splitWs_sep _ ?_
  rintro w hw
  rcases List.mem_cons.1 hw with rfl | hw
  · exact wordOk_num a
  rcases List.mem_cons.1 hw with rfl | hw
  · exact ⟨by simp, by decide⟩
  · cases hw

theorem splitWs_display_prtc (a : Nat) :
    splitWs (instructionDisplay ⟨.Prtc, a⟩) = [natToChars a, ['p','r','t','c']] := by
  have he : instructionDisplay ⟨.Prtc, a⟩ =
      joinSep [' '] [natToChars a, ['p','r','t','c']] := by
    show natToChars a ++ [' ','p','r','t','c'] = _
    simp [joinSep]
  rw [he]
  refine splitWs_sep _ ?_
  rintro w hw
  rcases List.mem_cons.1 hw with rfl | hw
  · exact wordOk_num a
  rcases List.mem_cons.1 hw with rfl | hw
  · exact ⟨by simp, by decide⟩
  · cases hw

theorem splitWs_display_prti (a : Nat) :
    splitWs (instructionDisplay ⟨.Prti, a⟩) = [natToChars a, ['p','r','t','i']] := by
  have he : instructionDisplay ⟨.Prti, a⟩ =
      joinSep [' '] [natToChars a, ['p','r','t','i']] := by
    show natToChars a ++ [' ','p','r','t','i'] = _
    simp [joinSep]
  rw [he]
  refine splitWs_sep _ ?_
  rintro w hw
  rcases List.mem_cons.1 hw with rfl | hw
  · exact wordOk_num a
  rcases List.mem_cons.1 hw with rfl | hw
  · exact ⟨by simp, by decide⟩
  · cases hw

theorem splitWs_display_prts (a : Nat) :
    splitWs (instructionDisplay ⟨.Prts, a⟩) = [natToChars a, ['p','r','t','s']] := by
  have he : instructionDisplay ⟨.Prts, a⟩ =
      joinSep [' '] [natToChars a, ['p','r','t','s']] := by
    show natToChars a ++ [' ','p','r','t','s'] = _
    simp [joinSep]
  rw [he]
  refine splitWs_sep _ ?_
  rintro w hw
  rcases List.mem_cons.1 hw with rfl | hw
  · exact wordOk_num a
  rcases List.mem_cons.1 hw with rfl | hw
  · exact ⟨by simp, by decide⟩
  · cases hw

theorem splitWs_display_halt (a : Nat) :
    splitWs (instructionDisplay ⟨.Halt, a⟩) = [natToChars a, ['h','a','l','t']] := by
  have he : instructionDisplay ⟨.Halt, a⟩ =
      joinSep [' '] [natToChars a, ['h','a','l','t']] := by
    show natToChars a ++ [' ','h','a','l','t'] = _
    simp [joinSep]
  rw [he]
  refine splitWs_sep _ ?_
  rintro w hw
  rcases List.mem_cons.1 hw with rfl | hw
  · exact wordOk_num a
  rcases List.mem_cons.1 hw with rfl | hw
  · exact ⟨by simp, by decide⟩
  · cases hw

theorem read_display_fetch (v a : Nat) (hv : (v : Int) < 2 ^ 31) :
    read_instruction (instructionDisplay ⟨.Fetch v, a⟩) = .ok (instBytes ⟨.Fetch v, a⟩) := by
  unfold read_instruction
  rw [splitWs_display_fetch]
  dsimp only
  rw [if_pos rfl]
  simp only [CRes.bindM_eq]
  rw [stripEnds_wrap]
  simp only [CRes.bind]
  rw [read_integer_nat hv]
  rfl

theorem read_display_store (v a : Nat) (hv : (v : Int) < 2 ^ 31) :
    read_instruction (instructionDisplay ⟨.Store v, a⟩) = .ok (instBytes ⟨.Store v, a⟩) := by
  unfold read_instruction
  rw [splitWs_display_store]
  dsimp only
  rw [if_neg (by decide), if_pos rfl]
  simp only [CRes.bindM_eq]
  rw [stripEnds_wrap]
  simp only [CRes.bind]
  rw [read_integer_nat hv]
  rfl

theorem read_display_push (v : Int) (a : Nat) (hv : inI32 v) :
    read_instruction (instructionDisplay ⟨.Push v, a⟩) = .ok (instBytes ⟨.Push v, a⟩) := by
  unfold read_instruction
  rw [splitWs_display_push]
  dsimp only
  rw [if_neg (by decide), if_neg (by decide), if_pos rfl]
  simp only [CRes.bindM_eq]
  rw [read_integer_int hv]
  rfl

theorem read_display_jmp (v : Int) (a : Nat) (hv : inI32 v) :
    read_instruction (instructionDisplay ⟨.Jump v, a⟩) = .ok (instBytes ⟨.Jump v, a⟩) := by
  unfold read_instruction
  rw [splitWs_display_jmp]
  dsimp only
  rw [if_neg (by decide), if_neg (by decide), if_neg (by decide), if_pos rfl]
  simp only [CRes.bindM_eq]
  rw [stripEnds_wrap]
  simp only [CRes.bind]
  rw [read_integer_int hv]
  rfl

theorem read_display_jz (v : Int) (a : Nat) (hv : inI32 v) :
    read_instruction (instructionDisplay ⟨.Jz v, a⟩) = .ok (instBytes ⟨.Jz v, a⟩) := by
  unfold read_instruction
  rw [splitWs_display_jz]
  dsimp only
  rw [if_neg (by decide), if_neg (by decide), if_neg (by decide), if_neg (by decide),
    if_pos rfl]
  simp only [CRes.bindM_eq]
  rw [stripEnds_wrap]
  simp only [CRes.bind]
  rw [read_integer_int hv]
  rfl

theorem read_display_add (a : Nat) :
    read_instruction (instructionDisplay ⟨.Add, a⟩) = .ok (instBytes ⟨.Add, a⟩) := by
  unfold read_instruction
  rw [splitWs_display_add]
  rfl

theorem read_display_sub (a : Nat) :
    read_instruction (instructionDisplay ⟨.Sub, a⟩) = .ok (instBytes ⟨.Sub, a⟩) := by
  unfold read_instruction
  rw [splitWs_display_sub]
  rfl

theorem read_display_mul (a : Nat) :
    read_instruction (instructionDisplay ⟨.Mul, a⟩) = .ok (instBytes ⟨.Mul, a⟩) := by
  unfold read_instruction
  rw [splitWs_display_mul]
  rfl

theorem read_display_div (a : Nat) :
    read_instruction (instructionDisplay ⟨.Div, a⟩) = .ok (instBytes ⟨.Div, a⟩) := by
  unfold read_instruction
  rw [splitWs_display_div]
  rfl

theorem read_display_mod (a : Nat) :
    read_instruction (instructionDisplay ⟨.Mod, a⟩) = .ok (instBytes ⟨.Mod, a⟩) := by
  unfold read_instruction
  rw [splitWs_display_mod]
  rfl

theorem read_display_lt (a : Nat) :
    read_instruction (instructionDisplay ⟨.Lt, a⟩) = .ok (instBytes ⟨.Lt, a⟩) := by
  unfold read_instruction
  rw [splitWs_display_lt]
  rfl

theorem read_display_gt (a : Nat) :
    read_instruction (instructionDisplay ⟨.Gt, a⟩) = .ok (instBytes ⟨.Gt, a⟩) := by
  unfold read_instruction
  rw [splitWs_display_gt]
  rfl

theorem read_display_le (a : Nat) :
    read_instruction (instructionDisplay ⟨.Le, a⟩) = .ok (instBytes ⟨.Le, a⟩) := by
  unfold read_instruction
  rw [splitWs_display_le]
  rfl

theorem read_display_ge (a : Nat) :
    read_instruction (instructionDisplay ⟨.Ge, a⟩) = .ok (instBytes ⟨.Ge, a⟩) := by
  unfold read_instruction
  rw [splitWs_display_ge]
  rfl

theorem read_display_eq (a : Nat) :
    read_instruction (instructionDisplay ⟨.Eq, a⟩) = .ok (instBytes ⟨.Eq, a⟩) := by
  unfold read_instruction
  rw [splitWs_display_eq]
  rfl

theorem read_display_ne (a : Nat) :
    read_instruction (instructionDisplay ⟨.Ne, a⟩) = .ok (instBytes ⟨.Ne, a⟩) := by
  unfold read_instruction
  rw [splitWs_display_ne]
  rfl

theorem read_display_and (a : Nat) :
    read_instruction (instructionDisplay ⟨.And, a⟩) = .ok (instBytes ⟨.And, a⟩) := by
  unfold read_instruction
  rw [splitWs_display_and]
  rfl

theorem read_display_or (a : Nat) :
    read_instruction (instructionDisplay ⟨.Or, a⟩) = .ok (instBytes ⟨.Or, a⟩) := by
  unfold read_instruction
  rw [splitWs_display_or]
  rfl

theorem read_display_neg (a : Nat) :
    read_instruction (instructionDisplay ⟨.Neg, a⟩) = .ok (instBytes ⟨.Neg, a⟩) := by
  unfold read_instruction
  rw [splitWs_display_neg]
  rfl

theorem read_display_not (a : Nat) :
    read_instruction (instructionDisplay ⟨.Not, a⟩) = .ok (instBytes ⟨.Not, a⟩) := by
  unfold read_instruction
  rw [splitWs_display_not]
  rfl

theorem read_display_prtc (a : Nat) :
    read_instruction (instructionDisplay ⟨.Prtc, a⟩) = .ok (instBytes ⟨.Prtc, a⟩) := by
  unfold read_instruction
  rw [splitWs_display_prtc]
  rfl

theorem read_display_prti (a : Nat) :
    read_instruction (instructionDisplay ⟨.Prti, a⟩) = .ok (instBytes ⟨.Prti, a⟩) := by
  unfold read_instruction
  rw [splitWs_display_prti]
  rfl

theorem read_display_prts (a : Nat) :
    read_instruction (instructionDisplay ⟨.Prts, a⟩) = .ok (instBytes ⟨.Prts, a⟩) := by
  unfold read_instruction
  rw [splitWs_display_prts]
  rfl

theorem read_display_halt (a : Nat) :
    read_instruction (instructionDisplay ⟨.Halt, a⟩) = .ok (instBytes ⟨.Halt, a⟩) := by
  unfold read_instruction
  rw [splitWs_display_halt]
  rfl

/-- Any in-bounds instruction's display line parses back to its byte
encoding. -/
theorem read_instruction_display (i : Instruction) (h : instOk i) :
    read_instruction (instructionDisplay i) = .ok (instBytes i) := by
  rcases i with ⟨k, a⟩
  cases k
  case Fetch v => exact read_display_fetch v a h
  case Store v => exact read_display_store v a h
  case Push v => exact read_display_push v a h
  case Jump v => exact read_display_jmp v a h
  case Jz v => exact read_display_jz v a h
  case Add => exact read_display_add a
  case Sub => exact read_display_sub a
  case Mul => exact read_display_mul a
  case Div => exact read_display_div a
  case Mod => exact read_display_mod a
  case Lt => exact read_display_lt a
  case Gt => exact read_display_gt a
  case Le => exact read_display_le a
  case Ge => exact read_display_ge a
  case Eq => exact read_display_eq a
  case Ne => exact read_display_ne a
  case And => exact read_display_and a
  case Or => exact read_display_or a
  case Neg => exact read_display_neg a
  case Not => exact read_display_not a
  case Prtc => exact read_display_prtc a
  case Prti => exact read_display_prti a
  case Prts => exact read_display_prts a
  case Halt => exact read_display_halt a

/-- No newline or carriage return appears in an instruction line. -/
theorem display_chars (i : Instruction) :
    ∀ c ∈ instructionDisplay i, c ≠ '\n' ∧ c ≠ '\r' := by
  have hnum : ∀ n : Nat, ∀ c ∈ natToChars n, c ≠ '\n' ∧ c ≠ '\r' := fun n c hc =>
    ⟨isDigit_ne_nl (natToChars_mem_digit hc), isDigit_ne_cr (natToChars_mem_digit hc)⟩
  have hint : ∀ v : Int, ∀ c ∈ intToChars v, c ≠ '\n' ∧ c ≠ '\r' := by
    intro v c hc
    rcases intToChars_chars hc with h | h
    · exact ⟨isDigit_ne_nl h, isDigit_ne_cr h⟩
    · rw [h]; exact ⟨by decide, by decide⟩
  rcases i with ⟨k, a⟩
  cases k
  case Fetch v =>
    show ∀ c ∈ natToChars a ++ [' ','f','e','t','c','h',' ','['] ++ natToChars v ++ [']'], _
    refine List.forall_mem_append.2 ⟨List.forall_mem_append.2
      ⟨List.forall_mem_append.2 ⟨hnum a, by decide⟩, hnum v⟩, by decide⟩
  case Store v =>
    show ∀ c ∈ natToChars a ++ [' ','s','t','o','r','e',' ','['] ++ natToChars v ++ [']'], _
    refine List.forall_mem_append.2 ⟨List.forall_mem_append.2
      ⟨List.forall_mem_append.2 ⟨hnum a, by decide⟩, hnum v⟩, by decide⟩
  case Push v =>
    show ∀ c ∈ natToChars a ++ [' ','p','u','s','h',' '] ++ intToChars v, _
    refine List.forall_mem_append.2 ⟨List.forall_mem_append.2 ⟨hnum a, by decide⟩, hint v⟩
  case Jump v =>
    show ∀ c ∈ natToChars a ++ [' ','j','m','p',' ','('] ++ intToChars v ++ [')',' '] ++
        natToChars (jmpAbs a v), _
    refine List.forall_mem_append.2 ⟨List.forall_mem_append.2 ⟨List.forall_mem_append.2
      ⟨List.forall_mem_append.2 ⟨hnum a, by decide⟩, hint v⟩, by decide⟩, hnum _⟩
  case Jz v =>
    show ∀ c ∈ natToChars a ++ [' ','j','z',' ','('] ++ intToChars v ++ [')',' '] ++
        natToChars (jmpAbs a v), _
    refine List.forall_mem_append.2 ⟨List.forall_mem_append.2 ⟨List.forall_mem_append.2
      ⟨List.forall_mem_append.2 ⟨hnum a, by decide⟩, hint v⟩, by decide⟩, hnum _⟩
  case Add =>
    show ∀ c ∈ natToChars a ++ [' ','a','d','d'], _
    refine List.forall_mem_append.2 ⟨hnum a, by decide⟩
  case Sub =>
    show ∀ c ∈ natToChars a ++ [' ','s','u','b'], _
    refine List.forall_mem_append.2 ⟨hnum a, by decide⟩
  case Mul =>
    show ∀ c ∈ natToChars a ++ [' ','m','u','l'], _
    refine List.forall_mem_append.2 ⟨hnum a, by decide⟩
  case Div =>
    show ∀ c ∈ natToChars a ++ [' ','d','i','v'], _
    refine List.forall_mem_append.2 ⟨hnum a, by decide⟩
  case Mod =>
    show ∀ c ∈ natToChars a ++ [' ','m','o','d'], _
    refine List.forall_mem_append.2 ⟨hnum a, by decide⟩
  case Lt =>
    show ∀ c ∈ natToChars a ++ [' ','l','t'], _
    refine List.forall_mem_append.2 ⟨hnum a, by decide⟩
  case Gt =>
    show ∀ c ∈ natToChars a ++ [' ','g','t'], _
    refine List.forall_mem_append.2 ⟨hnum a, by decide⟩
  case Le =>
    show ∀ c ∈ natToChars a ++ [' ','l','e'], _
    refine List.forall_mem_append.2 ⟨hnum a, by decide⟩
  case Ge =>
    show ∀ c ∈ natToChars a ++ [' ','g','e'], _
    refine List.forall_mem_append.2 ⟨hnum a, by decide⟩
  case Eq =>
    show ∀ c ∈ natToChars a ++ [' ','e','q'], _
    refine List.forall_mem_append.2 ⟨hnum a, by decide⟩
  case Ne =>
    show ∀ c ∈ natToChars a ++ [' ','n','e'], _
    refine List.forall_mem_append.2 ⟨hnum a, by decide⟩
  case And =>
    show ∀ c ∈ natToChars a ++ [' ','a','n','d'], _
    refine List.forall_mem_append.2 ⟨hnum a, by decide⟩
  case Or =>
    show ∀ c ∈ natToChars a ++ [' ','o','r'], _
    refine List.forall_mem_append.2 ⟨hnum a, by decide⟩
  case Neg =>
    show ∀ c ∈ natToChars a ++ [' ','n','e','g'], _
    refine List.forall_mem_append.2 ⟨hnum a, by decide⟩
  case Not =>
    show ∀ c ∈ natToChars a ++ [' ','n','o','t'], _
    refine List.forall_mem_append.2 ⟨hnum a, by decide⟩
  case Prtc =>
    show ∀ c ∈ natToChars a ++ [' ','p','r','t','c'], _
    refine List.forall_mem_append.2 ⟨hnum a, by decide⟩
  case Prti =>
    show ∀ c ∈ natToChars a ++ [' ','p','r','t','i'], _
    refine List.forall_mem_append.2 ⟨hnum a, by decide⟩
  case Prts =>
    show ∀ c ∈ natToChars a ++ [' ','p','r','t','s'], _
    refine List.forall_mem_append.2 ⟨hnum a, by decide⟩
  case Halt =>
    show ∀ c ∈ natToChars a ++ [' ','h','a','l','t'], _
    refine List.forall_mem_append.2 ⟨hnum a, by decide⟩

theorem display_addr_head (i : Instruction) :
    ∃ t, instructionDisplay i = natToChars i.address ++ t := by
  rcases i with ⟨k, a⟩
  cases k
  case Fetch v =>
    refine ⟨[' ','f','e','t','c','h',' ','['] ++ (natToChars v ++ [']']), ?_⟩
    show natToChars a ++ [' ','f','e','t','c','h',' ','['] ++ natToChars v ++ [']'] = _
    simp
  case Store v =>
    refine ⟨[' ','s','t','o','r','e',' ','['] ++ (natToChars v ++ [']']), ?_⟩
    show natToChars a ++ [' ','s','t','o','r','e',' ','['] ++ natToChars v ++ [']'] = _
    simp
  case Push v =>
    refine ⟨[' ','p','u','s','h',' '] ++ intToChars v, ?_⟩
    show natToChars a ++ [' ','p','u','s','h',' '] ++ intToChars v = _
    simp
  case Jump v =>
    refine ⟨[' ','j','m','p',' ','('] ++ (intToChars v ++ ([')',' '] ++
      natToChars (jmpAbs a v))), ?_⟩
    show natToChars a ++ [' ','j','m','p',' ','('] ++ intToChars v ++ [')',' '] ++
      natToChars (jmpAbs a v) = _
    simp
  case Jz v =>
    refine ⟨[' ','j','z',' ','('] ++ (intToChars v ++ ([')',' '] ++
      natToChars (jmpAbs a v))), ?_⟩
    show natToChars a ++ [' ','j','z',' ','('] ++ intToChars v ++ [')',' '] ++
      natToChars (jmpAbs a v) = _
    simp
  all_goals exact ⟨_, rfl⟩

theorem display_ne_nil (i : Instruction) : instructionDisplay i ≠ [] := by
  obtain ⟨t, ht⟩ := display_addr_head i
  rw [ht]
  intro hnil
  exact natToChars_ne_nil _ (List.append_eq_nil.1 hnil).1

theorem display_head_digit (i : Instruction) :
    ∀ c, (instructionDisplay i).head? = some c → c.isDigit := by
  obtain ⟨t, ht⟩ := display_addr_head i
  intro c hc
  rw [ht] at hc
  obtain ⟨c0, rest, hcr, hcd⟩ := natToChars_head_digit i.address
  rw [hcr] at hc
  simp only [List.cons_append, List.head?_cons, Option.some.injEq] at hc
  rw [← hc]
  exact hcd

theorem display_last_not_ws (i : Instruction) :
    ∀ c, (instructionDisplay i).getLast? = some c → ¬ c.isWhitespace := by
  have hseg : ∀ {seg : List Char}, (∀ x ∈ seg, ¬ x.isWhitespace) →
      ∀ c, seg.getLast? = some c → ¬ c.isWhitespace := fun hs c hc =>
    hs c (List.mem_of_mem_getLast? hc)
  rcases i with ⟨k, a⟩
  cases k
  case Fetch v =>
    have he : instructionDisplay ⟨.Fetch v, a⟩ =
        natToChars a ++ [' ','f','e','t','c','h',' ','['] ++ natToChars v ++ [']'] := rfl
    intro c hc
    rw [he, getLast?_append_right (by simp)] at hc
    exact hseg (fun x hx => by rw [List.mem_singleton.1 hx]; decide) c hc
  case Store v =>
    have he : instructionDisplay ⟨.Store v, a⟩ =
        natToChars a ++ [' ','s','t','o','r','e',' ','['] ++ natToChars v ++ [']'] := rfl
    intro c hc
    rw [he, getLast?_append_right (by simp)] at hc
    exact hseg (fun x hx => by rw [List.mem_singleton.1 hx]; decide) c hc
  case Push v =>
    have he : instructionDisplay ⟨.Push v, a⟩ =
        natToChars a ++ [' ','p','u','s','h',' '] ++ intToChars v := rfl
    intro c hc
    rw [he, getLast?_append_right (intToChars_ne_nil v)] at hc
    exact hseg (fun x hx => (wordOk_int v).2 x hx) c hc
  case Jump v =>
    have he : instructionDisplay ⟨.Jump v, a⟩ =
        natToChars a ++ [' ','j','m','p',' ','('] ++ intToChars v ++ [')',' '] ++
          natToChars (jmpAbs a v) := rfl
    intro c hc
    rw [he, getLast?_append_right (natToChars_ne_nil _)] at hc
    exact hseg (fun x hx => isDigit_not_ws (natToChars_mem_digit hx)) c hc
  case Jz v =>
    have he : instructionDisplay ⟨.Jz v, a⟩ =
        natToChars a ++ [' ','j','z',' ','('] ++ intToChars v ++ [')',' '] ++
          natToChars (jmpAbs a v) := rfl
    intro c hc
    rw [he, getLast?_append_right (natToChars_ne_nil _)] at hc
    exact hseg (fun x hx => isDigit_not_ws (natToChars_mem_digit hx)) c hc
  case Add =>
    have he : instructionDisplay ⟨.Add, a⟩ =
        (natToChars a ++ [' ','a','d']) ++ ['d'] := by
      show natToChars a ++ [' ','a','d','d'] = _
      simp
    rw [he]
    intro c hc
    rw [getLast?_append_right (by simp)] at hc
    exact hseg (fun x hx => by rw [List.mem_singleton.1 hx]; decide) c hc
  case Sub =>
    have he : instructionDisplay ⟨.Sub, a⟩ =
        (natToChars a ++ [' ','s','u']) ++ ['b'] := by
      show natToChars a ++ [' ','s','u','b'] = _
      simp
    rw [he]
    intro c hc
    rw [getLast?_append_right (by simp)] at hc
    exact hseg (fun x hx => by rw [List.mem_singleton.1 hx]; decide) c hc
  case Mul =>
    have he : instructionDisplay ⟨.Mul, a⟩ =
        (natToChars a ++ [' ','m','u']) ++ ['l'] := by
      show natToChars a ++ [' ','m','u','l'] = _
      simp
    rw [he]
    intro c hc
    rw [getLast?_append_right (by simp)] at hc
    exact hseg (fun x hx => by rw [List.mem_singleton.1 hx]; decide) c hc
  case Div =>
    have he : instructionDisplay ⟨.Div, a⟩ =
        (natToChars a ++ [' ','d','i']) ++ ['v'] := by
      show natToChars a ++ [' ','d','i','v'] = _
      simp
    rw [he]
    intro c hc
    rw [getLast?_append_right (by simp)] at hc
    exact hseg (fun x hx => by rw [List.mem_singleton.1 hx]; decide) c hc
  case Mod =>
    have he : instructionDisplay ⟨.Mod, a⟩ =
        (natToChars a ++ [' ','m','o']) ++ ['d'] := by
      show natToChars a ++ [' ','m','o','d'] = _
      simp
    rw [he]
    intro c hc
    rw [getLast?_append_right (by simp)] at hc
    exact hseg (fun x hx => by rw [List.mem_singleton.1 hx]; decide) c hc
  case Lt =>
    have he : instructionDisplay ⟨.Lt, a⟩ =
        (natToChars a ++ [' ','l']) ++ ['t'] := by
      show natToChars a ++ [' ','l','t'] = _
      simp
    rw [he]
    intro c hc
    rw [getLast?_append_right (by simp)] at hc
    exact hseg (fun x hx => by rw [List.mem_singleton.1 hx]; decide) c hc
  case Gt =>
    have he : instructionDisplay ⟨.Gt, a⟩ =
        (natToChars a ++ [' ','g']) ++ ['t'] := by
      show natToChars a ++ [' ','g','t'] = _
      simp
    rw [he]
    intro c hc
    rw [getLast?_append_right (by simp)] at hc
    exact hseg (fun x hx => by rw [List.mem_singleton.1 hx]; decide) c hc
  case Le =>
    have he : instructionDisplay ⟨.Le, a⟩ =
        (natToChars a ++ [' ','l']) ++ ['e'] := by
      show natToChars a ++ [' ','l','e'] = _
      simp
    rw [he]
    intro c hc
    rw [getLast?_append_right (by simp)] at hc
    exact hseg (fun x hx => by rw [List.mem_singleton.1 hx]; decide) c hc
  case Ge =>
    have he : instructionDisplay ⟨.Ge, a⟩ =
        (natToChars a ++ [' ','g']) ++ ['e'] := by
      show natToChars a ++ [' ','g','e'] = _
      simp
    rw [he]
    intro c hc
    rw [getLast?_append_right (by simp)] at hc
    exact hseg (fun x hx => by rw [List.mem_singleton.1 hx]; decide) c hc
  case Eq =>
    have he : instructionDisplay ⟨.Eq, a⟩ =
        (natToChars a ++ [' ','e']) ++ ['q'] := by
      show natToChars a ++ [' ','e','q'] = _
      simp
    rw [he]
    intro c hc
    rw [getLast?_append_right (by simp)] at hc
    exact hseg (fun x hx => by rw [List.mem_singleton.1 hx]; decide) c hc
  case Ne =>
    have he : instructionDisplay ⟨.Ne, a⟩ =
        (natToChars a ++ [' ','n']) ++ ['e'] := by
      show natToChars a ++ [' ','n','e'] = _
      simp
    rw [he]
    intro c hc
    rw [getLast?_append_right (by simp)] at hc
    exact hseg (fun x hx => by rw [List.mem_singleton.1 hx]; decide) c hc
  case And =>
    have he : instructionDisplay ⟨.And, a⟩ =
        (natToChars a ++ [' ','a','n']) ++ ['d'] := by
      show natToChars a ++ [' ','a','n','d'] = _
      simp
    rw [he]
    intro c hc
    rw [getLast?_append_right (by simp)] at hc
    exact hseg (fun x hx => by rw [List.mem_singleton.1 hx]; decide) c hc
  case Or =>
    have he : instructionDisplay ⟨.Or, a⟩ =
        (natToChars a ++ [' ','o']) ++ ['r'] := by
      show natToChars a ++ [' ','o','r'] = _
      simp
    rw [he]
    intro c hc
    rw [getLast?_append_right (by simp)] at hc
    exact hseg (fun x hx => by rw [List.mem_singleton.1 hx]; decide) c hc
  case Neg =>
    have he : instructionDisplay ⟨.Neg, a⟩ =
        (natToChars a ++ [' ','n','e']) ++ ['g'] := by
      show natToChars a ++ [' ','n','e','g'] = _
      simp
    rw [he]
    intro c hc
    rw [getLast?_append_right (by simp)] at hc
    exact hseg (fun x hx => by rw [List.mem_singleton.1 hx]; decide) c hc
  case Not =>
    have he : instructionDisplay ⟨.Not, a⟩ =
        (natToChars a ++ [' ','n','o']) ++ ['t'] := by
      show natToChars a ++ [' ','n','o','t'] = _
      simp
    rw [he]
    intro c hc
    rw [getLast?_append_right (by simp)] at hc
    exact hseg (fun x hx => by rw [List.mem_singleton.1 hx]; decide) c hc
  case Prtc =>
    have he : instructionDisplay ⟨.Prtc, a⟩ =
        (natToChars a ++ [' ','p','r','t']) ++ ['c'] := by
      show natToChars a ++ [' ','p','r','t','c'] = _
      simp
    rw [he]
    intro c hc
    rw [getLast?_append_right (by simp)] at hc
    exact hseg (fun x hx => by rw [List.mem_singleton.1 hx]; decide) c hc
  case Prti =>
    have he : instructionDisplay ⟨.Prti, a⟩ =
        (natToChars a ++ [' ','p','r','t']) ++ ['i'] := by
      show natToChars a ++ [' ','p','r','t','i'] = _
      simp
    rw [he]
    intro c hc
    rw [getLast?_append_right (by simp)] at hc
    exact hseg (fun x hx => by rw [List.mem_singleton.1 hx]; decide) c hc
  case Prts =>
    have he : instructionDisplay ⟨.Prts, a⟩ =
        (natToChars a ++ [' ','p','r','t']) ++ ['s'] := by
      show natToChars a ++ [' ','p','r','t','s'] = _
      simp
    rw [he]
    intro c hc
    rw [getLast?_append_right (by simp)] at hc
    exact hseg (fun x hx => by rw [List.mem_singleton.1 hx]; decide) c hc
  case Halt =>
    have he : instructionDisplay ⟨.Halt, a⟩ =
        (natToChars a ++ [' ','h','a','l']) ++ ['t'] := by
      show natToChars a ++ [' ','h','a','l','t'] = _
      simp
    rw [he]
    intro c hc
    rw [getLast?_append_right (by simp)] at hc
    exact hseg (fun x hx => by rw [List.mem_singleton.1 hx]; decide) c hc

theorem display_lineOk (i : Instruction) : lineOk (instructionDisplay i) :=
  ⟨display_ne_nil i, display_chars i⟩

theorem display_trim (i : Instruction) :
    trimChars (instructionDisplay i) = instructionDisplay i :=
  trimChars_eq_self (fun c hc => isDigit_not_ws (display_head_digit i c hc))
    (display_last_not_ws i)

/-- The instruction-reading loop recovers the byte image from the
listing. -/
theorem readInstructions_display : ∀ (li : List Instruction), (∀ i ∈ li, instOk i) →
    readInstructions (li.map instructionDisplay) = .ok (instFlat li)
  | [], _ => rfl
  | i :: t, h => by
    show readInstructions (instructionDisplay i :: t.map instructionDisplay) = _
    rw [readInstructions]
    rw [display_trim i]
    rw [if_neg (by simpa using display_ne_nil i)]
    simp only [CRes.bindM_eq]
    rw [read_instruction_display i (h i (by simp))]
    simp only [CRes.bind]
    rw [readInstructions_display t (fun x hx => h x (by simp [hx]))]
    rfl

/-! ### Header, pool and line structure of the generated text -/

theorem parseUsize_natToChars {n : Nat} (h : n < 2 ^ 64) :
    parseUsize (natToChars n) = some n := by
  obtain ⟨c, rest, hcr, hcd⟩ := natToChars_head_digit n
  have hcp : c ≠ '+' := by rintro rfl; simp [Char.isDigit] at hcd
  unfold parseUsize
  rw [hcr]
  simp only [if_neg hcp]
  rw [← hcr]
  unfold parseUsizeCore
  rw [if_neg (natToChars_ne_nil n), if_pos (natToChars_digits n), chars2nat_natToChars,
      if_pos h]

/-- The header line of the generated text. -/
def headerText (d p : Nat) : List Char :=
  "Datasize: ".data ++ natToChars d ++ " Strings: ".data ++ natToChars p

theorem headerText_chars (d p : Nat) : ∀ c ∈ headerText d p, c ≠ '\n' ∧ c ≠ '\r' := by
  have hnum : ∀ n : Nat, ∀ c ∈ natToChars n, c ≠ '\n' ∧ c ≠ '\r' := fun n c hc =>
    ⟨isDigit_ne_nl (natToChars_mem_digit hc), isDigit_ne_cr (natToChars_mem_digit hc)⟩
  show ∀ c ∈ ['D','a','t','a','s','i','z','e',':',' '] ++ natToChars d ++
    [' ','S','t','r','i','n','g','s',':',' '] ++ natToChars p, _
  refine List.forall_mem_append.2 ⟨List.forall_mem_append.2
    ⟨List.forall_mem_append.2 ⟨by decide, hnum d⟩, by decide⟩, hnum p⟩

theorem headerText_trim (d p : Nat) : trimChars (headerText d p) = headerText d p := by
  have he : headerText d p = 'D' :: (['a','t','a','s','i','z','e',':',' '] ++ natToChars d ++
      [' ','S','t','r','i','n','g','s',':',' '] ++ natToChars p) := by
    show ['D','a','t','a','s','i','z','e',':',' '] ++ natToChars d ++
      [' ','S','t','r','i','n','g','s',':',' '] ++ natToChars p = _
    simp
  refine trimChars_eq_self ?_ ?_
  · intro c hc
    rw [he] at hc
    simp only [List.head?_cons, Option.some.injEq] at hc
    rw [← hc]
    decide
  · have he2 : headerText d p = (['D','a','t','a','s','i','z','e',':',' '] ++ natToChars d ++
        [' ','S','t','r','i','n','g','s',':',' ']) ++ natToChars p := by
      show ['D','a','t','a','s','i','z','e',':',' '] ++ natToChars d ++
        [' ','S','t','r','i','n','g','s',':',' '] ++ natToChars p = _
      simp
    intro c hc
    rw [he2, getLast?_append_right (natToChars_ne_nil _)] at hc
    exact isDigit_not_ws (natToChars_mem_digit (List.mem_of_mem_getLast? hc))

theorem splitWs_headerText (d p : Nat) :
    splitWs (headerText d p) =
      [['D','a','t','a','s','i','z','e',':'], natToChars d,
       ['S','t','r','i','n','g','s',':'], natToChars p] := by
  have he : headerText d p = joinSep [' ']
      [['D','a','t','a','s','i','z','e',':'], natToChars d,
       ['S','t','r','i','n','g','s',':'], natToChars p] := by
    show ['D','a','t','a','s','i','z','e',':',' '] ++ natToChars d ++
      [' ','S','t','r','i','n','g','s',':',' '] ++ natToChars p = _
    simp [joinSep]
  rw [he]
  refine splitWs_sep _ ?_
  rintro w hw
  rcases List.mem_cons.1 hw with rfl | hw
  · exact ⟨by simp, by decide⟩
  rcases List.mem_cons.1 hw with rfl | hw
  · exact wordOk_num d
  rcases List.mem_cons.1 hw with rfl | hw
  · exact ⟨by simp, by decide⟩
  rcases List.mem_cons.1 hw with rfl | hw
  · exact wordOk_num p
  · cases hw

theorem read_header_headerText (d p : Nat) (hd : d < 2 ^ 64) (hp : p < 2 ^ 64) :
    read_header (headerText d p) = .ok (d, p) := by
  unfold read_header
  rw [headerText_trim, splitWs_headerText]
  dsimp only
  rw [parseUsize_natToChars hd]
  rw [parseUsize_natToChars hp]

theorem quoteEscape_lineOk {s : List Char} (h : cleanChars s) : lineOk (quoteEscape s) := by
  refine ⟨by simp [quoteEscape], ?_⟩
  intro c hc
  rcases List.mem_cons.1 hc with rfl | hc2
  · exact ⟨by decide, by decide⟩
  rcases List.mem_append.1 hc2 with h3 | h3
  · obtain ⟨l2, hl2, hcl2⟩ := List.mem_flatten.1 h3
    obtain ⟨x, hx, hx2⟩ := List.mem_map.1 hl2
    rw [← hx2] at hcl2
    exact cleanChar_escapeChar_mem (h x hx) hcl2
  · rw [List.mem_singleton.1 h3]
    exact ⟨by decide, by decide⟩

theorem vm_read_string_quote (rest : List Char) :
    vm_read_string ('"' :: rest) =
      match scanQuoted rest with
      | .ok content => .ok content
      | .badEscape => .err ⟨.VirtualMachineError, "invalid escape"⟩
      | .noClose => .err ⟨.VirtualMachineError, "\" not found"⟩ := rfl

theorem vm_read_string_quoteEscape {s : List Char} (h : cleanChars s) :
    vm_read_string (quoteEscape s) = .ok s := by
  show vm_read_string ('"' :: (escapeChars s ++ ['"'])) = .ok s
  rw [vm_read_string_quote, scanQuoted_escapeChars h []]

theorem readPool_quoted : ∀ (pool : List (List Char)), (∀ s ∈ pool, cleanChars s) →
    ∀ rest, readPool pool.length (pool.map quoteEscape ++ rest) = .ok (pool, rest)
  | [], _, rest => rfl
  | s :: t, h, rest => by
    show readPool (t.length + 1) (quoteEscape s :: (t.map quoteEscape ++ rest)) = _
    rw [readPool]
    simp only [CRes.bindM_eq]
    rw [vm_read_string_quoteEscape (h s (by simp))]
    simp only [CRes.bind]
    rw [readPool_quoted t (fun x hx => h x (by simp [hx])) rest]

theorem linesOf_line_cons {x : List Char} (hx : ∀ c ∈ x, c ≠ '\n' ∧ c ≠ '\r')
    (y : List Char) : linesOf (x ++ '\n' :: y) = x :: linesOf y := by
  have hnn : ∀ c ∈ x, (fun t => t ≠ '\n' : Char → Bool) c := by
    intro c hc; simp [(hx c hc).1]
  rw [linesOf_drop_cons (dropWhile_append_stop hnn (by simp) _),
      takeWhile_append_stop hnn (by simp) _,
      trimCr_of_no_cr (fun c hc => (hx c hc).2)]

theorem linesOf_joinSep_append :
    ∀ (l0 : List Char) (ls : List (List Char)), (∀ l ∈ l0 :: ls, lineOk l) →
    ∀ y, linesOf (joinSep ['\n'] (l0 :: ls) ++ '\n' :: y) = (l0 :: ls) ++ linesOf y
  | l0, [], h, y => by
    show linesOf (l0 ++ '\n' :: y) = l0 :: linesOf y
    exact linesOf_line_cons (fun c hc => (h l0 (by simp)).2 c hc) y
  | l0, x :: t, h, y => by
    have he : joinSep ['\n'] (l0 :: x :: t) ++ '\n' :: y =
        l0 ++ '\n' :: (joinSep ['\n'] (x :: t) ++ '\n' :: y) := by
      show l0 ++ ['\n'] ++ joinSep ['\n'] (x :: t) ++ '\n' :: y = _
      simp
    rw [he, linesOf_line_cons (fun c hc => (h l0 (by simp)).2 c hc),
        linesOf_joinSep_append x t (fun l hl => h l (by simp [List.mem_cons.1 hl])) y]
    rfl

/-- The serialised text of a generated image reassembles into exactly
its byte code, pool and data size. -/
theorem assemble_generateText {g : CGSt}
    (hio : ∀ i ∈ g.instructions, instOk i)
    (hcl : ∀ s ∈ g.string_pool, cleanChars s)
    (hd64 : g.data_addr.length < 2 ^ 64) (hp64 : g.string_pool.length < 2 ^ 64) :
    assemble (linesOf (generateText g)) =
      .ok ⟨instFlat g.instructions, g.string_pool, g.data_addr.length⟩ := by
  have he1 : generateText g = headerText g.data_addr.length g.string_pool.length ++
      '\n' :: ((if g.string_pool.length > 0 then
          joinSep ['\n'] (g.string_pool.map quoteEscape) ++ ['\n'] else []) ++
        joinSep ['\n'] (g.instructions.map instructionDisplay)) := by
    unfold generateText headerText
    simp
  have hlines : linesOf (generateText g) =
      headerText g.data_addr.length g.string_pool.length ::
        (g.string_pool.map quoteEscape ++
          linesOf (joinSep ['\n'] (g.instructions.map instructionDisplay))) := by
    cases hsp : g.string_pool with
    | nil =>
      rw [he1, hsp]
      rw [if_neg (by simp)]
      rw [List.nil_append]
      rw [linesOf_line_cons (headerText_chars _ _)]
      simp
    | cons s t =>
      rw [he1, hsp]
      rw [if_pos (by simp)]
      have he2 : (joinSep ['\n'] ((s :: t).map quoteEscape) ++ ['\n']) ++
          joinSep ['\n'] (g.instructions.map instructionDisplay) =
          joinSep ['\n'] ((s :: t).map quoteEscape) ++
            '\n' :: joinSep ['\n'] (g.instructions.map instructionDisplay) := by
        simp
      rw [he2, linesOf_line_cons (headerText_chars _ _)]
      rw [show (s :: t).map quoteEscape = quoteEscape s :: t.map quoteEscape from rfl]
      rw [linesOf_joinSep_append (quoteEscape s) (t.map quoteEscape) ?_ _]
      · intro l hl
        rcases List.mem_cons.1 hl with rfl | hl2
        · exact quoteEscape_lineOk (hcl s (by rw [hsp]; simp))
        · obtain ⟨x, hx, hx2⟩ := List.mem_map.1 hl2
          rw [← hx2]
          exact quoteEscape_lineOk (hcl x (by rw [hsp]; simp [hx]))
  have hinstr : linesOf (joinSep ['\n'] (g.instructions.map instructionDisplay)) =
      g.instructions.map instructionDisplay := by
    refine linesOf_joinSep _ ?_
    intro l hl
    obtain ⟨x, hx, hx2⟩ := List.mem_map.1 hl
    rw [← hx2]
    exact display_lineOk x
  rw [hlines, hinstr]
  unfold assemble
  simp only [CRes.bindM_eq]
  rw [read_header_headerText _ _ hd64 hp64]
  simp only [CRes.bind]
  rw [readPool_quoted g.string_pool hcl (g.instructions.map instructionDisplay)]
  simp only [CRes.bind]
  rw [readInstructions_display g.instructions hio]

set_option maxHeartbeats 1600000 in
/-- Claim C1 (amended): when the AST interpreter succeeds on a tree
whose literals are in range and whose statement structure is well
formed, and the generated image satisfies the `i32`/stack bounds, the
VM run on the generator's textual output produces exactly the
interpreter's output. -/
theorem C1_vm_refines_ast_interpreter
    (f : Nat) (t : ASTNode) (env' : Env) (out : List Char) (res : Option Value) (g : CGSt)
    (hI : interpret f t = .ok env' out res)
    (hg : generateProg t = .ok g)
    (hsrc : srcOkB t = true) (hpos : posOk t)
    (hsize : astSize t ≤ STACK_SIZE)
    (hpc31 : (g.pc : Int) < 2 ^ 31)
    (hd31 : g.data_addr.length ≤ 2 ^ 31) (hp31 : g.string_pool.length ≤ 2 ^ 31) :
    generate t = .ok (generateText g) ∧
    ∃ N, vmInterpret N (linesOf (generateText g)) = .ok out := by
  have hgen : generate t = .ok (generateText g) := by
    unfold generate
    simp only [CRes.bindM_eq]
    rw [hg]
    rfl
  refine ⟨hgen, ?_⟩
  obtain ⟨hHalt, hlay, hjmp⟩ := generateProg_spec hg
  obtain ⟨hio, hcl⟩ := generateProg_instOk hg hsrc hd31 hp31
  have hg2 := hg
  unfold generateProg at hg2
  simp only [CRes.bindM_eq] at hg2
  obtain ⟨g0, h1, h2⟩ := CRes.bind_ok_elim hg2
  have hgeq : ({ g0 with instructions := g0.instructions ++ [⟨.Halt, g0.pc⟩] } : CGSt) = g := by
    cases h2
    rfl
  have hgi : g.instructions = g0.instructions ++ [⟨.Halt, g0.pc⟩] := by rw [← hgeq]
  have hgd : g.data_addr = g0.data_addr := by rw [← hgeq]
  have hgq : g.string_pool = g0.string_pool := by rw [← hgeq]
  have hgpc : g.pc = g0.pc := by rw [← hgeq]
  have hGP : GoodImage g
      (⟨instFlat g.instructions, g.string_pool, g.data_addr.length⟩ : VMProg) :=
    ⟨rfl, rfl, rfl, hlay, hpc31, hd31, hp31⟩
  have hasm : assemble (linesOf (generateText g)) =
      .ok (⟨instFlat g.instructions, g.string_pool, g.data_addr.length⟩ : VMProg) :=
    assemble_generateText hio hcl (lt_of_le_of_lt hd31 (by norm_num))
      (lt_of_le_of_lt hp31 (by norm_num))
  have hblk : blockIn (⟨[], [], 0, []⟩ : CGSt) g0 g := by
    refine ⟨by rw [hgpc], ⟨[], by rw [hgd]; simp⟩, ⟨[], by rw [hgq]; simp⟩, ?_⟩
    intro i hm
    simp only [List.drop_zero] at hm
    rw [hgi]
    exact List.mem_append_left _ hm
  have hED : EnvData g []
      (vmInit (⟨instFlat g.instructions, g.string_pool, g.data_addr.length⟩ : VMProg)).data := by
    refine ⟨by simp [vmInit], ?_⟩
    intro n v hv
    cases hv
  have hstk :
      (vmInit (⟨instFlat g.instructions, g.string_pool, g.data_addr.length⟩ : VMProg)).stack.length +
        astSize t ≤ STACK_SIZE := by
    simpa [vmInit] using hsize
  have hI0 : interp f [] [] t = .ok env' out res := hI
  obtain ⟨k, σ', hk, hpc', hout', hED', -, -⟩ :=
    sim_all f t [] [] env' out res hI0 (⟨[], [], 0, []⟩ : CGSt) g0 h1 hsrc hpos g
      (⟨instFlat g.instructions, g.string_pool, g.data_addr.length⟩ : VMProg) hblk hGP
      (vmInit (⟨instFlat g.instructions, g.string_pool, g.data_addr.length⟩ : VMProg))
      rfl rfl hED hstk
  have hpcg : σ'.pc = g.pc := by rw [hpc', hgpc]
  have hstep := step_halt hGP hHalt hpcg
  have hrun : vmRun 1 (⟨instFlat g.instructions, g.string_pool, g.data_addr.length⟩ : VMProg)
      σ' = .ok σ'.out := by
    show (match vmStep
        (⟨instFlat g.instructions, g.string_pool, g.data_addr.length⟩ : VMProg) σ' with
      | .next s => vmRun 0 _ s
      | .halt s => .ok s.out
      | .err e o => .err e o
      | .panic o => .panic o) = .ok σ'.out
    rw [hstep]
  refine ⟨k + 1, ?_⟩
  unfold vmInterpret
  rw [hasm]
  dsimp only
  rw [vmRun_of_stepN hk 1, hrun, hout']

theorem C1_vm_refines_ast_interpreter_witness :
    interpret 5 (.mk .Sequence none (some (.mk .Sequence none
      (some (.mk .Prti (some (.mk (.Integer 42) none none)) none))))) =
        .ok [] ['4','2'] none ∧
    generateProg (.mk .Sequence none (some (.mk .Sequence none
      (some (.mk .Prti (some (.mk (.Integer 42) none none)) none))))) =
        .ok ⟨[], [], 6, [⟨.Push 42, 0⟩, ⟨.Prti, 5⟩, ⟨.Halt, 6⟩]⟩ ∧
    (generate (.mk .Sequence none (some (.mk .Sequence none
      (some (.mk .Prti (some (.mk (.Integer 42) none none)) none))))) =
        .ok (generateText ⟨[], [], 6, [⟨.Push 42, 0⟩, ⟨.Prti, 5⟩, ⟨.Halt, 6⟩]⟩) ∧
      ∃ N, vmInterpret N (linesOf (generateText
        ⟨[], [], 6, [⟨.Push 42, 0⟩, ⟨.Prti, 5⟩, ⟨.Halt, 6⟩]⟩)) = .ok ['4','2']) :=
  ⟨by decide, by decide,
    C1_vm_refines_ast_interpreter 5
      (.mk .Sequence none (some (.mk .Sequence none
        (some (.mk .Prti (some (.mk (.Integer 42) none none)) none)))))
      [] ['4','2'] none ⟨[], [], 6, [⟨.Push 42, 0⟩, ⟨.Prti, 5⟩, ⟨.Halt, 6⟩]⟩
      (by decide) (by decide) (by decide) (by intro h; decide) (by decide)
      (by decide) (by decide) (by decide)⟩

/-- The source of the program separating the two sinks: the AST
interpreter dies reading the never-assigned `x`, but the VM reads the
zero-initialised data cell and prints `0`. -/
def ceSource : List Char := "if (0) \x7b x = 1; \x7d print(x);".data

/-- The tree the parser produces for `ceSource`. -/
def ceTree : ASTNode :=
  .mk .Sequence
    (some (.mk .Sequence none
      (some (.mk .If
        (some (.mk (.Integer 0) none none))
        (some (.mk .If
          (some (.mk .Sequence none
            (some (.mk .Assign
              (some (.mk (.Identifier ['x']) none none))
              (some (.mk (.Integer 1) none none))))))
          none))))))
    (some (.mk .Sequence none
      (some (.mk .Prti (some (.mk (.Identifier ['x']) none none)) none))))

theorem C1_counterexample_unbound_read_defaults_to_zero :
    (match lexTokens ceSource with
     | .ok toks => parse toks
     | .err e => .err e
     | .panic => .panic
     | .timeout => .timeout) = .ok ceTree ∧
    interpret 50 ceTree = .panic [] ∧
    (match generate ceTree with
     | .ok txt => vmInterpret 1000 (linesOf txt)
     | _ => .timeout) = .ok ['0'] :=
  ⟨by decide, by decide, by decide⟩
